import Mathlib

/-! # Match-3 grid engine (Source/Match3: Grid.cpp, Tile.cpp, Match3GameMode.cpp)

A shallow embedding of the grid engine of the Match3 sample.

* Tiles are heap objects.  A tile pointer is a natural number, `none` is the null
  pointer, and the heap maps every pointer to the tile record it points to.
* `int32` values are integers; `/` and `%` of C++ are `Int.tdiv` and `Int.tmod`
  (truncation towards zero).  Arithmetic is exact: overflow is not modelled.
* A function that can hit a failed `check(...)` or index `GameTiles` outside its
  bounds returns `none` in that case.
* Functions that mutate the grid return the new grid.
* The grid lives in a world (`UWorld`) that also holds its tile library, the game mode, the
  local player controller, the random values of the engine and the record of the events
  raised.  The tile events `OnMatched` and `OnSwapMove` are recorded and run their native
  bodies (Tile.cpp), which call the grid back at once; a fall requested by `StartFalling` is
  recorded, and the landing callback of the grid is a separate entry point.
* A list that C++ passes by reference is read at the call: `ExecuteMatch` works on the list
  it was called with, also where the caller passes the member `LastLegalMatch`.
* `float` probabilities are exact rationals; times and world locations are not modelled.
* Calls that contain a loop without a bound of its own, or that may recurse through a chain
  of cascades, take a bound `fuel` and return an `Outcome`.
-/

namespace Match3

/-! ## Data model -/

/-- The life-cycle state of a tile (Tile.h, ETileState). -/
inductive ETileState where
  | ETS_Normal
  | ETS_Falling
  | ETS_PendingDelete
  deriving DecidableEq, Repr

/-- The classification of a move (Tile.h, EMatch3MoveType). -/
inductive EMatch3MoveType where
  | MT_None
  | MT_Failure
  | MT_Standard
  | MT_MoreTiles
  | MT_Combo
  | MT_Bomb
  | MT_AllTheBombs
  | MT_MAX
  deriving DecidableEq, Repr

/-- The abilities of a tile type (Tile.h, FTileAbilities). -/
structure FTileAbilities where
  bExplodes : Bool
  bPreventSwapping : Bool
  BombPower : Int
  deriving DecidableEq, Repr

/-- The method `FTileAbilities::CanExplode`. -/
def FTileAbilities.CanExplode (a : FTileAbilities) : Bool :=
  a.bExplodes

/-- The method `FTileAbilities::CanSwap`. -/
def FTileAbilities.CanSwap (a : FTileAbilities) : Bool :=
  (!a.bPreventSwapping && !a.bExplodes)

/-- The fields of `ATile` that the grid logic reads and writes. -/
structure ATile where
  TileTypeID : Int
  TileState : ETileState
  Abilities : FTileAbilities
  GridAddress : Int
  LandingGridAddress : Int
  deriving DecidableEq, Repr

/-- A non-null `ATile*`. -/
abbrev TilePtr := Nat

/-- The fields of `AGrid` (Grid.h) together with the heap of tile objects. -/
structure AGrid where
  GridWidth : Int
  GridHeight : Int
  MinimumRunLength : Int
  GameTiles : List (Option TilePtr)
  heap : TilePtr → ATile
  CurrentlySelectedTile : Option TilePtr
  LastLegalMatch : List TilePtr
  FallingTiles : List TilePtr
  SwappingTiles : List TilePtr
  TilesToCheck : List TilePtr
  TilesBeingDestroyed : List TilePtr
  LastMoves : Nat → Option EMatch3MoveType
  bPendingSwapMove : Bool
  bPendingSwapMoveSuccess : Bool

/-! ## Engine math helpers (FMath of the engine's UnrealMathUtility.h) -/

/-- The engine's `FMath::Clamp(X, Min, Max)`: `X<Min ? Min : X<Max ? X : Max`. -/
def FMath.Clamp (X Min Max : Int) : Int :=
  if X < Min then Min else if X < Max then X else Max

/-- The engine's `FMath::Min(A, B)`: `(A<=B) ? A : B`. -/
def FMath.Min (A B : Int) : Int :=
  if A ≤ B then A else B

/-- The engine's `FMath::Max(A, B)`: `(A>=B) ? A : B`. -/
def FMath.Max (A B : Int) : Int :=
  if A ≥ B then A else B

/-- The engine's `FMath::Abs(A)`: `(A>=0) ? A : -A`. -/
def FMath.Abs (A : Int) : Int :=
  if A ≥ 0 then A else -A

/-! ## Grid addressing -/

/-- The method `ATile::GetGridAddress`. -/
def GetGridAddress (g : AGrid) (t : TilePtr) : Int :=
  (g.heap t).GridAddress

/-- The method `ATile::SetGridAddress`. -/
def SetGridAddress (g : AGrid) (t : TilePtr) (NewLocation : Int) : AGrid :=
  { g with heap := Function.update g.heap t { g.heap t with GridAddress := NewLocation } }

/-- The method `AGrid::GetTileFromGridAddress`: the slot when the index is valid, null otherwise. -/
def GetTileFromGridAddress (g : AGrid) (GridAddress : Int) : Option TilePtr :=
  if 0 ≤ GridAddress ∧ GridAddress < g.GameTiles.length then
    (g.GameTiles[GridAddress.toNat]?).getD none
  else
    none

/-- The assignment `GameTiles[Index] = v`; indexing outside the array fails. -/
def SetGameTile (g : AGrid) (Index : Int) (v : Option TilePtr) : Option AGrid :=
  if 0 ≤ Index ∧ Index < g.GameTiles.length then
    some { g with GameTiles := g.GameTiles.set Index.toNat v }
  else
    none

/-- The method `AGrid::GetGridAddressWithOffset`.  The result `some (ok, ReturnGridAddress)` is the
returned flag with the value left in the out-parameter; `none` is a failed `check`. -/
def GetGridAddressWithOffset (g : AGrid) (InitialGridAddress XOffset YOffset : Int) :
    Option (Bool × Int) :=
  if ¬ (g.GridWidth > 0) then none
  else
    let NewAxisValue := Int.tmod InitialGridAddress g.GridWidth + XOffset
    if NewAxisValue ≠ FMath.Clamp NewAxisValue 0 (g.GridWidth - 1) then some (false, -1)
    else
      let NewAxisValue := Int.tdiv InitialGridAddress g.GridWidth + YOffset
      if NewAxisValue ≠ FMath.Clamp NewAxisValue 0 (g.GridHeight - 1) then some (false, -1)
      else
        let ReturnGridAddress := InitialGridAddress + XOffset + (YOffset * g.GridWidth)
        if ¬ (ReturnGridAddress ≥ 0) then none
        else if ¬ (ReturnGridAddress < g.GridWidth * g.GridHeight) then none
        else some (true, ReturnGridAddress)

/-- The method `AGrid::AreAddressesNeighbors`. -/
def AreAddressesNeighbors (g : AGrid) (GridAddressA GridAddressB : Int) : Bool :=
  if FMath.Min GridAddressA GridAddressB ≥ 0 ∧
      FMath.Max GridAddressA GridAddressB < g.GridWidth * g.GridHeight then
    let GridAddressOffset := FMath.Abs (GridAddressA - GridAddressB)
    decide (GridAddressOffset = 1 ∨ GridAddressOffset = g.GridWidth)
  else
    false

/-! ## Swapping and run detection -/

/-- The method `AGrid::SwapTiles` (the optional repositioning of the actors is visual only). -/
def SwapTiles (g : AGrid) (A B : TilePtr) : Option AGrid :=
  let GridAddress := GetGridAddress g A
  let g1 := SetGridAddress g A (GetGridAddress g B)
  let g2 := SetGridAddress g1 B GridAddress
  match SetGameTile g2 (GetGridAddress g2 A) (some A) with
  | none => none
  | some g3 => SetGameTile g3 (GetGridAddress g3 B) (some B)

/-- The innermost loop of `AGrid::FindNeighbors`,
`for (GridOffset = ...; GridOffset < MaxGridOffset; ++GridOffset)`, with the number of remaining
iterations as first argument.  An address off the grid neither adds a tile nor leaves the loop. -/
def FindNeighbors_walk (g : AGrid) (StartingTile : TilePtr) (bMustMatchID : Bool)
    (Horizontal : Bool) (Direction : Int) : Nat → Int → List TilePtr → Option (List TilePtr)
  | 0, _, MatchInProgress => some MatchInProgress
  | n + 1, GridOffset, MatchInProgress =>
    match GetGridAddressWithOffset g (GetGridAddress g StartingTile)
        (Direction * (if Horizontal then GridOffset else 0))
        (Direction * (if Horizontal then 0 else GridOffset)) with
    | none => none
    | some (true, NeighborGridAddress) =>
      match GetTileFromGridAddress g NeighborGridAddress with
      | some NeighborTile =>
        if !bMustMatchID ||
            decide ((g.heap NeighborTile).TileTypeID = (g.heap StartingTile).TileTypeID) then
          FindNeighbors_walk g StartingTile bMustMatchID Horizontal Direction n (GridOffset + 1)
            (MatchInProgress ++ [NeighborTile])
        else
          some MatchInProgress
      | none => some MatchInProgress
    | some (false, _) =>
      FindNeighbors_walk g StartingTile bMustMatchID Horizontal Direction n (GridOffset + 1)
        MatchInProgress

/-- One pass of the outer loop of `AGrid::FindNeighbors` (one axis): the negative direction,
then the positive one, then the test whether the tiles are kept.  The result is what the pass
appends to `AllMatchingTiles`. -/
def FindNeighbors_axis (g : AGrid) (StartingTile : TilePtr) (bMustMatchID : Bool)
    (RunLength : Int) (Horizontal : Bool) : Option (List TilePtr) :=
  let MaxGridOffset :=
    if !bMustMatchID then RunLength else (if Horizontal then g.GridWidth else g.GridHeight)
  match FindNeighbors_walk g StartingTile bMustMatchID Horizontal (-1)
      (MaxGridOffset - 1).toNat 1 [] with
  | none => none
  | some MatchInProgress =>
    match FindNeighbors_walk g StartingTile bMustMatchID Horizontal 1
        (MaxGridOffset - 1).toNat 1 MatchInProgress with
    | none => none
    | some MatchInProgress =>
      if !bMustMatchID ||
          decide (((MatchInProgress.length : Int) + 1) ≥
            FMath.Min RunLength (if Horizontal then g.GridWidth else g.GridHeight)) then
        some MatchInProgress
      else
        some []

/-- The method `AGrid::FindNeighbors`; the defaults of the C++ signature are
`bMustMatchID = true` and `RunLength = -1`. -/
def FindNeighbors (g : AGrid) (StartingTile : TilePtr) (bMustMatchID : Bool)
    (RunLength : Int) : Option (List TilePtr) :=
  let RunLength := if RunLength < 0 then g.MinimumRunLength else RunLength
  if RunLength = 0 then some []
  else if RunLength = 1 then some [StartingTile]
  else
    match FindNeighbors_axis g StartingTile bMustMatchID RunLength false with
    | none => none
    | some Vertical =>
      match FindNeighbors_axis g StartingTile bMustMatchID RunLength true with
      | none => none
      | some Horizontal =>
        let AllMatchingTiles := Vertical ++ Horizontal
        if decide (AllMatchingTiles.length > 0) || !bMustMatchID then
          some (AllMatchingTiles ++ [StartingTile])
        else
          some AllMatchingTiles

/-- The method `AGrid::IsMoveLegal`; the arguments may be null. -/
def IsMoveLegal (g : AGrid) (A B : Option TilePtr) : Option (Bool × AGrid) :=
  match A, B with
  | some a, some b =>
    if a ≠ b ∧ (g.heap a).Abilities.CanSwap = true ∧ (g.heap b).Abilities.CanSwap = true then
      if (g.heap a).TileTypeID ≠ (g.heap b).TileTypeID ∧
          AreAddressesNeighbors g (GetGridAddress g a) (GetGridAddress g b) = true then
        match SwapTiles g a b with
        | none => none
        | some g1 =>
          match FindNeighbors g1 a true (-1) with
          | none => none
          | some MatchA =>
            match FindNeighbors g1 b true (-1) with
            | none => none
            | some MatchB =>
              match SwapTiles { g1 with LastLegalMatch := MatchA ++ MatchB } a b with
              | none => none
              | some g2 => some (decide (g2.LastLegalMatch.length > 0), g2)
      else
        some (false, g)
    else
      some (false, g)
  | _, _ => some (false, g)

/-- One of the four tests of `AGrid::IsUnwinnable`:
`GetGridAddressWithOffset(TileGridAddress, X, Y, NeighborGridAddress) && IsMoveLegal(Tile, ...)`. -/
def IsUnwinnable_probe (g : AGrid) (Tile : TilePtr) (TileGridAddress XOffset YOffset : Int) :
    Option (Bool × AGrid) :=
  match GetGridAddressWithOffset g TileGridAddress XOffset YOffset with
  | none => none
  | some (false, _) => some (false, g)
  | some (true, NeighborGridAddress) =>
    IsMoveLegal g (some Tile) (GetTileFromGridAddress g NeighborGridAddress)

/-- The body of the loop of `AGrid::IsUnwinnable` for one tile: `some (true, _)` when the body
returned `false` from the function (a move exists), `some (false, _)` when the loop goes on. -/
def IsUnwinnable_body (g : AGrid) (Tile : TilePtr) : Option (Bool × AGrid) :=
  let TileGridAddress := GetGridAddress g Tile
  if (g.heap Tile).Abilities.CanExplode = true then some (true, g)
  else
    match IsUnwinnable_probe g Tile TileGridAddress 0 (-1) with
    | none => none
    | some (true, g1) => some (true, g1)
    | some (false, g1) =>
      match IsUnwinnable_probe g1 Tile TileGridAddress 0 1 with
      | none => none
      | some (true, g2) => some (true, g2)
      | some (false, g2) =>
        match IsUnwinnable_probe g2 Tile TileGridAddress (-1) 0 with
        | none => none
        | some (true, g3) => some (true, g3)
        | some (false, g3) =>
          match IsUnwinnable_probe g3 Tile TileGridAddress 1 0 with
          | none => none
          | some (true, g4) => some (true, g4)
          | some (false, g4) => some (false, g4)

/-- The loop `for (ATile* Tile : GameTiles)` of `AGrid::IsUnwinnable`, from index `Index`, with
the number of remaining elements as first argument; `check(Tile)` fails on a null slot. -/
def IsUnwinnable_loop : Nat → Nat → AGrid → Option (Bool × AGrid)
  | 0, _, g => some (true, g)
  | n + 1, Index, g =>
    match g.GameTiles[Index]? with
    | none => some (true, g)
    | some none => none
    | some (some Tile) =>
      match IsUnwinnable_body g Tile with
      | none => none
      | some (true, g1) => some (false, g1)
      | some (false, g1) => IsUnwinnable_loop n (Index + 1) g1

/-- The method `AGrid::IsUnwinnable`. -/
def IsUnwinnable (g : AGrid) : Option (Bool × AGrid) :=
  IsUnwinnable_loop g.GameTiles.length 0 g

/-! ## Specification vocabulary -/

/-- The address is one of the `GridWidth * GridHeight` cells of the grid. -/
def ValidAddress (g : AGrid) (a : Int) : Prop :=
  0 ≤ a ∧ a < g.GridWidth * g.GridHeight

/-- The tile is placed on the board: the slot at its own grid address holds it. -/
def OnBoard (g : AGrid) (t : TilePtr) : Prop :=
  GetTileFromGridAddress g (GetGridAddress g t) = some t

/-- Board consistency: a slot that holds a tile is the slot of that tile's grid address. -/
def Consistent (g : AGrid) : Prop :=
  ∀ (a : Int) (t : TilePtr), GetTileFromGridAddress g a = some t → GetGridAddress g t = a

/-- The grid of the data model: positive dimensions and a board with one slot per cell. -/
def WellFormed (g : AGrid) : Prop :=
  0 < g.GridWidth ∧ 0 < g.GridHeight ∧ (g.GameTiles.length : Int) = g.GridWidth * g.GridHeight

/-- No slot of the board is empty. -/
def FullyPopulated (g : AGrid) : Prop :=
  ∀ a : Int, ValidAddress g a → GetTileFromGridAddress g a ≠ none

/-- The column of a valid address. -/
def colOf (g : AGrid) (a : Int) : Int :=
  a % g.GridWidth

/-- The row of a valid address. -/
def rowOf (g : AGrid) (a : Int) : Int :=
  a / g.GridWidth

/-- The column of the cell `k` steps from the cell of tile `t` along an axis (`Horizontal`:
along the row, otherwise along the column). -/
def lineCol (g : AGrid) (t : TilePtr) (Horizontal : Bool) (k : Int) : Int :=
  colOf g (GetGridAddress g t) + (if Horizontal then k else 0)

/-- The row of the cell `k` steps from the cell of tile `t` along an axis. -/
def lineRow (g : AGrid) (t : TilePtr) (Horizontal : Bool) (k : Int) : Int :=
  rowOf g (GetGridAddress g t) + (if Horizontal then 0 else k)

/-- The cell `k` steps from the cell of tile `t` along an axis is on the grid. -/
def lineOnGrid (g : AGrid) (t : TilePtr) (Horizontal : Bool) (k : Int) : Prop :=
  0 ≤ lineCol g t Horizontal k ∧ lineCol g t Horizontal k < g.GridWidth ∧
    0 ≤ lineRow g t Horizontal k ∧ lineRow g t Horizontal k < g.GridHeight

instance (g : AGrid) (t : TilePtr) (Horizontal : Bool) (k : Int) :
    Decidable (lineOnGrid g t Horizontal k) := by
  unfold lineOnGrid; infer_instance

/-- The tile held by the cell `k` steps from the cell of tile `t` along an axis, if that cell is
on the grid and occupied. -/
def lineTile (g : AGrid) (t : TilePtr) (Horizontal : Bool) (k : Int) : Option TilePtr :=
  if lineOnGrid g t Horizontal k then
    GetTileFromGridAddress g (lineCol g t Horizontal k + lineRow g t Horizontal k * g.GridWidth)
  else
    none

/-- The cell `k` steps from the cell of tile `t` along an axis holds a tile with the type id
of `t`. -/
def sameTypeAt (g : AGrid) (t : TilePtr) (Horizontal : Bool) (k : Int) : Prop :=
  ∃ x, lineTile g t Horizontal k = some x ∧ (g.heap x).TileTypeID = (g.heap t).TileTypeID

instance (g : AGrid) (t : TilePtr) (Horizontal : Bool) (k : Int) :
    Decidable (sameTypeAt g t Horizontal k) :=
  match h : lineTile g t Horizontal k with
  | none => isFalse (fun ⟨_, hx, _⟩ => Option.noConfusion (h.symm.trans hx))
  | some y =>
    if ht : (g.heap y).TileTypeID = (g.heap t).TileTypeID then isTrue ⟨y, h, ht⟩
    else isFalse (fun ⟨x, hx, hxt⟩ => ht (by
      have e : y = x := Option.some.inj (h.symm.trans hx)
      rw [e]
      exact hxt))

/-- The extent of the grid along an axis. -/
def axisExtent (g : AGrid) (Horizontal : Bool) : Int :=
  if Horizontal then g.GridWidth else g.GridHeight

/-- The cells from `lo` steps before to `hi` steps after the cell of `t` along an axis form the
maximal contiguous segment through that cell whose tiles all have the type id of `t`. -/
def IsMaximalSegment (g : AGrid) (t : TilePtr) (Horizontal : Bool) (lo hi : Nat) : Prop :=
  (∀ k : Int, -(lo : Int) ≤ k → k ≤ (hi : Int) → sameTypeAt g t Horizontal k) ∧
    ¬ sameTypeAt g t Horizontal (-((lo : Int) + 1)) ∧
    ¬ sameTypeAt g t Horizontal ((hi : Int) + 1)

/-- An axis qualifies for a run of `RunLength` when its maximal segment, of `lo + hi + 1`
cells, is at least as long as the smaller of `RunLength` and the extent of the grid on the
axis. -/
def axisQualifies (g : AGrid) (Horizontal : Bool) (RunLength : Int) (lo hi : Nat) : Prop :=
  min RunLength (axisExtent g Horizontal) ≤ (lo : Int) + (hi : Int) + 1

/-- The tile `x` occupies a cell other than the cell of `t` in the segment from `lo` steps
before to `hi` steps after the cell of `t` along an axis. -/
def inSegmentOther (g : AGrid) (t : TilePtr) (Horizontal : Bool) (lo hi : Nat) (x : TilePtr) :
    Prop :=
  ∃ k : Int, k ≠ 0 ∧ -(lo : Int) ≤ k ∧ k ≤ (hi : Int) ∧ lineTile g t Horizontal k = some x

/-- The tile `x` belongs to the union of the qualifying segments' tiles other than `t`, the
vertical segment reaching from `lov` below to `hiv` above the cell of `t` and the horizontal
one from `loh` before to `hih` after it. -/
def inQualifyingUnion (g : AGrid) (t : TilePtr) (RunLength : Int) (lov hiv loh hih : Nat)
    (x : TilePtr) : Prop :=
  (axisQualifies g false RunLength lov hiv ∧ inSegmentOther g t false lov hiv x) ∨
    (axisQualifies g true RunLength loh hih ∧ inSegmentOther g t true loh hih x)

/-- The walk of `FindNeighbors` from `t` accepts the tile `x`: matching is not required, or the
type ids agree. -/
def accepted (g : AGrid) (t : TilePtr) (bMustMatchID : Bool) (x : TilePtr) : Prop :=
  bMustMatchID = false ∨ (g.heap x).TileTypeID = (g.heap t).TileTypeID

/-- The list `ts` is what a walk of at most `n` steps from the cell of `t` in direction `d`
collects: the accepted tiles of the cells 1, 2, ... steps away, up to the first cell that is
off the grid, empty or holds a tile that is not accepted. -/
def IsRun (g : AGrid) (t : TilePtr) (bMustMatchID Horizontal : Bool) (d : Int) (n : Nat)
    (ts : List TilePtr) : Prop :=
  ts.length ≤ n ∧
    (∀ i : Nat, i < ts.length →
      lineTile g t Horizontal (d * (1 + (i : Int))) = ts[i]? ∧
        ∃ x, ts[i]? = some x ∧ accepted g t bMustMatchID x) ∧
    (ts.length < n →
      ¬ ∃ x, lineTile g t Horizontal (d * (1 + (ts.length : Int))) = some x ∧
        accepted g t bMustMatchID x)

/-- The number of iterations of the walk loops of `FindNeighbors` on an axis. -/
def walkSteps (g : AGrid) (bMustMatchID : Bool) (RunLength : Int) (Horizontal : Bool) : Nat :=
  ((if !bMustMatchID then RunLength else (if Horizontal then g.GridWidth else g.GridHeight))
    - 1).toNat

/-- The tiles of an axis that `FindNeighbors` keeps, given the tiles `l` that its two walks on
the axis collected. -/
def keptOnAxis (g : AGrid) (bMustMatchID : Bool) (RunLength : Int) (Horizontal : Bool)
    (l : List TilePtr) : List TilePtr :=
  if !bMustMatchID ||
      decide (((l.length : Int) + 1) ≥
        FMath.Min RunLength (if Horizontal then g.GridWidth else g.GridHeight)) then l
  else []

/-- The answer of the legality test, `false` when the test does not return. -/
def legalAnswer (g : AGrid) (A B : Option TilePtr) : Bool :=
  match IsMoveLegal g A B with
  | some (r, _) => r
  | none => false

/-- The tile `t` has a legal swap with the tile one step away by `(XOffset, YOffset)`: the
neighbouring cell is on the grid and the legality test on `t` and its tile answers true. -/
def probeAnswer (g : AGrid) (t : TilePtr) (XOffset YOffset : Int) : Bool :=
  match GetGridAddressWithOffset g (GetGridAddress g t) XOffset YOffset with
  | some (true, NeighborGridAddress) =>
    legalAnswer g (some t) (GetTileFromGridAddress g NeighborGridAddress)
  | _ => false

/-- The tile `t` offers a move: it can explode, or it has a legal swap with its neighbour
below, above, to the left or to the right. -/
def tileHasMove (g : AGrid) (t : TilePtr) : Bool :=
  (g.heap t).Abilities.CanExplode || probeAnswer g t 0 (-1) || probeAnswer g t 0 1 ||
    probeAnswer g t (-1) 0 || probeAnswer g t 1 0

/-! ## The world around the grid -/

/-- The result of a call that may trip a `check` (`failed`) or, in the model, exhaust the
bound given for its loops and nested calls (`outOfFuel`). -/
inductive Outcome (α : Type) where
  | done (a : α)
  | failed
  | outOfFuel

/-- Sequencing of calls: the second runs on the result of the first. -/
def Outcome.bind {α β : Type} (x : Outcome α) (f : α → Outcome β) : Outcome β :=
  match x with
  | Outcome.done a => f a
  | Outcome.failed => Outcome.failed
  | Outcome.outOfFuel => Outcome.outOfFuel

/-- A call that can only return or trip a `check`. -/
def Outcome.ofOption {α : Type} (x : Option α) : Outcome α :=
  match x with
  | some a => Outcome.done a
  | none => Outcome.failed

/-- An entry of the tile library (Grid.h, FTileType).  The probability is a `float` in the
source and an exact rational here; `TileClass` tells whether a tile class is set. -/
structure FTileType where
  Probability : ℚ
  TileClass : Bool
  Abilities : FTileAbilities

/-- The fields of `AMatch3PlayerController` that the game mode reads and writes, and the value
that its overridable `CalculateBombPower` returns (0 in the native implementation). -/
structure AMatch3PlayerController where
  Score : Int
  ComboPower : Int
  MaxComboPower : Int
  BombPower : Int

/-- The state of the engine timer `GameOverTimer`. -/
inductive ETimerStatus where
  | Cleared
  | Active
  | Paused
  deriving DecidableEq, Repr

/-- The fields of `AMatch3GameMode` that the scoring code reads and writes: the game-over
timer, the score intervals of `Rewards`, the medal scores of `SaveGameData`, and the place. -/
structure AMatch3GameMode where
  GameOverTimer : ETimerStatus
  RewardIntervals : List Int
  BronzeScore : Int
  SilverScore : Int
  GoldScore : Int
  FinalPlace : Int
  bGameWillBeWon : Bool

/-- A call of a blueprint event or of an engine service whose effect lies outside the grid
logic: it is recorded, in order.  The native bodies of the tile events `OnMatched` and
`OnSwapMove` call the grid back at once (`OnMatched_Implementation`,
`OnSwapMove_Implementation`); a fall requested by `StartFalling` ends later, when the timer of
the tile fires (`FinishFalling`). -/
inductive FEvent where
  | OnMoveMade (MoveType : EMatch3MoveType)
  | PlaySelectionEffect (Tile : TilePtr) (bTurnEffectOn : Bool)
  | OnSwapMove (Tile OtherTile : TilePtr) (bMoveWillSucceed : Bool)
  | OnMatched (Tile : TilePtr) (MoveType : EMatch3MoveType)
  | StartFalling (Tile : TilePtr) (bUseCurrentWorldLocation : Bool) (LandingGridAddress : Int)
  | AwardPlace (NewPlace PointsGiven : Int)
  | AwardBonus
  | GameWasWon (bGameWasWon : Bool)
  deriving DecidableEq, Repr

/-- The grid with what surrounds it: its tile library (a field of `AGrid` in the source), the
game mode and the local player controller if present, the score multiplier of the overridable
`GetScoreMultiplierForMove`, the values that successive calls of the engine's `FMath::FRand`
return and how many were used, the next pointer that `SpawnActor` hands out, the tiles on
which `Destroy` was called, and the recorded events. -/
structure UWorld where
  Grid : AGrid
  TileLibrary : List FTileType
  GameMode : Option AMatch3GameMode
  PlayerController : Option AMatch3PlayerController
  ScoreMultiplierForMove : EMatch3MoveType → Int
  RandomDraws : Nat → ℚ
  RandomCount : Nat
  NextTile : TilePtr
  Destroyed : List TilePtr
  Events : List FEvent

/-- The key of the local player controller in `LastMoves`. -/
def LocalPlayerKey : Nat := 0

/-- Recording of an event. -/
def Emit (w : UWorld) (e : FEvent) : UWorld :=
  { w with Events := w.Events ++ [e] }

/-- The native default of `AGrid::GetScoreMultiplierForMove`. -/
def GetScoreMultiplierForMove_Implementation (_LastMoveType : EMatch3MoveType) : Int :=
  100

/-! ## Engine array helpers (TArray of the engine's Array.h) -/

/-- The engine's `TArray::AddUnique`. -/
def TArray.AddUnique {α : Type} [DecidableEq α] (l : List α) (x : α) : List α :=
  if x ∈ l then l else l ++ [x]

/-- The engine's `TArray::RemoveAtSwap`: the last element takes the place of the removed one. -/
def TArray.RemoveAtSwap {α : Type} (l : List α) (Index : Nat) : List α :=
  if Index < l.length then
    match l.getLast? with
    | some z => if Index + 1 = l.length then l.dropLast else (l.dropLast).set Index z
    | none => l
  else l

/-- The loop of the engine's `TArray::RemoveSwap` from index `Index`, with a bound on the
number of its iterations as first argument. -/
def TArray.RemoveSwap_loop {α : Type} [DecidableEq α] (x : α) : Nat → Nat → List α → List α
  | 0, _, l => l
  | n + 1, Index, l =>
    match l[Index]? with
    | none => l
    | some y =>
      if y = x then TArray.RemoveSwap_loop x n Index (TArray.RemoveAtSwap l Index)
      else TArray.RemoveSwap_loop x n (Index + 1) l

/-- The engine's `TArray::RemoveSwap`: every occurrence is removed by a swap with the last
element.  Each iteration removes an element or advances the index, so the length of the array
bounds the number of iterations. -/
def TArray.RemoveSwap {α : Type} [DecidableEq α] (l : List α) (x : α) : List α :=
  TArray.RemoveSwap_loop x l.length 0 l

/-- The engine's `TArray::RemoveSingleSwap`: the first occurrence is removed by a swap with
the last element. -/
def TArray.RemoveSingleSwap {α : Type} [DecidableEq α] (l : List α) (x : α) : List α :=
  match l.indexOf? x with
  | some i => TArray.RemoveAtSwap l i
  | none => l

/-! ## Game mode (Match3GameMode.cpp, Match3BlueprintFunctionLibrary.cpp) -/

/-- The method `AMatch3GameMode::IsGameActive`: the timer runs or is paused. -/
def AMatch3GameMode.IsGameActive (gm : AMatch3GameMode) : Bool :=
  decide (gm.GameOverTimer = ETimerStatus.Active) || decide (gm.GameOverTimer = ETimerStatus.Paused)

/-- The function `UMatch3BlueprintFunctionLibrary::IsGameActive`. -/
def IsGameActive (w : UWorld) : Bool :=
  match w.GameMode with
  | some gm => if gm.IsGameActive = true then true else false
  | none => false

/-- The method `AMatch3GameMode::PauseGameTimer`, with the engine's `PauseTimer` and
`UnPauseTimer`: only an active timer is paused, only a paused timer is resumed. -/
def AMatch3GameMode.PauseGameTimer (gm : AMatch3GameMode) (bPause : Bool) : AMatch3GameMode :=
  if bPause then
    (if gm.GameOverTimer = ETimerStatus.Active then
      { gm with GameOverTimer := ETimerStatus.Paused } else gm)
  else
    (if gm.GameOverTimer = ETimerStatus.Paused then
      { gm with GameOverTimer := ETimerStatus.Active } else gm)

/-- The function `UMatch3BlueprintFunctionLibrary::PauseGameTimer`. -/
def PauseGameTimer (w : UWorld) (bPause : Bool) : UWorld :=
  match w.GameMode with
  | some gm => { w with GameMode := some (gm.PauseGameTimer bPause) }
  | none => w

/-- The method `AMatch3GameMode::SetComboPower`. -/
def SetComboPower (w : UWorld) (NewComboPower : Int) : UWorld :=
  match w.PlayerController with
  | some PC => { w with PlayerController := some { PC with ComboPower := NewComboPower } }
  | none => w

/-- The method `AMatch3GameMode::GetComboPower`. -/
def GetComboPower (w : UWorld) : Int :=
  match w.PlayerController with
  | some PC => PC.ComboPower
  | none => 0

/-- The method `AMatch3GameMode::GetMaxComboPower`. -/
def GetMaxComboPower (w : UWorld) : Int :=
  match w.PlayerController with
  | some PC => PC.MaxComboPower
  | none => 0

/-- The native default of `AMatch3GameMode::CalculateBombPower`: what the player controller's
`CalculateBombPower` returns, 0 without a player controller. -/
def CalculateBombPower (w : UWorld) : Int :=
  match w.PlayerController with
  | some PC => PC.BombPower
  | none => 0

/-- The loop over `Rewards` of `AMatch3GameMode::AddScore`.  A reward whose interval has been
crossed restarts a timer that still exists and raises `AwardBonus`; the time values are not
modelled. -/
def AddScore_rewards (OldScore NewScore : Int) : List Int → UWorld → AMatch3GameMode →
    Option (UWorld × AMatch3GameMode)
  | [], w, gm => some (w, gm)
  | ScoreInterval :: Rest, w, gm =>
    if ¬ (ScoreInterval > 0) then none
    else
      let ScoreAwardCount := Int.tdiv NewScore ScoreInterval - Int.tdiv OldScore ScoreInterval
      if ScoreAwardCount > 0 then
        if gm.GameOverTimer ≠ ETimerStatus.Cleared then
          AddScore_rewards OldScore NewScore Rest (Emit w FEvent.AwardBonus)
            { gm with GameOverTimer := ETimerStatus.Active }
        else AddScore_rewards OldScore NewScore Rest w gm
      else AddScore_rewards OldScore NewScore Rest w gm

/-- The method `AMatch3GameMode::AddScore`, called on the game mode `gm` of the world; the new
game mode is stored back. -/
def AddScore (w : UWorld) (gm : AMatch3GameMode) (Points : Int) : Option UWorld :=
  match w.PlayerController with
  | none => some w
  | some PC =>
    let OldScore := PC.Score
    let w1 := { w with PlayerController := some { PC with Score := PC.Score + Points } }
    let NewScore := PC.Score + Points
    let gm1 := if NewScore ≥ gm.BronzeScore then { gm with bGameWillBeWon := true } else gm
    let NewPlace : Int :=
      if NewScore > gm.GoldScore then 1
      else if NewScore > gm.SilverScore then 2
      else if NewScore > gm.BronzeScore then 3
      else 0
    let gm2 := { gm1 with FinalPlace := NewPlace }
    let w2 := Emit w1 (FEvent.AwardPlace NewPlace Points)
    match AddScore_rewards OldScore NewScore gm2.RewardIntervals w2 gm2 with
    | none => none
    | some (w3, gm3) => some { w3 with GameMode := some gm3 }

/-- The method `AMatch3GameMode::GameOver`: the timer is cleared and `GameWasWon` is raised;
saving the scores is not modelled. -/
def GameOver (w : UWorld) (gm : AMatch3GameMode) : UWorld :=
  Emit { w with GameMode := some { gm with GameOverTimer := ETimerStatus.Cleared } }
    (FEvent.GameWasWon gm.bGameWillBeWon)

/-! ## The grid in its world -/

/-- The method `AGrid::SetLastMove`. -/
def SetLastMove (w : UWorld) (MoveType : EMatch3MoveType) : UWorld :=
  match w.PlayerController with
  | some _ =>
    { w with Grid := { w.Grid with
        LastMoves := Function.update w.Grid.LastMoves LocalPlayerKey (some MoveType) } }
  | none => w

/-- The method `AGrid::GetLastMove`. -/
def GetLastMove (w : UWorld) : EMatch3MoveType :=
  match w.PlayerController with
  | some _ =>
    match w.Grid.LastMoves LocalPlayerKey with
    | some MoveType => MoveType
    | none => EMatch3MoveType.MT_None
  | none => EMatch3MoveType.MT_None

/-! ## Tile library and grid initialisation -/

/-- The engine's `FMath::FRandRange(Min, Max)` for the value `u` of `FMath::FRand`. -/
def FMath.FRandRange (Min Max u : ℚ) : ℚ :=
  Min + (Max - Min) * u

/-- The first loop of `AGrid::SelectTileFromLibrary`: the sum of the probabilities. -/
def SelectTileFromLibrary_sum : List FTileType → ℚ → ℚ
  | [], NormalizingFactor => NormalizingFactor
  | TileBase :: Rest, NormalizingFactor =>
    SelectTileFromLibrary_sum Rest (NormalizingFactor + TileBase.Probability)

/-- The second loop of `AGrid::SelectTileFromLibrary`, over the entries from index
`ArrayChecked` on, followed by the final `return 0`. -/
def SelectTileFromLibrary_scan (TestNumber : ℚ) : List FTileType → Int → ℚ → Int
  | [], _, _ => 0
  | TileBase :: Rest, ArrayChecked, CompareTo =>
    if TestNumber ≤ CompareTo + TileBase.Probability then ArrayChecked
    else SelectTileFromLibrary_scan TestNumber Rest (ArrayChecked + 1)
      (CompareTo + TileBase.Probability)

/-- The value of `TestNumber` in the next call of `AGrid::SelectTileFromLibrary`. -/
def NextTestNumber (w : UWorld) : ℚ :=
  FMath.FRandRange 0 (SelectTileFromLibrary_sum w.TileLibrary 0) (w.RandomDraws w.RandomCount)

/-- The method `AGrid::SelectTileFromLibrary`; one random value is used. -/
def SelectTileFromLibrary (w : UWorld) : Int × UWorld :=
  (SelectTileFromLibrary_scan (NextTestNumber w) w.TileLibrary 0 0,
    { w with RandomCount := w.RandomCount + 1 })

/-- The element `TileLibrary[Index]`; indexing outside the array fails. -/
def GetTileType (w : UWorld) (Index : Int) : Option FTileType :=
  if 0 ≤ Index ∧ Index < w.TileLibrary.length then w.TileLibrary[Index.toNat]? else none

/-- The method `AGrid::CreateTile`, called with the tile class of a library entry
(`TileToSpawn`: whether it is set), the grid address and the type id.  The world of the actor
exists; the spawned tile is a fresh object whose fields start zeroed. -/
def CreateTile (w : UWorld) (TileToSpawn : Bool) (SpawnGridAddress TileTypeID : Int) :
    Option (Option TilePtr × UWorld) :=
  if TileToSpawn then
    match GetTileType w TileTypeID with
    | none => none
    | some TileType =>
      let NewTile := w.NextTile
      let Spawned : ATile :=
        { TileTypeID := TileTypeID, TileState := ETileState.ETS_Normal,
          Abilities := TileType.Abilities, GridAddress := 0, LandingGridAddress := 0 }
      let g1 : AGrid := { w.Grid with heap := Function.update w.Grid.heap NewTile Spawned }
      let g2 := SetGridAddress g1 NewTile SpawnGridAddress
      match SetGameTile g2 SpawnGridAddress (some NewTile) with
      | none => none
      | some g3 => some (some NewTile, { w with Grid := g3, NextTile := w.NextTile + 1 })
  else some (none, w)

/-- The innermost loop of `AGrid::InitGrid`,
`for (TileOffset = ...; TileOffset < MinimumRunLength; ++TileOffset)`, with the number of
remaining iterations as first argument; the result is the value of `TileOffset` after the
loop.  Reading the type of a null tile fails. -/
def InitGrid_run (g : AGrid) (Column Row TileID : Int) (Horizontal : Bool) :
    Nat → Int → Option Int
  | 0, TileOffset => some TileOffset
  | n + 1, TileOffset =>
    match GetGridAddressWithOffset g 0 (Column - (if Horizontal then TileOffset else 0))
        (Row - (if Horizontal then 0 else TileOffset)) with
    | none => none
    | some (false, _) => some TileOffset
    | some (true, TestAddress) =>
      match GetTileFromGridAddress g TestAddress with
      | none => none
      | some TestTile =>
        if (g.heap TestTile).TileTypeID ≠ TileID then some TileOffset
        else InitGrid_run g Column Row TileID Horizontal n (TileOffset + 1)

/-- The two passes `for (Horizontal = 0; Horizontal < 2; ++Horizontal)` of `AGrid::InitGrid`;
the result is the value of `TileOffset` after them. -/
def InitGrid_axes (g : AGrid) (Column Row TileID : Int) : Option Int :=
  match InitGrid_run g Column Row TileID false (g.MinimumRunLength - 1).toNat 1 with
  | none => none
  | some TileOffset =>
    if TileOffset = g.MinimumRunLength then some TileOffset
    else InitGrid_run g Column Row TileID true (g.MinimumRunLength - 1).toNat 1

/-- One pass of the body of the `do ... while (true)` loop of `AGrid::InitGrid`: the tile type
drawn, and whether the loop is left with it. -/
def InitGrid_try (w : UWorld) (Column Row : Int) : Option ((Int × Bool) × UWorld) :=
  let (TileID, w1) := SelectTileFromLibrary w
  if Column ≥ w1.Grid.MinimumRunLength - 1 ∨ Row ≥ w1.Grid.MinimumRunLength - 1 then
    match InitGrid_axes w1.Grid Column Row TileID with
    | none => none
    | some TileOffset =>
      if TileOffset < w1.Grid.MinimumRunLength then some ((TileID, true), w1)
      else some ((TileID, false), w1)
  else some ((TileID, true), w1)

/-- The `do ... while (true)` loop of `AGrid::InitGrid`, with a bound on the number of its
passes as first argument. -/
def InitGrid_pick : Nat → UWorld → Int → Int → Outcome (Int × UWorld)
  | 0, _, _, _ => Outcome.outOfFuel
  | n + 1, w, Column, Row =>
    match InitGrid_try w Column Row with
    | none => Outcome.failed
    | some ((TileID, true), w1) => Outcome.done (TileID, w1)
    | some ((_, false), w1) => InitGrid_pick n w1 Column Row

/-- The body of the loop over the rows of `AGrid::InitGrid`. -/
def InitGrid_cell (fuel : Nat) (w : UWorld) (Column Row : Int) : Outcome UWorld :=
  let (_, w1) := SelectTileFromLibrary w
  match GetGridAddressWithOffset w1.Grid 0 Column Row with
  | none => Outcome.failed
  | some (_, GridAddress) =>
    (InitGrid_pick fuel w1 Column Row).bind fun (TileID, w2) =>
      match GetTileType w2 TileID with
      | none => Outcome.failed
      | some TileType =>
        match CreateTile w2 TileType.TileClass GridAddress TileID with
        | none => Outcome.failed
        | some (_, w3) => Outcome.done w3

/-- The loop `for (Row = ...; Row < GridHeight; ++Row)` of `AGrid::InitGrid`, with the number
of remaining iterations as second argument. -/
def InitGrid_rows (fuel : Nat) : Nat → UWorld → Int → Int → Outcome UWorld
  | 0, w, _, _ => Outcome.done w
  | n + 1, w, Column, Row =>
    (InitGrid_cell fuel w Column Row).bind fun w1 => InitGrid_rows fuel n w1 Column (Row + 1)

/-- The loop `for (Column = ...; Column < GridWidth; ++Column)` of `AGrid::InitGrid`, with the
number of remaining iterations as second argument. -/
def InitGrid_columns (fuel : Nat) : Nat → UWorld → Int → Outcome UWorld
  | 0, w, _ => Outcome.done w
  | n + 1, w, Column =>
    (InitGrid_rows fuel w.Grid.GridHeight.toNat w Column 0).bind fun w1 =>
      InitGrid_columns fuel n w1 (Column + 1)

/-- The method `AGrid::InitGrid`; `fuel` bounds the passes of each `do ... while (true)` loop.
`GameTiles.Empty(n)` followed by `AddUninitialized(GameTiles.Max())` leaves `n` slots, which
are modelled as null until written; a negative `n` trips the range check of the engine. -/
def InitGrid (fuel : Nat) (w : UWorld) : Outcome UWorld :=
  if w.Grid.GridWidth * w.Grid.GridHeight < 0 then Outcome.failed
  else
    let w1 := { w with Grid := { w.Grid with
      GameTiles := List.replicate (w.Grid.GridWidth * w.Grid.GridHeight).toNat none } }
    InitGrid_columns fuel w1.Grid.GridWidth.toNat w1 0

/-! ## Explosions -/

/-- The method `AGrid::GetExplosionList`. -/
def GetExplosionList (w : UWorld) (A : Option TilePtr) : Option (List TilePtr) :=
  match A with
  | none => none
  | some a =>
    if ¬ ((w.Grid.heap a).Abilities.CanExplode = true) then none
    else
      let AdjustedBombPower := (w.Grid.heap a).Abilities.BombPower
      let AdjustedBombPower :=
        match w.GameMode with
        | some _ => FMath.Max 1 (AdjustedBombPower + 1 + CalculateBombPower w)
        | none => AdjustedBombPower
      FindNeighbors w.Grid a false AdjustedBombPower

/-- The method `AGrid::FindTilesOfType`. -/
def FindTilesOfType (g : AGrid) (TileTypeID : Int) : List TilePtr :=
  g.GameTiles.filterMap fun Tile =>
    match Tile with
    | some t => if (g.heap t).TileTypeID = TileTypeID then some t else none
    | none => none

/-! ## Settle controller (Grid.cpp, Tile.cpp) -/

/-- The assignment `Tile->TileState = NewState`. -/
def SetTileState (g : AGrid) (Tile : TilePtr) (NewState : ETileState) : AGrid :=
  { g with heap := Function.update g.heap Tile { g.heap Tile with TileState := NewState } }

/-- The assignment `Tile->LandingGridAddress = NewAddress`. -/
def SetLandingGridAddress (g : AGrid) (Tile : TilePtr) (NewAddress : Int) : AGrid :=
  { g with heap :=
      Function.update g.heap Tile { g.heap Tile with LandingGridAddress := NewAddress } }

/-- The end of the `while (true)` loop of `ATile::StartFalling`: one space back, and the
landing address read there. -/
def StartFalling_stop (g : AGrid) (Tile : TilePtr) (YOffset HeightAboveBottom : Int) :
    Outcome Int :=
  match GetGridAddressWithOffset g (GetGridAddress g Tile) 0 (-(YOffset - HeightAboveBottom)) with
  | none => Outcome.failed
  | some (_, LandingGridAddress) => Outcome.done LandingGridAddress

/-- The `while (true)` loop of `ATile::StartFalling`, with a bound on the number of its passes
as first argument; the values of `YOffset` and `HeightAboveBottom` are those at the start of
the pass, and the result is the landing address. -/
def StartFalling_scan (g : AGrid) (Tile : TilePtr) : Nat → Int → Int → Outcome Int
  | 0, _, _ => Outcome.outOfFuel
  | n + 1, YOffset, HeightAboveBottom =>
    match GetGridAddressWithOffset g (GetGridAddress g Tile) 0 (-(YOffset + 1)) with
    | none => Outcome.failed
    | some (true, LandingGridAddress) =>
      match GetTileFromGridAddress g LandingGridAddress with
      | some TileBelow =>
        if (g.heap TileBelow).TileState = ETileState.ETS_Falling then
          StartFalling_scan g Tile n (YOffset + 1) (HeightAboveBottom + 1)
        else if (g.heap TileBelow).TileState = ETileState.ETS_PendingDelete then
          StartFalling_scan g Tile n (YOffset + 1) HeightAboveBottom
        else StartFalling_stop g Tile (YOffset + 1) HeightAboveBottom
      | none => StartFalling_scan g Tile n (YOffset + 1) HeightAboveBottom
    | some (false, _) => StartFalling_stop g Tile (YOffset + 1) HeightAboveBottom

/-- The method `ATile::StartFalling`: the landing address is computed and kept in the tile, and
the fall is requested; times and locations are not modelled. -/
def StartFalling (fuel : Nat) (w : UWorld) (Tile : TilePtr) (bUseCurrentWorldLocation : Bool) :
    Outcome UWorld :=
  (if !bUseCurrentWorldLocation then StartFalling_scan w.Grid Tile fuel 0 1
    else Outcome.done (GetGridAddress w.Grid Tile)).bind fun LandingGridAddress =>
      Outcome.done (Emit
        { w with Grid := SetLandingGridAddress w.Grid Tile LandingGridAddress }
        (FEvent.StartFalling Tile bUseCurrentWorldLocation LandingGridAddress))

/-- The loop `for (ATile* Tile : FallingTiles) Tile->StartFalling(...)`. -/
def StartFalling_all (fuel : Nat) (bUseCurrentWorldLocation : Bool) :
    List TilePtr → UWorld → Outcome UWorld
  | [], w => Outcome.done w
  | Tile :: Rest, w =>
    (StartFalling fuel w Tile bUseCurrentWorldLocation).bind fun w1 =>
      StartFalling_all fuel bUseCurrentWorldLocation Rest w1

/-- The inner loop of the first loop of `AGrid::ExecuteMatch`,
`for (YOffset = ...; YOffset < GridHeight; ++YOffset)`, with the number of remaining
iterations as first argument.  An address off the grid does not leave the loop. -/
def ExecuteMatch_rise (MatchingTiles : List TilePtr) (Tile : TilePtr) :
    Nat → Int → AGrid → Option AGrid
  | 0, _, g => some g
  | n + 1, YOffset, g =>
    match GetGridAddressWithOffset g (GetGridAddress g Tile) 0 YOffset with
    | none => none
    | some (true, NextAddressUp) =>
      match GetTileFromGridAddress g NextAddressUp with
      | some NextTileUp =>
        if NextTileUp ∉ MatchingTiles then
          let g1 := SetTileState g NextTileUp ETileState.ETS_Falling
          if NextTileUp ∈ g1.FallingTiles then none
          else ExecuteMatch_rise MatchingTiles Tile n (YOffset + 1)
            { g1 with FallingTiles := g1.FallingTiles ++ [NextTileUp] }
        else some g
      | none => some g
    | some (false, _) => ExecuteMatch_rise MatchingTiles Tile n (YOffset + 1) g

/-- The first loop of `AGrid::ExecuteMatch` over the tiles that are left of `MatchingTiles`. -/
def ExecuteMatch_mark (MatchingTiles : List TilePtr) : List TilePtr → AGrid → Option AGrid
  | [], g => some g
  | Tile :: Rest, g =>
    match ExecuteMatch_rise MatchingTiles Tile (g.GridHeight - 1).toNat 1 g with
    | none => none
    | some g1 =>
      ExecuteMatch_mark MatchingTiles Rest (SetTileState g1 Tile ETileState.ETS_PendingDelete)

/-- The scoring block of `AGrid::ExecuteMatch` for `Count` matched tiles. -/
def ExecuteMatch_score (w : UWorld) (Count : Int) : Option UWorld :=
  match w.GameMode with
  | some GameMode =>
    let MT := GetLastMove w
    let ScoreMult := w.ScoreMultiplierForMove MT
    let w1 :=
      match MT with
      | EMatch3MoveType.MT_Bomb => SetComboPower w 0
      | EMatch3MoveType.MT_AllTheBombs => SetComboPower w 0
      | EMatch3MoveType.MT_Combo =>
        SetComboPower w (FMath.Min (GetMaxComboPower w) (GetComboPower w + 1))
      | _ => w
    AddScore (Emit w1 (FEvent.OnMoveMade MT)) GameMode (Count * ScoreMult)
  | none => some w

/-- The method `AGrid::OnTileFinishedMatching`, with the method `AGrid::RespawnTiles` that it
calls as first argument. -/
def OnTileFinishedMatching_with (respawn : UWorld → Outcome UWorld) (fuel : Nat) (w : UWorld)
    (InTile : Option TilePtr) : Outcome UWorld :=
  let w1 :=
    match InTile with
    | some t =>
      { w with
        Grid := { w.Grid with
          TilesBeingDestroyed := TArray.RemoveSwap w.Grid.TilesBeingDestroyed t },
        Destroyed := w.Destroyed ++ [t] }
    | none => w
  if w1.Grid.TilesBeingDestroyed.length = 0 then
    (StartFalling_all fuel false w1.Grid.FallingTiles w1).bind fun w2 =>
      if w2.Grid.FallingTiles.length = 0 then respawn w2 else Outcome.done w2
  else Outcome.done w1

/-- The native body of the tile event `OnMatched`, `ATile::OnMatched_Implementation`: the
tile tells its grid at once that its destruction is complete; the method
`AGrid::RespawnTiles` that this call may reach is the first argument. -/
def OnMatched_Implementation (respawn : UWorld → Outcome UWorld) (fuel : Nat) (w : UWorld)
    (Tile : TilePtr) (_MoveType : EMatch3MoveType) : Outcome UWorld :=
  OnTileFinishedMatching_with respawn fuel w (some Tile)

/-- The second loop of `AGrid::ExecuteMatch`: every tile joins the destroying set, leaves its
slot and receives `OnMatched`, whose native body runs inside the loop; the method
`AGrid::RespawnTiles` that it may reach is the first argument. -/
def ExecuteMatch_remove (respawn : UWorld → Outcome UWorld) (fuel : Nat) :
    List TilePtr → UWorld → Outcome UWorld
  | [], w => Outcome.done w
  | Tile :: Rest, w =>
    let g1 := { w.Grid with TilesBeingDestroyed := w.Grid.TilesBeingDestroyed ++ [Tile] }
    match SetGameTile g1 (GetGridAddress g1 Tile) none with
    | none => Outcome.failed
    | some g2 =>
      (OnMatched_Implementation respawn fuel
        (Emit { w with Grid := g2 } (FEvent.OnMatched Tile (GetLastMove { w with Grid := g2 })))
        Tile (GetLastMove { w with Grid := g2 })).bind fun w1 =>
          ExecuteMatch_remove respawn fuel Rest w1

/-- The method `AGrid::ExecuteMatch`, with the method `AGrid::RespawnTiles` that the
completion of a tile may reach as first argument. -/
def ExecuteMatch_with (respawn : UWorld → Outcome UWorld) (fuel : Nat) (w : UWorld)
    (MatchingTiles : List TilePtr) : Outcome UWorld :=
  if MatchingTiles.length = 0 then Outcome.done w
  else
    let w1 := PauseGameTimer w true
    match ExecuteMatch_mark MatchingTiles MatchingTiles w1.Grid with
    | none => Outcome.failed
    | some g2 =>
      let w2 := { w1 with Grid := { g2 with TilesToCheck := [] } }
      match ExecuteMatch_score w2 (MatchingTiles.length : Int) with
      | none => Outcome.failed
      | some w3 =>
        (ExecuteMatch_remove respawn fuel MatchingTiles w3).bind fun w4 =>
          OnTileFinishedMatching_with respawn fuel w4 none

/-- The loop of `AGrid::RespawnTiles` that counts the empty cells of a column from the top,
`for (y_depth = ...; GetGridAddressWithOffset(...) && !GetTileFromGridAddress(...); ++y_depth)`,
with a bound on the number of its iterations as first argument. -/
def RespawnTiles_depth (g : AGrid) (BaseAddress : Int) : Nat → Int → Outcome Int
  | 0, _ => Outcome.outOfFuel
  | n + 1, y_depth =>
    match GetGridAddressWithOffset g BaseAddress 0 (-y_depth) with
    | none => Outcome.failed
    | some (true, TestAddress) =>
      match GetTileFromGridAddress g TestAddress with
      | none => RespawnTiles_depth g BaseAddress n (y_depth + 1)
      | some _ => Outcome.done y_depth
    | some (false, _) => Outcome.done y_depth

/-- The loop `for (y = y_depth - 1; y >= 0; --y)` of `AGrid::RespawnTiles`, with the number of
remaining iterations as first argument (`y` is that number less one). -/
def RespawnTiles_spawn (BaseAddress : Int) : Nat → UWorld → Option UWorld
  | 0, w => some w
  | y + 1, w =>
    let (NewTileTypeID, w1) := SelectTileFromLibrary w
    match GetGridAddressWithOffset w1.Grid BaseAddress 0 (-(y : Int)) with
    | none => none
    | some (_, TestAddress) =>
      match GetTileType w1 NewTileTypeID with
      | none => none
      | some TileType =>
        match CreateTile w1 TileType.TileClass TestAddress NewTileTypeID with
        | none => none
        | some (none, w2) => RespawnTiles_spawn BaseAddress y w2
        | some (some NewTile, w2) =>
          let g1 := { w2.Grid with TilesToCheck := w2.Grid.TilesToCheck ++ [NewTile] }
          let g2 := SetTileState g1 NewTile ETileState.ETS_Falling
          if NewTile ∈ g2.FallingTiles then none
          else RespawnTiles_spawn BaseAddress y
            { w2 with Grid := { g2 with FallingTiles := g2.FallingTiles ++ [NewTile] } }

/-- The loop `for (x = ...; x < GridWidth; ++x)` of `AGrid::RespawnTiles`, with the number of
remaining iterations as second argument. -/
def RespawnTiles_columns (fuel : Nat) : Nat → Int → UWorld → Outcome UWorld
  | 0, _, w => Outcome.done w
  | n + 1, x, w =>
    match GetGridAddressWithOffset w.Grid 0 x (w.Grid.GridHeight - 1) with
    | none => Outcome.failed
    | some (false, _) => Outcome.failed
    | some (true, BaseAddress) =>
      (RespawnTiles_depth w.Grid BaseAddress fuel 0).bind fun y_depth =>
        (Outcome.ofOption (RespawnTiles_spawn BaseAddress y_depth.toNat w)).bind fun w1 =>
          RespawnTiles_columns fuel n (x + 1) w1

/-- The loop of `AGrid::RespawnTiles` that collects the matches of the tiles to check. -/
def RespawnTiles_matches (g : AGrid) : List TilePtr → List TilePtr → Option (List TilePtr)
  | [], AllMatchingTiles => some AllMatchingTiles
  | Tile :: Rest, AllMatchingTiles =>
    match FindNeighbors g Tile true (-1) with
    | none => none
    | some MatchingTiles =>
      RespawnTiles_matches g Rest (MatchingTiles.foldl TArray.AddUnique AllMatchingTiles)

/-- The method `AGrid::RespawnTiles`, with the method `AGrid::ExecuteMatch` that it calls as
first argument. -/
def RespawnTiles_with (execute : UWorld → List TilePtr → Outcome UWorld) (fuel : Nat)
    (w : UWorld) : Outcome UWorld :=
  (RespawnTiles_columns fuel w.Grid.GridWidth.toNat 0 w).bind fun w1 =>
    if w1.Grid.FallingTiles.length > 0 then
      StartFalling_all fuel true w1.Grid.FallingTiles w1
    else
      match RespawnTiles_matches w1.Grid w1.Grid.TilesToCheck [] with
      | none => Outcome.failed
      | some AllMatchingTiles =>
        if AllMatchingTiles.length > 0 then
          execute (SetLastMove w1 EMatch3MoveType.MT_Combo) AllMatchingTiles
        else
          match IsUnwinnable w1.Grid with
          | none => Outcome.failed
          | some (true, g2) =>
            match w1.GameMode with
            | some GameMode => Outcome.done (GameOver { w1 with Grid := g2 } GameMode)
            | none => Outcome.done (PauseGameTimer { w1 with Grid := g2 } false)
          | some (false, g2) => Outcome.done (PauseGameTimer { w1 with Grid := g2 } false)

/-- The method `AGrid::RespawnTiles`; `fuel` bounds the depth of the chain of cascades and the
passes of every loop that has no bound of its own. -/
def RespawnTiles : Nat → UWorld → Outcome UWorld
  | 0, _ => Outcome.outOfFuel
  | n + 1, w => RespawnTiles_with (ExecuteMatch_with (RespawnTiles n) n) (n + 1) w

/-- The method `AGrid::ExecuteMatch`. -/
def ExecuteMatch (fuel : Nat) (w : UWorld) (MatchingTiles : List TilePtr) : Outcome UWorld :=
  ExecuteMatch_with (RespawnTiles fuel) fuel w MatchingTiles

/-- The method `AGrid::OnTileFinishedMatching`. -/
def OnTileFinishedMatching (fuel : Nat) (w : UWorld) (InTile : Option TilePtr) :
    Outcome UWorld :=
  OnTileFinishedMatching_with (RespawnTiles fuel) fuel w InTile

/-- The method `AGrid::OnTileFinishedFalling`. -/
def OnTileFinishedFalling (fuel : Nat) (w : UWorld) (Tile : TilePtr)
    (LandingGridAddress : Int) : Outcome UWorld :=
  match GetGridAddressWithOffset w.Grid (GetGridAddress w.Grid Tile) 0 0 with
  | none => Outcome.failed
  | some (bOld, OldAddress) =>
    (Outcome.ofOption
      (if bOld = true then
        (if GetTileFromGridAddress w.Grid OldAddress = some Tile then
          SetGameTile w.Grid OldAddress none
        else some w.Grid)
      else some w.Grid)).bind fun g1 =>
    match GetGridAddressWithOffset g1 LandingGridAddress 0 0 with
    | none => Outcome.failed
    | some (bNew, NewAddress) =>
      (Outcome.ofOption
        (if bNew = true then
          (match SetGameTile g1 NewAddress (some Tile) with
          | none => none
          | some g2 =>
            some (SetTileState (SetGridAddress g2 Tile NewAddress) Tile ETileState.ETS_Normal))
        else some g1)).bind fun g3 =>
      let g4 := { g3 with
        FallingTiles := TArray.RemoveSingleSwap g3.FallingTiles Tile,
        TilesToCheck := g3.TilesToCheck ++ [Tile] }
      if g4.FallingTiles.length = 0 then RespawnTiles fuel { w with Grid := g4 }
      else Outcome.done { w with Grid := g4 }

/-- The statements of `AGrid::OnTileFinishedFalling` before its last `if`: the tile leaves
its old slot, is put in the slot of the landing address with that address and state normal,
leaves the falling set and joins the tiles to check. -/
def OnTileFinishedFalling_land (w : UWorld) (Tile : TilePtr) (LandingGridAddress : Int) :
    Option UWorld :=
  match GetGridAddressWithOffset w.Grid (GetGridAddress w.Grid Tile) 0 0 with
  | none => none
  | some (bOld, OldAddress) =>
    (if bOld = true then
      (if GetTileFromGridAddress w.Grid OldAddress = some Tile then
        SetGameTile w.Grid OldAddress none
      else some w.Grid)
    else some w.Grid).bind fun g1 =>
    match GetGridAddressWithOffset g1 LandingGridAddress 0 0 with
    | none => none
    | some (bNew, NewAddress) =>
      (if bNew = true then
        (match SetGameTile g1 NewAddress (some Tile) with
        | none => none
        | some g2 =>
          some (SetTileState (SetGridAddress g2 Tile NewAddress) Tile ETileState.ETS_Normal))
      else some g1).bind fun g3 =>
      some { w with Grid := { g3 with
        FallingTiles := TArray.RemoveSingleSwap g3.FallingTiles Tile,
        TilesToCheck := g3.TilesToCheck ++ [Tile] } }

/-- The method `ATile::FinishFalling`: the grid is told that the tile has landed at the
landing address kept in the tile (the timer, the location and the effect are not
modelled). -/
def FinishFalling (fuel : Nat) (w : UWorld) (Tile : TilePtr) : Outcome UWorld :=
  OnTileFinishedFalling fuel w Tile (w.Grid.heap Tile).LandingGridAddress

/-- The calls of `ATile::FinishFalling` for the tiles of a list, in the order of the list:
the falls end in the order in which their timers fire. -/
def FinishFalling_all (fuel : Nat) : List TilePtr → UWorld → Outcome UWorld
  | [], w => Outcome.done w
  | Tile :: Rest, w =>
    (FinishFalling fuel w Tile).bind fun w1 => FinishFalling_all fuel Rest w1

/-- The method `AGrid::OnSwapDisplayFinished`. -/
def OnSwapDisplayFinished (fuel : Nat) (w : UWorld) (Tile : TilePtr) : Outcome UWorld :=
  let g1 := { w.Grid with SwappingTiles := w.Grid.SwappingTiles ++ [Tile] }
  match g1.SwappingTiles with
  | [Tile0, Tile1] =>
    let g2 := { g1 with bPendingSwapMove := false }
    if g2.bPendingSwapMoveSuccess = true then
      match SwapTiles g2 Tile0 Tile1 with
      | none => Outcome.failed
      | some g3 =>
        let g4 := { g3 with SwappingTiles := [] }
        let w1 :=
          if (g4.LastLegalMatch.length : Int) > g4.MinimumRunLength then
            SetLastMove { w with Grid := g4 } EMatch3MoveType.MT_MoreTiles
          else
            SetLastMove { w with Grid := g4 } EMatch3MoveType.MT_Standard
        ExecuteMatch fuel w1 w1.Grid.LastLegalMatch
    else
      Outcome.done
        (Emit { w with Grid := { g2 with SwappingTiles := [] } }
          (FEvent.OnMoveMade EMatch3MoveType.MT_Failure))
  | _ => Outcome.done { w with Grid := g1 }

/-- The native body of the tile event `OnSwapMove`, `ATile::OnSwapMove_Implementation`: the
tile tells its grid at once that its swap animation is done. -/
def OnSwapMove_Implementation (fuel : Nat) (w : UWorld) (Tile _OtherTile : TilePtr)
    (_bMoveWillSucceed : Bool) : Outcome UWorld :=
  OnSwapDisplayFinished fuel w Tile

/-- The loop over the bombs in `AGrid::OnTileWasSelected`. -/
def OnTileWasSelected_bombs (w : UWorld) : List TilePtr → List TilePtr →
    Option (List TilePtr)
  | [], TilesToDestroy => some TilesToDestroy
  | Bomb :: Rest, TilesToDestroy =>
    match GetExplosionList w (some Bomb) with
    | none => none
    | some TilesToDestroyForCurrentBomb =>
      OnTileWasSelected_bombs w Rest
        (TilesToDestroyForCurrentBomb.foldl TArray.AddUnique TilesToDestroy)

/-- The method `AGrid::OnTileWasSelected`. -/
def OnTileWasSelected (fuel : Nat) (w : UWorld) (NewSelectedTile : Option TilePtr) :
    Outcome UWorld :=
  match NewSelectedTile with
  | none => Outcome.done w
  | some New =>
    if w.Grid.FallingTiles.length ≠ 0 ∨ w.Grid.TilesBeingDestroyed.length ≠ 0 ∨
        w.Grid.bPendingSwapMove = true ∨ IsGameActive w = false then Outcome.done w
    else
      match GetTileType w (w.Grid.heap New).TileTypeID with
      | none => Outcome.failed
      | some NewSelectedTileType =>
        match w.Grid.CurrentlySelectedTile with
        | some Current =>
          (if AreAddressesNeighbors w.Grid (GetGridAddress w.Grid Current)
              (GetGridAddress w.Grid New) = true then
            (if NewSelectedTileType.Abilities.CanSwap = true then
              match IsMoveLegal { w.Grid with bPendingSwapMove := true } (some Current)
                  (some New) with
              | none => Outcome.failed
              | some (bLegal, g1) =>
                let w1 := { w with Grid := { g1 with bPendingSwapMoveSuccess := bLegal } }
                (OnSwapMove_Implementation fuel
                  (Emit w1 (FEvent.OnSwapMove Current New w1.Grid.bPendingSwapMoveSuccess))
                  Current New w1.Grid.bPendingSwapMoveSuccess).bind fun w2 =>
                    OnSwapMove_Implementation fuel
                      (Emit w2 (FEvent.OnSwapMove New Current w2.Grid.bPendingSwapMoveSuccess))
                      New Current w2.Grid.bPendingSwapMoveSuccess
            else
              Outcome.done (Emit w (FEvent.OnMoveMade EMatch3MoveType.MT_Failure)))
          else Outcome.done w).bind fun w2 =>
            Outcome.done
              { (Emit w2 (FEvent.PlaySelectionEffect Current false)) with
                Grid := { w2.Grid with CurrentlySelectedTile := none } }
        | none =>
          if NewSelectedTileType.Abilities.CanExplode = true then
            let Start : Option (UWorld × List TilePtr) :=
              match w.GameMode with
              | some _ =>
                if GetComboPower w = GetMaxComboPower w then
                  let w1 := SetLastMove w EMatch3MoveType.MT_AllTheBombs
                  match OnTileWasSelected_bombs w1
                      (FindTilesOfType w1.Grid (w1.Grid.heap New).TileTypeID) [] with
                  | none => none
                  | some TilesToDestroy => some (w1, TilesToDestroy)
                else some (w, [])
              | none => some (w, [])
            match Start with
            | none => Outcome.failed
            | some (w1, TilesToDestroy) =>
              if TilesToDestroy.length = 0 then
                let w2 := SetLastMove w1 EMatch3MoveType.MT_Bomb
                match GetExplosionList w2 (some New) with
                | none => Outcome.failed
                | some TilesToDestroy => ExecuteMatch fuel w2 TilesToDestroy
              else ExecuteMatch fuel w1 TilesToDestroy
          else if NewSelectedTileType.Abilities.CanSwap = true then
            Outcome.done
              (Emit { w with Grid := { w.Grid with CurrentlySelectedTile := some New } }
                (FEvent.PlaySelectionEffect New true))
          else Outcome.done (Emit w (FEvent.OnMoveMade EMatch3MoveType.MT_Failure))

/-! ## Specification vocabulary: neighbours, catalogue -/

/-- Two addresses are neighbours on the grid: both are valid, and they lie in the same row
with columns that differ by exactly 1, or in the same column with rows that differ by
exactly 1. -/
def gridNeighbors (g : AGrid) (a b : Int) : Prop :=
  ValidAddress g a ∧ ValidAddress g b ∧
    ((rowOf g a = rowOf g b ∧ (colOf g a - colOf g b = 1 ∨ colOf g b - colOf g a = 1)) ∨
      (colOf g a = colOf g b ∧ (rowOf g a - rowOf g b = 1 ∨ rowOf g b - rowOf g a = 1)))

instance (g : AGrid) (a b : Int) : Decidable (gridNeighbors g a b) := by
  unfold gridNeighbors ValidAddress; infer_instance

/-- The cumulative probability `p_0 + ... + p_i` of a catalogue. -/
def cumulativeProbability (lib : List FTileType) (i : Nat) : ℚ :=
  ((lib.take (i + 1)).map (fun T => T.Probability)).sum

/-- The sum of all probabilities of a catalogue. -/
def totalProbability (lib : List FTileType) : ℚ :=
  (lib.map (fun T => T.Probability)).sum

/-- The grid `g'` differs from `g` at most in the states of tiles and in the falling set. -/
def sameButStates (g g' : AGrid) : Prop :=
  g'.GridWidth = g.GridWidth ∧ g'.GridHeight = g.GridHeight ∧
    g'.MinimumRunLength = g.MinimumRunLength ∧ g'.GameTiles = g.GameTiles ∧
    g'.CurrentlySelectedTile = g.CurrentlySelectedTile ∧
    g'.LastLegalMatch = g.LastLegalMatch ∧ g'.SwappingTiles = g.SwappingTiles ∧
    g'.TilesToCheck = g.TilesToCheck ∧ g'.TilesBeingDestroyed = g.TilesBeingDestroyed ∧
    g'.LastMoves = g.LastMoves ∧ g'.bPendingSwapMove = g.bPendingSwapMove ∧
    g'.bPendingSwapMoveSuccess = g.bPendingSwapMoveSuccess ∧
    ∀ t : TilePtr, (g'.heap t).TileTypeID = (g.heap t).TileTypeID ∧
      (g'.heap t).Abilities = (g.heap t).Abilities ∧
      (g'.heap t).GridAddress = (g.heap t).GridAddress ∧
      (g'.heap t).LandingGridAddress = (g.heap t).LandingGridAddress

/-- The cell `k` rows up the grid from the tile `T` holds the tile `u`, and every cell from
the first row past `T` to that cell holds a tile that is not in `M`: the tiles that the first
loop of `ExecuteMatch` sets falling for `T`. -/
def stackedAt (g : AGrid) (M : List TilePtr) (T : TilePtr) (k : Int) (u : TilePtr) : Prop :=
  1 ≤ k ∧ GetTileFromGridAddress g (GetGridAddress g T + k * g.GridWidth) = some u ∧
    ∀ j : Int, 1 ≤ j → j ≤ k →
      ∃ v, GetTileFromGridAddress g (GetGridAddress g T + j * g.GridWidth) = some v ∧ v ∉ M

/-- The grid `g'` differs from `g` at most in the landing addresses kept in the tiles. -/
def sameButLanding (g g' : AGrid) : Prop :=
  g'.GridWidth = g.GridWidth ∧ g'.GridHeight = g.GridHeight ∧
    g'.MinimumRunLength = g.MinimumRunLength ∧ g'.GameTiles = g.GameTiles ∧
    g'.CurrentlySelectedTile = g.CurrentlySelectedTile ∧
    g'.LastLegalMatch = g.LastLegalMatch ∧ g'.FallingTiles = g.FallingTiles ∧
    g'.SwappingTiles = g.SwappingTiles ∧
    g'.TilesToCheck = g.TilesToCheck ∧ g'.TilesBeingDestroyed = g.TilesBeingDestroyed ∧
    g'.LastMoves = g.LastMoves ∧ g'.bPendingSwapMove = g.bPendingSwapMove ∧
    g'.bPendingSwapMoveSuccess = g.bPendingSwapMoveSuccess ∧
    ∀ t : TilePtr, (g'.heap t).TileTypeID = (g.heap t).TileTypeID ∧
      (g'.heap t).TileState = (g.heap t).TileState ∧
      (g'.heap t).Abilities = (g.heap t).Abilities ∧
      (g'.heap t).GridAddress = (g.heap t).GridAddress

/-- Every tile in a slot of the board was spawned before: its pointer is below the pointer
that the next spawn returns.  The engine's `SpawnActor` returns a new object at every call. -/
def FreshAllocator (w : UWorld) : Prop :=
  ∀ (a : Int) (t : TilePtr), GetTileFromGridAddress w.Grid a = some t → t < w.NextTile

/-- In every column of the grid the empty cells lie above the occupied cells: the cell above
an empty cell is empty. -/
def EmptiesOnTop (g : AGrid) : Prop :=
  ∀ a : Int, ValidAddress g a → GetTileFromGridAddress g a = none →
    ValidAddress g (a + g.GridWidth) → GetTileFromGridAddress g (a + g.GridWidth) = none

/-- The cell at the address holds a tile that stays where it is: a tile that is neither
falling nor pending delete. -/
def staysAt (g : AGrid) (a : Int) : Prop :=
  ∃ u, GetTileFromGridAddress g a = some u ∧
    (g.heap u).TileState ≠ ETileState.ETS_Falling ∧
    (g.heap u).TileState ≠ ETileState.ETS_PendingDelete

instance (g : AGrid) (a : Int) : Decidable (staysAt g a) :=
  match h : GetTileFromGridAddress g a with
  | none => isFalse (fun ⟨_, hu, _⟩ => Option.noConfusion (h.symm.trans hu))
  | some v =>
    if hs : (g.heap v).TileState ≠ ETileState.ETS_Falling ∧
        (g.heap v).TileState ≠ ETileState.ETS_PendingDelete then isTrue ⟨v, h, hs.1, hs.2⟩
    else isFalse (fun ⟨u, hu, h1, h2⟩ => hs (by
      have e : v = u := Option.some.inj (h.symm.trans hu)
      rw [e]
      exact ⟨h1, h2⟩))

/-- The number of cells that hold a falling tile among the `n` cells of column `c` in the
rows `lo`, `lo + 1`, ... -/
def fallingCount (g : AGrid) (c lo : Int) (n : Nat) : Nat :=
  ((List.range n).filter (fun (j : Nat) =>
    match GetTileFromGridAddress g (c + (lo + (j : Int)) * g.GridWidth) with
    | some u => decide ((g.heap u).TileState = ETileState.ETS_Falling)
    | none => false)).length

/-- Some tile of `M` lies below the tile `v` in the column of `v`. -/
def matchBelow (g : AGrid) (M : List TilePtr) (v : TilePtr) : Prop :=
  ∃ T ∈ M, colOf g (GetGridAddress g T) = colOf g (GetGridAddress g v) ∧
    rowOf g (GetGridAddress g T) < rowOf g (GetGridAddress g v)

/-- The number of cells of column `c` in the rows below row `k` that hold a tile outside
`M`: the tiles of the column below row `k` that survive the match `M`. -/
def survivorsBelow (g : AGrid) (M : List TilePtr) (c : Int) : Nat → Nat
  | 0 => 0
  | k + 1 =>
    survivorsBelow g M c k +
      (match GetTileFromGridAddress g (c + (k : Int) * g.GridWidth) with
        | some v => if v ∈ M then 0 else 1
        | none => 0)

/-- The cell to which gravity takes the tile `u` when the tiles of `M` are removed: the
cell of its column in the row numbered by the surviving tiles below it. -/
def settledAddress (g : AGrid) (M : List TilePtr) (u : TilePtr) : Int :=
  colOf g (GetGridAddress g u) +
    (survivorsBelow g M (colOf g (GetGridAddress g u))
      (rowOf g (GetGridAddress g u)).toNat : Int) * g.GridWidth

/-- The grid `g2` holds the board `g` settled after the match `M`: the falling set is empty,
every tile of `g` outside `M` is in the slot of its settled address, with that address and
state normal, every occupied slot holds such a tile, and the occupied cells of a column are
its lowest rows, as many as the column has tiles outside `M`. -/
def settledBoard (g : AGrid) (M : List TilePtr) (g2 : AGrid) : Prop :=
  g2.FallingTiles = [] ∧
    (∀ u, OnBoard g u → u ∉ M →
      GetTileFromGridAddress g2 (settledAddress g M u) = some u ∧
      GetGridAddress g2 u = settledAddress g M u ∧
      (g2.heap u).TileState = ETileState.ETS_Normal) ∧
    (∀ a u, GetTileFromGridAddress g2 a = some u →
      OnBoard g u ∧ u ∉ M ∧ a = settledAddress g M u) ∧
    (∀ c j : Int, 0 ≤ c → c < g.GridWidth → 0 ≤ j → j < g.GridHeight →
      (GetTileFromGridAddress g2 (c + j * g.GridWidth) ≠ none ↔
        j < (survivorsBelow g M c g.GridHeight.toNat : Int)))

/-- The board while the landing callbacks are delivered, for the grid `g2` on which the falls
were requested, the landing address `S` of every tile, the falling set `F` of `g2` and the
list `D` of the tiles that have landed: a tile that has landed is in the slot of its landing
address, with that address and state normal; another slot is empty when the tile that it
held in `g2` has landed, and as in `g2` otherwise; the tiles that have not landed are as in
`g2`, and the falling set holds the tiles of `F` that have not landed. -/
def landedBoard (g2 : AGrid) (S : TilePtr → Int) (F D : List TilePtr) (gs : AGrid) : Prop :=
  gs.GridWidth = g2.GridWidth ∧ gs.GridHeight = g2.GridHeight ∧
    gs.GameTiles.length = g2.GameTiles.length ∧
    (∀ u ∈ D, u ∈ F) ∧
    (∀ u ∈ D, GetTileFromGridAddress gs (S u) = some u) ∧
    (∀ a, (∀ u ∈ D, S u ≠ a) → GetTileFromGridAddress gs a =
      match GetTileFromGridAddress g2 a with
      | some v => if v ∈ D then none else some v
      | none => none) ∧
    (∀ u ∈ D, gs.heap u =
      { g2.heap u with GridAddress := S u, TileState := ETileState.ETS_Normal }) ∧
    (∀ u, u ∉ D → gs.heap u = g2.heap u) ∧
    gs.FallingTiles.Nodup ∧ (∀ u, u ∈ gs.FallingTiles ↔ u ∈ F ∧ u ∉ D)

/-- The tile of column `c` and row `r` does not complete a run backwards: neither the
`MinimumRunLength - 1` cells below it nor the `MinimumRunLength - 1` cells to its left all
hold its type, on a board whose cell of column `c2` and row `r2` holds the tile
`N0 + (c2 * GridHeight + r2)`, as the board that `InitGrid` fills column by column with the
tiles created from `N0` on. -/
def noRunBack (g : AGrid) (N0 : TilePtr) (c r : Nat) : Prop :=
  ¬ (g.MinimumRunLength - 1 ≤ (r : Int) ∧
      ∀ k : Nat, 1 ≤ k → (k : Int) < g.MinimumRunLength →
        (g.heap (N0 + (c * g.GridHeight.toNat + (r - k)))).TileTypeID =
          (g.heap (N0 + (c * g.GridHeight.toNat + r))).TileTypeID) ∧
    ¬ (g.MinimumRunLength - 1 ≤ (c : Int) ∧
      ∀ k : Nat, 1 ≤ k → (k : Int) < g.MinimumRunLength →
        (g.heap (N0 + ((c - k) * g.GridHeight.toNat + r))).TileTypeID =
          (g.heap (N0 + (c * g.GridHeight.toNat + r))).TileTypeID)

/-- The grid while `InitGrid` fills it, after `i` cells: the dimensions are `W`, `H` and `R`,
the cells are filled column by column from the bottom of each column, the cell number `j`
below `i` holds the tile `N0 + j` with the address of the cell, no other slot holds a tile,
and no tile completes a run backwards. -/
def filledTo (W H R : Int) (N0 : TilePtr) (i : Nat) (g : AGrid) : Prop :=
  g.GridWidth = W ∧ g.GridHeight = H ∧ g.MinimumRunLength = R ∧
    (g.GameTiles.length : Int) = W * H ∧
    (∀ c r : Nat, (r : Int) < H → c * H.toNat + r < i →
      GetTileFromGridAddress g ((c : Int) + (r : Int) * W) = some (N0 + (c * H.toNat + r)) ∧
      GetGridAddress g (N0 + (c * H.toNat + r)) = (c : Int) + (r : Int) * W) ∧
    (∀ (a : Int) (p : TilePtr), GetTileFromGridAddress g a = some p →
      ∃ c r : Nat, (r : Int) < H ∧ c * H.toNat + r < i ∧
        a = (c : Int) + (r : Int) * W ∧ p = N0 + (c * H.toNat + r)) ∧
    (∀ c r : Nat, (r : Int) < H → c * H.toNat + r < i → noRunBack g N0 c r)

/-- The grid `g'` differs from `g` at most in what the slots of the board hold and in the
landing addresses kept in the tiles; the board has as many slots. -/
def sameButSlots (g g' : AGrid) : Prop :=
  g'.GridWidth = g.GridWidth ∧ g'.GridHeight = g.GridHeight ∧
    g'.MinimumRunLength = g.MinimumRunLength ∧ g'.GameTiles.length = g.GameTiles.length ∧
    g'.CurrentlySelectedTile = g.CurrentlySelectedTile ∧
    g'.LastLegalMatch = g.LastLegalMatch ∧ g'.FallingTiles = g.FallingTiles ∧
    g'.SwappingTiles = g.SwappingTiles ∧
    g'.TilesToCheck = g.TilesToCheck ∧ g'.TilesBeingDestroyed = g.TilesBeingDestroyed ∧
    g'.LastMoves = g.LastMoves ∧ g'.bPendingSwapMove = g.bPendingSwapMove ∧
    g'.bPendingSwapMoveSuccess = g.bPendingSwapMoveSuccess ∧
    ∀ t : TilePtr, (g'.heap t).TileTypeID = (g.heap t).TileTypeID ∧
      (g'.heap t).TileState = (g.heap t).TileState ∧
      (g'.heap t).Abilities = (g.heap t).Abilities ∧
      (g'.heap t).GridAddress = (g.heap t).GridAddress

/-- The world `w'` has the tile library, the game mode, the player controller, the score
multiplier, the random values and the next tile pointer of `w`. -/
def sameAround (w w' : UWorld) : Prop :=
  w'.TileLibrary = w.TileLibrary ∧ w'.GameMode = w.GameMode ∧
    w'.PlayerController = w.PlayerController ∧
    w'.ScoreMultiplierForMove = w.ScoreMultiplierForMove ∧
    w'.RandomDraws = w.RandomDraws ∧ w'.RandomCount = w.RandomCount ∧
    w'.NextTile = w.NextTile

/-- The grid address of the tile is an index of the board. -/
def inRange (g : AGrid) (t : TilePtr) : Prop :=
  0 ≤ GetGridAddress g t ∧ GetGridAddress g t < g.GameTiles.length

/-- From `w` to `w'` no points were awarded: the player controller is the same and no
`AwardPlace` was raised; the board has as many slots, and a grid address that was an index of
the board is one. -/
def quietStep (w w' : UWorld) : Prop :=
  w'.PlayerController = w.PlayerController ∧
    w'.Grid.GameTiles.length = w.Grid.GameTiles.length ∧
    (∀ t : TilePtr, inRange w.Grid t → inRange w'.Grid t) ∧
    ∃ E : List FEvent, w'.Events = w.Events ++ E ∧
      ∀ e ∈ E, ∀ p q : Int, e ≠ FEvent.AwardPlace p q

/-! ## Boards used as concrete inputs -/

/-- A fully populated board of plain (swappable, non-exploding) tiles: tile `p` sits at grid
address `p` and has the type listed at position `p`. -/
def plainBoard (W H R : Int) (types : List Int) : AGrid :=
  { GridWidth := W, GridHeight := H, MinimumRunLength := R,
    GameTiles := (List.range types.length).map some,
    heap := fun p =>
      { TileTypeID := types.getD p 0, TileState := ETileState.ETS_Normal,
        Abilities := { bExplodes := false, bPreventSwapping := false, BombPower := 0 },
        GridAddress := p, LandingGridAddress := -1 },
    CurrentlySelectedTile := none, LastLegalMatch := [], FallingTiles := [],
    SwappingTiles := [], TilesToCheck := [], TilesBeingDestroyed := [],
    LastMoves := fun _ => none,
    bPendingSwapMove := false, bPendingSwapMoveSuccess := false }

/-- A 3 x 3 board on which exchanging the tiles at addresses 2 and 5 completes two runs. -/
def board3x3 : AGrid :=
  plainBoard 3 3 3 [1, 1, 2, 2, 2, 1, 3, 4, 5]

/-- A 3 x 3 board whose bottom row is a run of three tiles of one type. -/
def runBoard : AGrid :=
  plainBoard 3 3 3 [1, 1, 1, 2, 3, 4, 5, 6, 7]

/-- A 3 x 3 board of nine different types: no swap completes a run. -/
def deadBoard : AGrid :=
  plainBoard 3 3 3 [1, 2, 3, 4, 5, 6, 7, 8, 9]

/-- A single row of three tiles of three different types. -/
def row3 : AGrid :=
  plainBoard 3 1 2 [1, 2, 3]

/-- A library entry for a plain tile: swappable, not exploding. -/
def plainType : FTileType :=
  { Probability := 1, TileClass := true,
    Abilities := { bExplodes := false, bPreventSwapping := false, BombPower := 0 } }

/-- A library entry for a bomb of power 1. -/
def bombType : FTileType :=
  { Probability := 1 / 2, TileClass := true,
    Abilities := { bExplodes := true, bPreventSwapping := false, BombPower := 1 } }

/-- A library entry for a tile that neither swaps nor explodes. -/
def fixedType : FTileType :=
  { Probability := 1 / 2, TileClass := true,
    Abilities := { bExplodes := false, bPreventSwapping := true, BombPower := 0 } }

/-- A world around a grid: a running game with a local player, the native score multiplier,
and no event raised yet. -/
def worldOf (g : AGrid) (lib : List FTileType) : UWorld :=
  { Grid := g, TileLibrary := lib,
    GameMode := some
      { GameOverTimer := ETimerStatus.Active, RewardIntervals := [1000],
        BronzeScore := 500, SilverScore := 1000, GoldScore := 2000,
        FinalPlace := 0, bGameWillBeWon := false },
    PlayerController := some { Score := 0, ComboPower := 0, MaxComboPower := 5, BombPower := 0 },
    ScoreMultiplierForMove := GetScoreMultiplierForMove_Implementation,
    RandomDraws := fun n => ((n % 7 : Nat) : ℚ) / 7, RandomCount := 0, NextTile := 100,
    Destroyed := [], Events := [] }

/-- The 3 x 3 board in a running game, with a library of ten plain types. -/
def world3x3 : UWorld :=
  worldOf board3x3 (List.replicate 10 plainType)

/-- The 3 x 3 board in a running game with the tile at address 0 selected. -/
def selectedWorld : UWorld :=
  { world3x3 with Grid := { board3x3 with CurrentlySelectedTile := some 0 } }

/-- A 3 x 3 board with a bomb of power 1 in the centre. -/
def bombBoard : AGrid :=
  { plainBoard 3 3 3 [1, 2, 3, 4, 0, 5, 6, 7, 8] with
    heap := fun p =>
      { TileTypeID := [1, 2, 3, 4, 0, 5, 6, 7, 8].getD p 0, TileState := ETileState.ETS_Normal,
        Abilities :=
          if p = 4 then { bExplodes := true, bPreventSwapping := false, BombPower := 1 }
          else { bExplodes := false, bPreventSwapping := false, BombPower := 0 },
        GridAddress := p, LandingGridAddress := -1 } }

/-- The board with the bomb in a running game; type 0 of the library is the bomb. -/
def bombWorld : UWorld :=
  worldOf bombBoard (bombType :: List.replicate 9 plainType)

/-- A world whose tile library is empty. -/
def emptyLibraryWorld : UWorld :=
  worldOf board3x3 []

/-- A world whose grid has width 0. -/
def zeroWidthWorld : UWorld :=
  worldOf (plainBoard 0 3 3 []) (List.replicate 10 plainType)

/-- The 3 x 3 board after a rejected swap of the tiles at addresses 0 and 1, when the first of
the two swap animations is done. -/
def rejectedSwapWorld : UWorld :=
  { world3x3 with Grid := { board3x3 with
      SwappingTiles := [0], bPendingSwapMove := true, bPendingSwapMoveSuccess := false } }

/-- A world whose library holds a bomb of probability 1/2 and two plain types of probability
1, with the value 3/7 of `FRand` next. -/
def drawWorld : UWorld :=
  { worldOf board3x3 [bombType, plainType, plainType] with RandomCount := 3 }

/-- The board of nine different types in a running game. -/
def deadWorld : UWorld :=
  worldOf deadBoard (List.replicate 10 plainType)

/-- The board whose bottom row is a run, in a running game. -/
def runWorld : UWorld :=
  worldOf runBoard (List.replicate 10 plainType)

/-- The board of nine different types after the tile at address 0 was matched and destroyed:
cell 0 is empty, and the tiles 3 and 6 above it are falling. -/
def fallingWorld : UWorld :=
  { deadWorld with
    Grid := { deadBoard with
      GameTiles := [none, some 1, some 2, some 3, some 4, some 5, some 6, some 7, some 8],
      heap := fun p =>
        { TileTypeID := [1, 2, 3, 4, 5, 6, 7, 8, 9].getD p 0,
          TileState := if p = 3 ∨ p = 6 then ETileState.ETS_Falling
            else if p = 0 then ETileState.ETS_PendingDelete else ETileState.ETS_Normal,
          Abilities := { bExplodes := false, bPreventSwapping := false, BombPower := 0 },
          GridAddress := p, LandingGridAddress := -1 },
      FallingTiles := [3, 6] },
    Destroyed := [0] }

/-- A 3 x 3 board whose top row holds three tiles of one type, the last of them, at address 8,
respawned and on its way down to its own cell: it is falling and to be checked. -/
def landingWorld : UWorld :=
  { deadWorld with
    Grid := { plainBoard 3 3 3 [2, 3, 4, 5, 6, 7, 1, 1, 1] with
      heap := fun p =>
        { TileTypeID := [2, 3, 4, 5, 6, 7, 1, 1, 1].getD p 0,
          TileState := if p = 8 then ETileState.ETS_Falling else ETileState.ETS_Normal,
          Abilities := { bExplodes := false, bPreventSwapping := false, BombPower := 0 },
          GridAddress := p, LandingGridAddress := if p = 8 then 8 else -1 },
      FallingTiles := [8], TilesToCheck := [8] } }

/-- The board whose bottom row is a run, in a running game, with the tile at address 2 to be
checked. -/
def checkWorld : UWorld :=
  { runWorld with Grid := { runBoard with TilesToCheck := [2] } }

/-- The board of nine different types with the top cell of the first column, at address 6,
empty, in a running game. -/
def respawnWorld : UWorld :=
  { deadWorld with
    Grid := { deadBoard with
      GameTiles := [some 0, some 1, some 2, some 3, some 4, some 5, none, some 7, some 8] } }

/-- A 2 x 2 grid with minimum run length 2 before its initialisation, in a running game with
a library of two plain types and the random values 0, except the values number 3 and 5,
which are 1. -/
def initWorld : UWorld :=
  { worldOf (plainBoard 2 2 2 []) [plainType, plainType] with
    RandomDraws := fun n => if n = 3 ∨ n = 5 then 1 else 0 }

/-- The board of nine types while `ExecuteMatch` runs on the tile at address 6, the top of
the first column, at the moment the completion of that tile reaches the respawn: the tile is
scored, has left its slot and is destroyed, and no tile is falling. -/
def topMatchWorld : UWorld :=
  { deadWorld with
    Grid := { SetTileState deadBoard 6 ETileState.ETS_PendingDelete with
      GameTiles := [some 0, some 1, some 2, some 3, some 4, some 5, none, some 7, some 8] },
    GameMode := some
      { GameOverTimer := ETimerStatus.Paused, RewardIntervals := [1000],
        BronzeScore := 500, SilverScore := 1000, GoldScore := 2000,
        FinalPlace := 0, bGameWillBeWon := false },
    PlayerController := some
      { Score := 100, ComboPower := 0, MaxComboPower := 5, BombPower := 0 },
    Destroyed := [6],
    Events := [FEvent.OnMoveMade EMatch3MoveType.MT_None, FEvent.AwardPlace 0 100,
      FEvent.OnMatched 6 EMatch3MoveType.MT_None] }

/-- The board of nine different types with the cell at address 0 empty, nothing falling and
nothing being destroyed, in a running game. -/
def cornerWorld : UWorld :=
  { deadWorld with
    Grid := { deadBoard with
      GameTiles := [none, some 1, some 2, some 3, some 4, some 5, some 6, some 7, some 8] } }

/-! ## Grid addressing: lemmas -/

theorem Clamp_ne_iff (v n : Int) : (v ≠ FMath.Clamp v 0 (n - 1)) ↔ ¬ (0 ≤ v ∧ v < n) := by
  unfold FMath.Clamp
  split_ifs <;> constructor <;> intro h <;> omega

theorem coords_of_valid (W H base : Int) (hW : 0 < W) (h0 : 0 ≤ base) (h1 : base < W * H) :
    0 ≤ base / W ∧ base / W < H ∧ 0 ≤ base % W ∧ base % W < W ∧
      base % W + W * (base / W) = base := by
  have hc0 := Int.emod_nonneg base (ne_of_gt hW)
  have hc1 := Int.emod_lt_of_pos base hW
  have hd := Int.emod_add_ediv base W
  have hr0 : 0 ≤ base / W := Int.ediv_nonneg h0 (le_of_lt hW)
  refine ⟨hr0, ?_, hc0, hc1, hd⟩
  by_contra hcon
  have h2 : H ≤ base / W := by omega
  have h3 : W * H ≤ W * (base / W) := Int.mul_le_mul_of_nonneg_left h2 (le_of_lt hW)
  omega

/-- On a valid base address the offset computation never trips a `check`, and it succeeds
exactly when the new column and row are on the grid. -/
theorem offset_eq (g : AGrid) (base dx dy : Int) (hW : 0 < g.GridWidth)
    (h0 : 0 ≤ base) (h1 : base < g.GridWidth * g.GridHeight) :
    GetGridAddressWithOffset g base dx dy =
      if 0 ≤ base % g.GridWidth + dx ∧ base % g.GridWidth + dx < g.GridWidth ∧
          0 ≤ base / g.GridWidth + dy ∧ base / g.GridWidth + dy < g.GridHeight then
        some (true, base + dx + dy * g.GridWidth)
      else some (false, -1) := by
  obtain ⟨hr0, hr1, hc0, hc1, hd⟩ := coords_of_valid g.GridWidth g.GridHeight base hW h0 h1
  have htm : Int.tmod base g.GridWidth = base % g.GridWidth := Int.tmod_eq_emod h0 (le_of_lt hW)
  have htd : Int.tdiv base g.GridWidth = base / g.GridWidth := Int.tdiv_eq_ediv h0 (le_of_lt hW)
  unfold GetGridAddressWithOffset
  simp only [htm, htd, Clamp_ne_iff]
  by_cases hx : 0 ≤ base % g.GridWidth + dx ∧ base % g.GridWidth + dx < g.GridWidth
  · by_cases hy : 0 ≤ base / g.GridWidth + dy ∧ base / g.GridWidth + dy < g.GridHeight
    · have hlo : 0 ≤ g.GridWidth * (base / g.GridWidth + dy) :=
        Int.mul_nonneg (le_of_lt hW) hy.1
      have hhi : g.GridWidth * (base / g.GridWidth + dy + 1) ≤ g.GridWidth * g.GridHeight :=
        Int.mul_le_mul_of_nonneg_left (by omega) (le_of_lt hW)
      rw [mul_add, mul_one] at hhi
      rw [mul_add, mul_comm g.GridWidth dy] at hlo hhi
      have hge : base + dx + dy * g.GridWidth ≥ 0 := by omega
      have hlt : base + dx + dy * g.GridWidth < g.GridWidth * g.GridHeight := by omega
      simp [hW, hx, hy, hge, hlt]
    · have hn : ¬ (0 ≤ base % g.GridWidth + dx ∧ base % g.GridWidth + dx < g.GridWidth ∧
          0 ≤ base / g.GridWidth + dy ∧ base / g.GridWidth + dy < g.GridHeight) := by tauto
      simp [hW, hx, hy, hn]
  · have hn : ¬ (0 ≤ base % g.GridWidth + dx ∧ base % g.GridWidth + dx < g.GridWidth ∧
        0 ≤ base / g.GridWidth + dy ∧ base / g.GridWidth + dy < g.GridHeight) := by tauto
    simp [hW, hx, hn]

/-! ## The concrete boards: lemmas -/

theorem plainBoard_slot (W H R : Int) (types : List Int) (a : Int) (t : TilePtr)
    (h : GetTileFromGridAddress (plainBoard W H R types) a = some t) :
    (t : Int) = a ∧ t < types.length := by
  unfold GetTileFromGridAddress plainBoard at h
  simp only at h
  split_ifs at h with hr
  simp only [List.length_map, List.length_range] at hr
  have hlt : a.toNat < types.length := by omega
  rw [List.getElem?_map, List.getElem?_range hlt] at h
  simp only [Option.map_some', Option.getD_some, Option.some.injEq] at h
  subst h
  exact ⟨Int.toNat_of_nonneg hr.1, hlt⟩

theorem plainBoard_consistent (W H R : Int) (types : List Int) :
    Consistent (plainBoard W H R types) := by
  intro a t h
  have := plainBoard_slot W H R types a t h
  unfold GetGridAddress plainBoard
  simp only
  exact this.1

theorem plainBoard_get (W H R : Int) (types : List Int) (p : Nat) (hp : p < types.length) :
    GetTileFromGridAddress (plainBoard W H R types) (p : Int) = some p := by
  unfold GetTileFromGridAddress plainBoard
  simp only [List.length_map, List.length_range]
  rw [if_pos ⟨by omega, by omega⟩]
  simp [List.getElem?_range, hp]

theorem plainBoard_onBoard (W H R : Int) (types : List Int) (p : Nat) (hp : p < types.length) :
    OnBoard (plainBoard W H R types) p := by
  unfold OnBoard
  have e : GetGridAddress (plainBoard W H R types) p = (p : Int) := rfl
  rw [e]
  exact plainBoard_get W H R types p hp

theorem plainBoard_full (W H R : Int) (types : List Int)
    (hlen : (types.length : Int) = W * H) : FullyPopulated (plainBoard W H R types) := by
  intro a ha
  have hW : (plainBoard W H R types).GridWidth * (plainBoard W H R types).GridHeight = W * H :=
    rfl
  unfold ValidAddress at ha
  rw [hW] at ha
  have e : a = ((a.toNat : Nat) : Int) := by omega
  rw [e, plainBoard_get W H R types a.toNat (by omega)]
  simp

theorem plainBoard_wellFormed (W H R : Int) (types : List Int) (hW : 0 < W) (hH : 0 < H)
    (hlen : (types.length : Int) = W * H) : WellFormed (plainBoard W H R types) := by
  refine ⟨hW, hH, ?_⟩
  unfold plainBoard
  simpa using hlen

/-! ## Claims on grid addressing -/

/-- C9: on a grid with W > 0 and a base address in [0, W*H) (so that H > 0 as well) with
column c and row r, the offset computation succeeds exactly when 0 <= c+dx < W and
0 <= r+dy < H; it then returns (c+dx) + (r+dy)*W; otherwise it reports failure with the
sentinel -1; the zero offset returns the base address itself. -/
theorem GetGridAddressWithOffset_spec (g : AGrid) (base dx dy : Int)
    (hW : 0 < g.GridWidth) (hbase : ValidAddress g base) :
    ((∃ a, GetGridAddressWithOffset g base dx dy = some (true, a)) ↔
        (0 ≤ colOf g base + dx ∧ colOf g base + dx < g.GridWidth ∧
          0 ≤ rowOf g base + dy ∧ rowOf g base + dy < g.GridHeight)) ∧
    ((0 ≤ colOf g base + dx ∧ colOf g base + dx < g.GridWidth ∧
          0 ≤ rowOf g base + dy ∧ rowOf g base + dy < g.GridHeight) →
        GetGridAddressWithOffset g base dx dy =
          some (true, (colOf g base + dx) + (rowOf g base + dy) * g.GridWidth)) ∧
    (¬ (0 ≤ colOf g base + dx ∧ colOf g base + dx < g.GridWidth ∧
          0 ≤ rowOf g base + dy ∧ rowOf g base + dy < g.GridHeight) →
        GetGridAddressWithOffset g base dx dy = some (false, -1)) ∧
    GetGridAddressWithOffset g base 0 0 = some (true, base) := by
  obtain ⟨h0, h1⟩ := hbase
  obtain ⟨hr0, hr1, hc0, hc1, hd⟩ := coords_of_valid g.GridWidth g.GridHeight base hW h0 h1
  unfold colOf rowOf
  refine ⟨?_, ?_, ?_, ?_⟩
  · rw [offset_eq g base dx dy hW h0 h1]
    constructor
    · rintro ⟨a, ha⟩
      by_contra hn
      simp [hn] at ha
    · intro hc
      exact ⟨_, by rw [if_pos hc]⟩
  · intro hc
    rw [offset_eq g base dx dy hW h0 h1, if_pos hc]
    have e : base + dx + dy * g.GridWidth
        = base % g.GridWidth + dx + (base / g.GridWidth + dy) * g.GridWidth := by
      rw [add_mul, mul_comm (base / g.GridWidth) g.GridWidth]; omega
    rw [e]
  · intro hn
    rw [offset_eq g base dx dy hW h0 h1, if_neg hn]
  · rw [offset_eq g base 0 0 hW h0 h1]
    have hc : 0 ≤ base % g.GridWidth + 0 ∧ base % g.GridWidth + 0 < g.GridWidth ∧
        0 ≤ base / g.GridWidth + 0 ∧ base / g.GridWidth + 0 < g.GridHeight := by
      refine ⟨?_, ?_, ?_, ?_⟩ <;> omega
    rw [if_pos hc]; simp

/-- C9 at the centre of the 3 x 3 board, one step right and one step up. -/
theorem GetGridAddressWithOffset_spec_witness :
    ((∃ a, GetGridAddressWithOffset board3x3 4 1 1 = some (true, a)) ↔
        (0 ≤ colOf board3x3 4 + 1 ∧ colOf board3x3 4 + 1 < board3x3.GridWidth ∧
          0 ≤ rowOf board3x3 4 + 1 ∧ rowOf board3x3 4 + 1 < board3x3.GridHeight)) ∧
    ((0 ≤ colOf board3x3 4 + 1 ∧ colOf board3x3 4 + 1 < board3x3.GridWidth ∧
          0 ≤ rowOf board3x3 4 + 1 ∧ rowOf board3x3 4 + 1 < board3x3.GridHeight) →
        GetGridAddressWithOffset board3x3 4 1 1 =
          some (true, (colOf board3x3 4 + 1) + (rowOf board3x3 4 + 1) * board3x3.GridWidth)) ∧
    (¬ (0 ≤ colOf board3x3 4 + 1 ∧ colOf board3x3 4 + 1 < board3x3.GridWidth ∧
          0 ≤ rowOf board3x3 4 + 1 ∧ rowOf board3x3 4 + 1 < board3x3.GridHeight) →
        GetGridAddressWithOffset board3x3 4 1 1 = some (false, -1)) ∧
    GetGridAddressWithOffset board3x3 4 0 0 = some (true, 4) :=
  GetGridAddressWithOffset_spec board3x3 4 1 1 (by decide) ⟨by decide, by decide⟩

/-- C10: on a grid with W > 0 the neighbour test is symmetric, and no address is its own
neighbour. -/
theorem AreAddressesNeighbors_symm_irrefl (g : AGrid) (a b : Int) (hW : 0 < g.GridWidth) :
    AreAddressesNeighbors g a b = AreAddressesNeighbors g b a ∧
      AreAddressesNeighbors g a a = false := by
  constructor
  · have hmin : FMath.Min a b = FMath.Min b a := by
      unfold FMath.Min; split_ifs <;> omega
    have hmax : FMath.Max a b = FMath.Max b a := by
      unfold FMath.Max; split_ifs <;> omega
    have habs : FMath.Abs (a - b) = FMath.Abs (b - a) := by
      unfold FMath.Abs; split_ifs <;> omega
    unfold AreAddressesNeighbors
    rw [hmin, hmax, habs]
  · have habs : FMath.Abs (a - a) = 0 := by
      unfold FMath.Abs; split_ifs <;> omega
    unfold AreAddressesNeighbors
    rw [habs]
    split_ifs
    · simp only [decide_eq_false_iff_not]
      omega
    · rfl

/-- C10 on the 3 x 3 board, at the addresses 1 and 2. -/
theorem AreAddressesNeighbors_symm_irrefl_witness :
    AreAddressesNeighbors board3x3 1 2 = AreAddressesNeighbors board3x3 2 1 ∧
      AreAddressesNeighbors board3x3 1 1 = false :=
  AreAddressesNeighbors_symm_irrefl board3x3 1 2 (by decide)

/-! ## Claims settled by the special cases and the guards -/

/-- C8: whatever the board, the tile and the matching mode, a run length of 0 yields the empty
list and a run length of 1 yields exactly the list holding the starting tile. -/
theorem FindNeighbors_trivial_lengths (g : AGrid) (t : TilePtr) (bMustMatchID : Bool) :
    FindNeighbors g t bMustMatchID 0 = some [] ∧
      FindNeighbors g t bMustMatchID 1 = some [t] := by
  constructor <;> simp [FindNeighbors]

/-- C2: the legality test answers false, and changes nothing, when a tile is null, when both
arguments are the same tile, when one of the tiles explodes or has swapping prevented, when both
have the same type id, or when their grid addresses are not neighbours. -/
theorem IsMoveLegal_false_of_guard (g : AGrid) (A B : Option TilePtr)
    (h : A = none ∨ B = none ∨ A = B ∨
      (∃ a, A = some a ∧
        ((g.heap a).Abilities.bExplodes = true ∨ (g.heap a).Abilities.bPreventSwapping = true)) ∨
      (∃ b, B = some b ∧
        ((g.heap b).Abilities.bExplodes = true ∨ (g.heap b).Abilities.bPreventSwapping = true)) ∨
      (∃ a b, A = some a ∧ B = some b ∧ (g.heap a).TileTypeID = (g.heap b).TileTypeID) ∨
      (∃ a b, A = some a ∧ B = some b ∧
        AreAddressesNeighbors g (GetGridAddress g a) (GetGridAddress g b) = false)) :
    IsMoveLegal g A B = some (false, g) := by
  cases A with
  | none => rfl
  | some a =>
    cases B with
    | none => rfl
    | some b =>
      have hfalse : ∀ (c : Prop) [Decidable c] (x : Option (Bool × AGrid)),
          ¬ c → (if c then x else some (false, g)) = some (false, g) := by
        intro c _ x hc
        rw [if_neg hc]
      simp only [IsMoveLegal]
      rcases h with h | h | h | ⟨a', ha, h⟩ | ⟨b', hb, h⟩ | ⟨a', b', ha, hb, h⟩ |
        ⟨a', b', ha, hb, h⟩
      · cases h
      · cases h
      · cases h
        rw [if_neg (by simp)]
      · cases ha
        rw [if_neg]
        rintro ⟨_, hs, _⟩
        unfold FTileAbilities.CanSwap at hs
        rcases h with h | h <;> simp [h] at hs
      · cases hb
        rw [if_neg]
        rintro ⟨_, _, hs⟩
        unfold FTileAbilities.CanSwap at hs
        rcases h with h | h <;> simp [h] at hs
      · cases ha; cases hb
        split_ifs with h1 h2
        · exact absurd h h2.1
        · rfl
        · rfl
      · cases ha; cases hb
        split_ifs with h1 h2
        · rw [h] at h2; exact absurd h2.2 (by simp)
        · rfl
        · rfl

/-- C2 on the 3 x 3 board: the tiles at addresses 0 and 1 have the same type id. -/
theorem IsMoveLegal_false_of_guard_witness :
    IsMoveLegal board3x3 (some 0) (some 1) = some (false, board3x3) :=
  IsMoveLegal_false_of_guard board3x3 (some 0) (some 1)
    (Or.inr (Or.inr (Or.inr (Or.inr (Or.inr (Or.inl ⟨0, 1, rfl, rfl, by decide⟩))))))

/-! ## Run detection: lemmas on the walks -/

/-- The offset probe of the walk, in terms of the cells of the line through the tile. -/
theorem probe_eq (g : AGrid) (t : TilePtr) (hz : Bool) (d j : Int) (hW : 0 < g.GridWidth)
    (hv : ValidAddress g (GetGridAddress g t)) :
    GetGridAddressWithOffset g (GetGridAddress g t)
        (d * (if hz then j else 0)) (d * (if hz then 0 else j)) =
      if lineOnGrid g t hz (d * j) then
        some (true, lineCol g t hz (d * j) + lineRow g t hz (d * j) * g.GridWidth)
      else some (false, -1) := by
  obtain ⟨h0, h1⟩ := hv
  obtain ⟨hr0, hr1, hc0, hc1, hd⟩ :=
    coords_of_valid g.GridWidth g.GridHeight (GetGridAddress g t) hW h0 h1
  rw [offset_eq g _ _ _ hW h0 h1]
  unfold lineOnGrid lineCol lineRow colOf rowOf
  cases hz
  · simp only [Bool.false_eq_true, if_false, mul_zero, add_zero]
    split_ifs
    · congr 2
      rw [add_mul, mul_comm ((GetGridAddress g t) / g.GridWidth) g.GridWidth]; omega
    · rfl
  · simp only [if_true, mul_zero, add_zero]
    split_ifs
    · congr 2
      rw [mul_comm ((GetGridAddress g t) / g.GridWidth) g.GridWidth]; omega
    · rfl

theorem lineOnGrid_zero (g : AGrid) (t : TilePtr) (hz : Bool) (hW : 0 < g.GridWidth)
    (hv : ValidAddress g (GetGridAddress g t)) : lineOnGrid g t hz 0 := by
  obtain ⟨h0, h1⟩ := hv
  obtain ⟨hr0, hr1, hc0, hc1, hd⟩ :=
    coords_of_valid g.GridWidth g.GridHeight (GetGridAddress g t) hW h0 h1
  unfold lineOnGrid lineCol lineRow colOf rowOf
  cases hz <;> simp <;> omega

/-- Going further from the tile's cell never comes back onto the grid. -/
theorem lineOnGrid_mono (g : AGrid) (t : TilePtr) (hz : Bool) (d j j' : Int)
    (hd : d = 1 ∨ d = -1) (hj : 0 ≤ j) (hjj : j ≤ j')
    (h : lineOnGrid g t hz (d * j')) (h0 : lineOnGrid g t hz 0) : lineOnGrid g t hz (d * j) := by
  unfold lineOnGrid lineCol lineRow at *
  rcases hd with rfl | rfl <;> cases hz <;> simp at * <;> omega

theorem walk_offgrid (g : AGrid) (t : TilePtr) (must hz : Bool) (d : Int)
    (hW : 0 < g.GridWidth) (hv : ValidAddress g (GetGridAddress g t))
    (hd : d = 1 ∨ d = -1) :
    ∀ (n : Nat) (off : Int) (acc : List TilePtr), 0 ≤ off → ¬ lineOnGrid g t hz (d * off) →
      FindNeighbors_walk g t must hz d n off acc = some acc := by
  intro n
  induction n with
  | zero => intro off acc _ _; rfl
  | succ n ih =>
    intro off acc hoff hng
    rw [FindNeighbors_walk, probe_eq g t hz d off hW hv, if_neg hng]
    simp only
    apply ih (off + 1) acc (by omega)
    intro hcon
    exact hng (lineOnGrid_mono g t hz d off (off + 1) hd hoff (by omega) hcon
      (lineOnGrid_zero g t hz hW hv))

theorem walk_spec (g : AGrid) (t : TilePtr) (must hz : Bool) (d : Int)
    (hW : 0 < g.GridWidth) (hv : ValidAddress g (GetGridAddress g t))
    (hd : d = 1 ∨ d = -1) :
    ∀ (n : Nat) (off : Int) (acc : List TilePtr), 0 ≤ off →
      ∃ ts : List TilePtr, FindNeighbors_walk g t must hz d n off acc = some (acc ++ ts) ∧
        ts.length ≤ n ∧
        (∀ i : Nat, i < ts.length →
          lineTile g t hz (d * (off + i)) = ts[i]? ∧
          ∃ x, ts[i]? = some x ∧ accepted g t must x) ∧
        (ts.length < n → ¬ ∃ x, lineTile g t hz (d * (off + ts.length)) = some x ∧
          accepted g t must x) := by
  intro n
  induction n with
  | zero =>
    intro off acc _
    exact ⟨[], by simp [FindNeighbors_walk], by simp, by simp, by simp⟩
  | succ n ih =>
    intro off acc hoff
    rw [FindNeighbors_walk, probe_eq g t hz d off hW hv]
    by_cases hon : lineOnGrid g t hz (d * off)
    · rw [if_pos hon]
      simp only
      have hlt : lineTile g t hz (d * off) = GetTileFromGridAddress g
          (lineCol g t hz (d * off) + lineRow g t hz (d * off) * g.GridWidth) := by
        unfold lineTile; rw [if_pos hon]
      rw [← hlt]
      cases hx : lineTile g t hz (d * off) with
      | none =>
        refine ⟨[], by simp, by simp, by simp, ?_⟩
        intro _
        simp [hx]
      | some x =>
        simp only
        by_cases hacc : accepted g t must x
        · have hcond : (!must || decide ((g.heap x).TileTypeID = (g.heap t).TileTypeID)) = true := by
            rcases hacc with h | h <;> simp [h]
          rw [if_pos hcond]
          obtain ⟨ts, hts, hlen, hall, hstop⟩ := ih (off + 1) (acc ++ [x]) (by omega)
          refine ⟨x :: ts, by simp [hts], by simp; omega, ?_, ?_⟩
          · intro i hi
            cases i with
            | zero => simp [hx, hacc]
            | succ i =>
              have := hall i (by simpa using hi)
              simp only [List.getElem?_cons_succ]
              have e : off + ((i + 1 : Nat) : Int) = off + 1 + (i : Int) := by push_cast; ring
              rw [e]; exact this
          · intro hl
            have := hstop (by simpa using hl)
            have e : off + ((x :: ts).length : Int) = off + 1 + (ts.length : Int) := by
              simp; ring
            rw [e]; exact this
        · have hcond : ¬ ((!must || decide ((g.heap x).TileTypeID = (g.heap t).TileTypeID)) = true) := by
            intro hc
            apply hacc
            unfold accepted
            cases must <;> simp at hc ⊢
            exact hc
          rw [if_neg hcond]
          refine ⟨[], by simp, by simp, by simp, ?_⟩
          intro _
          simp [hx, hacc]
    · rw [if_neg hon]
      simp only
      rw [walk_offgrid g t must hz d hW hv hd n (off + 1) acc (by omega)]
      · refine ⟨[], by simp, by simp, by simp, ?_⟩
        intro _
        simp [lineTile, hon]
      · intro hcon
        exact hon (lineOnGrid_mono g t hz d off (off + 1) hd hoff (by omega) hcon
          (lineOnGrid_zero g t hz hW hv))

theorem walk_isRun (g : AGrid) (t : TilePtr) (must hz : Bool) (d : Int)
    (hW : 0 < g.GridWidth) (hv : ValidAddress g (GetGridAddress g t))
    (hd : d = 1 ∨ d = -1) (n : Nat) (acc : List TilePtr) :
    ∃ ts : List TilePtr, FindNeighbors_walk g t must hz d n 1 acc = some (acc ++ ts) ∧
      IsRun g t must hz d n ts := by
  obtain ⟨ts, h1, h2, h3, h4⟩ := walk_spec g t must hz d hW hv hd n 1 acc (by omega)
  exact ⟨ts, h1, h2, h3, h4⟩

theorem axis_spec (g : AGrid) (t : TilePtr) (must hz : Bool) (R : Int)
    (hW : 0 < g.GridWidth) (hv : ValidAddress g (GetGridAddress g t)) :
    ∃ ts1 ts2 : List TilePtr,
      IsRun g t must hz (-1) (walkSteps g must R hz) ts1 ∧
      IsRun g t must hz 1 (walkSteps g must R hz) ts2 ∧
      FindNeighbors_axis g t must R hz = some (keptOnAxis g must R hz (ts1 ++ ts2)) := by
  obtain ⟨ts1, e1, r1⟩ :=
    walk_isRun g t must hz (-1) hW hv (Or.inr rfl) (walkSteps g must R hz) []
  obtain ⟨ts2, e2, r2⟩ :=
    walk_isRun g t must hz 1 hW hv (Or.inl rfl) (walkSteps g must R hz) ts1
  refine ⟨ts1, ts2, r1, r2, ?_⟩
  unfold walkSteps at e1 e2
  simp only [List.nil_append] at e1
  unfold FindNeighbors_axis keptOnAxis
  simp only [e1, e2]
  split_ifs <;> rfl

/-- The result of `FindNeighbors` for a run length other than 0 and 1, from the four walks. -/
theorem FindNeighbors_spec (g : AGrid) (t : TilePtr) (must : Bool) (R : Int)
    (hW : 0 < g.GridWidth) (hv : ValidAddress g (GetGridAddress g t))
    (hR : 2 ≤ R) :
    ∃ v1 v2 h1 h2 : List TilePtr,
      IsRun g t must false (-1) (walkSteps g must R false) v1 ∧
      IsRun g t must false 1 (walkSteps g must R false) v2 ∧
      IsRun g t must true (-1) (walkSteps g must R true) h1 ∧
      IsRun g t must true 1 (walkSteps g must R true) h2 ∧
      FindNeighbors g t must R = some
        (if decide ((keptOnAxis g must R false (v1 ++ v2) ++
              keptOnAxis g must R true (h1 ++ h2)).length > 0) || !must then
          keptOnAxis g must R false (v1 ++ v2) ++ keptOnAxis g must R true (h1 ++ h2) ++ [t]
        else
          keptOnAxis g must R false (v1 ++ v2) ++ keptOnAxis g must R true (h1 ++ h2)) := by
  obtain ⟨v1, v2, rv1, rv2, ev⟩ := axis_spec g t must false R hW hv
  obtain ⟨h1, h2, rh1, rh2, eh⟩ := axis_spec g t must true R hW hv
  refine ⟨v1, v2, h1, h2, rv1, rv2, rh1, rh2, ?_⟩
  unfold FindNeighbors
  have hn : ¬ R < 0 := by omega
  have hR0 : ¬ R = 0 := by omega
  have hR1 : ¬ R = 1 := by omega
  simp only [hn, hR0, hR1, if_false, ev, eh]
  split_ifs <;> rfl

/-! ## Run detection: from the walks to segments -/

theorem valid_of_onBoard (g : AGrid) (t : TilePtr) (hwf : WellFormed g) (hon : OnBoard g t) :
    ValidAddress g (GetGridAddress g t) := by
  obtain ⟨_, _, hlen⟩ := hwf
  unfold OnBoard GetTileFromGridAddress at hon
  unfold ValidAddress
  split_ifs at hon with h
  rw [← hlen]
  exact h

theorem lineAddress_zero (g : AGrid) (t : TilePtr) (hz : Bool) (hW : 0 < g.GridWidth)
    (hv : ValidAddress g (GetGridAddress g t)) :
    lineCol g t hz 0 + lineRow g t hz 0 * g.GridWidth = GetGridAddress g t := by
  obtain ⟨h0, h1⟩ := hv
  obtain ⟨hr0, hr1, hc0, hc1, hd⟩ :=
    coords_of_valid g.GridWidth g.GridHeight (GetGridAddress g t) hW h0 h1
  unfold lineCol lineRow colOf rowOf
  rw [mul_comm] at hd
  cases hz <;> simp <;> omega

theorem lineTile_zero (g : AGrid) (t : TilePtr) (hz : Bool) (hwf : WellFormed g)
    (hon : OnBoard g t) : lineTile g t hz 0 = some t := by
  have hv := valid_of_onBoard g t hwf hon
  unfold lineTile
  rw [if_pos (lineOnGrid_zero g t hz hwf.1 hv), lineAddress_zero g t hz hwf.1 hv]
  exact hon

theorem not_lineOnGrid_far (g : AGrid) (t : TilePtr) (hz : Bool) (k : Int)
    (hW : 0 < g.GridWidth) (hv : ValidAddress g (GetGridAddress g t))
    (hk : axisExtent g hz ≤ k ∨ k ≤ -axisExtent g hz) : ¬ lineOnGrid g t hz k := by
  obtain ⟨h0, h1⟩ := hv
  obtain ⟨hr0, hr1, hc0, hc1, hd⟩ :=
    coords_of_valid g.GridWidth g.GridHeight (GetGridAddress g t) hW h0 h1
  unfold lineOnGrid lineCol lineRow colOf rowOf
  unfold axisExtent at hk
  cases hz <;> simp at hk ⊢ <;> omega

theorem lineTile_none_of_not_onGrid (g : AGrid) (t : TilePtr) (hz : Bool) (k : Int)
    (h : ¬ lineOnGrid g t hz k) : lineTile g t hz k = none := by
  unfold lineTile; rw [if_neg h]

theorem IsRun_mem (g : AGrid) (t : TilePtr) (must hz : Bool) (d : Int) (n : Nat)
    (ts : List TilePtr) (hr : IsRun g t must hz d n ts) (x : TilePtr) :
    x ∈ ts ↔ ∃ i : Nat, i < ts.length ∧ lineTile g t hz (d * (1 + (i : Int))) = some x := by
  constructor
  · intro hx
    obtain ⟨i, hi⟩ := List.mem_iff_getElem?.mp hx
    have hlt : i < ts.length := by
      by_contra hcon
      rw [List.getElem?_eq_none (by omega)] at hi
      cases hi
    exact ⟨i, hlt, by rw [(hr.2.1 i hlt).1, hi]⟩
  · rintro ⟨i, hlt, hi⟩
    rw [(hr.2.1 i hlt).1] at hi
    exact List.mem_iff_getElem?.mpr ⟨i, hi⟩

/-- In matching mode the two walks on an axis delimit the maximal segment through the tile. -/
theorem IsMaximalSegment_of_runs (g : AGrid) (t : TilePtr) (hz : Bool) (R : Int)
    (ts1 ts2 : List TilePtr) (hwf : WellFormed g) (hon : OnBoard g t)
    (r1 : IsRun g t true hz (-1) (walkSteps g true R hz) ts1)
    (r2 : IsRun g t true hz 1 (walkSteps g true R hz) ts2) :
    IsMaximalSegment g t hz ts1.length ts2.length := by
  have hv := valid_of_onBoard g t hwf hon
  have hext : 1 ≤ axisExtent g hz := by
    unfold axisExtent; cases hz <;> simp <;> have := hwf.1 <;> have := hwf.2.1 <;> omega
  have hsteps : ((walkSteps g true R hz : Nat) : Int) = axisExtent g hz - 1 := by
    unfold walkSteps axisExtent
    simp only [Bool.not_true, Bool.false_eq_true, if_false]
    rw [Int.toNat_of_nonneg]
    unfold axisExtent at hext
    omega
  refine ⟨?_, ?_, ?_⟩
  · intro k hlo hhi
    rcases lt_trichotomy k 0 with hk | hk | hk
    · obtain ⟨hl, x, hx, hacc⟩ := r1.2.1 (-k - 1).toNat (by omega)
      have e : (-1 : Int) * (1 + ((-k - 1).toNat : Int)) = k := by
        rw [Int.toNat_of_nonneg (by omega)]; ring
      rw [e] at hl
      refine ⟨x, by rw [hl, hx], ?_⟩
      rcases hacc with h | h
      · cases h
      · exact h
    · subst hk
      exact ⟨t, lineTile_zero g t hz hwf hon, rfl⟩
    · obtain ⟨hl, x, hx, hacc⟩ := r2.2.1 (k - 1).toNat (by omega)
      have e : (1 : Int) * (1 + ((k - 1).toNat : Int)) = k := by
        rw [Int.toNat_of_nonneg (by omega)]; ring
      rw [e] at hl
      refine ⟨x, by rw [hl, hx], ?_⟩
      rcases hacc with h | h
      · cases h
      · exact h
  · rintro ⟨x, hx, hty⟩
    by_cases hlt : ts1.length < walkSteps g true R hz
    · apply r1.2.2 hlt
      refine ⟨x, ?_, Or.inr hty⟩
      have e : (-1 : Int) * (1 + (ts1.length : Int)) = -((ts1.length : Int) + 1) := by ring
      rw [e]; exact hx
    · have hge : axisExtent g hz ≤ (ts1.length : Int) + 1 := by
        have := r1.1
        omega
      have hoff := not_lineOnGrid_far g t hz (-((ts1.length : Int) + 1)) hwf.1 hv
        (Or.inr (by omega))
      rw [lineTile_none_of_not_onGrid g t hz _ hoff] at hx
      cases hx
  · rintro ⟨x, hx, hty⟩
    by_cases hlt : ts2.length < walkSteps g true R hz
    · apply r2.2.2 hlt
      refine ⟨x, ?_, Or.inr hty⟩
      have e : (1 : Int) * (1 + (ts2.length : Int)) = (ts2.length : Int) + 1 := by ring
      rw [e]; exact hx
    · have hge : axisExtent g hz ≤ (ts2.length : Int) + 1 := by
        have := r2.1
        omega
      have hoff := not_lineOnGrid_far g t hz ((ts2.length : Int) + 1) hwf.1 hv
        (Or.inl (by omega))
      rw [lineTile_none_of_not_onGrid g t hz _ hoff] at hx
      cases hx

theorem IsMaximalSegment_unique (g : AGrid) (t : TilePtr) (hz : Bool) (lo hi lo' hi' : Nat)
    (h : IsMaximalSegment g t hz lo hi) (h' : IsMaximalSegment g t hz lo' hi') :
    lo' = lo ∧ hi' = hi := by
  obtain ⟨hin, hlo, hhi⟩ := h
  obtain ⟨hin', hlo', hhi'⟩ := h'
  constructor
  · rcases lt_trichotomy lo' lo with hlt | heq | hgt
    · exact absurd (hin (-((lo' : Int) + 1)) (by omega) (by omega)) hlo'
    · exact heq
    · exact absurd (hin' (-((lo : Int) + 1)) (by omega) (by omega)) hlo
  · rcases lt_trichotomy hi' hi with hlt | heq | hgt
    · exact absurd (hin ((hi' : Int) + 1) (by omega) (by omega)) hhi'
    · exact heq
    · exact absurd (hin' ((hi : Int) + 1) (by omega) (by omega)) hhi

/-- The tiles collected by the two walks on an axis are the tiles of the cells of the segment
other than the cell of the starting tile. -/
theorem mem_runs_iff (g : AGrid) (t : TilePtr) (must hz : Bool) (n : Nat)
    (ts1 ts2 : List TilePtr)
    (r1 : IsRun g t must hz (-1) n ts1) (r2 : IsRun g t must hz 1 n ts2) (x : TilePtr) :
    x ∈ ts1 ++ ts2 ↔ inSegmentOther g t hz ts1.length ts2.length x := by
  rw [List.mem_append, IsRun_mem g t must hz (-1) n ts1 r1, IsRun_mem g t must hz 1 n ts2 r2]
  unfold inSegmentOther
  constructor
  · rintro (⟨i, hi, hx⟩ | ⟨i, hi, hx⟩)
    · exact ⟨-1 * (1 + (i : Int)), by omega, by omega, by omega, hx⟩
    · exact ⟨1 * (1 + (i : Int)), by omega, by omega, by omega, hx⟩
  · rintro ⟨k, hk0, hlo, hhi, hx⟩
    rcases lt_or_gt_of_ne hk0 with hk | hk
    · left
      refine ⟨(-k - 1).toNat, by omega, ?_⟩
      have e : (-1 : Int) * (1 + ((-k - 1).toNat : Int)) = k := by
        rw [Int.toNat_of_nonneg (by omega)]; ring
      rw [e]; exact hx
    · right
      refine ⟨(k - 1).toNat, by omega, ?_⟩
      have e : (1 : Int) * (1 + ((k - 1).toNat : Int)) = k := by
        rw [Int.toNat_of_nonneg (by omega)]; ring
      rw [e]; exact hx

/-! ## Run detection: distinctness of the collected tiles -/

theorem lineTile_coords (g : AGrid) (t x : TilePtr) (hz : Bool) (k : Int)
    (hW : 0 < g.GridWidth) (hcons : Consistent g) (h : lineTile g t hz k = some x) :
    lineOnGrid g t hz k ∧ colOf g (GetGridAddress g x) = lineCol g t hz k ∧
      rowOf g (GetGridAddress g x) = lineRow g t hz k := by
  unfold lineTile at h
  by_cases hon : lineOnGrid g t hz k
  swap
  · rw [if_neg hon] at h
    cases h
  rw [if_pos hon] at h
  have ha := hcons _ _ h
  have hc0 := hon.1
  have hc1 := hon.2.1
  refine ⟨hon, ?_, ?_⟩
  · unfold colOf
    rw [ha, Int.add_mul_emod_self, Int.emod_eq_of_lt hc0 hc1]
  · unfold rowOf
    rw [ha, Int.add_mul_ediv_right _ _ (ne_of_gt hW), Int.ediv_eq_zero_of_lt hc0 hc1, zero_add]

theorem lineTile_inj (g : AGrid) (t x : TilePtr) (hz hz' : Bool) (k k' : Int)
    (hW : 0 < g.GridWidth) (hcons : Consistent g)
    (h : lineTile g t hz k = some x) (h' : lineTile g t hz' k' = some x) :
    (hz = hz' ∧ k = k') ∨ (k = 0 ∧ k' = 0) := by
  obtain ⟨_, hc, hr⟩ := lineTile_coords g t x hz k hW hcons h
  obtain ⟨_, hc', hr'⟩ := lineTile_coords g t x hz' k' hW hcons h'
  rw [hc'] at hc
  rw [hr'] at hr
  unfold lineCol at hc
  unfold lineRow at hr
  cases hz <;> cases hz' <;> simp at hc hr ⊢ <;> omega

theorem IsRun_nodup (g : AGrid) (t : TilePtr) (must hz : Bool) (d : Int) (n : Nat)
    (ts : List TilePtr) (hW : 0 < g.GridWidth) (hcons : Consistent g) (hd : d = 1 ∨ d = -1)
    (hr : IsRun g t must hz d n ts) : ts.Nodup := by
  rw [List.nodup_iff_getElem?_ne_getElem?]
  intro i j hij hj heq
  obtain ⟨hi1, x, hix, _⟩ := hr.2.1 i (by omega)
  obtain ⟨hj1, _, _, _⟩ := hr.2.1 j hj
  rw [← heq, hix] at hj1
  rw [hix] at hi1
  rcases lineTile_inj g t x hz hz _ _ hW hcons hi1 hj1 with ⟨_, h⟩ | ⟨h, _⟩
  · rcases hd with rfl | rfl <;> omega
  · rcases hd with rfl | rfl <;> omega

/-- On a consistent board the four walks of `FindNeighbors` and the starting tile are pairwise
disjoint and free of duplicates. -/
theorem runs_nodup (g : AGrid) (t : TilePtr) (must : Bool) (nv nh : Nat)
    (v1 v2 h1 h2 : List TilePtr) (hwf : WellFormed g) (hcons : Consistent g)
    (hon : OnBoard g t)
    (rv1 : IsRun g t must false (-1) nv v1) (rv2 : IsRun g t must false 1 nv v2)
    (rh1 : IsRun g t must true (-1) nh h1) (rh2 : IsRun g t must true 1 nh h2) :
    ((v1 ++ v2) ++ (h1 ++ h2) ++ [t]).Nodup := by
  have hW := hwf.1
  have nd : ∀ (hz : Bool) (n : Nat) (ts1 ts2 : List TilePtr),
      IsRun g t must hz (-1) n ts1 → IsRun g t must hz 1 n ts2 → (ts1 ++ ts2).Nodup := by
    intro hz n ts1 ts2 r1 r2
    refine List.Nodup.append (IsRun_nodup g t must hz (-1) n ts1 hW hcons (Or.inr rfl) r1)
      (IsRun_nodup g t must hz 1 n ts2 hW hcons (Or.inl rfl) r2) ?_
    intro x hx1 hx2
    obtain ⟨i, _, hi⟩ := (IsRun_mem g t must hz (-1) n ts1 r1 x).mp hx1
    obtain ⟨j, _, hj⟩ := (IsRun_mem g t must hz 1 n ts2 r2 x).mp hx2
    rcases lineTile_inj g t x hz hz _ _ hW hcons hi hj with ⟨_, h⟩ | ⟨h, _⟩ <;> omega
  refine List.Nodup.append (List.Nodup.append (nd false nv v1 v2 rv1 rv2)
    (nd true nh h1 h2 rh1 rh2) ?_) (List.nodup_singleton t) ?_
  · intro x hx1 hx2
    obtain ⟨k, hk, _, _, hkx⟩ := (mem_runs_iff g t must false nv v1 v2 rv1 rv2 x).mp hx1
    obtain ⟨k', hk', _, _, hkx'⟩ := (mem_runs_iff g t must true nh h1 h2 rh1 rh2 x).mp hx2
    rcases lineTile_inj g t x false true _ _ hW hcons hkx hkx' with ⟨h, _⟩ | ⟨h, _⟩
    · cases h
    · exact hk h
  · intro x hx1 hx2
    rw [List.mem_singleton] at hx2
    subst hx2
    have h0 := lineTile_zero g x false hwf hon
    rcases List.mem_append.mp hx1 with hx | hx
    · obtain ⟨k, hk, _, _, hkx⟩ := (mem_runs_iff g x must false nv v1 v2 rv1 rv2 x).mp hx
      rcases lineTile_inj g x x false false _ _ hW hcons hkx h0 with ⟨_, h⟩ | ⟨h, _⟩ <;>
        exact hk h
    · obtain ⟨k, hk, _, _, hkx⟩ := (mem_runs_iff g x must true nh h1 h2 rh1 rh2 x).mp hx
      rcases lineTile_inj g x x true false _ _ hW hcons hkx h0 with ⟨h, _⟩ | ⟨h, _⟩
      · cases h
      · exact hk h

theorem keptOnAxis_sublist (g : AGrid) (must : Bool) (R : Int) (hz : Bool) (l : List TilePtr) :
    List.Sublist (keptOnAxis g must R hz l) l := by
  unfold keptOnAxis
  split_ifs <;> first | exact List.Sublist.refl l | exact List.nil_sublist l

/-- On a consistent board the list returned by `FindNeighbors` for a run length of at least 2
holds no tile twice. -/
theorem FindNeighbors_nodup_of_two_le (g : AGrid) (t : TilePtr) (must : Bool) (R : Int)
    (res : List TilePtr) (hwf : WellFormed g) (hcons : Consistent g) (hon : OnBoard g t)
    (hR : 2 ≤ R) (hres : FindNeighbors g t must R = some res) : res.Nodup := by
  have hv := valid_of_onBoard g t hwf hon
  obtain ⟨v1, v2, h1, h2, rv1, rv2, rh1, rh2, e⟩ := FindNeighbors_spec g t must R hwf.1 hv hR
  rw [e] at hres
  have hnd := runs_nodup g t must _ _ v1 v2 h1 h2 hwf hcons hon rv1 rv2 rh1 rh2
  have hsub : List.Sublist (keptOnAxis g must R false (v1 ++ v2) ++
      keptOnAxis g must R true (h1 ++ h2)) ((v1 ++ v2) ++ (h1 ++ h2)) :=
    List.Sublist.append (keptOnAxis_sublist g must R false _) (keptOnAxis_sublist g must R true _)
  injection hres with hres
  rw [← hres]
  split_ifs
  · exact List.Nodup.sublist (List.Sublist.append hsub (List.Sublist.refl [t])) hnd
  · exact List.Nodup.sublist (hsub.trans (List.sublist_append_left _ _)) hnd

/-! ## Run detection: the kept tiles -/

theorem FMath_Min_eq (a b : Int) : FMath.Min a b = min a b := by
  unfold FMath.Min
  split_ifs with h
  · exact (min_eq_left h).symm
  · exact (min_eq_right (by omega)).symm

theorem keptOnAxis_matching (g : AGrid) (R : Int) (hz : Bool) (ts1 ts2 : List TilePtr) :
    (axisQualifies g hz R ts1.length ts2.length ∧
        keptOnAxis g true R hz (ts1 ++ ts2) = ts1 ++ ts2) ∨
      (¬ axisQualifies g hz R ts1.length ts2.length ∧
        keptOnAxis g true R hz (ts1 ++ ts2) = []) := by
  have e : (((ts1 ++ ts2).length : Int) + 1) = (ts1.length : Int) + (ts2.length : Int) + 1 := by
    rw [List.length_append]; push_cast; ring
  unfold keptOnAxis axisQualifies axisExtent
  rw [FMath_Min_eq, e]
  by_cases h : min R (if hz = true then g.GridWidth else g.GridHeight) ≤
      (ts1.length : Int) + (ts2.length : Int) + 1
  · left
    refine ⟨h, ?_⟩
    rw [if_pos]
    simpa using h
  · right
    refine ⟨h, ?_⟩
    rw [if_neg]
    simpa using h

theorem keptOnAxis_free (g : AGrid) (R : Int) (hz : Bool) (l : List TilePtr) :
    keptOnAxis g false R hz l = l := by
  unfold keptOnAxis
  simp

theorem lineOnGrid_of_lineTile (g : AGrid) (t x : TilePtr) (hz : Bool) (k : Int)
    (h : lineTile g t hz k = some x) : lineOnGrid g t hz k := by
  by_contra hcon
  rw [lineTile_none_of_not_onGrid g t hz k hcon] at h
  cases h

theorem valid_lineAddress (g : AGrid) (t : TilePtr) (hz : Bool) (k : Int)
    (hW : 0 < g.GridWidth) (h : lineOnGrid g t hz k) :
    ValidAddress g (lineCol g t hz k + lineRow g t hz k * g.GridWidth) := by
  obtain ⟨hc0, hc1, hr0, hr1⟩ := h
  have hlo : 0 ≤ lineRow g t hz k * g.GridWidth := Int.mul_nonneg hr0 (le_of_lt hW)
  have hhi : (lineRow g t hz k + 1) * g.GridWidth ≤ g.GridHeight * g.GridWidth :=
    Int.mul_le_mul_of_nonneg_right (by omega) (le_of_lt hW)
  rw [add_mul, one_mul, mul_comm g.GridHeight g.GridWidth] at hhi
  exact ⟨by omega, by omega⟩

theorem lineTile_of_full (g : AGrid) (t : TilePtr) (hz : Bool) (k : Int)
    (hW : 0 < g.GridWidth) (hfull : FullyPopulated g) (h : lineOnGrid g t hz k) :
    ∃ x, lineTile g t hz k = some x := by
  have hne := hfull _ (valid_lineAddress g t hz k hW h)
  unfold lineTile
  rw [if_pos h]
  exact Option.ne_none_iff_exists'.mp hne

/-! ## Claims on run detection -/

/-- C5: on a well-formed, consistent board (fully populated or not), for a tile placed on it and
a run length of at least 2, the result of run detection in matching mode is this set: on each
axis take the maximal contiguous segment through the tile's cell whose tiles all have the
tile's type id (it is unique); the axis qualifies when the segment is at least as long as the
smaller of the run length and the grid extent on the axis; the result holds the tiles of the
qualifying segments on cells other than the tile's own (none of them is the tile itself),
together with the tile itself exactly when there is such a tile; and it holds no tile twice. -/
theorem FindNeighbors_matching_set (g : AGrid) (t : TilePtr) (R : Int)
    (hwf : WellFormed g) (hcons : Consistent g) (hon : OnBoard g t) (hR : 2 ≤ R) :
    ∃ (lov hiv loh hih : Nat) (res : List TilePtr),
      IsMaximalSegment g t false lov hiv ∧ IsMaximalSegment g t true loh hih ∧
      (∀ lo hi, IsMaximalSegment g t false lo hi → lo = lov ∧ hi = hiv) ∧
      (∀ lo hi, IsMaximalSegment g t true lo hi → lo = loh ∧ hi = hih) ∧
      FindNeighbors g t true R = some res ∧
      res.Nodup ∧
      (∀ y, inQualifyingUnion g t R lov hiv loh hih y → y ≠ t) ∧
      ∀ x, x ∈ res ↔
        (inQualifyingUnion g t R lov hiv loh hih x ∨
          (x = t ∧ ∃ y, inQualifyingUnion g t R lov hiv loh hih y)) := by
  have hv := valid_of_onBoard g t hwf hon
  obtain ⟨v1, v2, h1, h2, rv1, rv2, rh1, rh2, e⟩ := FindNeighbors_spec g t true R hwf.1 hv hR
  have hsv := IsMaximalSegment_of_runs g t false R v1 v2 hwf hon rv1 rv2
  have hsh := IsMaximalSegment_of_runs g t true R h1 h2 hwf hon rh1 rh2
  have hall : ∀ x, x ∈ keptOnAxis g true R false (v1 ++ v2) ++ keptOnAxis g true R true (h1 ++ h2)
      ↔ inQualifyingUnion g t R v1.length v2.length h1.length h2.length x := by
    intro x
    unfold inQualifyingUnion
    rw [List.mem_append, ← mem_runs_iff g t true false _ v1 v2 rv1 rv2 x,
      ← mem_runs_iff g t true true _ h1 h2 rh1 rh2 x]
    rcases keptOnAxis_matching g R false v1 v2 with ⟨q, k⟩ | ⟨q, k⟩ <;>
      rcases keptOnAxis_matching g R true h1 h2 with ⟨q', k'⟩ | ⟨q', k'⟩ <;>
      rw [k, k'] <;> simp [q, q']
  refine ⟨v1.length, v2.length, h1.length, h2.length, _, hsv, hsh,
    fun lo hi h => IsMaximalSegment_unique g t false _ _ lo hi hsv h,
    fun lo hi h => IsMaximalSegment_unique g t true _ _ lo hi hsh h, e,
    FindNeighbors_nodup_of_two_le g t true R _ hwf hcons hon hR e, ?_, ?_⟩
  · intro y hy hyt
    subst hyt
    have h0 := fun hz => lineTile_zero g y hz hwf hon
    rcases hy with ⟨_, k, hk, _, _, hkx⟩ | ⟨_, k, hk, _, _, hkx⟩
    · rcases lineTile_inj g y y false false _ _ hwf.1 hcons hkx (h0 false) with
        ⟨_, h⟩ | ⟨h, _⟩ <;> exact hk h
    · rcases lineTile_inj g y y true true _ _ hwf.1 hcons hkx (h0 true) with
        ⟨_, h⟩ | ⟨h, _⟩ <;> exact hk h
  · intro x
    simp only [Bool.not_true, Bool.or_false, decide_eq_true_eq]
    split_ifs with hpos
    · obtain ⟨y, hy⟩ := List.exists_mem_of_length_pos hpos
      rw [List.mem_append, List.mem_singleton, hall]
      constructor
      · rintro (h | h)
        · exact Or.inl h
        · exact Or.inr ⟨h, y, (hall y).mp hy⟩
      · rintro (h | ⟨h, _⟩)
        · exact Or.inl h
        · exact Or.inr h
    · rw [hall]
      constructor
      · intro h; exact Or.inl h
      · rintro (h | ⟨_, y, hy⟩)
        · exact h
        · exact absurd (List.length_pos_of_mem ((hall y).mpr hy)) hpos

/-- C5 on the 3 x 3 board whose bottom row is a run, for the tile at address 0 and run length 3. -/
theorem FindNeighbors_matching_set_witness :
    ∃ (lov hiv loh hih : Nat) (res : List TilePtr),
      IsMaximalSegment runBoard 0 false lov hiv ∧ IsMaximalSegment runBoard 0 true loh hih ∧
      (∀ lo hi, IsMaximalSegment runBoard 0 false lo hi → lo = lov ∧ hi = hiv) ∧
      (∀ lo hi, IsMaximalSegment runBoard 0 true lo hi → lo = loh ∧ hi = hih) ∧
      FindNeighbors runBoard 0 true 3 = some res ∧
      res.Nodup ∧
      (∀ y, inQualifyingUnion runBoard 0 3 lov hiv loh hih y → y ≠ 0) ∧
      ∀ x, x ∈ res ↔
        (inQualifyingUnion runBoard 0 3 lov hiv loh hih x ∨
          (x = 0 ∧ ∃ y, inQualifyingUnion runBoard 0 3 lov hiv loh hih y)) :=
  FindNeighbors_matching_set runBoard 0 3
    (plainBoard_wellFormed 3 3 3 _ (by decide) (by decide) (by decide))
    (plainBoard_consistent 3 3 3 _) (plainBoard_onBoard 3 3 3 _ 0 (by decide)) (by decide)

/-- C6: on a well-formed, consistent board, for a tile placed on it and a minimum run length R
of at least 2, a non-empty result of run detection in matching mode contains, on some axis, a
contiguous line of tiles of the tile's type through the tile's cell whose length is at least R,
or equals that axis's whole extent when the extent is smaller than R; and on a grid with
W >= R and H >= R a non-empty result holds at least R tiles, none of them twice. -/
theorem FindNeighbors_run_at_least (g : AGrid) (t : TilePtr) (R : Int)
    (hwf : WellFormed g) (hcons : Consistent g) (hon : OnBoard g t) (hR : 2 ≤ R) :
    ∃ res : List TilePtr, FindNeighbors g t true R = some res ∧
      (res ≠ [] → ∃ (hz : Bool) (lo hi : Nat),
        (∀ k : Int, -(lo : Int) ≤ k → k ≤ (hi : Int) →
          ∃ x, lineTile g t hz k = some x ∧
            (g.heap x).TileTypeID = (g.heap t).TileTypeID ∧ x ∈ res) ∧
        (R ≤ (lo : Int) + (hi : Int) + 1 ∨
          ((lo : Int) + (hi : Int) + 1 = axisExtent g hz ∧ axisExtent g hz < R))) ∧
      (R ≤ g.GridWidth → R ≤ g.GridHeight → res ≠ [] →
        R ≤ (res.length : Int) ∧ res.Nodup) := by
  have hv := valid_of_onBoard g t hwf hon
  obtain ⟨v1, v2, h1, h2, rv1, rv2, rh1, rh2, e⟩ := FindNeighbors_spec g t true R hwf.1 hv hR
  simp only [Bool.not_true, Bool.or_false, decide_eq_true_eq] at e
  -- what one axis with kept tiles contributes
  have key : ∀ (hz : Bool) (ts1 ts2 : List TilePtr) (res : List TilePtr),
      IsRun g t true hz (-1) (walkSteps g true R hz) ts1 →
      IsRun g t true hz 1 (walkSteps g true R hz) ts2 →
      keptOnAxis g true R hz (ts1 ++ ts2) ≠ [] →
      (∀ x, x ∈ keptOnAxis g true R hz (ts1 ++ ts2) → x ∈ res) → t ∈ res →
      (∀ k : Int, -(ts1.length : Int) ≤ k → k ≤ (ts2.length : Int) →
          ∃ x, lineTile g t hz k = some x ∧
            (g.heap x).TileTypeID = (g.heap t).TileTypeID ∧ x ∈ res) ∧
        (R ≤ (ts1.length : Int) + (ts2.length : Int) + 1 ∨
          ((ts1.length : Int) + (ts2.length : Int) + 1 = axisExtent g hz ∧
            axisExtent g hz < R)) ∧
        (R ≤ axisExtent g hz →
          R ≤ ((keptOnAxis g true R hz (ts1 ++ ts2)).length : Int) + 1) := by
    intro hz ts1 ts2 res r1 r2 hne hsub ht
    have hseg := IsMaximalSegment_of_runs g t hz R ts1 ts2 hwf hon r1 r2
    rcases keptOnAxis_matching g R hz ts1 ts2 with ⟨q, k⟩ | ⟨_, k⟩
    swap
    · exact absurd k hne
    rw [k] at hsub
    refine ⟨?_, ?_, ?_⟩
    · intro j hlo hhi
      obtain ⟨x, hx, hty⟩ := hseg.1 j hlo hhi
      refine ⟨x, hx, hty, ?_⟩
      by_cases hj : j = 0
      · subst hj
        rw [lineTile_zero g t hz hwf hon] at hx
        cases hx
        exact ht
      · exact hsub x ((mem_runs_iff g t true hz _ ts1 ts2 r1 r2 x).mpr ⟨j, hj, hlo, hhi, hx⟩)
    · unfold axisQualifies at q
      obtain ⟨xl, hxl, _⟩ := hseg.1 (-(ts1.length : Int)) (by omega) (by omega)
      obtain ⟨xh, hxh, _⟩ := hseg.1 (ts2.length : Int) (by omega) (by omega)
      have hgl := lineOnGrid_of_lineTile g t xl hz _ hxl
      have hgh := lineOnGrid_of_lineTile g t xh hz _ hxh
      have hle : (ts1.length : Int) + (ts2.length : Int) + 1 ≤ axisExtent g hz := by
        unfold lineOnGrid lineCol lineRow at hgl hgh
        unfold axisExtent
        cases hz <;> simp at hgl hgh ⊢ <;> omega
      rcases le_total R (axisExtent g hz) with hm | hm
      · rw [min_eq_left hm] at q
        exact Or.inl q
      · rw [min_eq_right hm] at q
        rcases lt_or_eq_of_le hm with h | h
        · exact Or.inr ⟨by omega, h⟩
        · exact Or.inl (by omega)
    · intro hm
      unfold axisQualifies at q
      rw [min_eq_left hm] at q
      rw [k, List.length_append]
      push_cast
      omega
  refine ⟨_, e, ?_, ?_⟩
  · intro hne
    split_ifs at hne with hpos
    swap
    · exact absurd (List.eq_nil_of_length_eq_zero (by omega)) hne
    rw [if_pos hpos]
    have ht : t ∈ keptOnAxis g true R false (v1 ++ v2) ++
        keptOnAxis g true R true (h1 ++ h2) ++ [t] := by simp
    by_cases hv0 : keptOnAxis g true R false (v1 ++ v2) = []
    · have hh0 : keptOnAxis g true R true (h1 ++ h2) ≠ [] := by
        intro hh0
        rw [hv0, hh0] at hpos
        simp at hpos
      obtain ⟨a, b, _⟩ := key true h1 h2 _ rh1 rh2 hh0
        (fun x hx => List.mem_append_left _ (List.mem_append_right _ hx)) ht
      exact ⟨true, h1.length, h2.length, a, b⟩
    · obtain ⟨a, b, _⟩ := key false v1 v2 _ rv1 rv2 hv0
        (fun x hx => List.mem_append_left _ (List.mem_append_left _ hx)) ht
      exact ⟨false, v1.length, v2.length, a, b⟩
  · intro hRW hRH hne
    refine ⟨?_, FindNeighbors_nodup_of_two_le g t true R _ hwf hcons hon hR e⟩
    split_ifs at hne with hpos
    swap
    · exact absurd (List.eq_nil_of_length_eq_zero (by omega)) hne
    rw [if_pos hpos]
    have ht : t ∈ keptOnAxis g true R false (v1 ++ v2) ++
        keptOnAxis g true R true (h1 ++ h2) ++ [t] := by simp
    simp only [List.length_append, List.length_singleton]
    push_cast
    by_cases hv0 : keptOnAxis g true R false (v1 ++ v2) = []
    · have hh0 : keptOnAxis g true R true (h1 ++ h2) ≠ [] := by
        intro hh0
        rw [hv0, hh0] at hpos
        simp at hpos
      obtain ⟨_, _, c⟩ := key true h1 h2 _ rh1 rh2 hh0
        (fun x hx => List.mem_append_left _ (List.mem_append_right _ hx)) ht
      have := c (by unfold axisExtent; simpa using hRW)
      omega
    · obtain ⟨_, _, c⟩ := key false v1 v2 _ rv1 rv2 hv0
        (fun x hx => List.mem_append_left _ (List.mem_append_left _ hx)) ht
      have := c (by unfold axisExtent; simpa using hRH)
      omega

/-- C6 on the 3 x 3 board whose bottom row is a run, for the tile at address 0 and R = 3. -/
theorem FindNeighbors_run_at_least_witness :
    ∃ res : List TilePtr, FindNeighbors runBoard 0 true 3 = some res ∧
      (res ≠ [] → ∃ (hz : Bool) (lo hi : Nat),
        (∀ k : Int, -(lo : Int) ≤ k → k ≤ (hi : Int) →
          ∃ x, lineTile runBoard 0 hz k = some x ∧
            (runBoard.heap x).TileTypeID = (runBoard.heap 0).TileTypeID ∧ x ∈ res) ∧
        (3 ≤ (lo : Int) + (hi : Int) + 1 ∨
          ((lo : Int) + (hi : Int) + 1 = axisExtent runBoard hz ∧ axisExtent runBoard hz < 3))) ∧
      (3 ≤ runBoard.GridWidth → 3 ≤ runBoard.GridHeight → res ≠ [] →
        3 ≤ (res.length : Int) ∧ res.Nodup) :=
  FindNeighbors_run_at_least runBoard 0 3
    (plainBoard_wellFormed 3 3 3 _ (by decide) (by decide) (by decide))
    (plainBoard_consistent 3 3 3 _) (plainBoard_onBoard 3 3 3 _ 0 (by decide)) (by decide)

/-- C7, as amended: on a well-formed, fully populated board, for a tile placed on it, a run
length r of at least 2 and a step count k with 1 <= k <= r - 1, every on-grid cell lying k steps
from the tile's cell along its row or its column, in either direction, holds a tile that is in
the result of run detection without type matching, whatever its type. -/
theorem FindNeighbors_free_reach (g : AGrid) (t : TilePtr) (r : Int)
    (hwf : WellFormed g) (hfull : FullyPopulated g) (hon : OnBoard g t) (hr : 2 ≤ r) :
    ∃ res : List TilePtr, FindNeighbors g t false r = some res ∧
      ∀ (hz : Bool) (d k : Int), (d = 1 ∨ d = -1) → 1 ≤ k → k ≤ r - 1 →
        lineOnGrid g t hz (d * k) → ∃ x, lineTile g t hz (d * k) = some x ∧ x ∈ res := by
  have hv := valid_of_onBoard g t hwf hon
  obtain ⟨v1, v2, h1, h2, rv1, rv2, rh1, rh2, e⟩ := FindNeighbors_spec g t false r hwf.1 hv hr
  simp only [keptOnAxis_free, Bool.not_false, Bool.or_true, if_true] at e
  have hsteps : ∀ hz, ((walkSteps g false r hz : Nat) : Int) = r - 1 := by
    intro hz
    unfold walkSteps
    simp only [Bool.not_false, if_true]
    exact Int.toNat_of_nonneg (by omega)
  have key : ∀ (hz : Bool) (d : Int) (ts : List TilePtr), (d = 1 ∨ d = -1) →
      IsRun g t false hz d (walkSteps g false r hz) ts →
      ∀ k : Int, 1 ≤ k → k ≤ r - 1 → lineOnGrid g t hz (d * k) →
        ∃ x, lineTile g t hz (d * k) = some x ∧ x ∈ ts := by
    intro hz d ts hd hrun k hk1 hk2 hgrid
    have hlen : k - 1 < (ts.length : Int) := by
      by_contra hcon
      have hlt : ts.length < walkSteps g false r hz := by
        have := hsteps hz
        omega
      apply hrun.2.2 hlt
      have hg := lineOnGrid_mono g t hz d (1 + (ts.length : Int)) k hd (by omega) (by omega)
        hgrid (lineOnGrid_zero g t hz hwf.1 hv)
      obtain ⟨x, hx⟩ := lineTile_of_full g t hz _ hwf.1 hfull hg
      exact ⟨x, hx, Or.inl rfl⟩
    obtain ⟨hl, x, hx, _⟩ := hrun.2.1 (k - 1).toNat (by omega)
    have e : d * (1 + ((k - 1).toNat : Int)) = d * k := by
      rw [Int.toNat_of_nonneg (by omega)]; ring
    rw [e] at hl
    exact ⟨x, by rw [hl, hx], List.mem_iff_getElem?.mpr ⟨_, hx⟩⟩
  refine ⟨_, e, ?_⟩
  intro hz d k hd hk1 hk2 hgrid
  cases hz
  · rcases hd with rfl | rfl
    · obtain ⟨x, hx, hm⟩ := key false 1 v2 (Or.inl rfl) rv2 k hk1 hk2 hgrid
      exact ⟨x, hx, by simp [hm]⟩
    · obtain ⟨x, hx, hm⟩ := key false (-1) v1 (Or.inr rfl) rv1 k hk1 hk2 hgrid
      exact ⟨x, hx, by simp [hm]⟩
  · rcases hd with rfl | rfl
    · obtain ⟨x, hx, hm⟩ := key true 1 h2 (Or.inl rfl) rh2 k hk1 hk2 hgrid
      exact ⟨x, hx, by simp [hm]⟩
    · obtain ⟨x, hx, hm⟩ := key true (-1) h1 (Or.inr rfl) rh1 k hk1 hk2 hgrid
      exact ⟨x, hx, by simp [hm]⟩

/-- C7 as amended, on the row of three tiles, from the tile at address 0 with run length 3. -/
theorem FindNeighbors_free_reach_witness :
    ∃ res : List TilePtr, FindNeighbors row3 0 false 3 = some res ∧
      ∀ (hz : Bool) (d k : Int), (d = 1 ∨ d = -1) → 1 ≤ k → k ≤ 3 - 1 →
        lineOnGrid row3 0 hz (d * k) → ∃ x, lineTile row3 0 hz (d * k) = some x ∧ x ∈ res :=
  FindNeighbors_free_reach row3 0 3
    (plainBoard_wellFormed 3 1 2 _ (by decide) (by decide) (by decide))
    (plainBoard_full 3 1 2 _ (by decide)) (plainBoard_onBoard 3 1 2 _ 0 (by decide)) (by decide)

/-- C7 as stated fails at step count k = r: on the well-formed, fully populated row of three
tiles, from the tile at address 0 with run length r = 2, the cell 2 steps to the right is on the
grid and holds tile 2, and tile 2 is not in the result. -/
theorem FindNeighbors_free_reach_counterexample :
    WellFormed row3 ∧ FullyPopulated row3 ∧ OnBoard row3 0 ∧
      ((2 : Int) ≤ 2 ∧ (1 : Int) ≤ 2 ∧ (2 : Int) ≤ 2) ∧
      lineOnGrid row3 0 true (1 * 2) ∧ lineTile row3 0 true (1 * 2) = some 2 ∧
      FindNeighbors row3 0 false 2 = some [1, 0] ∧ 2 ∉ [1, 0] :=
  ⟨plainBoard_wellFormed 3 1 2 _ (by decide) (by decide) (by decide),
    plainBoard_full 3 1 2 _ (by decide), plainBoard_onBoard 3 1 2 _ 0 (by decide),
    by decide, by decide, by decide, by decide, by decide⟩

/-! ## The cached match does not influence the board functions -/

theorem offset_withMatch (g : AGrid) (l : List TilePtr) (a dx dy : Int) :
    GetGridAddressWithOffset { g with LastLegalMatch := l } a dx dy =
      GetGridAddressWithOffset g a dx dy := rfl

theorem getTile_withMatch (g : AGrid) (l : List TilePtr) (a : Int) :
    GetTileFromGridAddress { g with LastLegalMatch := l } a = GetTileFromGridAddress g a := rfl

theorem walk_withMatch (g : AGrid) (l : List TilePtr) (t : TilePtr) (must hz : Bool) (d : Int) :
    ∀ (n : Nat) (off : Int) (acc : List TilePtr),
      FindNeighbors_walk { g with LastLegalMatch := l } t must hz d n off acc =
        FindNeighbors_walk g t must hz d n off acc := by
  intro n
  induction n with
  | zero => intro off acc; rfl
  | succ n ih =>
    intro off acc
    simp only [FindNeighbors_walk, offset_withMatch, getTile_withMatch, ih]
    rfl

theorem FindNeighbors_withMatch (g : AGrid) (l : List TilePtr) (t : TilePtr) (must : Bool)
    (R : Int) :
    FindNeighbors { g with LastLegalMatch := l } t must R = FindNeighbors g t must R := by
  simp only [FindNeighbors, FindNeighbors_axis, walk_withMatch]

theorem SwapTiles_withMatch (g : AGrid) (l : List TilePtr) (a b : TilePtr) :
    SwapTiles { g with LastLegalMatch := l } a b =
      (SwapTiles g a b).map (fun g1 => { g1 with LastLegalMatch := l }) := by
  unfold SwapTiles SetGameTile SetGridAddress GetGridAddress
  simp only
  split_ifs <;> simp

/-! ## Swapping two placed tiles -/

theorem slot_index (g : AGrid) (a : Int) (t : TilePtr)
    (h : GetTileFromGridAddress g a = some t) :
    (0 ≤ a ∧ a < g.GameTiles.length) ∧ g.GameTiles[a.toNat]? = some (some t) := by
  unfold GetTileFromGridAddress at h
  by_cases hr : 0 ≤ a ∧ a < g.GameTiles.length
  · rw [if_pos hr] at h
    refine ⟨hr, ?_⟩
    have hlt : a.toNat < g.GameTiles.length := by omega
    rw [List.getElem?_eq_getElem hlt] at h ⊢
    simp only [Option.getD_some] at h
    rw [h]
  · rw [if_neg hr] at h
    cases h

/-- The effect of `SwapTiles` on two different tiles whose grid addresses index the board. -/
theorem SwapTiles_eq (g : AGrid) (a b : TilePtr) (hab : a ≠ b)
    (hx : 0 ≤ GetGridAddress g a ∧ GetGridAddress g a < g.GameTiles.length)
    (hy : 0 ≤ GetGridAddress g b ∧ GetGridAddress g b < g.GameTiles.length) :
    SwapTiles g a b = some
      { g with
        heap := Function.update
          (Function.update g.heap a { g.heap a with GridAddress := GetGridAddress g b })
          b { g.heap b with GridAddress := GetGridAddress g a },
        GameTiles := (g.GameTiles.set (GetGridAddress g b).toNat (some a)).set
          (GetGridAddress g a).toNat (some b) } := by
  unfold GetGridAddress at hx hy
  unfold SwapTiles SetGridAddress GetGridAddress SetGameTile
  simp only [Function.update_same, Function.update_noteq hab, Function.update_noteq hab.symm,
    if_pos hy, List.length_set, if_pos hx]


theorem set_set_back (l : List (Option TilePtr)) (i j : Nat) (u v : Option TilePtr)
    (hi : l[i]? = some u) (hj : l[j]? = some v) :
    (((l.set j u).set i v).set i u).set j v = l := by
  apply List.ext_getElem?
  intro n
  simp only [List.getElem?_set, List.length_set]
  have hil : i < l.length := by
    by_contra hcon
    rw [List.getElem?_eq_none (by omega)] at hi
    cases hi
  have hjl : j < l.length := by
    by_contra hcon
    rw [List.getElem?_eq_none (by omega)] at hj
    cases hj
  by_cases h2 : j = n
  · subst h2
    simp [hjl, hj]
  · by_cases h1 : i = n
    · subst h1
      simp [h2, hil, hi]
    · simp [h1, h2]

/-- Swapping two different placed tiles and swapping them again restores the board and the
tiles; a cached match set in between stays. -/
theorem SwapTiles_back (g g1 : AGrid) (a b : TilePtr) (l : List TilePtr) (hab : a ≠ b)
    (hona : OnBoard g a) (honb : OnBoard g b) (h1 : SwapTiles g a b = some g1) :
    SwapTiles { g1 with LastLegalMatch := l } a b = some { g with LastLegalMatch := l } := by
  obtain ⟨hx, hsx⟩ := slot_index g _ a hona
  obtain ⟨hy, hsy⟩ := slot_index g _ b honb
  rw [SwapTiles_eq g a b hab hx hy] at h1
  injection h1 with h1
  subst h1
  rw [SwapTiles_eq _ a b hab
    (by simp [GetGridAddress, Function.update_noteq hab]; exact hy)
    (by simp [GetGridAddress]; exact hx)]
  have hheap : Function.update
      (Function.update
        (Function.update
          (Function.update g.heap a { g.heap a with GridAddress := GetGridAddress g b })
          b { g.heap b with GridAddress := GetGridAddress g a })
        a { g.heap a with GridAddress := GetGridAddress g a })
      b { g.heap b with GridAddress := GetGridAddress g b } = g.heap := by
    funext p
    by_cases hpb : p = b
    · subst hpb
      simp [GetGridAddress]
    · by_cases hpa : p = a
      · subst hpa
        simp [GetGridAddress, Function.update_noteq hpb]
      · simp [Function.update_noteq hpb, Function.update_noteq hpa]
  have hgt := set_set_back g.GameTiles (GetGridAddress g a).toNat (GetGridAddress g b).toNat
    (some a) (some b) hsx hsy
  simp only [GetGridAddress, Function.update_same, Function.update_noteq hab,
    Function.update_noteq hab.symm] at hheap hgt ⊢
  rw [hheap, hgt]

/-! ## Move legality: lemmas -/

theorem FindNeighbors_total (g : AGrid) (t : TilePtr) (must : Bool) (R : Int)
    (hW : 0 < g.GridWidth) (hv : ValidAddress g (GetGridAddress g t)) :
    ∃ res, FindNeighbors g t must R = some res := by
  unfold FindNeighbors
  simp only
  obtain ⟨v1, v2, _, _, ev⟩ := axis_spec g t must false
    (if R < 0 then g.MinimumRunLength else R) hW hv
  obtain ⟨h1, h2, _, _, eh⟩ := axis_spec g t must true
    (if R < 0 then g.MinimumRunLength else R) hW hv
  rw [ev, eh]
  simp only
  split_ifs <;> exact ⟨_, rfl⟩

theorem neighbors_valid (g : AGrid) (x y : Int) (h : AreAddressesNeighbors g x y = true) :
    ValidAddress g x ∧ ValidAddress g y := by
  unfold AreAddressesNeighbors at h
  by_cases hr : FMath.Min x y ≥ 0 ∧ FMath.Max x y < g.GridWidth * g.GridHeight
  · obtain ⟨h1, h2⟩ := hr
    unfold FMath.Min at h1
    unfold FMath.Max at h2
    unfold ValidAddress
    split_ifs at h1 h2 <;> refine ⟨⟨?_, ?_⟩, ⟨?_, ?_⟩⟩ <;> omega
  · rw [if_neg hr] at h
    cases h

/-- The legality test on two different swappable placed tiles of different types at
neighbouring addresses: the tiles are swapped, the two runs are detected and cached, and the
second swap restores the board. -/
theorem IsMoveLegal_eq (g : AGrid) (a b : TilePtr) (hW : 0 < g.GridWidth)
    (hona : OnBoard g a) (honb : OnBoard g b) (hab : a ≠ b)
    (hsa : (g.heap a).Abilities.CanSwap = true) (hsb : (g.heap b).Abilities.CanSwap = true)
    (hty : (g.heap a).TileTypeID ≠ (g.heap b).TileTypeID)
    (hn : AreAddressesNeighbors g (GetGridAddress g a) (GetGridAddress g b) = true) :
    ∃ (g1 : AGrid) (ra rb : List TilePtr),
      SwapTiles g a b = some g1 ∧
      g1 = { g with
        heap := Function.update
          (Function.update g.heap a { g.heap a with GridAddress := GetGridAddress g b })
          b { g.heap b with GridAddress := GetGridAddress g a },
        GameTiles := (g.GameTiles.set (GetGridAddress g b).toNat (some a)).set
          (GetGridAddress g a).toNat (some b) } ∧
      FindNeighbors g1 a true (-1) = some ra ∧ FindNeighbors g1 b true (-1) = some rb ∧
      IsMoveLegal g (some a) (some b) =
        some (decide ((ra ++ rb).length > 0), { g with LastLegalMatch := ra ++ rb }) := by
  obtain ⟨hx, _⟩ := slot_index g _ a hona
  obtain ⟨hy, _⟩ := slot_index g _ b honb
  obtain ⟨hvx, hvy⟩ := neighbors_valid g _ _ hn
  have hs := SwapTiles_eq g a b hab hx hy
  obtain ⟨ra, hra⟩ := FindNeighbors_total _ a true (-1)
    (show 0 < ({ g with
        heap := Function.update
          (Function.update g.heap a { g.heap a with GridAddress := GetGridAddress g b })
          b { g.heap b with GridAddress := GetGridAddress g a },
        GameTiles := (g.GameTiles.set (GetGridAddress g b).toNat (some a)).set
          (GetGridAddress g a).toNat (some b) } : AGrid).GridWidth from hW)
    (by
      unfold ValidAddress GetGridAddress
      simp only [Function.update_noteq hab, Function.update_same]
      exact hvy)
  obtain ⟨rb, hrb⟩ := FindNeighbors_total _ b true (-1)
    (show 0 < ({ g with
        heap := Function.update
          (Function.update g.heap a { g.heap a with GridAddress := GetGridAddress g b })
          b { g.heap b with GridAddress := GetGridAddress g a },
        GameTiles := (g.GameTiles.set (GetGridAddress g b).toNat (some a)).set
          (GetGridAddress g a).toNat (some b) } : AGrid).GridWidth from hW)
    (by
      unfold ValidAddress GetGridAddress
      simp only [Function.update_same]
      exact hvx)
  refine ⟨_, ra, rb, hs, rfl, hra, hrb, ?_⟩
  have hback := SwapTiles_back g _ a b (ra ++ rb) hab hona honb hs
  unfold IsMoveLegal
  simp only [ne_eq, hab, not_false_eq_true, hsa, hsb, and_self, if_true, hty, hn, hs, hra, hrb,
    hback]

theorem IsMoveLegal_of_not_guard (g : AGrid) (a b : TilePtr)
    (h : ¬ (a ≠ b ∧ (g.heap a).Abilities.CanSwap = true ∧ (g.heap b).Abilities.CanSwap = true ∧
      (g.heap a).TileTypeID ≠ (g.heap b).TileTypeID ∧
      AreAddressesNeighbors g (GetGridAddress g a) (GetGridAddress g b) = true)) :
    IsMoveLegal g (some a) (some b) = some (false, g) := by
  simp only [IsMoveLegal]
  split_ifs with h1 h2
  · exact absurd ⟨h1.1, h1.2.1, h1.2.2, h2.1, h2.2⟩ h
  · rfl
  · rfl

/-- The board after `SwapTiles` on two different placed tiles: the two tiles have exchanged
their grid addresses and their slots, and nothing else has changed. -/
theorem SwapTiles_exchanged (g g1 : AGrid) (a b : TilePtr) (hab : a ≠ b)
    (hona : OnBoard g a) (honb : OnBoard g b) (h1 : SwapTiles g a b = some g1) :
    g1.heap a = { g.heap a with GridAddress := GetGridAddress g b } ∧
    g1.heap b = { g.heap b with GridAddress := GetGridAddress g a } ∧
    (∀ t, t ≠ a → t ≠ b → g1.heap t = g.heap t) ∧
    GetTileFromGridAddress g1 (GetGridAddress g b) = some a ∧
    GetTileFromGridAddress g1 (GetGridAddress g a) = some b ∧
    (∀ c, c ≠ GetGridAddress g a → c ≠ GetGridAddress g b →
      GetTileFromGridAddress g1 c = GetTileFromGridAddress g c) ∧
    g1.GridWidth = g.GridWidth ∧ g1.GridHeight = g.GridHeight ∧
    g1.MinimumRunLength = g.MinimumRunLength := by
  obtain ⟨hx, hsx⟩ := slot_index g _ a hona
  obtain ⟨hy, hsy⟩ := slot_index g _ b honb
  rw [SwapTiles_eq g a b hab hx hy] at h1
  injection h1 with h1
  subst h1
  have hxy : (GetGridAddress g a).toNat ≠ (GetGridAddress g b).toNat := by
    intro e
    rw [e, hsy] at hsx
    injection hsx with hsx
    injection hsx with hsx
    exact hab hsx.symm
  have hxl : (GetGridAddress g a).toNat < g.GameTiles.length := by omega
  have hyl : (GetGridAddress g b).toNat < g.GameTiles.length := by omega
  refine ⟨?_, ?_, ?_, ?_, ?_, ?_, rfl, rfl, rfl⟩
  · simp [Function.update_noteq hab]
  · simp
  · intro t hta htb
    simp [Function.update_noteq hta, Function.update_noteq htb]
  · unfold GetTileFromGridAddress
    simp only [List.length_set]
    rw [if_pos hy, List.getElem?_set_ne hxy, List.getElem?_set_self hyl]
    rfl
  · unfold GetTileFromGridAddress
    simp only [List.length_set]
    rw [if_pos hx, List.getElem?_set_self (by simpa using hxl)]
    rfl
  · intro c hca hcb
    unfold GetTileFromGridAddress
    simp only [List.length_set]
    by_cases hc : 0 ≤ c ∧ c < g.GameTiles.length
    · rw [if_pos hc, if_pos hc, List.getElem?_set_ne (by omega), List.getElem?_set_ne (by omega)]
    · rw [if_neg hc, if_neg hc]

/-! ## Claims on move legality -/

/-- Whenever the legality test on two placed tiles returns, only the cached match may differ
from the grid before the call. -/
theorem IsMoveLegal_returns_restored (g : AGrid) (a b : TilePtr)
    (hona : OnBoard g a) (honb : OnBoard g b) (r : Bool) (g' : AGrid)
    (h : IsMoveLegal g (some a) (some b) = some (r, g')) :
    ∃ l : List TilePtr, g' = { g with LastLegalMatch := l } := by
  by_cases hg : a ≠ b ∧ (g.heap a).Abilities.CanSwap = true ∧
      (g.heap b).Abilities.CanSwap = true ∧
      (g.heap a).TileTypeID ≠ (g.heap b).TileTypeID ∧
      AreAddressesNeighbors g (GetGridAddress g a) (GetGridAddress g b) = true
  · obtain ⟨hab, hsa, hsb, hty, hn⟩ := hg
    obtain ⟨hx, _⟩ := slot_index g _ a hona
    obtain ⟨hy, _⟩ := slot_index g _ b honb
    have hs := SwapTiles_eq g a b hab hx hy
    unfold IsMoveLegal at h
    simp only [ne_eq, hab, not_false_eq_true, hsa, hsb, and_self, if_true, hty, hn, hs] at h
    revert h
    cases hra : FindNeighbors _ a true (-1) with
    | none => intro h; cases h
    | some ra =>
      cases hrb : FindNeighbors _ b true (-1) with
      | none => intro h; cases h
      | some rb =>
        intro h
        simp only [SwapTiles_back g _ a b (ra ++ rb) hab hona honb hs] at h
        injection h with h
        injection h with _ h
        exact ⟨ra ++ rb, h.symm⟩
  · rw [IsMoveLegal_of_not_guard g a b hg] at h
    injection h with h
    injection h with _ h
    exact ⟨g.LastLegalMatch, h.symm⟩

/-- C1: for every board state and two tiles placed on the board, whenever the legality test
returns, with true or with false, the board mapping and the grid address of every tile are what
they were before the call; and on a grid of positive width the test does return. -/
theorem IsMoveLegal_restores_board (g : AGrid) (a b : TilePtr)
    (hona : OnBoard g a) (honb : OnBoard g b) :
    (0 < g.GridWidth → ∃ (r : Bool) (g' : AGrid), IsMoveLegal g (some a) (some b) = some (r, g')) ∧
      ∀ (r : Bool) (g' : AGrid), IsMoveLegal g (some a) (some b) = some (r, g') →
        g'.GameTiles = g.GameTiles ∧ ∀ t, GetGridAddress g' t = GetGridAddress g t := by
  constructor
  · intro hW
    by_cases h : a ≠ b ∧ (g.heap a).Abilities.CanSwap = true ∧
        (g.heap b).Abilities.CanSwap = true ∧
        (g.heap a).TileTypeID ≠ (g.heap b).TileTypeID ∧
        AreAddressesNeighbors g (GetGridAddress g a) (GetGridAddress g b) = true
    · obtain ⟨hab, hsa, hsb, hty, hn⟩ := h
      obtain ⟨g1, ra, rb, _, _, _, _, e⟩ := IsMoveLegal_eq g a b hW hona honb hab hsa hsb hty hn
      exact ⟨_, _, e⟩
    · exact ⟨false, g, IsMoveLegal_of_not_guard g a b h⟩
  · intro r g' h
    obtain ⟨l, hl⟩ := IsMoveLegal_returns_restored g a b hona honb r g' h
    subst hl
    exact ⟨rfl, fun _ => rfl⟩

/-- C1 on the 3 x 3 board, for the tiles at addresses 2 and 5 (a legal move). -/
theorem IsMoveLegal_restores_board_witness :
    (0 < board3x3.GridWidth →
        ∃ (r : Bool) (g' : AGrid), IsMoveLegal board3x3 (some 2) (some 5) = some (r, g')) ∧
      ∀ (r : Bool) (g' : AGrid), IsMoveLegal board3x3 (some 2) (some 5) = some (r, g') →
        g'.GameTiles = board3x3.GameTiles ∧
          ∀ t, GetGridAddress g' t = GetGridAddress board3x3 t :=
  IsMoveLegal_restores_board board3x3 2 5
    (plainBoard_onBoard 3 3 3 _ 2 (by decide)) (plainBoard_onBoard 3 3 3 _ 5 (by decide))

/-- C3: on a grid of positive width, for two different swappable tiles of different types
placed on the board at neighbouring addresses, the legality test answers true exactly when the
default run detection from the first or from the second tile, on the board on which the two
tiles have exchanged their addresses and slots, is non-empty; and the cached legal match is
then the first run followed by the second. -/
theorem IsMoveLegal_iff_runs (g : AGrid) (a b : TilePtr) (hW : 0 < g.GridWidth)
    (hona : OnBoard g a) (honb : OnBoard g b) (hab : a ≠ b)
    (hsa : (g.heap a).Abilities.CanSwap = true) (hsb : (g.heap b).Abilities.CanSwap = true)
    (hty : (g.heap a).TileTypeID ≠ (g.heap b).TileTypeID)
    (hn : AreAddressesNeighbors g (GetGridAddress g a) (GetGridAddress g b) = true) :
    ∃ (g1 : AGrid) (ra rb : List TilePtr) (r : Bool) (g' : AGrid),
      SwapTiles g a b = some g1 ∧
      (g1.heap a = { g.heap a with GridAddress := GetGridAddress g b } ∧
        g1.heap b = { g.heap b with GridAddress := GetGridAddress g a } ∧
        (∀ t, t ≠ a → t ≠ b → g1.heap t = g.heap t) ∧
        GetTileFromGridAddress g1 (GetGridAddress g b) = some a ∧
        GetTileFromGridAddress g1 (GetGridAddress g a) = some b ∧
        (∀ c, c ≠ GetGridAddress g a → c ≠ GetGridAddress g b →
          GetTileFromGridAddress g1 c = GetTileFromGridAddress g c) ∧
        g1.GridWidth = g.GridWidth ∧ g1.GridHeight = g.GridHeight ∧
        g1.MinimumRunLength = g.MinimumRunLength) ∧
      FindNeighbors g1 a true (-1) = some ra ∧ FindNeighbors g1 b true (-1) = some rb ∧
      IsMoveLegal g (some a) (some b) = some (r, g') ∧
      (r = true ↔ (ra ≠ [] ∨ rb ≠ [])) ∧
      g'.LastLegalMatch = ra ++ rb := by
  obtain ⟨g1, ra, rb, hs, _, hra, hrb, e⟩ :=
    IsMoveLegal_eq g a b hW hona honb hab hsa hsb hty hn
  refine ⟨g1, ra, rb, _, _, hs, SwapTiles_exchanged g g1 a b hab hona honb hs, hra, hrb, e,
    ?_, rfl⟩
  rw [decide_eq_true_eq, gt_iff_lt, List.length_pos, ne_eq, List.append_eq_nil]
  tauto

/-- C3 on the 3 x 3 board, for the tiles at addresses 2 and 5. -/
theorem IsMoveLegal_iff_runs_witness :
    ∃ (g1 : AGrid) (ra rb : List TilePtr) (r : Bool) (g' : AGrid),
      SwapTiles board3x3 2 5 = some g1 ∧
      (g1.heap 2 = { board3x3.heap 2 with GridAddress := GetGridAddress board3x3 5 } ∧
        g1.heap 5 = { board3x3.heap 5 with GridAddress := GetGridAddress board3x3 2 } ∧
        (∀ t, t ≠ 2 → t ≠ 5 → g1.heap t = board3x3.heap t) ∧
        GetTileFromGridAddress g1 (GetGridAddress board3x3 5) = some 2 ∧
        GetTileFromGridAddress g1 (GetGridAddress board3x3 2) = some 5 ∧
        (∀ c, c ≠ GetGridAddress board3x3 2 → c ≠ GetGridAddress board3x3 5 →
          GetTileFromGridAddress g1 c = GetTileFromGridAddress board3x3 c) ∧
        g1.GridWidth = board3x3.GridWidth ∧ g1.GridHeight = board3x3.GridHeight ∧
        g1.MinimumRunLength = board3x3.MinimumRunLength) ∧
      FindNeighbors g1 2 true (-1) = some ra ∧ FindNeighbors g1 5 true (-1) = some rb ∧
      IsMoveLegal board3x3 (some 2) (some 5) = some (r, g') ∧
      (r = true ↔ (ra ≠ [] ∨ rb ≠ [])) ∧
      g'.LastLegalMatch = ra ++ rb :=
  IsMoveLegal_iff_runs board3x3 2 5 (by decide)
    (plainBoard_onBoard 3 3 3 _ 2 (by decide)) (plainBoard_onBoard 3 3 3 _ 5 (by decide))
    (by decide) (by decide) (by decide) (by decide) (by decide)

/-! ## Unwinnable boards: lemmas -/

theorem onBoard_withMatch (g : AGrid) (l : List TilePtr) (t : TilePtr) (h : OnBoard g t) :
    OnBoard { g with LastLegalMatch := l } t := h

/-- The legality test on a placed tile and a null or placed tile returns, leaves everything but
the cached match as it was, and its answer does not depend on the cached match. -/
theorem IsMoveLegal_frame (g : AGrid) (t : TilePtr) (B : Option TilePtr) (l0 : List TilePtr)
    (hW : 0 < g.GridWidth) (hon : OnBoard g t) (hB : ∀ u, B = some u → OnBoard g u) :
    ∃ (r : Bool) (l l' : List TilePtr),
      IsMoveLegal g (some t) B = some (r, { g with LastLegalMatch := l }) ∧
      IsMoveLegal { g with LastLegalMatch := l0 } (some t) B =
        some (r, { g with LastLegalMatch := l' }) := by
  cases B with
  | none => exact ⟨false, g.LastLegalMatch, l0, rfl, rfl⟩
  | some u =>
    have honu := hB u rfl
    by_cases h : t ≠ u ∧ (g.heap t).Abilities.CanSwap = true ∧
        (g.heap u).Abilities.CanSwap = true ∧
        (g.heap t).TileTypeID ≠ (g.heap u).TileTypeID ∧
        AreAddressesNeighbors g (GetGridAddress g t) (GetGridAddress g u) = true
    · obtain ⟨hab, hsa, hsb, hty, hn⟩ := h
      obtain ⟨g1, ra, rb, hs, _, hra, hrb, e⟩ :=
        IsMoveLegal_eq g t u hW hon honu hab hsa hsb hty hn
      obtain ⟨g1', ra', rb', hs', _, hra', hrb', e'⟩ :=
        IsMoveLegal_eq { g with LastLegalMatch := l0 } t u hW (onBoard_withMatch g l0 t hon)
          (onBoard_withMatch g l0 u honu) hab hsa hsb hty hn
      rw [SwapTiles_withMatch, hs] at hs'
      simp only [Option.map_some', Option.some.injEq] at hs'
      subst hs'
      rw [FindNeighbors_withMatch, hra] at hra'
      rw [FindNeighbors_withMatch, hrb] at hrb'
      injection hra' with hra'
      injection hrb' with hrb'
      subst hra' hrb'
      exact ⟨_, _, _, e, e'⟩
    · exact ⟨false, g.LastLegalMatch, l0, IsMoveLegal_of_not_guard g t u h,
        IsMoveLegal_of_not_guard { g with LastLegalMatch := l0 } t u h⟩

theorem onBoard_of_slot (g : AGrid) (n : Int) (u : TilePtr) (hcons : Consistent g)
    (h : GetTileFromGridAddress g n = some u) : OnBoard g u := by
  unfold OnBoard
  rw [hcons n u h]
  exact h

theorem probe_frame (g : AGrid) (t : TilePtr) (dx dy : Int) (l0 : List TilePtr)
    (hW : 0 < g.GridWidth) (hcons : Consistent g) (hon : OnBoard g t)
    (hv : ValidAddress g (GetGridAddress g t)) :
    ∃ l' : List TilePtr,
      IsUnwinnable_probe { g with LastLegalMatch := l0 } t (GetGridAddress g t) dx dy =
        some (probeAnswer g t dx dy, { g with LastLegalMatch := l' }) := by
  unfold IsUnwinnable_probe probeAnswer
  rw [offset_withMatch, offset_eq g _ dx dy hW hv.1 hv.2]
  split_ifs with hc
  · simp only [getTile_withMatch]
    obtain ⟨r, l, l', e, e'⟩ := IsMoveLegal_frame g t
      (GetTileFromGridAddress g (GetGridAddress g t + dx + dy * g.GridWidth)) l0 hW hon
      (fun u hu => onBoard_of_slot g _ u hcons hu)
    refine ⟨l', ?_⟩
    rw [e']
    unfold legalAnswer
    rw [e]
  · exact ⟨l0, rfl⟩

theorem body_frame (g : AGrid) (t : TilePtr) (l0 : List TilePtr)
    (hW : 0 < g.GridWidth) (hcons : Consistent g) (hon : OnBoard g t)
    (hv : ValidAddress g (GetGridAddress g t)) :
    ∃ l' : List TilePtr,
      IsUnwinnable_body { g with LastLegalMatch := l0 } t =
        some (tileHasMove g t, { g with LastLegalMatch := l' }) := by
  unfold IsUnwinnable_body tileHasMove
  have ha : GetGridAddress { g with LastLegalMatch := l0 } t = GetGridAddress g t := rfl
  simp only [ha]
  by_cases hex : (g.heap t).Abilities.CanExplode = true
  · rw [if_pos hex, hex]
    exact ⟨l0, by simp⟩
  · rw [if_neg hex]
    simp only [Bool.not_eq_true] at hex
    rw [hex]
    obtain ⟨l1, e1⟩ := probe_frame g t 0 (-1) l0 hW hcons hon hv
    rw [e1]
    cases h1 : probeAnswer g t 0 (-1)
    swap
    · exact ⟨l1, by simp⟩
    obtain ⟨l2, e2⟩ := probe_frame g t 0 1 l1 hW hcons hon hv
    simp only [e2]
    cases h2 : probeAnswer g t 0 1
    swap
    · exact ⟨l2, by simp⟩
    obtain ⟨l3, e3⟩ := probe_frame g t (-1) 0 l2 hW hcons hon hv
    simp only [e3]
    cases h3 : probeAnswer g t (-1) 0
    swap
    · exact ⟨l3, by simp⟩
    obtain ⟨l4, e4⟩ := probe_frame g t 1 0 l3 hW hcons hon hv
    simp only [e4]
    cases h4 : probeAnswer g t 1 0
    · exact ⟨l4, by simp⟩
    · exact ⟨l4, by simp⟩

theorem loop_frame (g : AGrid) (hwf : WellFormed g) (hcons : Consistent g)
    (hfull : FullyPopulated g) :
    ∀ (n i : Nat) (l0 : List TilePtr),
      ∃ (r : Bool) (l' : List TilePtr),
        IsUnwinnable_loop n i { g with LastLegalMatch := l0 } =
          some (r, { g with LastLegalMatch := l' }) ∧
        (r = false ↔ ∃ (j : Nat) (t : TilePtr), i ≤ j ∧ j < i + n ∧
          g.GameTiles[j]? = some (some t) ∧ tileHasMove g t = true) := by
  intro n
  induction n with
  | zero =>
    intro i l0
    refine ⟨true, l0, rfl, ?_⟩
    constructor
    · intro h; cases h
    · rintro ⟨j, t, h1, h2, _⟩; omega
  | succ n ih =>
    intro i l0
    unfold IsUnwinnable_loop
    simp only
    cases hs : g.GameTiles[i]? with
    | none =>
      refine ⟨true, l0, rfl, ?_⟩
      constructor
      · intro h; cases h
      · rintro ⟨j, t, h1, h2, h3, _⟩
        have hi := List.getElem?_eq_none_iff.mp hs
        have hj : j < g.GameTiles.length := by
          by_contra hcon
          rw [List.getElem?_eq_none (by omega)] at h3
          cases h3
        omega
    | some o =>
      have hil : i < g.GameTiles.length := by
        by_contra hcon
        rw [List.getElem?_eq_none (by omega)] at hs
        cases hs
      have hget : GetTileFromGridAddress g (i : Int) = o := by
        unfold GetTileFromGridAddress
        rw [if_pos ⟨by omega, by omega⟩]
        simp [hs]
      cases o with
      | none =>
        exfalso
        apply hfull (i : Int) _ hget
        unfold ValidAddress
        rw [← hwf.2.2]
        exact ⟨by omega, by omega⟩
      | some t =>
        simp only
        have hon := onBoard_of_slot g _ t hcons hget
        have hv := valid_of_onBoard g t hwf hon
        obtain ⟨l1, e1⟩ := body_frame g t l0 hwf.1 hcons hon hv
        rw [e1]
        cases hm : tileHasMove g t
        · simp only
          obtain ⟨r, l', e, hr⟩ := ih (i + 1) l1
          refine ⟨r, l', e, ?_⟩
          rw [hr]
          constructor
          · rintro ⟨j, u, h1, h2, h3, h4⟩
            exact ⟨j, u, by omega, by omega, h3, h4⟩
          · rintro ⟨j, u, h1, h2, h3, h4⟩
            rcases Nat.eq_or_lt_of_le h1 with h | h
            · subst h
              rw [hs] at h3
              injection h3 with h3
              injection h3 with h3
              subst h3
              rw [hm] at h4
              cases h4
            · exact ⟨j, u, by omega, by omega, h3, h4⟩
        · simp only
          refine ⟨false, l1, rfl, ?_⟩
          constructor
          · intro _
            exact ⟨i, t, by omega, by omega, hs, hm⟩
          · intro _; rfl

theorem probeAnswer_true_iff (g : AGrid) (t : TilePtr) (dx dy : Int) :
    probeAnswer g t dx dy = true ↔
      ∃ (n : Int) (u : TilePtr) (g'' : AGrid),
        GetGridAddressWithOffset g (GetGridAddress g t) dx dy = some (true, n) ∧
        GetTileFromGridAddress g n = some u ∧
        IsMoveLegal g (some t) (some u) = some (true, g'') := by
  unfold probeAnswer legalAnswer
  constructor
  · intro h
    cases ho : GetGridAddressWithOffset g (GetGridAddress g t) dx dy with
    | none => rw [ho] at h; cases h
    | some p =>
      obtain ⟨ok, n⟩ := p
      cases ok with
      | false => rw [ho] at h; cases h
      | true =>
        rw [ho] at h
        simp only at h
        cases hu : GetTileFromGridAddress g n with
        | none =>
          rw [hu] at h
          have e : IsMoveLegal g (some t) none = some (false, g) := rfl
          rw [e] at h
          cases h
        | some u =>
          rw [hu] at h
          cases hm : IsMoveLegal g (some t) (some u) with
          | none => rw [hm] at h; cases h
          | some q =>
            obtain ⟨r, g''⟩ := q
            rw [hm] at h
            simp only at h
            subst h
            exact ⟨n, u, g'', rfl, hu, hm⟩
  · rintro ⟨n, u, g'', ho, hu, hm⟩
    rw [ho]
    simp only
    rw [hu, hm]

theorem probeAnswer_false_imp (g : AGrid) (t : TilePtr) (dx dy : Int)
    (hW : 0 < g.GridWidth) (hcons : Consistent g) (hon : OnBoard g t)
    (h : probeAnswer g t dx dy = false) (n : Int) (u : TilePtr)
    (ho : GetGridAddressWithOffset g (GetGridAddress g t) dx dy = some (true, n))
    (hu : GetTileFromGridAddress g n = some u) :
    ∃ g'' : AGrid, IsMoveLegal g (some t) (some u) = some (false, g'') := by
  obtain ⟨r, l, _, e, _⟩ := IsMoveLegal_frame g t (some u) [] hW hon
    (fun v hv => by cases hv; exact onBoard_of_slot g n u hcons hu)
  unfold probeAnswer legalAnswer at h
  rw [ho] at h
  simp only at h
  rw [hu, e] at h
  simp only at h
  subst h
  exact ⟨_, e⟩

theorem tileHasMove_true_iff (g : AGrid) (t : TilePtr) :
    tileHasMove g t = true ↔
      ((g.heap t).Abilities.CanExplode = true ∨
        ∃ (dx dy : Int), (dx, dy) ∈ [((0 : Int), (-1 : Int)), (0, 1), (-1, 0), (1, 0)] ∧
          probeAnswer g t dx dy = true) := by
  unfold tileHasMove
  simp only [Bool.or_eq_true, List.mem_cons, Prod.mk.injEq, List.mem_singleton,
    List.not_mem_nil, or_false]
  constructor
  · rintro ((((h | h) | h) | h) | h)
    · exact Or.inl h
    · exact Or.inr ⟨0, -1, Or.inl ⟨rfl, rfl⟩, h⟩
    · exact Or.inr ⟨0, 1, Or.inr (Or.inl ⟨rfl, rfl⟩), h⟩
    · exact Or.inr ⟨-1, 0, Or.inr (Or.inr (Or.inl ⟨rfl, rfl⟩)), h⟩
    · exact Or.inr ⟨1, 0, Or.inr (Or.inr (Or.inr ⟨rfl, rfl⟩)), h⟩
  · rintro (h | ⟨dx, dy, (⟨rfl, rfl⟩ | ⟨rfl, rfl⟩ | ⟨rfl, rfl⟩ | ⟨rfl, rfl⟩), h⟩)
    · exact Or.inl (Or.inl (Or.inl (Or.inl h)))
    · exact Or.inl (Or.inl (Or.inl (Or.inr h)))
    · exact Or.inl (Or.inl (Or.inr h))
    · exact Or.inl (Or.inr h)
    · exact Or.inr h

theorem onBoard_iff_slot (g : AGrid) (t : TilePtr) (hcons : Consistent g) :
    OnBoard g t ↔ ∃ j : Nat, g.GameTiles[j]? = some (some t) := by
  constructor
  · intro h
    exact ⟨_, (slot_index g _ t h).2⟩
  · rintro ⟨j, hj⟩
    have hjl : j < g.GameTiles.length := by
      by_contra hcon
      rw [List.getElem?_eq_none (by omega)] at hj
      cases hj
    apply onBoard_of_slot g (j : Int) t hcons
    unfold GetTileFromGridAddress
    rw [if_pos ⟨by omega, by omega⟩]
    simp [hj]

/-! ## Claim on unwinnable boards -/

/-- C4: on a well-formed, fully populated, consistent board the unwinnable test returns, and it
returns false if and only if some tile of the board can explode or has an on-grid neighbour
below, above, to the left or to the right with which the legality test answers true; it
returns true if and only if no tile of the board can explode and the legality test answers
false for every tile and each of its on-grid neighbours in those four directions. -/
theorem IsUnwinnable_spec (g : AGrid) (hwf : WellFormed g) (hfull : FullyPopulated g)
    (hcons : Consistent g) :
    ∃ (r : Bool) (g' : AGrid), IsUnwinnable g = some (r, g') ∧
      (r = false ↔ ∃ t : TilePtr, OnBoard g t ∧
        ((g.heap t).Abilities.CanExplode = true ∨
          ∃ (dx dy n : Int) (u : TilePtr) (g'' : AGrid),
            (dx, dy) ∈ [((0 : Int), (-1 : Int)), (0, 1), (-1, 0), (1, 0)] ∧
            GetGridAddressWithOffset g (GetGridAddress g t) dx dy = some (true, n) ∧
            GetTileFromGridAddress g n = some u ∧
            IsMoveLegal g (some t) (some u) = some (true, g''))) ∧
      (r = true ↔ ∀ t : TilePtr, OnBoard g t →
        ((g.heap t).Abilities.CanExplode = false ∧
          ∀ (dx dy n : Int) (u : TilePtr),
            (dx, dy) ∈ [((0 : Int), (-1 : Int)), (0, 1), (-1, 0), (1, 0)] →
            GetGridAddressWithOffset g (GetGridAddress g t) dx dy = some (true, n) →
            GetTileFromGridAddress g n = some u →
            ∃ g'' : AGrid, IsMoveLegal g (some t) (some u) = some (false, g''))) := by
  obtain ⟨r, l', e, hr⟩ := loop_frame g hwf hcons hfull g.GameTiles.length 0 g.LastLegalMatch
  have hfalse : r = false ↔ ∃ t : TilePtr, OnBoard g t ∧ tileHasMove g t = true := by
    rw [hr]
    constructor
    · rintro ⟨j, t, _, _, hj, hm⟩
      exact ⟨t, (onBoard_iff_slot g t hcons).mpr ⟨j, hj⟩, hm⟩
    · rintro ⟨t, hon, hm⟩
      obtain ⟨j, hj⟩ := (onBoard_iff_slot g t hcons).mp hon
      have hjl : j < g.GameTiles.length := by
        by_contra hcon
        rw [List.getElem?_eq_none (by omega)] at hj
        cases hj
      exact ⟨j, t, by omega, by omega, hj, hm⟩
  refine ⟨r, _, e, ?_, ?_⟩
  · rw [hfalse]
    constructor
    · rintro ⟨t, hon, hm⟩
      refine ⟨t, hon, ?_⟩
      rcases (tileHasMove_true_iff g t).mp hm with h | ⟨dx, dy, hd, hp⟩
      · exact Or.inl h
      · obtain ⟨n, u, g'', h1, h2, h3⟩ := (probeAnswer_true_iff g t dx dy).mp hp
        exact Or.inr ⟨dx, dy, n, u, g'', hd, h1, h2, h3⟩
    · rintro ⟨t, hon, h⟩
      refine ⟨t, hon, (tileHasMove_true_iff g t).mpr ?_⟩
      rcases h with h | ⟨dx, dy, n, u, g'', hd, h1, h2, h3⟩
      · exact Or.inl h
      · exact Or.inr ⟨dx, dy, hd, (probeAnswer_true_iff g t dx dy).mpr ⟨n, u, g'', h1, h2, h3⟩⟩
  · constructor
    · intro hrt t hon
      have hnm : tileHasMove g t = false := by
        cases hm : tileHasMove g t
        · rfl
        · have := hfalse.mpr ⟨t, hon, hm⟩
          rw [this] at hrt
          cases hrt
      have hno := (not_congr (tileHasMove_true_iff g t)).mp (by rw [hnm]; simp)
      refine ⟨?_, ?_⟩
      · cases hc : (g.heap t).Abilities.CanExplode
        · rfl
        · exact absurd (Or.inl hc) hno
      · intro dx dy n u hd h1 h2
        apply probeAnswer_false_imp g t dx dy hwf.1 hcons hon _ n u h1 h2
        cases hp : probeAnswer g t dx dy
        · rfl
        · exact absurd (Or.inr ⟨dx, dy, hd, hp⟩) hno
    · intro hall
      cases hrr : r
      swap
      · rfl
      obtain ⟨t, hon, hm⟩ := hfalse.mp hrr
      obtain ⟨hc, hp⟩ := hall t hon
      rcases (tileHasMove_true_iff g t).mp hm with h | ⟨dx, dy, hd, hpa⟩
      · rw [hc] at h
        cases h
      · obtain ⟨n, u, g'', h1, h2, h3⟩ := (probeAnswer_true_iff g t dx dy).mp hpa
        obtain ⟨g3, h4⟩ := hp dx dy n u hd h1 h2
        rw [h3] at h4
        injection h4 with h4
        injection h4 with h4
        cases h4

/-- C4 on the 3 x 3 board of nine different types. -/
theorem IsUnwinnable_spec_witness :
    ∃ (r : Bool) (g' : AGrid), IsUnwinnable deadBoard = some (r, g') ∧
      (r = false ↔ ∃ t : TilePtr, OnBoard deadBoard t ∧
        ((deadBoard.heap t).Abilities.CanExplode = true ∨
          ∃ (dx dy n : Int) (u : TilePtr) (g'' : AGrid),
            (dx, dy) ∈ [((0 : Int), (-1 : Int)), (0, 1), (-1, 0), (1, 0)] ∧
            GetGridAddressWithOffset deadBoard (GetGridAddress deadBoard t) dx dy =
              some (true, n) ∧
            GetTileFromGridAddress deadBoard n = some u ∧
            IsMoveLegal deadBoard (some t) (some u) = some (true, g''))) ∧
      (r = true ↔ ∀ t : TilePtr, OnBoard deadBoard t →
        ((deadBoard.heap t).Abilities.CanExplode = false ∧
          ∀ (dx dy n : Int) (u : TilePtr),
            (dx, dy) ∈ [((0 : Int), (-1 : Int)), (0, 1), (-1, 0), (1, 0)] →
            GetGridAddressWithOffset deadBoard (GetGridAddress deadBoard t) dx dy =
              some (true, n) →
            GetTileFromGridAddress deadBoard n = some u →
            ∃ g'' : AGrid, IsMoveLegal deadBoard (some t) (some u) = some (false, g''))) :=
  IsUnwinnable_spec deadBoard
    (plainBoard_wellFormed 3 3 3 _ (by decide) (by decide) (by decide))
    (plainBoard_full 3 3 3 _ (by decide)) (plainBoard_consistent 3 3 3 _)

/-! ## Claims on the neighbour test and on explosions -/

/-- C11 fails on the code at a row boundary: on the 3 x 3 grid the neighbour test accepts
the addresses 2 and 3, the last cell of row 0 and the first cell of row 1, which are valid
but neither in one row nor in one column. -/
theorem AreAddressesNeighbors_row_wrap :
    AreAddressesNeighbors board3x3 2 3 = true ∧ ¬ gridNeighbors board3x3 2 3 ∧
      rowOf board3x3 2 = 0 ∧ colOf board3x3 2 = 2 ∧
      rowOf board3x3 3 = 1 ∧ colOf board3x3 3 = 0 := by
  refine ⟨by decide, by decide, by decide, by decide, by decide, by decide⟩

theorem FMath_Max_eq (a b : Int) : FMath.Max a b = max a b := by
  unfold FMath.Max
  split_ifs with h
  · exact (max_eq_left h).symm
  · exact (max_eq_right (by omega)).symm

/-- C12: for a tile that can explode, with the game mode present and reporting the combo bonus
c, the explosion list is the result of run detection from the tile without type matching and
with run length max(1, bomb power + 1 + c). -/
theorem GetExplosionList_eq (w : UWorld) (t : TilePtr) (gm : AMatch3GameMode) (c : Int)
    (hex : (w.Grid.heap t).Abilities.CanExplode = true) (hgm : w.GameMode = some gm)
    (hc : CalculateBombPower w = c) :
    GetExplosionList w (some t) =
      FindNeighbors w.Grid t false (max 1 ((w.Grid.heap t).Abilities.BombPower + 1 + c)) := by
  unfold GetExplosionList
  simp only [hex, not_true_eq_false, if_false, hgm, hc, FMath_Max_eq]

/-- C12 for the bomb in the centre of the 3 x 3 board, with combo bonus 0. -/
theorem GetExplosionList_eq_witness :
    GetExplosionList bombWorld (some 4) =
      FindNeighbors bombWorld.Grid 4 false
        (max 1 ((bombWorld.Grid.heap 4).Abilities.BombPower + 1 + 0)) :=
  GetExplosionList_eq bombWorld 4 _ 0 (by decide) rfl rfl

/-! ## Claims on the guards of the selection and on the rejected swap -/

/-- C16: when the falling set or the destroying set is not empty, or a swap is pending, or the
game is not active, or the tile is null, the selection returns the world as it was: grid,
tiles, selection, transient sets, flags, last moves, score and recorded events. -/
theorem OnTileWasSelected_guarded (fuel : Nat) (w : UWorld) (T : Option TilePtr)
    (h : w.Grid.FallingTiles ≠ [] ∨ w.Grid.TilesBeingDestroyed ≠ [] ∨
      w.Grid.bPendingSwapMove = true ∨ IsGameActive w = false ∨ T = none) :
    OnTileWasSelected fuel w T = Outcome.done w := by
  cases T with
  | none => rfl
  | some New =>
    unfold OnTileWasSelected
    simp only
    rw [if_pos]
    rcases h with h | h | h | h | h
    · exact Or.inl (fun e => h (List.eq_nil_of_length_eq_zero e))
    · exact Or.inr (Or.inl (fun e => h (List.eq_nil_of_length_eq_zero e)))
    · exact Or.inr (Or.inr (Or.inl h))
    · exact Or.inr (Or.inr (Or.inr h))
    · cases h

/-- C16 on the 3 x 3 board while a swap is pending. -/
theorem OnTileWasSelected_guarded_witness :
    OnTileWasSelected 0 rejectedSwapWorld (some 4) = Outcome.done rejectedSwapWorld :=
  OnTileWasSelected_guarded 0 rejectedSwapWorld (some 4) (Or.inr (Or.inr (Or.inl rfl)))

/-- C19: when the pending swap did not succeed, the second completion of a swap animation
returns the world with the swapping set emptied, the pending flag cleared and one failed-move
event appended to the record; the board, every tile (address and state included), the
destroyed tiles and the player's score are what they were. -/
theorem OnSwapDisplayFinished_rejected (fuel : Nat) (w : UWorld) (a b : TilePtr)
    (hfirst : w.Grid.SwappingTiles = [a]) (hfail : w.Grid.bPendingSwapMoveSuccess = false) :
    ∃ w' : UWorld, OnSwapDisplayFinished fuel w b = Outcome.done w' ∧
      w'.Grid.GameTiles = w.Grid.GameTiles ∧ w'.Grid.heap = w.Grid.heap ∧
      w'.Grid.SwappingTiles = [] ∧ w'.Grid.bPendingSwapMove = false ∧
      w'.Events = w.Events ++ [FEvent.OnMoveMade EMatch3MoveType.MT_Failure] ∧
      w'.Destroyed = w.Destroyed ∧ w'.Grid.TilesBeingDestroyed = w.Grid.TilesBeingDestroyed ∧
      w'.PlayerController = w.PlayerController ∧ w'.GameMode = w.GameMode ∧
      w' = Emit { w with Grid := { w.Grid with SwappingTiles := [], bPendingSwapMove := false } }
        (FEvent.OnMoveMade EMatch3MoveType.MT_Failure) := by
  refine ⟨Emit { w with
      Grid := { w.Grid with SwappingTiles := [], bPendingSwapMove := false } }
    (FEvent.OnMoveMade EMatch3MoveType.MT_Failure), ?_, rfl, rfl, rfl, rfl, rfl, rfl, rfl,
    rfl, rfl, rfl⟩
  unfold OnSwapDisplayFinished
  simp only [hfirst, hfail, List.singleton_append, Bool.false_eq_true, if_false]

/-- C19 on the 3 x 3 board after a rejected swap of the tiles at addresses 0 and 1. -/
theorem OnSwapDisplayFinished_rejected_witness :
    ∃ w' : UWorld, OnSwapDisplayFinished 0 rejectedSwapWorld 1 = Outcome.done w' ∧
      w'.Grid.GameTiles = rejectedSwapWorld.Grid.GameTiles ∧
      w'.Grid.heap = rejectedSwapWorld.Grid.heap ∧
      w'.Grid.SwappingTiles = [] ∧ w'.Grid.bPendingSwapMove = false ∧
      w'.Events = rejectedSwapWorld.Events ++ [FEvent.OnMoveMade EMatch3MoveType.MT_Failure] ∧
      w'.Destroyed = rejectedSwapWorld.Destroyed ∧
      w'.Grid.TilesBeingDestroyed = rejectedSwapWorld.Grid.TilesBeingDestroyed ∧
      w'.PlayerController = rejectedSwapWorld.PlayerController ∧
      w'.GameMode = rejectedSwapWorld.GameMode ∧
      w' = Emit { rejectedSwapWorld with
          Grid := { rejectedSwapWorld.Grid with SwappingTiles := [], bPendingSwapMove := false } }
        (FEvent.OnMoveMade EMatch3MoveType.MT_Failure) :=
  OnSwapDisplayFinished_rejected 0 rejectedSwapWorld 0 1 rfl rfl

/-! ## Claims on the selection of a tile type -/

theorem cumulativeProbability_zero (T : FTileType) (rest : List FTileType) :
    cumulativeProbability (T :: rest) 0 = T.Probability := by
  simp [cumulativeProbability]

theorem cumulativeProbability_succ (T : FTileType) (rest : List FTileType) (k : Nat) :
    cumulativeProbability (T :: rest) (k + 1) = T.Probability + cumulativeProbability rest k := by
  simp [cumulativeProbability]

/-- The scan of the library stops at the first entry whose cumulative probability reaches the
test number. -/
theorem scan_spec (d : ℚ) :
    ∀ (rest : List FTileType) (i : Int) (c : ℚ), rest ≠ [] →
      d ≤ c + totalProbability rest →
      ∃ k : Nat, SelectTileFromLibrary_scan d rest i c = i + (k : Int) ∧ k < rest.length ∧
        d ≤ c + cumulativeProbability rest k ∧
        ∀ j : Nat, j < k → c + cumulativeProbability rest j < d := by
  intro rest
  induction rest with
  | nil => intro i c h; exact absurd rfl h
  | cons T rest ih =>
    intro i c _ hd
    unfold SelectTileFromLibrary_scan
    by_cases hT : d ≤ c + T.Probability
    · rw [if_pos hT]
      refine ⟨0, by simp, by simp, ?_, ?_⟩
      · rw [cumulativeProbability_zero]; exact hT
      · intro j hj; omega
    · rw [if_neg hT]
      have hne : rest ≠ [] := by
        intro e
        subst e
        apply hT
        simpa [totalProbability] using hd
      have hd' : d ≤ (c + T.Probability) + totalProbability rest := by
        have e : c + totalProbability (T :: rest)
            = (c + T.Probability) + totalProbability rest := by
          simp [totalProbability]; ring
        rw [← e]; exact hd
      obtain ⟨k, hk, hlen, hge, hlt⟩ := ih (i + 1) (c + T.Probability) hne hd'
      refine ⟨k + 1, ?_, by simpa using hlen, ?_, ?_⟩
      · rw [hk]; push_cast; ring
      · rw [cumulativeProbability_succ, ← add_assoc]; exact hge
      · intro j hj
        cases j with
        | zero =>
          rw [cumulativeProbability_zero]
          exact lt_of_not_ge hT
        | succ j =>
          rw [cumulativeProbability_succ, ← add_assoc]
          exact hlt j (by omega)

theorem sum_eq_totalProbability (lib : List FTileType) (c : ℚ) :
    SelectTileFromLibrary_sum lib c = c + totalProbability lib := by
  induction lib generalizing c with
  | nil => simp [SelectTileFromLibrary_sum, totalProbability]
  | cons T rest ih =>
    rw [SelectTileFromLibrary_sum, ih]
    simp [totalProbability]
    ring

theorem totalProbability_nonneg (lib : List FTileType)
    (hp : ∀ T ∈ lib, 0 ≤ T.Probability) : 0 ≤ totalProbability lib := by
  unfold totalProbability
  apply List.sum_nonneg
  intro x hx
  obtain ⟨T, hT, rfl⟩ := List.mem_map.mp hx
  exact hp T hT

/-- With non-negative probabilities summing to S, a value of `FRand` in [0, 1] gives a test
number in [0, S]. -/
theorem NextTestNumber_range (w : UWorld) (hp : ∀ T ∈ w.TileLibrary, 0 ≤ T.Probability)
    (hu0 : 0 ≤ w.RandomDraws w.RandomCount) (hu1 : w.RandomDraws w.RandomCount ≤ 1) :
    0 ≤ NextTestNumber w ∧ NextTestNumber w ≤ totalProbability w.TileLibrary := by
  have hS := totalProbability_nonneg w.TileLibrary hp
  unfold NextTestNumber FMath.FRandRange
  rw [sum_eq_totalProbability]
  simp only [zero_add, sub_zero]
  constructor
  · exact mul_nonneg hS hu0
  · exact mul_le_of_le_one_right hS hu1

/-- C13: for a non-empty catalogue whose probabilities sum to S and a draw d with d <= S
(the lower bound 0 <= d and the signs of the probabilities play no role), in exact arithmetic,
the selection returns the smallest index whose cumulative probability is at least d; the
result is a valid index of the catalogue, and it is 0 for a catalogue of one entry. -/
theorem SelectTileFromLibrary_spec (w : UWorld) (hne : w.TileLibrary ≠ [])
    (hd1 : NextTestNumber w ≤ totalProbability w.TileLibrary) :
    ∃ r : Nat, (SelectTileFromLibrary w).1 = (r : Int) ∧ r < w.TileLibrary.length ∧
      NextTestNumber w ≤ cumulativeProbability w.TileLibrary r ∧
      (∀ j : Nat, j < r → cumulativeProbability w.TileLibrary j < NextTestNumber w) ∧
      (w.TileLibrary.length = 1 → r = 0) := by
  obtain ⟨k, hk, hlen, hge, hlt⟩ :=
    scan_spec (NextTestNumber w) w.TileLibrary 0 0 hne (by simpa using hd1)
  refine ⟨k, ?_, hlen, by simpa using hge, ?_, ?_⟩
  · unfold SelectTileFromLibrary
    simp only [hk, zero_add]
  · intro j hj
    simpa using hlt j hj
  · intro h1
    omega

/-- C13 on a library of three entries with probabilities 1/2, 1, 1 and the draw 15/14. -/
theorem SelectTileFromLibrary_spec_witness :
    ∃ r : Nat, (SelectTileFromLibrary drawWorld).1 = (r : Int) ∧
      r < drawWorld.TileLibrary.length ∧
      NextTestNumber drawWorld ≤ cumulativeProbability drawWorld.TileLibrary r ∧
      (∀ j : Nat, j < r → cumulativeProbability drawWorld.TileLibrary j <
        NextTestNumber drawWorld) ∧
      (drawWorld.TileLibrary.length = 1 → r = 0) :=
  SelectTileFromLibrary_spec drawWorld (List.cons_ne_nil _ _)
    (by
      simp [NextTestNumber, drawWorld, worldOf, FMath.FRandRange, SelectTileFromLibrary_sum,
        totalProbability, bombType, plainType]
      norm_num)

/-- C14 fails on the code: on an empty library the selection returns the type id 0, which is
no index of the library, and raises nothing. -/
theorem SelectTileFromLibrary_empty_counterexample :
    emptyLibraryWorld.TileLibrary = [] ∧ (SelectTileFromLibrary emptyLibraryWorld).1 = 0 ∧
      GetTileType emptyLibraryWorld 0 = none ∧
      (SelectTileFromLibrary emptyLibraryWorld).2.Events = [] := by
  refine ⟨rfl, rfl, rfl, rfl⟩

/-- C14, as amended: on an empty library the selection returns the type id 0 without reporting
an error; it uses one random value and changes nothing else. -/
theorem SelectTileFromLibrary_empty (w : UWorld) (hlib : w.TileLibrary = []) :
    SelectTileFromLibrary w = (0, { w with RandomCount := w.RandomCount + 1 }) := by
  unfold SelectTileFromLibrary
  rw [hlib]
  rfl

/-- C14 as amended, on a world with an empty library. -/
theorem SelectTileFromLibrary_empty_witness :
    SelectTileFromLibrary emptyLibraryWorld =
      (0, { emptyLibraryWorld with RandomCount := emptyLibraryWorld.RandomCount + 1 }) :=
  SelectTileFromLibrary_empty emptyLibraryWorld rfl

/-! ## Claim on the initialisation of the grid -/

theorem Outcome_bind_done {α β : Type} (a : α) (f : α → Outcome β) :
    (Outcome.done a).bind f = f a := rfl

theorem Outcome_bind_outOfFuel {α β : Type} (f : α → Outcome β) :
    (Outcome.outOfFuel : Outcome α).bind f = Outcome.outOfFuel := rfl

theorem Outcome_bind_failed {α β : Type} (f : α → Outcome β) :
    (Outcome.failed : Outcome α).bind f = Outcome.failed := rfl

theorem InitGrid_columns_flat (fuel : Nat) :
    ∀ (n : Nat) (w : UWorld) (Column : Int), w.Grid.GridHeight ≤ 0 →
      InitGrid_columns fuel n w Column = Outcome.done w := by
  intro n
  induction n with
  | zero => intro w Column _; rfl
  | succ n ih =>
    intro w Column hH
    have h0 : w.Grid.GridHeight.toNat = 0 := by omega
    rw [InitGrid_columns, h0]
    simp only [InitGrid_rows, Outcome_bind_done]
    exact ih w (Column + 1) hH

/-- With a minimum run length below 2 the selection loop of the initialisation rejects every
tile type for the first cell. -/
theorem InitGrid_pick_never (fuel : Nat) :
    ∀ (w : UWorld), w.Grid.MinimumRunLength ≤ 1 →
      InitGrid_pick fuel w 0 0 = Outcome.outOfFuel := by
  induction fuel with
  | zero => intro w _; rfl
  | succ n ih =>
    intro w hR
    have h0 : (w.Grid.MinimumRunLength - 1).toNat = 0 := by omega
    have haxes : ∀ TileID, InitGrid_axes w.Grid 0 0 TileID = some 1 := by
      intro TileID
      unfold InitGrid_axes
      rw [h0]
      simp only [InitGrid_run]
      split_ifs <;> rfl
    have htry : InitGrid_try w 0 0 =
        some (((SelectTileFromLibrary w).1, false), (SelectTileFromLibrary w).2) := by
      unfold InitGrid_try
      have hg : (SelectTileFromLibrary w).2.Grid = w.Grid := rfl
      simp only [hg, haxes]
      rw [if_pos (Or.inl (by omega)), if_neg (by omega)]
    rw [InitGrid_pick, htry]
    exact ih _ hR

theorem InitGrid_cell_never (fuel : Nat) (w : UWorld) (hW : 0 < w.Grid.GridWidth)
    (hH : 0 < w.Grid.GridHeight) (hR : w.Grid.MinimumRunLength ≤ 1) :
    InitGrid_cell fuel w 0 0 = Outcome.outOfFuel := by
  have hpos : 0 < w.Grid.GridWidth * w.Grid.GridHeight := Int.mul_pos hW hH
  have hoff : GetGridAddressWithOffset (SelectTileFromLibrary w).2.Grid 0 0 0 =
      some (true, 0) := by
    have hg : (SelectTileFromLibrary w).2.Grid = w.Grid := rfl
    rw [hg, offset_eq w.Grid 0 0 0 hW (le_refl 0) hpos, if_pos]
    · simp
    · simp only [Int.zero_emod, Int.zero_ediv, add_zero]
      omega
  unfold InitGrid_cell
  simp only [hoff]
  rw [InitGrid_pick_never fuel (SelectTileFromLibrary w).2 hR]
  rfl

theorem InitGrid_columns_never (fuel n : Nat) (w : UWorld) (hW : 0 < w.Grid.GridWidth)
    (hH : 0 < w.Grid.GridHeight) (hR : w.Grid.MinimumRunLength ≤ 1) :
    InitGrid_columns fuel (n + 1) w 0 = Outcome.outOfFuel := by
  obtain ⟨m, hm⟩ : ∃ m, w.Grid.GridHeight.toNat = m + 1 :=
    ⟨w.Grid.GridHeight.toNat - 1, by omega⟩
  rw [InitGrid_columns, hm]
  simp only [InitGrid_rows]
  rw [InitGrid_cell_never fuel w hW hH hR]
  rfl

/-- C15, as amended: the initialisation of the grid checks nothing and signals no error.  With
a grid width or height that is not positive (their product not being negative) it returns
normally, with a board of `W * H` empty slots and no tile created; with positive width and
height and a minimum run length below 1 (or equal to 1) it does not return, whatever the bound
given: its selection loop rejects every tile type. -/
theorem InitGrid_unchecked (fuel : Nat) (w : UWorld)
    (hbad : w.Grid.GridWidth ≤ 0 ∨ w.Grid.GridHeight ≤ 0 ∨ w.Grid.MinimumRunLength ≤ 1)
    (hprod : 0 ≤ w.Grid.GridWidth * w.Grid.GridHeight) :
    InitGrid fuel w =
      if w.Grid.GridWidth ≤ 0 ∨ w.Grid.GridHeight ≤ 0 then
        Outcome.done { w with Grid := { w.Grid with
          GameTiles := List.replicate (w.Grid.GridWidth * w.Grid.GridHeight).toNat none } }
      else Outcome.outOfFuel := by
  unfold InitGrid
  rw [if_neg (by omega)]
  simp only
  by_cases hW : w.Grid.GridWidth ≤ 0
  · rw [if_pos (Or.inl hW)]
    have h0 : w.Grid.GridWidth.toNat = 0 := by omega
    rw [h0]
    rfl
  · by_cases hH : w.Grid.GridHeight ≤ 0
    · rw [if_pos (Or.inr hH)]
      exact InitGrid_columns_flat fuel _ _ 0 hH
    · rw [if_neg (by tauto)]
      have hR : w.Grid.MinimumRunLength ≤ 1 := by tauto
      obtain ⟨n, hn⟩ : ∃ n, w.Grid.GridWidth.toNat = n + 1 := ⟨w.Grid.GridWidth.toNat - 1, by omega⟩
      rw [hn]
      exact InitGrid_columns_never fuel n
        { w with Grid := { w.Grid with
          GameTiles := List.replicate (w.Grid.GridWidth * w.Grid.GridHeight).toNat none } }
        (by simpa using hW) (by simpa using hH) hR

/-- C15 as amended, on a grid of width 0. -/
theorem InitGrid_unchecked_witness :
    InitGrid 1 zeroWidthWorld =
      if zeroWidthWorld.Grid.GridWidth ≤ 0 ∨ zeroWidthWorld.Grid.GridHeight ≤ 0 then
        Outcome.done { zeroWidthWorld with Grid := { zeroWidthWorld.Grid with
          GameTiles := List.replicate
            (zeroWidthWorld.Grid.GridWidth * zeroWidthWorld.Grid.GridHeight).toNat none } }
      else Outcome.outOfFuel :=
  InitGrid_unchecked 1 zeroWidthWorld (Or.inl (by decide)) (by decide)

/-- C15 fails on the code: with a grid width of 0 the initialisation returns normally, having
built an empty board without creating a tile or raising anything. -/
theorem InitGrid_counterexample :
    zeroWidthWorld.Grid.GridWidth = 0 ∧
      ∃ w' : UWorld, InitGrid 1 zeroWidthWorld = Outcome.done w' ∧
        w'.Grid.GameTiles = [] ∧ w'.NextTile = zeroWidthWorld.NextTile ∧ w'.Events = [] :=
  ⟨rfl, _, rfl, rfl, rfl, rfl⟩

/-! ## Claim on the second selection -/

theorem Outcome_bind_eq_done {α β : Type} (x : Outcome α) (f : α → Outcome β) (b : β)
    (h : x.bind f = Outcome.done b) : ∃ a, x = Outcome.done a ∧ f a = Outcome.done b := by
  cases x with
  | done a => exact ⟨a, rfl, h⟩
  | failed => cases h
  | outOfFuel => cases h

/-! The pending flag does not influence the legality test. -/

theorem walk_withPending (g : AGrid) (p : Bool) (t : TilePtr) (must hz : Bool) (d : Int) :
    ∀ (n : Nat) (off : Int) (acc : List TilePtr),
      FindNeighbors_walk { g with bPendingSwapMove := p } t must hz d n off acc =
        FindNeighbors_walk g t must hz d n off acc := by
  intro n
  induction n with
  | zero => intro off acc; rfl
  | succ n ih =>
    intro off acc
    have ho : ∀ a dx dy, GetGridAddressWithOffset { g with bPendingSwapMove := p } a dx dy =
        GetGridAddressWithOffset g a dx dy := fun _ _ _ => rfl
    have hg : ∀ a, GetTileFromGridAddress { g with bPendingSwapMove := p } a =
        GetTileFromGridAddress g a := fun _ => rfl
    simp only [FindNeighbors_walk, ho, hg, ih]
    rfl

theorem FindNeighbors_withPending (g : AGrid) (p : Bool) (t : TilePtr) (must : Bool)
    (R : Int) :
    FindNeighbors { g with bPendingSwapMove := p } t must R = FindNeighbors g t must R := by
  simp only [FindNeighbors, FindNeighbors_axis, walk_withPending]

theorem SwapTiles_withPending (g : AGrid) (p : Bool) (a b : TilePtr) :
    SwapTiles { g with bPendingSwapMove := p } a b =
      (SwapTiles g a b).map (fun g1 => { g1 with bPendingSwapMove := p }) := by
  unfold SwapTiles SetGameTile SetGridAddress GetGridAddress
  simp only
  split_ifs <;> simp

theorem IsMoveLegal_withPending (g : AGrid) (p : Bool) (t u : TilePtr) (r : Bool)
    (l : List TilePtr) (hW : 0 < g.GridWidth) (hon : OnBoard g t) (honu : OnBoard g u)
    (h : IsMoveLegal g (some t) (some u) = some (r, { g with LastLegalMatch := l })) :
    IsMoveLegal { g with bPendingSwapMove := p } (some t) (some u) =
      some (r, { g with LastLegalMatch := l, bPendingSwapMove := p }) := by
  by_cases hg : t ≠ u ∧ (g.heap t).Abilities.CanSwap = true ∧
      (g.heap u).Abilities.CanSwap = true ∧
      (g.heap t).TileTypeID ≠ (g.heap u).TileTypeID ∧
      AreAddressesNeighbors g (GetGridAddress g t) (GetGridAddress g u) = true
  · obtain ⟨hab, hsa, hsb, hty, hn⟩ := hg
    obtain ⟨g1, ra, rb, hs, _, hra, hrb, e⟩ :=
      IsMoveLegal_eq g t u hW hon honu hab hsa hsb hty hn
    obtain ⟨g1', ra', rb', hs', _, hra', hrb', e'⟩ :=
      IsMoveLegal_eq { g with bPendingSwapMove := p } t u hW hon honu hab hsa hsb hty hn
    rw [SwapTiles_withPending, hs] at hs'
    simp only [Option.map_some', Option.some.injEq] at hs'
    subst hs'
    rw [FindNeighbors_withPending, hra] at hra'
    rw [FindNeighbors_withPending, hrb] at hrb'
    injection hra' with hra'
    injection hrb' with hrb'
    subst hra' hrb'
    rw [e] at h
    injection h with h
    injection h with hr hg
    have hl : ra ++ rb = l := congrArg AGrid.LastLegalMatch hg
    rw [e', hr, hl]
  · rw [IsMoveLegal_of_not_guard g t u hg] at h
    injection h with h
    injection h with hr hg'
    have hl : g.LastLegalMatch = l := congrArg AGrid.LastLegalMatch hg'
    rw [IsMoveLegal_of_not_guard { g with bPendingSwapMove := p } t u hg, hr, ← hl]

/-! ## Match execution: lemmas -/

theorem sameButStates_refl (g : AGrid) : sameButStates g g :=
  ⟨rfl, rfl, rfl, rfl, rfl, rfl, rfl, rfl, rfl, rfl, rfl, rfl, fun _ => ⟨rfl, rfl, rfl, rfl⟩⟩

theorem sameButStates_trans (g1 g2 g3 : AGrid) (h12 : sameButStates g1 g2)
    (h23 : sameButStates g2 g3) : sameButStates g1 g3 := by
  obtain ⟨a1, a2, a3, a4, a5, a6, a7, a8, a9, a10, a11, a12, a13⟩ := h12
  obtain ⟨b1, b2, b3, b4, b5, b6, b7, b8, b9, b10, b11, b12, b13⟩ := h23
  refine ⟨b1.trans a1, b2.trans a2, b3.trans a3, b4.trans a4, b5.trans a5, b6.trans a6,
    b7.trans a7, b8.trans a8, b9.trans a9, b10.trans a10, b11.trans a11, b12.trans a12, ?_⟩
  intro t
  obtain ⟨c1, c2, c3, c4⟩ := a13 t
  obtain ⟨d1, d2, d3, d4⟩ := b13 t
  exact ⟨d1.trans c1, d2.trans c2, d3.trans c3, d4.trans c4⟩

theorem sameButStates_setState (g : AGrid) (t : TilePtr) (s : ETileState) :
    sameButStates g (SetTileState g t s) := by
  refine ⟨rfl, rfl, rfl, rfl, rfl, rfl, rfl, rfl, rfl, rfl, rfl, rfl, ?_⟩
  intro u
  unfold SetTileState
  by_cases hu : u = t
  · subst hu
    simp
  · simp [Function.update_noteq hu]

theorem sameButStates_falling (g : AGrid) (l : List TilePtr) :
    sameButStates g { g with FallingTiles := l } :=
  ⟨rfl, rfl, rfl, rfl, rfl, rfl, rfl, rfl, rfl, rfl, rfl, rfl, fun _ => ⟨rfl, rfl, rfl, rfl⟩⟩

theorem getTile_congr (g g' : AGrid) (h : g'.GameTiles = g.GameTiles) (a : Int) :
    GetTileFromGridAddress g' a = GetTileFromGridAddress g a := by
  unfold GetTileFromGridAddress
  rw [h]

/-- The rising loop changes only states and the falling set, and no tile of the match. -/
theorem rise_frame (M : List TilePtr) (T : TilePtr) :
    ∀ (n : Nat) (y : Int) (g g' : AGrid), ExecuteMatch_rise M T n y g = some g' →
      sameButStates g g' ∧ ∀ t ∈ M, g'.heap t = g.heap t := by
  intro n
  induction n with
  | zero =>
    intro y g g' h
    simp only [ExecuteMatch_rise, Option.some.injEq] at h
    subst h
    exact ⟨sameButStates_refl g, fun _ _ => rfl⟩
  | succ n ih =>
    intro y g g' h
    unfold ExecuteMatch_rise at h
    cases ho : GetGridAddressWithOffset g (GetGridAddress g T) 0 y with
    | none => rw [ho] at h; cases h
    | some p =>
      obtain ⟨ok, a⟩ := p
      rw [ho] at h
      cases ok with
      | false =>
        simp only at h
        exact ih (y + 1) g g' h
      | true =>
        simp only at h
        cases hu : GetTileFromGridAddress g a with
        | none =>
          rw [hu] at h
          simp only [Option.some.injEq] at h
          subst h
          exact ⟨sameButStates_refl g, fun _ _ => rfl⟩
        | some up =>
          rw [hu] at h
          simp only at h
          by_cases hm : up ∈ M
          · rw [if_neg (by simpa using hm)] at h
            simp only [Option.some.injEq] at h
            subst h
            exact ⟨sameButStates_refl g, fun _ _ => rfl⟩
          · rw [if_pos hm] at h
            split_ifs at h with hc
            obtain ⟨h1, h2⟩ := ih (y + 1) _ g' h
            refine ⟨sameButStates_trans _ _ _ (sameButStates_trans _ _ _
              (sameButStates_setState g up ETileState.ETS_Falling)
              (sameButStates_falling _ _)) h1, ?_⟩
            intro t ht
            rw [h2 t ht]
            have hne : t ≠ up := fun e => hm (e ▸ ht)
            simp [SetTileState, Function.update_noteq hne]

/-- The marking loop changes only states and the falling set; the tiles it went through are
pending delete, and the other tiles of the match are untouched. -/
theorem mark_frame (M : List TilePtr) :
    ∀ (L : List TilePtr) (g g' : AGrid), (∀ t ∈ L, t ∈ M) →
      ExecuteMatch_mark M L g = some g' →
      sameButStates g g' ∧
        (∀ t ∈ L, (g'.heap t).TileState = ETileState.ETS_PendingDelete) ∧
        (∀ t ∈ M, t ∉ L → g'.heap t = g.heap t) := by
  intro L
  induction L with
  | nil =>
    intro g g' _ h
    simp only [ExecuteMatch_mark, Option.some.injEq] at h
    subst h
    exact ⟨sameButStates_refl g, fun _ ht => (by cases ht), fun _ _ _ => rfl⟩
  | cons T L ih =>
    intro g g' hsub h
    unfold ExecuteMatch_mark at h
    cases hr : ExecuteMatch_rise M T (g.GridHeight - 1).toNat 1 g with
    | none => rw [hr] at h; cases h
    | some g1 =>
      rw [hr] at h
      simp only at h
      obtain ⟨f1, k1⟩ := rise_frame M T _ _ g g1 hr
      obtain ⟨f2, p2, k2⟩ := ih _ g' (fun t ht => hsub t (List.mem_cons_of_mem _ ht)) h
      refine ⟨sameButStates_trans _ _ _ (sameButStates_trans _ _ _ f1
        (sameButStates_setState g1 T ETileState.ETS_PendingDelete)) f2, ?_, ?_⟩
      · intro t ht
        by_cases htL : t ∈ L
        · exact p2 t htL
        · have htT : t = T := by
            rcases List.mem_cons.mp ht with h' | h'
            · exact h'
            · exact absurd h' htL
          subst htT
          rw [k2 t (hsub t (List.mem_cons_self _ _)) htL]
          simp [SetTileState]
      · intro t htM htL
        have hne : t ≠ T := fun e => htL (e ▸ List.mem_cons_self _ _)
        have htL' : t ∉ L := fun e => htL (List.mem_cons_of_mem _ e)
        rw [k2 t htM htL']
        simp only [SetTileState, Function.update_noteq hne]
        exact k1 t htM

theorem AddScore_rewards_grid (Old New : Int) :
    ∀ (l : List Int) (w : UWorld) (gm : AMatch3GameMode) (w' : UWorld)
      (gm' : AMatch3GameMode), AddScore_rewards Old New l w gm = some (w', gm') →
      w'.Grid = w.Grid ∧ w'.Destroyed = w.Destroyed ∧
        w'.PlayerController = w.PlayerController := by
  intro l
  induction l with
  | nil =>
    intro w gm w' gm' h
    simp only [AddScore_rewards, Option.some.injEq, Prod.mk.injEq] at h
    obtain ⟨h1, _⟩ := h
    subst h1
    exact ⟨rfl, rfl, rfl⟩
  | cons I l ih =>
    intro w gm w' gm' h
    unfold AddScore_rewards at h
    dsimp only at h
    split_ifs at h with h1 h2 h3
    · obtain ⟨a, b, c⟩ := ih _ _ _ _ h
      exact ⟨a, b, c⟩
    · exact ih _ _ _ _ h
    · exact ih _ _ _ _ h

theorem AddScore_grid (w : UWorld) (gm : AMatch3GameMode) (p : Int) (w' : UWorld)
    (h : AddScore w gm p = some w') : w'.Grid = w.Grid ∧ w'.Destroyed = w.Destroyed := by
  unfold AddScore at h
  cases hpc : w.PlayerController with
  | none =>
    rw [hpc] at h
    simp only [Option.some.injEq] at h
    subst h
    exact ⟨rfl, rfl⟩
  | some PC =>
    rw [hpc] at h
    simp only at h
    revert h
    cases hr : AddScore_rewards _ _ _ _ _ with
    | none => intro h; cases h
    | some q =>
      obtain ⟨w3, gm3⟩ := q
      intro h
      simp only [Option.some.injEq] at h
      subst h
      obtain ⟨a, b, _⟩ := AddScore_rewards_grid _ _ _ _ _ _ _ hr
      exact ⟨a, b⟩

theorem SetComboPower_grid (w : UWorld) (c : Int) :
    (SetComboPower w c).Grid = w.Grid ∧ (SetComboPower w c).Destroyed = w.Destroyed ∧
      (SetComboPower w c).Events = w.Events ∧ (SetComboPower w c).GameMode = w.GameMode := by
  unfold SetComboPower
  cases w.PlayerController <;> exact ⟨rfl, rfl, rfl, rfl⟩

theorem score_grid (w : UWorld) (c : Int) (w' : UWorld)
    (h : ExecuteMatch_score w c = some w') : w'.Grid = w.Grid ∧ w'.Destroyed = w.Destroyed := by
  unfold ExecuteMatch_score at h
  cases hgm : w.GameMode with
  | none =>
    rw [hgm] at h
    simp only [Option.some.injEq] at h
    subst h
    exact ⟨rfl, rfl⟩
  | some gm =>
    rw [hgm] at h
    simp only at h
    obtain ⟨a, b⟩ := AddScore_grid _ _ _ _ h
    rw [a, b]
    simp only [Emit]
    cases GetLastMove w <;> simp only [SetComboPower_grid, and_self]

theorem getTile_set_none_same (g : AGrid) (a : Int) :
    GetTileFromGridAddress { g with GameTiles := g.GameTiles.set a.toNat none } a = none := by
  unfold GetTileFromGridAddress
  split_ifs with h
  · simp only [List.length_set] at h
    have hlt : a.toNat < g.GameTiles.length := by omega
    simp [List.getElem?_set, hlt]
  · rfl

theorem getTile_set_none_other (g : AGrid) (a c : Int) (ha : 0 ≤ a) (hne : c ≠ a) :
    GetTileFromGridAddress { g with GameTiles := g.GameTiles.set a.toNat none } c =
      GetTileFromGridAddress g c := by
  unfold GetTileFromGridAddress
  simp only [List.length_set]
  split_ifs with h
  · have hne2 : a.toNat ≠ c.toNat := by omega
    simp [List.getElem?_set, hne2]
  · rfl

/-- Two different tiles of the match set no common tile falling. -/
theorem stackedAt_disjoint (g : AGrid) (M : List TilePtr) (T T' : TilePtr) (k k' : Int)
    (u : TilePtr) (hcons : Consistent g)
    (hT : T ∈ M) (hT' : T' ∈ M) (honT : OnBoard g T) (honT' : OnBoard g T')
    (hne : T ≠ T') (h : stackedAt g M T k u) (h' : stackedAt g M T' k' u) : False := by
  obtain ⟨hk, hs, hb⟩ := h
  obtain ⟨hk', hs', hb'⟩ := h'
  have e1 := hcons _ _ hs
  have e2 := hcons _ _ hs'
  have e : GetGridAddress g T + k * g.GridWidth = GetGridAddress g T' + k' * g.GridWidth := by
    rw [← e1, ← e2]
  rcases lt_trichotomy k k' with hlt | heq | hgt
  · obtain ⟨v, hv, hvM⟩ := hb' (k' - k) (by omega) (by omega)
    have ea : GetGridAddress g T' + (k' - k) * g.GridWidth = GetGridAddress g T := by
      have : (k' - k) * g.GridWidth = k' * g.GridWidth - k * g.GridWidth := by ring
      omega
    rw [ea] at hv
    unfold OnBoard at honT
    rw [honT] at hv
    injection hv with hv
    exact hvM (hv ▸ hT)
  · subst heq
    have ea : GetGridAddress g T = GetGridAddress g T' := by omega
    unfold OnBoard at honT honT'
    rw [ea, honT'] at honT
    injection honT with honT
    exact hne honT.symm
  · obtain ⟨v, hv, hvM⟩ := hb (k - k') (by omega) (by omega)
    have ea : GetGridAddress g T + (k - k') * g.GridWidth = GetGridAddress g T' := by
      have : (k - k') * g.GridWidth = k * g.GridWidth - k' * g.GridWidth := by ring
      omega
    rw [ea] at hv
    unfold OnBoard at honT'
    rw [honT'] at hv
    injection hv with hv
    exact hvM (hv ▸ hT')

/-- The rising loop for a tile of the match returns: no tile that it sets falling is in the
falling set already. -/
theorem rise_total (g0 : AGrid) (M Done : List TilePtr) (T : TilePtr)
    (hwf : WellFormed g0) (hcons : Consistent g0) (hon : ∀ t ∈ M, OnBoard g0 t)
    (hT : T ∈ M) (hD : ∀ t ∈ Done, t ∈ M) (hTD : T ∉ Done) :
    ∀ (n : Nat) (y : Int) (g : AGrid), sameButStates g0 g → 1 ≤ y →
      (∀ u ∈ g.FallingTiles, (∃ T' ∈ Done, ∃ k, stackedAt g0 M T' k u) ∨
        ∃ k, k < y ∧ stackedAt g0 M T k u) →
      (GetGridAddress g0 T / g0.GridWidth + y < g0.GridHeight →
        ∀ j : Int, 1 ≤ j → j < y →
          ∃ v, GetTileFromGridAddress g0 (GetGridAddress g0 T + j * g0.GridWidth) = some v ∧
            v ∉ M) →
      ∃ g', ExecuteMatch_rise M T n y g = some g' ∧
        ∀ u ∈ g'.FallingTiles, (∃ T' ∈ Done, ∃ k, stackedAt g0 M T' k u) ∨
          ∃ k, stackedAt g0 M T k u := by
  have hW := hwf.1
  have hv := valid_of_onBoard g0 T hwf (hon T hT)
  obtain ⟨hr0, hr1, hc0, hc1, hd⟩ :=
    coords_of_valid g0.GridWidth g0.GridHeight _ hW hv.1 hv.2
  intro n
  induction n with
  | zero =>
    intro y g _ _ hF _
    refine ⟨g, rfl, ?_⟩
    intro u hu
    rcases hF u hu with h | ⟨k, _, h⟩
    · exact Or.inl h
    · exact Or.inr ⟨k, h⟩
  | succ n ih =>
    intro y g hs hy hF hB
    have hgW : g.GridWidth = g0.GridWidth := hs.1
    have hgH : g.GridHeight = g0.GridHeight := hs.2.1
    have hgT : g.GameTiles = g0.GameTiles := hs.2.2.2.1
    have hgA : GetGridAddress g T = GetGridAddress g0 T := (hs.2.2.2.2.2.2.2.2.2.2.2.2 T).2.2.1
    have keep : ∀ u ∈ g.FallingTiles, (∃ T' ∈ Done, ∃ k, stackedAt g0 M T' k u) ∨
        ∃ k, stackedAt g0 M T k u := by
      intro u hu
      rcases hF u hu with h | ⟨k, _, h⟩
      · exact Or.inl h
      · exact Or.inr ⟨k, h⟩
    unfold ExecuteMatch_rise
    rw [hgA, offset_eq g _ 0 y (by rw [hgW]; exact hW) hv.1 (by rw [hgW, hgH]; exact hv.2),
      hgW, hgH]
    by_cases hin : GetGridAddress g0 T / g0.GridWidth + y < g0.GridHeight
    · rw [if_pos ⟨by omega, by omega, by omega, hin⟩]
      simp only [add_zero]
      rw [getTile_congr g0 g hgT]
      cases hu : GetTileFromGridAddress g0 (GetGridAddress g0 T + y * g0.GridWidth) with
      | none => exact ⟨g, rfl, keep⟩
      | some up =>
        simp only
        by_cases hm : up ∈ M
        · rw [if_neg (by simpa using hm)]
          exact ⟨g, rfl, keep⟩
        · rw [if_pos hm]
          have hst : stackedAt g0 M T y up := by
            refine ⟨hy, hu, ?_⟩
            intro j hj1 hj2
            rcases lt_or_eq_of_le hj2 with h | h
            · exact hB hin j hj1 h
            · subst h
              exact ⟨up, hu, hm⟩
          have hnot : up ∉ (SetTileState g up ETileState.ETS_Falling).FallingTiles := by
            intro hmem
            have hmem' : up ∈ g.FallingTiles := hmem
            rcases hF up hmem' with ⟨T', hT'D, k, hk⟩ | ⟨k, hky, hk⟩
            · have hne : T ≠ T' := fun e => hTD (e ▸ hT'D)
              exact stackedAt_disjoint g0 M T T' y k up hcons hT (hD T' hT'D)
                (hon T hT) (hon T' (hD T' hT'D)) hne hst hk
            · have e1 := hcons _ _ hk.2.1
              have e2 := hcons _ _ hu
              have e3 : k * g0.GridWidth = y * g0.GridWidth := by omega
              have e4 : k = y := Int.eq_of_mul_eq_mul_right (ne_of_gt hW) e3
              omega
          rw [if_neg hnot]
          apply ih (y + 1)
          · exact sameButStates_trans _ _ _ (sameButStates_trans _ _ _ hs
              (sameButStates_setState g up ETileState.ETS_Falling)) (sameButStates_falling _ _)
          · omega
          · intro u hmem
            have hmem' : u ∈ g.FallingTiles ++ [up] := hmem
            rcases List.mem_append.mp hmem' with h | h
            · rcases hF u h with h1 | ⟨k, hky, hk⟩
              · exact Or.inl h1
              · exact Or.inr ⟨k, by omega, hk⟩
            · rw [List.mem_singleton] at h
              subst h
              exact Or.inr ⟨y, by omega, hst⟩
          · intro _ j hj1 hj2
            exact hst.2.2 j hj1 (by omega)
    · rw [if_neg (by intro h; exact hin h.2.2.2)]
      apply ih (y + 1) g hs (by omega)
      · intro u hu
        rcases hF u hu with h1 | ⟨k, hky, hk⟩
        · exact Or.inl h1
        · exact Or.inr ⟨k, by omega, hk⟩
      · intro h
        exact absurd (by omega : GetGridAddress g0 T / g0.GridWidth + y < g0.GridHeight) hin

/-- The marking loop returns on a consistent board for tiles of the match that are placed and
pairwise different. -/
theorem mark_total (g0 : AGrid) (M : List TilePtr)
    (hwf : WellFormed g0) (hcons : Consistent g0) (hon : ∀ t ∈ M, OnBoard g0 t) :
    ∀ (L Done : List TilePtr) (g : AGrid), sameButStates g0 g →
      (∀ t ∈ L, t ∈ M) → L.Nodup → (∀ t ∈ L, t ∉ Done) → (∀ t ∈ Done, t ∈ M) →
      (∀ u ∈ g.FallingTiles, ∃ T' ∈ Done, ∃ k, stackedAt g0 M T' k u) →
      ∃ g', ExecuteMatch_mark M L g = some g' := by
  intro L
  induction L with
  | nil =>
    intro Done g _ _ _ _ _ _
    exact ⟨g, rfl⟩
  | cons T L ih =>
    intro Done g hs hLM hnd hLD hDM hF
    have hTM := hLM T (List.mem_cons_self _ _)
    obtain ⟨g1, e1, hF1⟩ := rise_total g0 M Done T hwf hcons hon hTM hDM
      (hLD T (List.mem_cons_self _ _)) (g.GridHeight - 1).toNat 1 g hs (le_refl _)
      (fun u hu => Or.inl (hF u hu)) (fun _ j h1 h2 => absurd h2 (by omega))
    unfold ExecuteMatch_mark
    rw [e1]
    simp only
    have hs1 := sameButStates_trans _ _ _ hs (rise_frame M T _ _ g g1 e1).1
    apply ih (T :: Done)
    · exact sameButStates_trans _ _ _ hs1 (sameButStates_setState g1 T _)
    · exact fun t ht => hLM t (List.mem_cons_of_mem _ ht)
    · exact (List.nodup_cons.mp hnd).2
    · intro t ht hmem
      rcases List.mem_cons.mp hmem with h | h
      · subst h
        exact (List.nodup_cons.mp hnd).1 ht
      · exact hLD t (List.mem_cons_of_mem _ ht) h
    · intro t ht
      rcases List.mem_cons.mp ht with h | h
      · subst h
        exact hTM
      · exact hDM t h
    · intro u hu
      have hu' : u ∈ g1.FallingTiles := hu
      rcases hF1 u hu' with ⟨T', hT', k, hk⟩ | ⟨k, hk⟩
      · exact ⟨T', List.mem_cons_of_mem _ hT', k, hk⟩
      · exact ⟨T, List.mem_cons_self _ _, k, hk⟩

theorem AddScore_rewards_total (Old New : Int) :
    ∀ (l : List Int) (w : UWorld) (gm : AMatch3GameMode), (∀ I ∈ l, 0 < I) →
      ∃ q, AddScore_rewards Old New l w gm = some q := by
  intro l
  induction l with
  | nil =>
    intro w gm _
    exact ⟨_, rfl⟩
  | cons I l ih =>
    intro w gm h
    have hI := h I (List.mem_cons_self _ _)
    have hl : ∀ J ∈ l, 0 < J := fun J hJ => h J (List.mem_cons_of_mem _ hJ)
    unfold AddScore_rewards
    rw [if_neg (by simpa using hI)]
    dsimp only
    split_ifs
    · exact ih _ _ hl
    · exact ih _ _ hl
    · exact ih _ _ hl

theorem AddScore_total (w : UWorld) (gm : AMatch3GameMode) (p : Int)
    (h : ∀ I ∈ gm.RewardIntervals, 0 < I) : ∃ w', AddScore w gm p = some w' := by
  unfold AddScore
  cases w.PlayerController with
  | none => exact ⟨w, rfl⟩
  | some PC =>
    simp only
    have hri : ∀ I ∈ ({ (if PC.Score + p ≥ gm.BronzeScore then
        { gm with bGameWillBeWon := true } else gm) with
        FinalPlace := (if PC.Score + p > gm.GoldScore then 1
          else if PC.Score + p > gm.SilverScore then 2
          else if PC.Score + p > gm.BronzeScore then 3 else 0) } :
        AMatch3GameMode).RewardIntervals, 0 < I := by
      intro I hI
      apply h I
      split_ifs at hI <;> exact hI
    obtain ⟨q, hq⟩ := AddScore_rewards_total PC.Score (PC.Score + p) _
      (Emit { w with PlayerController := some { PC with Score := PC.Score + p } }
        (FEvent.AwardPlace (if PC.Score + p > gm.GoldScore then 1
          else if PC.Score + p > gm.SilverScore then 2
          else if PC.Score + p > gm.BronzeScore then 3 else 0) p))
      _ hri
    rw [hq]
    exact ⟨_, rfl⟩

theorem score_total (w : UWorld) (c : Int)
    (h : ∀ gm, w.GameMode = some gm → ∀ I ∈ gm.RewardIntervals, 0 < I) :
    ∃ w', ExecuteMatch_score w c = some w' := by
  unfold ExecuteMatch_score
  cases hgm : w.GameMode with
  | none => exact ⟨w, rfl⟩
  | some gm => exact AddScore_total _ gm _ (h gm hgm)

theorem PauseGameTimer_grid (w : UWorld) (b : Bool) :
    (PauseGameTimer w b).Grid = w.Grid ∧
      (PauseGameTimer w b).PlayerController = w.PlayerController ∧
      ∀ gm, (PauseGameTimer w b).GameMode = some gm →
        ∃ gm0, w.GameMode = some gm0 ∧ gm.RewardIntervals = gm0.RewardIntervals := by
  unfold PauseGameTimer
  cases hgm : w.GameMode with
  | none =>
    refine ⟨rfl, rfl, ?_⟩
    intro gm h
    rw [hgm] at h
    cases h
  | some gm0 =>
    refine ⟨rfl, rfl, ?_⟩
    intro gm h
    simp only [Option.some.injEq] at h
    subst h
    refine ⟨gm0, rfl, ?_⟩
    unfold AMatch3GameMode.PauseGameTimer
    split_ifs <;> rfl

theorem GetLastMove_congr (w w' : UWorld)
    (hpc : w'.PlayerController.isSome = w.PlayerController.isSome)
    (hlm : w'.Grid.LastMoves = w.Grid.LastMoves) : GetLastMove w' = GetLastMove w := by
  unfold GetLastMove
  rw [hlm]
  cases h : w.PlayerController <;> cases h' : w'.PlayerController <;>
    simp_all

theorem AddScore_controller (w : UWorld) (gm : AMatch3GameMode) (p : Int) (w' : UWorld)
    (h : AddScore w gm p = some w') :
    w'.PlayerController.isSome = w.PlayerController.isSome := by
  unfold AddScore at h
  cases hpc : w.PlayerController with
  | none =>
    rw [hpc] at h
    simp only [Option.some.injEq] at h
    subst h
    rw [hpc]
  | some PC =>
    rw [hpc] at h
    simp only at h
    revert h
    cases hr : AddScore_rewards _ _ _ _ _ with
    | none => intro h; cases h
    | some q =>
      obtain ⟨w3, gm3⟩ := q
      intro h
      simp only [Option.some.injEq] at h
      subst h
      obtain ⟨_, _, c⟩ := AddScore_rewards_grid _ _ _ _ _ _ _ hr
      simp only [c, Emit, Option.isSome_some]

theorem SetComboPower_controller (w : UWorld) (c : Int) :
    (SetComboPower w c).PlayerController.isSome = w.PlayerController.isSome := by
  unfold SetComboPower
  cases h : w.PlayerController <;> simp [h]

theorem score_controller (w : UWorld) (c : Int) (w' : UWorld)
    (h : ExecuteMatch_score w c = some w') :
    w'.PlayerController.isSome = w.PlayerController.isSome := by
  unfold ExecuteMatch_score at h
  cases hgm : w.GameMode with
  | none =>
    rw [hgm] at h
    simp only [Option.some.injEq] at h
    subst h
    rfl
  | some gm =>
    rw [hgm] at h
    simp only at h
    rw [AddScore_controller _ _ _ _ h]
    simp only [Emit]
    cases GetLastMove w <;> simp only [SetComboPower_controller]

/-! ## Claims on match execution -/

/-! ## Claims on the completion of a swap -/

theorem SetLastMove_eq (w : UWorld) (g : AGrid) (m : EMatch3MoveType)
    (hpc : w.PlayerController ≠ none) :
    SetLastMove { w with Grid := g } m = { w with Grid := { g with
      LastMoves := Function.update g.LastMoves LocalPlayerKey (some m) } } := by
  unfold SetLastMove
  cases h : w.PlayerController with
  | none => exact absurd h hpc
  | some PC => rfl

theorem GetLastMove_update (w : UWorld) (g : AGrid) (m : EMatch3MoveType)
    (hpc : w.PlayerController ≠ none) :
    GetLastMove { w with Grid := { g with
      LastMoves := Function.update g.LastMoves LocalPlayerKey (some m) } } = m := by
  unfold GetLastMove
  cases h : w.PlayerController with
  | none => exact absurd h hpc
  | some PC => simp

/-- C26: for two different tiles placed on the board, `SwapTiles` returns the board on which
each tile has the grid address of the other and sits in the slot of the other, every other
tile and every other slot being as before; and `SwapTiles` on that board returns the board
of the start. -/
theorem SwapTiles_twice (g : AGrid) (a b : TilePtr) (hab : a ≠ b)
    (hona : OnBoard g a) (honb : OnBoard g b) :
    ∃ g1 : AGrid, SwapTiles g a b = some g1 ∧
      GetGridAddress g1 a = GetGridAddress g b ∧ GetGridAddress g1 b = GetGridAddress g a ∧
      GetTileFromGridAddress g1 (GetGridAddress g b) = some a ∧
      GetTileFromGridAddress g1 (GetGridAddress g a) = some b ∧
      (∀ c, c ≠ GetGridAddress g a → c ≠ GetGridAddress g b →
        GetTileFromGridAddress g1 c = GetTileFromGridAddress g c) ∧
      (∀ t, t ≠ a → t ≠ b → g1.heap t = g.heap t) ∧
      SwapTiles g1 a b = some g := by
  obtain ⟨hx, _⟩ := slot_index g _ a hona
  obtain ⟨hy, _⟩ := slot_index g _ b honb
  have h1 := SwapTiles_eq g a b hab hx hy
  obtain ⟨ea, eb, eo, sa, sb, so, _⟩ := SwapTiles_exchanged g _ a b hab hona honb h1
  refine ⟨_, h1, ?_, ?_, sa, sb, so, eo, ?_⟩
  · have e := congrArg ATile.GridAddress ea
    exact e
  · have e := congrArg ATile.GridAddress eb
    exact e
  · exact SwapTiles_back g _ a b g.LastLegalMatch hab hona honb h1

/-- C26 on the 3 x 3 board, for the tiles at addresses 2 and 5. -/
theorem SwapTiles_twice_witness :
    ∃ g1 : AGrid, SwapTiles board3x3 2 5 = some g1 ∧
      GetGridAddress g1 2 = GetGridAddress board3x3 5 ∧
      GetGridAddress g1 5 = GetGridAddress board3x3 2 ∧
      GetTileFromGridAddress g1 (GetGridAddress board3x3 5) = some 2 ∧
      GetTileFromGridAddress g1 (GetGridAddress board3x3 2) = some 5 ∧
      (∀ c, c ≠ GetGridAddress board3x3 2 → c ≠ GetGridAddress board3x3 5 →
        GetTileFromGridAddress g1 c = GetTileFromGridAddress board3x3 c) ∧
      (∀ t, t ≠ 2 → t ≠ 5 → g1.heap t = board3x3.heap t) ∧
      SwapTiles g1 2 5 = some board3x3 :=
  SwapTiles_twice board3x3 2 5 (by decide)
    (plainBoard_onBoard 3 3 3 _ 2 (by decide)) (plainBoard_onBoard 3 3 3 _ 5 (by decide))

/-! ## Match execution: score, combo power and events -/

theorem AddScore_rewards_events (Old New : Int) :
    ∀ (l : List Int) (w : UWorld) (gm : AMatch3GameMode) (w' : UWorld)
      (gm' : AMatch3GameMode), AddScore_rewards Old New l w gm = some (w', gm') →
      ∃ k : Nat, w'.Events = w.Events ++ List.replicate k FEvent.AwardBonus := by
  intro l
  induction l with
  | nil =>
    intro w gm w' gm' h
    simp only [AddScore_rewards, Option.some.injEq, Prod.mk.injEq] at h
    obtain ⟨h1, _⟩ := h
    subst h1
    exact ⟨0, by simp⟩
  | cons I l ih =>
    intro w gm w' gm' h
    unfold AddScore_rewards at h
    dsimp only at h
    split_ifs at h with h1 h2 h3
    · obtain ⟨k, hk⟩ := ih _ _ _ _ h
      refine ⟨k + 1, ?_⟩
      rw [hk]
      simp [Emit, List.replicate_succ]
    · exact ih _ _ _ _ h
    · exact ih _ _ _ _ h

/-- The method `AddScore` with a local player controller: the points are added to the score
once, one `AwardPlace` with the points is raised, then some `AwardBonus`. -/
theorem AddScore_trace (w : UWorld) (gm : AMatch3GameMode) (p : Int) (w' : UWorld)
    (pc : AMatch3PlayerController) (hpc : w.PlayerController = some pc)
    (h : AddScore w gm p = some w') :
    ∃ (place : Int) (k : Nat),
      w'.PlayerController = some { pc with Score := pc.Score + p } ∧
      w'.Events = w.Events ++ [FEvent.AwardPlace place p] ++
        List.replicate k FEvent.AwardBonus := by
  unfold AddScore at h
  rw [hpc] at h
  simp only at h
  revert h
  cases hr : AddScore_rewards _ _ _ _ _ with
  | none => intro h; cases h
  | some q =>
    obtain ⟨w3, gm3⟩ := q
    intro h
    simp only [Option.some.injEq] at h
    subst h
    obtain ⟨_, _, c⟩ := AddScore_rewards_grid _ _ _ _ _ _ _ hr
    obtain ⟨k, hk⟩ := AddScore_rewards_events _ _ _ _ _ _ _ hr
    refine ⟨(if pc.Score + p > gm.GoldScore then 1
      else if pc.Score + p > gm.SilverScore then 2
      else if pc.Score + p > gm.BronzeScore then 3 else 0), k, ?_, ?_⟩
    · simp only [c, Emit]
    · simp only [hk, Emit]

theorem AddScore_combo (w : UWorld) (gm : AMatch3GameMode) (p : Int) (w' : UWorld)
    (h : AddScore w gm p = some w') :
    GetComboPower w' = GetComboPower w ∧ GetMaxComboPower w' = GetMaxComboPower w := by
  cases hpc : w.PlayerController with
  | none =>
    unfold AddScore at h
    rw [hpc] at h
    simp only [Option.some.injEq] at h
    subst h
    exact ⟨rfl, rfl⟩
  | some pc =>
    obtain ⟨_, _, e, _⟩ := AddScore_trace w gm p w' pc hpc h
    unfold GetComboPower GetMaxComboPower
    rw [e, hpc]
    exact ⟨rfl, rfl⟩

theorem SetComboPower_get (w : UWorld) (c : Int) :
    GetComboPower (SetComboPower w c) = (if w.PlayerController.isSome = true then c else 0) ∧
      GetMaxComboPower (SetComboPower w c) = GetMaxComboPower w := by
  unfold GetComboPower GetMaxComboPower SetComboPower
  cases h : w.PlayerController <;> simp [h]

/-- The scoring block of `ExecuteMatch` with a game mode: the grid is untouched, the combo
power is set by the kind of the last move, and with a local player controller the points
`Count * multiplier` are added once. -/
theorem score_trace (w : UWorld) (c : Int) (w' : UWorld) (gm : AMatch3GameMode)
    (hgm : w.GameMode = some gm) (h : ExecuteMatch_score w c = some w') :
    GetMaxComboPower w' = GetMaxComboPower w ∧
    GetComboPower w' =
      (match GetLastMove w with
      | EMatch3MoveType.MT_Bomb => 0
      | EMatch3MoveType.MT_AllTheBombs => 0
      | EMatch3MoveType.MT_Combo => FMath.Min (GetMaxComboPower w) (GetComboPower w + 1)
      | _ => GetComboPower w) ∧
    (∀ pc, w.PlayerController = some pc →
      ∃ (pc' : AMatch3PlayerController) (place : Int) (k : Nat),
        w'.PlayerController = some pc' ∧
        pc'.Score = pc.Score + c * w.ScoreMultiplierForMove (GetLastMove w) ∧
        w'.Events = w.Events ++ [FEvent.OnMoveMade (GetLastMove w),
          FEvent.AwardPlace place (c * w.ScoreMultiplierForMove (GetLastMove w))] ++
          List.replicate k FEvent.AwardBonus) := by
  unfold ExecuteMatch_score at h
  rw [hgm] at h
  simp only at h
  obtain ⟨hc, hmx⟩ := AddScore_combo _ _ _ _ h
  have hnone : w.PlayerController = none → GetComboPower w = 0 ∧ GetMaxComboPower w = 0 := by
    intro e
    unfold GetComboPower GetMaxComboPower
    rw [e]
    exact ⟨rfl, rfl⟩
  refine ⟨?_, ?_, ?_⟩
  · rw [hmx]
    cases GetLastMove w <;>
      first
      | rfl
      | exact (SetComboPower_get w _).2
  · rw [hc]
    cases hm : GetLastMove w <;> simp only [Emit] <;>
      first
      | rfl
      | (show GetComboPower (SetComboPower w _) = _
         rw [(SetComboPower_get w _).1]
         split_ifs with hn
         · rfl
         · obtain ⟨e1, e2⟩ := hnone (by simpa using hn)
           rw [e1, e2]
           rfl)
      | (show GetComboPower (SetComboPower w _) = _
         rw [(SetComboPower_get w _).1]
         split_ifs with hn <;> rfl)
  · intro pc hpc
    have hpc1 : ∃ pc1 : AMatch3PlayerController,
        (Emit (match GetLastMove w with
          | EMatch3MoveType.MT_Bomb => SetComboPower w 0
          | EMatch3MoveType.MT_AllTheBombs => SetComboPower w 0
          | EMatch3MoveType.MT_Combo =>
            SetComboPower w (FMath.Min (GetMaxComboPower w) (GetComboPower w + 1))
          | _ => w) (FEvent.OnMoveMade (GetLastMove w))).PlayerController = some pc1 ∧
        pc1.Score = pc.Score ∧
        (Emit (match GetLastMove w with
          | EMatch3MoveType.MT_Bomb => SetComboPower w 0
          | EMatch3MoveType.MT_AllTheBombs => SetComboPower w 0
          | EMatch3MoveType.MT_Combo =>
            SetComboPower w (FMath.Min (GetMaxComboPower w) (GetComboPower w + 1))
          | _ => w) (FEvent.OnMoveMade (GetLastMove w))).Events =
          w.Events ++ [FEvent.OnMoveMade (GetLastMove w)] := by
      cases GetLastMove w <;> simp [Emit, SetComboPower, hpc]
    obtain ⟨pc1, e1, e2, e3⟩ := hpc1
    obtain ⟨place, k, f1, f2⟩ := AddScore_trace _ gm _ w' pc1 e1 h
    refine ⟨_, place, k, f1, ?_, ?_⟩
    · simp only [e2]
    · rw [f2, e3]
      simp

/-- The world in which the scoring block of `ExecuteMatch` runs has the game mode (its timer
paused), the player controller, the last move and the events of the world of the call. -/
theorem scoring_world (w : UWorld) (g2 : AGrid) (hl : g2.LastMoves = w.Grid.LastMoves) :
    (∀ gm, w.GameMode = some gm →
      ({ PauseGameTimer w true with Grid := { g2 with TilesToCheck := [] } } : UWorld).GameMode =
        some (gm.PauseGameTimer true)) ∧
    ({ PauseGameTimer w true with Grid := { g2 with TilesToCheck := [] } } :
      UWorld).PlayerController = w.PlayerController ∧
    GetLastMove { PauseGameTimer w true with Grid := { g2 with TilesToCheck := [] } } =
      GetLastMove w ∧
    GetComboPower { PauseGameTimer w true with Grid := { g2 with TilesToCheck := [] } } =
      GetComboPower w ∧
    GetMaxComboPower { PauseGameTimer w true with Grid := { g2 with TilesToCheck := [] } } =
      GetMaxComboPower w ∧
    ({ PauseGameTimer w true with Grid := { g2 with TilesToCheck := [] } } :
      UWorld).ScoreMultiplierForMove = w.ScoreMultiplierForMove ∧
    ({ PauseGameTimer w true with Grid := { g2 with TilesToCheck := [] } } :
      UWorld).Events = w.Events := by
  unfold PauseGameTimer GetLastMove GetComboPower GetMaxComboPower
  cases hgm : w.GameMode with
  | none =>
    refine ⟨fun gm h => (by cases h), rfl, ?_, rfl, rfl, rfl, rfl⟩
    simp only [hl]
  | some gm0 =>
    refine ⟨fun gm h => (by injection h with h; subst h; rfl), rfl, ?_, rfl, rfl, rfl, rfl⟩
    simp only [hl]

/-! ## Claims on the score and the combo power of a match -/

/-! ## Match execution: the falling set -/

/-- A cell at or past the top of the column of a placed tile holds nothing. -/
theorem getTile_past_top (g : AGrid) (T : TilePtr) (k : Int) (hwf : WellFormed g)
    (hv : ValidAddress g (GetGridAddress g T))
    (hk : g.GridHeight ≤ GetGridAddress g T / g.GridWidth + k) :
    GetTileFromGridAddress g (GetGridAddress g T + k * g.GridWidth) = none := by
  obtain ⟨hW, _, hlen⟩ := hwf
  obtain ⟨hr0, hr1, hc0, hc1, hd⟩ :=
    coords_of_valid g.GridWidth g.GridHeight _ hW hv.1 hv.2
  have h1 : g.GridWidth * g.GridHeight ≤
      g.GridWidth * (GetGridAddress g T / g.GridWidth + k) :=
    Int.mul_le_mul_of_nonneg_left hk (le_of_lt hW)
  rw [mul_add, mul_comm g.GridWidth k] at h1
  unfold GetTileFromGridAddress
  rw [if_neg]
  rw [hlen]
  omega

theorem rise_nodup (M : List TilePtr) (T : TilePtr) :
    ∀ (n : Nat) (y : Int) (g g' : AGrid), ExecuteMatch_rise M T n y g = some g' →
      g.FallingTiles.Nodup → g'.FallingTiles.Nodup := by
  intro n
  induction n with
  | zero =>
    intro y g g' h hn
    simp only [ExecuteMatch_rise, Option.some.injEq] at h
    subst h
    exact hn
  | succ n ih =>
    intro y g g' h hn
    unfold ExecuteMatch_rise at h
    cases ho : GetGridAddressWithOffset g (GetGridAddress g T) 0 y with
    | none => rw [ho] at h; cases h
    | some p =>
      obtain ⟨ok, a⟩ := p
      rw [ho] at h
      cases ok with
      | false => exact ih _ _ _ h hn
      | true =>
        simp only at h
        cases hu : GetTileFromGridAddress g a with
        | none =>
          rw [hu] at h
          simp only [Option.some.injEq] at h
          subst h
          exact hn
        | some up =>
          rw [hu] at h
          simp only at h
          by_cases hm : up ∈ M
          · rw [if_neg (by simpa using hm)] at h
            simp only [Option.some.injEq] at h
            subst h
            exact hn
          · rw [if_pos hm] at h
            split_ifs at h with hc
            apply ih _ _ _ h
            have hc' : up ∉ g.FallingTiles := hc
            show (g.FallingTiles ++ [up]).Nodup
            rw [List.nodup_append]
            refine ⟨hn, List.nodup_singleton _, ?_⟩
            intro x hx hx'
            rw [List.mem_singleton] at hx'
            subst hx'
            exact hc' hx

/-- The falling tiles stay falling and outside the match through the rising loop. -/
theorem rise_states (M : List TilePtr) (T : TilePtr) :
    ∀ (n : Nat) (y : Int) (g g' : AGrid), ExecuteMatch_rise M T n y g = some g' →
      (∀ u ∈ g.FallingTiles, (g.heap u).TileState = ETileState.ETS_Falling ∧ u ∉ M) →
      ∀ u ∈ g'.FallingTiles, (g'.heap u).TileState = ETileState.ETS_Falling ∧ u ∉ M := by
  intro n
  induction n with
  | zero =>
    intro y g g' h hs
    simp only [ExecuteMatch_rise, Option.some.injEq] at h
    subst h
    exact hs
  | succ n ih =>
    intro y g g' h hs
    unfold ExecuteMatch_rise at h
    cases ho : GetGridAddressWithOffset g (GetGridAddress g T) 0 y with
    | none => rw [ho] at h; cases h
    | some p =>
      obtain ⟨ok, a⟩ := p
      rw [ho] at h
      cases ok with
      | false => exact ih _ _ _ h hs
      | true =>
        simp only at h
        cases hu : GetTileFromGridAddress g a with
        | none =>
          rw [hu] at h
          simp only [Option.some.injEq] at h
          subst h
          exact hs
        | some up =>
          rw [hu] at h
          simp only at h
          by_cases hm : up ∈ M
          · rw [if_neg (by simpa using hm)] at h
            simp only [Option.some.injEq] at h
            subst h
            exact hs
          · rw [if_pos hm] at h
            split_ifs at h with hc
            apply ih _ _ _ h
            intro u hu'
            have hu2 : u ∈ g.FallingTiles ++ [up] := hu'
            rcases List.mem_append.mp hu2 with h1 | h1
            · obtain ⟨s1, s2⟩ := hs u h1
              refine ⟨?_, s2⟩
              by_cases e : u = up
              · subst e
                simp [SetTileState]
              · simp [SetTileState, Function.update_noteq e, s1]
            · rw [List.mem_singleton] at h1
              subst h1
              exact ⟨by simp [SetTileState], hm⟩

theorem mark_nodup_states (M : List TilePtr) :
    ∀ (L : List TilePtr) (g g' : AGrid), (∀ t ∈ L, t ∈ M) →
      ExecuteMatch_mark M L g = some g' →
      g.FallingTiles.Nodup →
      (∀ u ∈ g.FallingTiles, (g.heap u).TileState = ETileState.ETS_Falling ∧ u ∉ M) →
      g'.FallingTiles.Nodup ∧
        ∀ u ∈ g'.FallingTiles, (g'.heap u).TileState = ETileState.ETS_Falling ∧ u ∉ M := by
  intro L
  induction L with
  | nil =>
    intro g g' _ h hn hs
    simp only [ExecuteMatch_mark, Option.some.injEq] at h
    subst h
    exact ⟨hn, hs⟩
  | cons T L ih =>
    intro g g' hsub h hn hs
    unfold ExecuteMatch_mark at h
    cases hr : ExecuteMatch_rise M T (g.GridHeight - 1).toNat 1 g with
    | none => rw [hr] at h; cases h
    | some g1 =>
      rw [hr] at h
      simp only at h
      have hn1 := rise_nodup M T _ _ g g1 hr hn
      have hs1 := rise_states M T _ _ g g1 hr hs
      apply ih _ g' (fun t ht => hsub t (List.mem_cons_of_mem _ ht)) h
      · exact hn1
      · intro u hu
        have hu' : u ∈ g1.FallingTiles := hu
        obtain ⟨s1, s2⟩ := hs1 u hu'
        refine ⟨?_, s2⟩
        have hne : u ≠ T := fun e => s2 (e ▸ hsub T (List.mem_cons_self _ _))
        simp [SetTileState, Function.update_noteq hne, s1]

/-- What the rising loop for a placed tile adds to the falling set, whenever it returns: the
tiles stacked on the tile from the offset of its start on. -/
theorem rise_mem (g0 : AGrid) (M : List TilePtr) (T : TilePtr)
    (hwf : WellFormed g0) (hv : ValidAddress g0 (GetGridAddress g0 T)) :
    ∀ (n : Nat) (y : Int) (g g' : AGrid), sameButStates g0 g → 1 ≤ y →
      g0.GridHeight ≤ y + n →
      (GetGridAddress g0 T / g0.GridWidth + y < g0.GridHeight →
        ∀ j : Int, 1 ≤ j → j < y →
          ∃ v, GetTileFromGridAddress g0 (GetGridAddress g0 T + j * g0.GridWidth) = some v ∧
            v ∉ M) →
      ExecuteMatch_rise M T n y g = some g' →
      ∀ u, u ∈ g'.FallingTiles ↔
        u ∈ g.FallingTiles ∨ ∃ k, y ≤ k ∧ stackedAt g0 M T k u := by
  have hW := hwf.1
  obtain ⟨hr0, hr1, hc0, hc1, hd⟩ :=
    coords_of_valid g0.GridWidth g0.GridHeight _ hW hv.1 hv.2
  intro n
  induction n with
  | zero =>
    intro y g g' _ hy hH _ h u
    simp only [ExecuteMatch_rise, Option.some.injEq] at h
    subst h
    constructor
    · exact fun h => Or.inl h
    · rintro (h | ⟨k, hk, _, hs, _⟩)
      · exact h
      · rw [getTile_past_top g0 T k hwf hv (by
          have : ((0 : Nat) : Int) = 0 := rfl
          omega)] at hs
        cases hs
  | succ n ih =>
    intro y g g' hs hy hH hB h u
    have hgW : g.GridWidth = g0.GridWidth := hs.1
    have hgH : g.GridHeight = g0.GridHeight := hs.2.1
    have hgT : g.GameTiles = g0.GameTiles := hs.2.2.2.1
    have hgA : GetGridAddress g T = GetGridAddress g0 T := (hs.2.2.2.2.2.2.2.2.2.2.2.2 T).2.2.1
    unfold ExecuteMatch_rise at h
    rw [hgA, offset_eq g _ 0 y (by rw [hgW]; exact hW) hv.1 (by rw [hgW, hgH]; exact hv.2),
      hgW, hgH] at h
    have nostack : ∀ v : Option TilePtr,
        GetTileFromGridAddress g0 (GetGridAddress g0 T + y * g0.GridWidth) = v →
        (∀ x, v = some x → x ∈ M) →
        ∀ k, y ≤ k → ¬ stackedAt g0 M T k u := by
      intro v hv1 hv2 k hk hst
      obtain ⟨x, hx, hxM⟩ := hst.2.2 y hy hk
      rw [hv1] at hx
      exact hxM (hv2 x hx)
    by_cases hin : GetGridAddress g0 T / g0.GridWidth + y < g0.GridHeight
    · rw [if_pos ⟨by omega, by omega, by omega, hin⟩] at h
      simp only [add_zero] at h
      rw [getTile_congr g0 g hgT] at h
      cases hu : GetTileFromGridAddress g0 (GetGridAddress g0 T + y * g0.GridWidth) with
      | none =>
        rw [hu] at h
        simp only [Option.some.injEq] at h
        subst h
        constructor
        · exact fun h => Or.inl h
        · rintro (h | ⟨k, hk, hst⟩)
          · exact h
          · exact absurd hst (nostack none hu (fun x hx => by cases hx) k hk)
      | some up =>
        rw [hu] at h
        simp only at h
        by_cases hm : up ∈ M
        · rw [if_neg (by simpa using hm)] at h
          simp only [Option.some.injEq] at h
          subst h
          constructor
          · exact fun h => Or.inl h
          · rintro (h | ⟨k, hk, hst⟩)
            · exact h
            · exact absurd hst (nostack (some up) hu
                (fun x hx => by injection hx with hx; subst hx; exact hm) k hk)
        · rw [if_pos hm] at h
          split_ifs at h with hc
          have hst : stackedAt g0 M T y up := by
            refine ⟨hy, hu, ?_⟩
            intro j hj1 hj2
            rcases lt_or_eq_of_le hj2 with h' | h'
            · exact hB hin j hj1 h'
            · subst h'
              exact ⟨up, hu, hm⟩
          have key := ih (y + 1) _ g'
            (sameButStates_trans _ _ _ (sameButStates_trans _ _ _ hs
              (sameButStates_setState g up ETileState.ETS_Falling)) (sameButStates_falling _ _))
            (by omega) (by push_cast at hH ⊢; omega)
            (fun _ j hj1 hj2 => hst.2.2 j hj1 (by omega)) h u
          rw [key]
          have hmem : u ∈ g.FallingTiles ++ [up] ↔ u ∈ g.FallingTiles ∨ u = up := by
            simp
          constructor
          · rintro (h1 | ⟨k, hk, hk2⟩)
            · rcases hmem.mp h1 with h2 | h2
              · exact Or.inl h2
              · subst h2
                exact Or.inr ⟨y, le_refl _, hst⟩
            · exact Or.inr ⟨k, by omega, hk2⟩
          · rintro (h1 | ⟨k, hk, hk2⟩)
            · exact Or.inl (hmem.mpr (Or.inl h1))
            · rcases lt_or_eq_of_le hk with h' | h'
              · exact Or.inr ⟨k, by omega, hk2⟩
              · subst h'
                have e := hk2.2.1
                rw [hu] at e
                injection e with e
                exact Or.inl (hmem.mpr (Or.inr e.symm))
    · rw [if_neg (by intro h'; exact hin h'.2.2.2)] at h
      have key := ih (y + 1) g g' hs (by omega) (by push_cast at hH ⊢; omega)
        (fun h' => absurd (by omega : GetGridAddress g0 T / g0.GridWidth + y <
          g0.GridHeight) hin) h u
      rw [key]
      constructor
      · rintro (h1 | ⟨k, hk, hk2⟩)
        · exact Or.inl h1
        · exact Or.inr ⟨k, by omega, hk2⟩
      · rintro (h1 | ⟨k, hk, hk2⟩)
        · exact Or.inl h1
        · rcases lt_or_eq_of_le hk with h' | h'
          · exact Or.inr ⟨k, by omega, hk2⟩
          · subst h'
            have e := hk2.2.1
            rw [getTile_past_top g0 T y hwf hv (by omega)] at e
            cases e

/-- What the marking loop adds to the falling set, whenever it returns: the tiles stacked on
the tiles that it went through. -/
theorem mark_mem (g0 : AGrid) (M : List TilePtr) (hwf : WellFormed g0)
    (hon : ∀ t ∈ M, OnBoard g0 t) :
    ∀ (L : List TilePtr) (g g' : AGrid), sameButStates g0 g → (∀ t ∈ L, t ∈ M) →
      ExecuteMatch_mark M L g = some g' →
      ∀ u, u ∈ g'.FallingTiles ↔
        u ∈ g.FallingTiles ∨ ∃ T ∈ L, ∃ k, stackedAt g0 M T k u := by
  intro L
  induction L with
  | nil =>
    intro g g' _ _ h u
    simp only [ExecuteMatch_mark, Option.some.injEq] at h
    subst h
    simp
  | cons T L ih =>
    intro g g' hs hsub h u
    have hTM := hsub T (List.mem_cons_self _ _)
    have hv := valid_of_onBoard g0 T hwf (hon T hTM)
    unfold ExecuteMatch_mark at h
    cases hr : ExecuteMatch_rise M T (g.GridHeight - 1).toNat 1 g with
    | none => rw [hr] at h; cases h
    | some g1 =>
      rw [hr] at h
      simp only at h
      have hgH : g.GridHeight = g0.GridHeight := hs.2.1
      have k1 := rise_mem g0 M T hwf hv _ 1 g g1 hs (le_refl _)
        (by
          rw [hgH]
          have := hwf.2.1
          omega)
        (fun _ j h1 h2 => absurd h2 (by omega)) hr u
      have hs1 := sameButStates_trans _ _ _ hs (rise_frame M T _ _ g g1 hr).1
      have k2 := ih _ g' (sameButStates_trans _ _ _ hs1 (sameButStates_setState g1 T _))
        (fun t ht => hsub t (List.mem_cons_of_mem _ ht)) h u
      rw [k2]
      have e : u ∈ (SetTileState g1 T ETileState.ETS_PendingDelete).FallingTiles ↔
          u ∈ g1.FallingTiles := Iff.rfl
      rw [e, k1]
      constructor
      · rintro ((h1 | ⟨k, _, hk⟩) | ⟨T', hT', k, hk⟩)
        · exact Or.inl h1
        · exact Or.inr ⟨T, List.mem_cons_self _ _, k, hk⟩
        · exact Or.inr ⟨T', List.mem_cons_of_mem _ hT', k, hk⟩
      · rintro (h1 | ⟨T', hT', k, hk⟩)
        · exact Or.inl (Or.inl h1)
        · rcases List.mem_cons.mp hT' with h' | h'
          · subst h'
            exact Or.inl (Or.inr ⟨k, hk.1, hk⟩)
          · exact Or.inr ⟨T', h', k, hk⟩

/-- On a fully populated consistent board the tiles stacked on a tile of the match are the
placed tiles outside the match that have a tile of the match below them in their column. -/
theorem stacked_iff_below (g : AGrid) (M : List TilePtr) (hwf : WellFormed g)
    (hfull : FullyPopulated g) (hcons : Consistent g) (hon : ∀ t ∈ M, OnBoard g t)
    (u : TilePtr) :
    (∃ T ∈ M, ∃ k, stackedAt g M T k u) ↔
      u ∉ M ∧ OnBoard g u ∧ ∃ T ∈ M,
        colOf g (GetGridAddress g T) = colOf g (GetGridAddress g u) ∧
        rowOf g (GetGridAddress g T) < rowOf g (GetGridAddress g u) := by
  have hW := hwf.1
  constructor
  · rintro ⟨T, hT, k, hk, hs, hb⟩
    have ea := hcons _ _ hs
    obtain ⟨v, hv, hvM⟩ := hb k hk (le_refl _)
    rw [hs] at hv
    injection hv with hv
    subst hv
    refine ⟨hvM, onBoard_of_slot g _ _ hcons hs, T, hT, ?_, ?_⟩
    · unfold colOf
      rw [ea, Int.add_mul_emod_self]
    · unfold rowOf
      rw [ea, Int.add_mul_ediv_right _ _ (ne_of_gt hW)]
      omega
  · rintro ⟨huM, huon, T, hT, hcol, hrow⟩
    have hvu := valid_of_onBoard g u hwf huon
    have key : ∀ (n : Nat) (T : TilePtr) (d : Int), T ∈ M → 1 ≤ d → d ≤ n →
        GetGridAddress g u = GetGridAddress g T + d * g.GridWidth →
        ∃ T' ∈ M, ∃ k, stackedAt g M T' k u := by
      intro n
      induction n with
      | zero =>
        intro T d _ h1 h2 _
        have : ((0 : Nat) : Int) = 0 := rfl
        omega
      | succ n ih =>
        intro T d hT h1 h2 hau
        have hvT := valid_of_onBoard g T hwf (hon T hT)
        by_cases hall : ∀ j : Int, 1 ≤ j → j < d →
            ∃ v, GetTileFromGridAddress g (GetGridAddress g T + j * g.GridWidth) = some v ∧
              v ∉ M
        · refine ⟨T, hT, d, h1, ?_, ?_⟩
          · rw [← hau]
            exact huon
          · intro j hj1 hj2
            rcases lt_or_eq_of_le hj2 with h' | h'
            · exact hall j hj1 h'
            · subst h'
              refine ⟨u, ?_, huM⟩
              rw [← hau]
              exact huon
        · push_neg at hall
          obtain ⟨j, hj1, hj2, hj3⟩ := hall
          have hjW : 0 < j * g.GridWidth := Int.mul_pos (by omega) hW
          have hdj : j * g.GridWidth < d * g.GridWidth :=
            Int.mul_lt_mul_of_pos_right hj2 hW
          have hvj : ValidAddress g (GetGridAddress g T + j * g.GridWidth) := by
            unfold ValidAddress at hvT hvu ⊢
            constructor
            · omega
            · omega
          cases hslot : GetTileFromGridAddress g (GetGridAddress g T + j * g.GridWidth) with
          | none => exact absurd hslot (hfull _ hvj)
          | some v =>
            have hvM : v ∈ M := hj3 v hslot
            have eav := hcons _ _ hslot
            apply ih v (d - j) hvM (by omega) (by push_cast at h2 ⊢; omega)
            rw [eav, hau]
            ring
    have hdec1 := Int.emod_add_ediv (GetGridAddress g u) g.GridWidth
    have hdec2 := Int.emod_add_ediv (GetGridAddress g T) g.GridWidth
    unfold colOf at hcol
    unfold rowOf at hrow
    have hd : 1 ≤ GetGridAddress g u / g.GridWidth - GetGridAddress g T / g.GridWidth := by
      omega
    have hnn : 0 ≤ GetGridAddress g u / g.GridWidth - GetGridAddress g T / g.GridWidth := by
      omega
    apply key (GetGridAddress g u / g.GridWidth - GetGridAddress g T / g.GridWidth).toNat T
      (GetGridAddress g u / g.GridWidth - GetGridAddress g T / g.GridWidth) hT hd
      (by rw [Int.toNat_of_nonneg hnn])
    have e : (GetGridAddress g u / g.GridWidth - GetGridAddress g T / g.GridWidth) *
        g.GridWidth = g.GridWidth * (GetGridAddress g u / g.GridWidth) -
          g.GridWidth * (GetGridAddress g T / g.GridWidth) := by ring
    rw [e]
    omega

/-! ## Claim on the falling set of a match -/

/-! ## Fall requests: lemmas -/

theorem sameButLanding_refl (g : AGrid) : sameButLanding g g :=
  ⟨rfl, rfl, rfl, rfl, rfl, rfl, rfl, rfl, rfl, rfl, rfl, rfl, rfl,
    fun _ => ⟨rfl, rfl, rfl, rfl⟩⟩

theorem sameButLanding_trans (g1 g2 g3 : AGrid) (h12 : sameButLanding g1 g2)
    (h23 : sameButLanding g2 g3) : sameButLanding g1 g3 := by
  obtain ⟨a1, a2, a3, a4, a5, a6, a7, a8, a9, a10, a11, a12, a13, a14⟩ := h12
  obtain ⟨b1, b2, b3, b4, b5, b6, b7, b8, b9, b10, b11, b12, b13, b14⟩ := h23
  refine ⟨b1.trans a1, b2.trans a2, b3.trans a3, b4.trans a4, b5.trans a5, b6.trans a6,
    b7.trans a7, b8.trans a8, b9.trans a9, b10.trans a10, b11.trans a11, b12.trans a12,
    b13.trans a13, ?_⟩
  intro t
  obtain ⟨c1, c2, c3, c4⟩ := a14 t
  obtain ⟨d1, d2, d3, d4⟩ := b14 t
  exact ⟨d1.trans c1, d2.trans c2, d3.trans c3, d4.trans c4⟩

theorem sameButLanding_set (g : AGrid) (t : TilePtr) (L : Int) :
    sameButLanding g (SetLandingGridAddress g t L) := by
  refine ⟨rfl, rfl, rfl, rfl, rfl, rfl, rfl, rfl, rfl, rfl, rfl, rfl, rfl, ?_⟩
  intro u
  unfold SetLandingGridAddress
  by_cases hu : u = t
  · subst hu
    simp
  · simp [Function.update_noteq hu]

theorem StartFalling_stop_total (g : AGrid) (T : TilePtr) (Y Hab : Int)
    (hW : 0 < g.GridWidth) (hv : ValidAddress g (GetGridAddress g T)) :
    ∃ L, StartFalling_stop g T Y Hab = Outcome.done L := by
  unfold StartFalling_stop
  rw [offset_eq g _ 0 _ hW hv.1 hv.2]
  split_ifs <;> exact ⟨_, rfl⟩

/-- The scan of `StartFalling` returns when its bound exceeds the row of the tile. -/
theorem StartFalling_scan_total (g : AGrid) (T : TilePtr) (hW : 0 < g.GridWidth)
    (hv : ValidAddress g (GetGridAddress g T)) :
    ∀ (n : Nat) (y hab : Int), 0 ≤ y → y ≤ GetGridAddress g T / g.GridWidth →
      GetGridAddress g T / g.GridWidth - y < n →
      ∃ L, StartFalling_scan g T n y hab = Outcome.done L := by
  obtain ⟨hr0, hr1, hc0, hc1, hd⟩ :=
    coords_of_valid g.GridWidth g.GridHeight _ hW hv.1 hv.2
  intro n
  induction n with
  | zero =>
    intro y hab h0 h1 h2
    have : ((0 : Nat) : Int) = 0 := rfl
    omega
  | succ n ih =>
    intro y hab h0 h1 h2
    unfold StartFalling_scan
    rw [offset_eq g _ 0 _ hW hv.1 hv.2]
    by_cases hin : 0 ≤ GetGridAddress g T / g.GridWidth + -(y + 1)
    · rw [if_pos ⟨by omega, by omega, hin, by omega⟩]
      simp only
      have hrec : ∀ hab', ∃ L, StartFalling_scan g T n (y + 1) hab' = Outcome.done L :=
        fun hab' => ih (y + 1) hab' (by omega) (by omega) (by push_cast at h2; omega)
      cases GetTileFromGridAddress g (GetGridAddress g T + 0 + -(y + 1) * g.GridWidth) with
      | none => exact hrec _
      | some below =>
        simp only
        split_ifs
        · exact hrec _
        · exact hrec _
        · exact StartFalling_stop_total g T _ _ hW hv
    · rw [if_neg (by intro h; exact hin h.2.2.1)]
      exact StartFalling_stop_total g T _ _ hW hv

/-- A fall request, whenever it returns: one `StartFalling` event, and only the landing
address kept in the tile changes. -/
theorem StartFalling_trace (fuel : Nat) (w : UWorld) (T : TilePtr) (b : Bool) (w' : UWorld)
    (h : StartFalling fuel w T b = Outcome.done w') :
    ∃ L : Int, w' = Emit { w with Grid := SetLandingGridAddress w.Grid T L }
      (FEvent.StartFalling T b L) := by
  unfold StartFalling at h
  obtain ⟨L, _, h2⟩ := Outcome_bind_eq_done _ _ _ h
  injection h2 with h2
  exact ⟨L, h2.symm⟩

theorem StartFalling_total (fuel : Nat) (w : UWorld) (T : TilePtr) (b : Bool)
    (hW : 0 < w.Grid.GridWidth) (hv : ValidAddress w.Grid (GetGridAddress w.Grid T))
    (hfuel : b = false → w.Grid.GridHeight ≤ fuel) :
    ∃ w', StartFalling fuel w T b = Outcome.done w' := by
  unfold StartFalling
  cases b with
  | true => exact ⟨_, rfl⟩
  | false =>
    obtain ⟨hr0, hr1, _⟩ :=
      coords_of_valid w.Grid.GridWidth w.Grid.GridHeight _ hW hv.1 hv.2
    obtain ⟨L, hL⟩ := StartFalling_scan_total w.Grid T hW hv fuel 0 1 (le_refl _) hr0
      (by have := hfuel rfl; omega)
    simp only [Bool.not_false, if_true, hL]
    exact ⟨_, rfl⟩

/-- The loop of fall requests, whenever it returns: one `StartFalling` event per tile, in
order, and only landing addresses change. -/
theorem StartFalling_all_trace (fuel : Nat) (b : Bool) :
    ∀ (l : List TilePtr) (w w' : UWorld), StartFalling_all fuel b l w = Outcome.done w' →
      sameButLanding w.Grid w'.Grid ∧
      (∃ Ls : List Int, Ls.length = l.length ∧
        w'.Events = w.Events ++ List.zipWith (fun t L => FEvent.StartFalling t b L) l Ls) ∧
      w'.TileLibrary = w.TileLibrary ∧ w'.GameMode = w.GameMode ∧
      w'.PlayerController = w.PlayerController ∧
      w'.ScoreMultiplierForMove = w.ScoreMultiplierForMove ∧
      w'.RandomDraws = w.RandomDraws ∧ w'.RandomCount = w.RandomCount ∧
      w'.NextTile = w.NextTile ∧ w'.Destroyed = w.Destroyed := by
  intro l
  induction l with
  | nil =>
    intro w w' h
    simp only [StartFalling_all] at h
    injection h with h
    subst h
    exact ⟨sameButLanding_refl _, ⟨[], rfl, by simp⟩, rfl, rfl, rfl, rfl, rfl, rfl, rfl, rfl⟩
  | cons T l ih =>
    intro w w' h
    unfold StartFalling_all at h
    obtain ⟨w1, h1, h2⟩ := Outcome_bind_eq_done _ _ _ h
    obtain ⟨L, hL⟩ := StartFalling_trace fuel w T b w1 h1
    obtain ⟨a1, ⟨Ls, a2, a3⟩, a4, a5, a6, a7, a8, a9, a10, a11⟩ := ih w1 w' h2
    subst hL
    refine ⟨sameButLanding_trans _ _ _ (sameButLanding_set w.Grid T L) a1,
      ⟨L :: Ls, by simp [a2], ?_⟩, a4, a5, a6, a7, a8, a9, a10, a11⟩
    rw [a3]
    simp [Emit]

/-- The loop of fall requests returns on a grid of positive width for tiles at valid
addresses, with a bound that reaches the height of the grid where a landing address is
computed. -/
theorem StartFalling_all_total (fuel : Nat) (b : Bool) :
    ∀ (l : List TilePtr) (w : UWorld), 0 < w.Grid.GridWidth →
      (∀ t ∈ l, ValidAddress w.Grid (GetGridAddress w.Grid t)) →
      (b = false → w.Grid.GridHeight ≤ fuel) →
      ∃ w', StartFalling_all fuel b l w = Outcome.done w' := by
  intro l
  induction l with
  | nil =>
    intro w _ _ _
    exact ⟨w, rfl⟩
  | cons T l ih =>
    intro w hW hv hfuel
    obtain ⟨w1, h1⟩ := StartFalling_total fuel w T b hW (hv T (List.mem_cons_self _ _)) hfuel
    obtain ⟨L, hL⟩ := StartFalling_trace fuel w T b w1 h1
    have hs := sameButLanding_set w.Grid T L
    have hg : w1.Grid = SetLandingGridAddress w.Grid T L := by rw [hL]; rfl
    obtain ⟨w', h'⟩ := ih w1 (by rw [hg]; exact hW)
      (by
        intro t ht
        have := hv t (List.mem_cons_of_mem _ ht)
        rw [hg]
        unfold ValidAddress GetGridAddress at this ⊢
        rw [(hs.2.2.2.2.2.2.2.2.2.2.2.2.2 t).2.2.2]
        exact this)
      (by rw [hg]; exact hfuel)
    unfold StartFalling_all
    rw [h1]
    exact ⟨w', h'⟩

/-! ## Claim on the repeated completion with a null tile -/

/-- The completion callback with a null tile while tiles are falling and none is being
destroyed: the fall of every falling tile is requested, and nothing but the landing addresses
kept in the tiles changes. -/
theorem OnTileFinishedMatching_falling (fuel : Nat) (w : UWorld)
    (hdes : w.Grid.TilesBeingDestroyed = []) (hfall : w.Grid.FallingTiles ≠ [])
    (hwf : WellFormed w.Grid)
    (hv : ∀ t ∈ w.Grid.FallingTiles, ValidAddress w.Grid (GetGridAddress w.Grid t))
    (hfuel : w.Grid.GridHeight ≤ fuel) :
    ∃ (w' : UWorld) (Ls : List Int),
      OnTileFinishedMatching fuel w none = Outcome.done w' ∧
      Ls.length = w.Grid.FallingTiles.length ∧
      w'.Events = w.Events ++
        List.zipWith (fun t L => FEvent.StartFalling t false L) w.Grid.FallingTiles Ls ∧
      sameButLanding w.Grid w'.Grid := by
  obtain ⟨w', h'⟩ := StartFalling_all_total fuel false w.Grid.FallingTiles w hwf.1 hv
    (fun _ => hfuel)
  obtain ⟨a1, ⟨Ls, a2, a3⟩, _⟩ := StartFalling_all_trace fuel false _ w w' h'
  refine ⟨w', Ls, ?_, a2, a3, a1⟩
  unfold OnTileFinishedMatching OnTileFinishedMatching_with
  simp only [hdes, List.length_nil, if_true, h', Outcome.bind]
  have hne : ¬ w'.Grid.FallingTiles.length = 0 := by
    rw [a1.2.2.2.2.2.2.1]
    exact fun e => hfall (List.length_eq_zero.mp e)
  rw [if_neg hne]

/-- C22, as amended: the completion callback with a null tile, when the destroying set is
empty, runs the falling and respawn step at every call.  With an empty falling set it is the
respawn: it returns what the respawn returns and fails where the respawn fails.  With falling
tiles, on a board of the data model with the falling tiles at valid addresses and a bound
that reaches the height of the grid, it returns having requested the fall of every falling
tile, with the falling set and the empty destroying set as before; so a further such call
returns as well and requests every fall once more. -/
theorem OnTileFinishedMatching_null (fuel : Nat) (w : UWorld)
    (hdes : w.Grid.TilesBeingDestroyed = []) :
    (w.Grid.FallingTiles = [] → OnTileFinishedMatching fuel w none = RespawnTiles fuel w) ∧
    (w.Grid.FallingTiles ≠ [] → WellFormed w.Grid →
      (∀ t ∈ w.Grid.FallingTiles, ValidAddress w.Grid (GetGridAddress w.Grid t)) →
      w.Grid.GridHeight ≤ fuel →
      ∃ (w1 w2 : UWorld) (Ls1 Ls2 : List Int),
        OnTileFinishedMatching fuel w none = Outcome.done w1 ∧
        Ls1.length = w.Grid.FallingTiles.length ∧
        w1.Events = w.Events ++
          List.zipWith (fun t L => FEvent.StartFalling t false L) w.Grid.FallingTiles Ls1 ∧
        sameButLanding w.Grid w1.Grid ∧
        OnTileFinishedMatching fuel w1 none = Outcome.done w2 ∧
        Ls2.length = w.Grid.FallingTiles.length ∧
        w2.Events = w1.Events ++
          List.zipWith (fun t L => FEvent.StartFalling t false L) w.Grid.FallingTiles Ls2 ∧
        sameButLanding w.Grid w2.Grid) := by
  constructor
  · intro hfall
    unfold OnTileFinishedMatching OnTileFinishedMatching_with
    simp only [hdes, hfall, List.length_nil, if_true, StartFalling_all, Outcome.bind]
  · intro hfall hwf hv hfuel
    obtain ⟨w1, Ls1, a1, a2, a3, a4⟩ :=
      OnTileFinishedMatching_falling fuel w hdes hfall hwf hv hfuel
    have hF : w1.Grid.FallingTiles = w.Grid.FallingTiles := a4.2.2.2.2.2.2.1
    have hwf1 : WellFormed w1.Grid := by
      obtain ⟨h1, h2, h3⟩ := hwf
      refine ⟨by rw [a4.1]; exact h1, by rw [a4.2.1]; exact h2, ?_⟩
      rw [a4.1, a4.2.1, a4.2.2.2.1]
      exact h3
    obtain ⟨w2, Ls2, b1, b2, b3, b4⟩ :=
      OnTileFinishedMatching_falling fuel w1
        (by rw [a4.2.2.2.2.2.2.2.2.2.1]; exact hdes)
        (by rw [hF]; exact hfall) hwf1
        (by
          intro t ht
          rw [hF] at ht
          have := hv t ht
          unfold ValidAddress GetGridAddress at this ⊢
          rw [a4.1, a4.2.1, (a4.2.2.2.2.2.2.2.2.2.2.2.2.2 t).2.2.2]
          exact this)
        (by rw [a4.2.1]; exact hfuel)
    rw [hF] at b2 b3
    exact ⟨w1, w2, Ls1, Ls2, a1, a2, a3, a4, b1, b2, b3, sameButLanding_trans _ _ _ a4 b4⟩

/-- C22 as amended, on the world with tiles 3 and 6 falling into the emptied cell 0. -/
theorem OnTileFinishedMatching_null_witness :
    ∃ (w1 w2 : UWorld) (Ls1 Ls2 : List Int),
      OnTileFinishedMatching 3 fallingWorld none = Outcome.done w1 ∧
      Ls1.length = fallingWorld.Grid.FallingTiles.length ∧
      w1.Events = fallingWorld.Events ++
        List.zipWith (fun t L => FEvent.StartFalling t false L)
          fallingWorld.Grid.FallingTiles Ls1 ∧
      sameButLanding fallingWorld.Grid w1.Grid ∧
      OnTileFinishedMatching 3 w1 none = Outcome.done w2 ∧
      Ls2.length = fallingWorld.Grid.FallingTiles.length ∧
      w2.Events = w1.Events ++
        List.zipWith (fun t L => FEvent.StartFalling t false L)
          fallingWorld.Grid.FallingTiles Ls2 ∧
      sameButLanding fallingWorld.Grid w2.Grid :=
  (OnTileFinishedMatching_null 3 fallingWorld rfl).2 (List.cons_ne_nil _ _)
    ⟨by decide, by decide, by decide⟩
    (by
      intro t ht
      have ht' : t ∈ ([3, 6] : List TilePtr) := ht
      simp only [List.mem_cons, List.mem_singleton, List.not_mem_nil, or_false] at ht'
      rcases ht' with h | h <;> subst h <;> exact ⟨by decide, by decide⟩)
    (by decide)

/-! ## Engine arrays: lemmas -/

theorem set_perm_eraseIdx {α : Type} (z : α) :
    ∀ (l : List α) (i : Nat), i < l.length → (l.set i z).Perm (l.eraseIdx i ++ [z]) := by
  intro l
  induction l with
  | nil => intro i h; cases h
  | cons a r ih =>
    intro i h
    cases i with
    | zero =>
      simp only [List.set_cons_zero, List.eraseIdx_cons_zero]
      exact (List.perm_append_singleton z r).symm
    | succ i =>
      simp only [List.set_cons_succ, List.eraseIdx_cons_succ, List.cons_append]
      exact List.Perm.cons a (ih i (by simpa using h))

/-- The engine's `RemoveAtSwap` at a valid index keeps the other elements. -/
theorem RemoveAtSwap_perm {α : Type} (l : List α) (i : Nat) (h : i < l.length) :
    (TArray.RemoveAtSwap l i).Perm (l.eraseIdx i) := by
  unfold TArray.RemoveAtSwap
  rw [if_pos h]
  cases hl : l.getLast? with
  | none =>
    rw [List.getLast?_eq_none_iff] at hl
    subst hl
    cases h
  | some z =>
    simp only
    obtain ⟨ys, hys⟩ := List.getLast?_eq_some_iff.mp hl
    subst hys
    simp only [List.dropLast_concat, List.length_append, List.length_singleton] at h ⊢
    split_ifs with he
    · have e : i = ys.length := by omega
      subst e
      rw [List.eraseIdx_eq_take_drop_succ]
      simp
    · have hlt : i < ys.length := by omega
      rw [List.eraseIdx_append_of_lt_length hlt]
      exact set_perm_eraseIdx z ys i hlt

/-- The engine's `RemoveSingleSwap` on an array without repetition removes the element and
keeps the others. -/
theorem RemoveSingleSwap_mem (l : List TilePtr) (t u : TilePtr) (hnd : l.Nodup) :
    (u ∈ TArray.RemoveSingleSwap l t ↔ u ∈ l ∧ u ≠ t) ∧
      (TArray.RemoveSingleSwap l t).Nodup := by
  unfold TArray.RemoveSingleSwap
  cases hi : l.indexOf? t with
  | none =>
    simp only
    have hnot : t ∉ l := by
      intro hmem
      unfold List.indexOf? at hi
      rw [List.findIdx?_eq_none_iff] at hi
      have := hi t hmem
      simp at this
    refine ⟨?_, hnd⟩
    constructor
    · intro h
      exact ⟨h, fun e => hnot (e ▸ h)⟩
    · exact fun h => h.1
  | some i =>
    simp only
    unfold List.indexOf? at hi
    obtain ⟨hlt, hp, _⟩ := List.findIdx?_eq_some_iff_getElem.mp hi
    have het : l[i] = t := by simpa using hp
    have hperm := RemoveAtSwap_perm l i hlt
    have herase : l.eraseIdx i = l.erase t := by
      rw [← het]
      exact (List.Nodup.erase_getElem hnd i hlt).symm
    rw [herase] at hperm
    refine ⟨?_, (List.Perm.nodup_iff hperm).mpr (List.Nodup.erase t hnd)⟩
    rw [List.Perm.mem_iff hperm, List.Nodup.mem_erase_iff hnd]
    exact And.comm

/-! ## Grid addressing: more lemmas -/

/-- The offset computation with offsets 0 on a grid of positive width tells whether the
address is valid; no `check` fails. -/
theorem offset_zero (g : AGrid) (a : Int) (hW : 0 < g.GridWidth) :
    (ValidAddress g a → GetGridAddressWithOffset g a 0 0 = some (true, a)) ∧
      (¬ ValidAddress g a → GetGridAddressWithOffset g a 0 0 = some (false, -1)) := by
  constructor
  · intro hv
    rw [offset_eq g a 0 0 hW hv.1 hv.2]
    obtain ⟨hr0, hr1, hc0, hc1, hd⟩ := coords_of_valid g.GridWidth g.GridHeight a hW hv.1 hv.2
    rw [if_pos ⟨by omega, by omega, by omega, by omega⟩]
    simp
  · intro hv
    unfold ValidAddress at hv
    unfold GetGridAddressWithOffset
    have hdec := Int.tmod_add_tdiv a g.GridWidth
    simp only [Clamp_ne_iff, add_zero, zero_mul]
    rw [if_neg (by omega)]
    by_cases hc : 0 ≤ Int.tmod a g.GridWidth ∧ Int.tmod a g.GridWidth < g.GridWidth
    · rw [if_neg (by simpa using hc)]
      by_cases hr : 0 ≤ Int.tdiv a g.GridWidth ∧ Int.tdiv a g.GridWidth < g.GridHeight
      · exfalso
        apply hv
        have h1 : 0 ≤ g.GridWidth * Int.tdiv a g.GridWidth :=
          Int.mul_nonneg (le_of_lt hW) hr.1
        have h2 : g.GridWidth * (Int.tdiv a g.GridWidth + 1) ≤ g.GridWidth * g.GridHeight :=
          Int.mul_le_mul_of_nonneg_left (by omega) (le_of_lt hW)
        rw [mul_add, mul_one] at h2
        constructor <;> omega
      · rw [if_pos (by simpa using hr)]
    · rw [if_pos (by simpa using hc)]

/-- The slots of a board after one slot inside the board has been written. -/
theorem getTile_set (g g' : AGrid) (i : Int) (v : Option TilePtr)
    (hi : 0 ≤ i ∧ i < g.GameTiles.length)
    (hg : g'.GameTiles = g.GameTiles.set i.toNat v) (c : Int) :
    GetTileFromGridAddress g' c = if c = i then v else GetTileFromGridAddress g c := by
  unfold GetTileFromGridAddress
  rw [hg]
  simp only [List.length_set]
  by_cases hc : c = i
  · subst hc
    rw [if_pos hi, if_pos rfl]
    have hlt : c.toNat < g.GameTiles.length := by omega
    simp [List.getElem?_set, hlt]
  · rw [if_neg hc]
    split_ifs with h
    · have hne : i.toNat ≠ c.toNat := by omega
      simp [List.getElem?_set, hne]
    · rfl

/-! ## The landing of a tile: lemmas -/

/-- The first step of `OnTileFinishedFalling`: the old slot of the tile is emptied when the
address of the tile is valid and the slot still holds the tile. -/
theorem landing_clear (g : AGrid) (t : TilePtr) (hwf : WellFormed g) :
    ∃ g1 : AGrid,
      (match GetGridAddressWithOffset g (GetGridAddress g t) 0 0 with
        | none => Outcome.failed
        | some (bOld, OldAddress) =>
          Outcome.ofOption
            (if bOld = true then
              (if GetTileFromGridAddress g OldAddress = some t then
                SetGameTile g OldAddress none
              else some g)
            else some g)) = Outcome.done g1 ∧
      g1.GameTiles.length = g.GameTiles.length ∧
      (∀ c, GetTileFromGridAddress g1 c =
        if c = GetGridAddress g t ∧ GetTileFromGridAddress g c = some t then none
        else GetTileFromGridAddress g c) ∧
      g1 = { g with GameTiles := g1.GameTiles } := by
  obtain ⟨hW, hH, hlen⟩ := hwf
  obtain ⟨hz1, hz2⟩ := offset_zero g (GetGridAddress g t) hW
  by_cases hv : ValidAddress g (GetGridAddress g t)
  · rw [hz1 hv]
    simp only [if_true]
    by_cases hs : GetTileFromGridAddress g (GetGridAddress g t) = some t
    · rw [if_pos hs]
      have hr : 0 ≤ GetGridAddress g t ∧ GetGridAddress g t < g.GameTiles.length := by
        rw [hlen]
        exact hv
      unfold SetGameTile
      rw [if_pos hr]
      refine ⟨_, rfl, by simp, ?_, rfl⟩
      intro c
      rw [getTile_set g _ (GetGridAddress g t) none hr rfl c]
      by_cases hc : c = GetGridAddress g t
      · subst hc
        rw [if_pos rfl, if_pos ⟨rfl, hs⟩]
      · rw [if_neg hc, if_neg (fun h => hc h.1)]
    · rw [if_neg hs]
      refine ⟨g, rfl, rfl, ?_, rfl⟩
      intro c
      by_cases hc : c = GetGridAddress g t ∧ GetTileFromGridAddress g c = some t
      · exfalso
        obtain ⟨h1, h2⟩ := hc
        subst h1
        exact hs h2
      · rw [if_neg hc]
  · rw [hz2 hv]
    refine ⟨g, rfl, rfl, ?_, rfl⟩
    intro c
    by_cases hc : c = GetGridAddress g t ∧ GetTileFromGridAddress g c = some t
    · exfalso
      obtain ⟨h1, h2⟩ := hc
      subst h1
      unfold GetTileFromGridAddress at h2
      rw [if_neg (by rw [hlen]; exact hv)] at h2
      cases h2
    · rw [if_neg hc]

/-- The method `OnTileFinishedFalling` on a board of the data model with a valid landing
address: the landing step gives a grid `g4`, and the call is the respawn on it when its
falling set is empty, and returns it otherwise. -/
theorem OnTileFinishedFalling_steps (fuel : Nat) (w : UWorld) (t : TilePtr) (L : Int)
    (hwf : WellFormed w.Grid) (hL : ValidAddress w.Grid L) :
    ∃ g1 : AGrid,
      g1.GameTiles.length = w.Grid.GameTiles.length ∧
      (∀ c, GetTileFromGridAddress g1 c =
        if c = GetGridAddress w.Grid t ∧ GetTileFromGridAddress w.Grid c = some t then none
        else GetTileFromGridAddress w.Grid c) ∧
      g1 = { w.Grid with GameTiles := g1.GameTiles } ∧
      OnTileFinishedFalling fuel w t L =
        (if (TArray.RemoveSingleSwap w.Grid.FallingTiles t).length = 0 then
          RespawnTiles fuel { w with Grid :=
            { SetTileState (SetGridAddress
                { g1 with GameTiles := g1.GameTiles.set L.toNat (some t) } t L) t
                ETileState.ETS_Normal with
              FallingTiles := TArray.RemoveSingleSwap w.Grid.FallingTiles t,
              TilesToCheck := w.Grid.TilesToCheck ++ [t] } }
        else
          Outcome.done { w with Grid :=
            { SetTileState (SetGridAddress
                { g1 with GameTiles := g1.GameTiles.set L.toNat (some t) } t L) t
                ETileState.ETS_Normal with
              FallingTiles := TArray.RemoveSingleSwap w.Grid.FallingTiles t,
              TilesToCheck := w.Grid.TilesToCheck ++ [t] } }) := by
  obtain ⟨g1, h1, h2, h3, h4⟩ := landing_clear w.Grid t hwf
  refine ⟨g1, h2, h3, h4, ?_⟩
  have hW1 : 0 < g1.GridWidth := by rw [h4]; exact hwf.1
  have hL1 : ValidAddress g1 L := by
    unfold ValidAddress at hL ⊢
    rw [h4]
    exact hL
  have hr : 0 ≤ L ∧ L < g1.GameTiles.length := by
    rw [h2, hwf.2.2]
    exact hL
  have hF : g1.FallingTiles = w.Grid.FallingTiles := by rw [h4]
  have hC : g1.TilesToCheck = w.Grid.TilesToCheck := by rw [h4]
  unfold OnTileFinishedFalling
  revert h1
  cases GetGridAddressWithOffset w.Grid (GetGridAddress w.Grid t) 0 0 with
  | none => intro h1; cases h1
  | some p =>
    obtain ⟨bOld, Old⟩ := p
    intro h1
    simp only at h1 ⊢
    rw [h1]
    simp only [Outcome.bind]
    rw [(offset_zero g1 L hW1).1 hL1]
    simp only [if_true]
    unfold SetGameTile
    rw [if_pos hr]
    simp only [Outcome.ofOption, Outcome.bind]
    simp only [SetTileState, SetGridAddress, hF, hC]

/-! ## Claim on the landing of a tile -/

/-- C23, as amended: on a board of the data model, for a landing address that is valid and a
falling set without repetition, the landing step of `OnTileFinishedFalling` gives a world
in which the slot at the landing address holds the tile, the old slot of the tile is empty if
it held the tile and is another slot, every other slot holds what it held, the tile has the
landing address and state normal, no other tile has changed, the tile has left the falling
set, and the tile has been appended to the tiles to check.  The call returns this world when
other tiles are still falling; when the falling set has become empty, the call is the respawn
run on this world. -/
theorem OnTileFinishedFalling_landed (fuel : Nat) (w : UWorld) (t : TilePtr) (L : Int)
    (hwf : WellFormed w.Grid) (hL : ValidAddress w.Grid L)
    (hnd : w.Grid.FallingTiles.Nodup) :
    ∃ w1 : UWorld,
      OnTileFinishedFalling fuel w t L =
        (if w1.Grid.FallingTiles.length = 0 then RespawnTiles fuel w1
          else Outcome.done w1) ∧
      (∀ c, GetTileFromGridAddress w1.Grid c =
        if c = L then some t
        else if c = GetGridAddress w.Grid t ∧ GetTileFromGridAddress w.Grid c = some t
          then none
        else GetTileFromGridAddress w.Grid c) ∧
      w1.Grid.heap t =
        { w.Grid.heap t with GridAddress := L, TileState := ETileState.ETS_Normal } ∧
      (∀ u, u ≠ t → w1.Grid.heap u = w.Grid.heap u) ∧
      (∀ u, u ∈ w1.Grid.FallingTiles ↔ u ∈ w.Grid.FallingTiles ∧ u ≠ t) ∧
      w1.Grid.FallingTiles.Nodup ∧
      w1.Grid.TilesToCheck = w.Grid.TilesToCheck ++ [t] ∧
      w1.Grid.GridWidth = w.Grid.GridWidth ∧ w1.Grid.GridHeight = w.Grid.GridHeight ∧
      w1.Grid.GameTiles.length = w.Grid.GameTiles.length ∧
      w1.Grid.TilesBeingDestroyed = w.Grid.TilesBeingDestroyed ∧
      w1 = { w with Grid := w1.Grid } := by
  obtain ⟨g1, h1, h2, h3, h4⟩ := OnTileFinishedFalling_steps fuel w t L hwf hL
  have hr : 0 ≤ L ∧ L < g1.GameTiles.length := by
    rw [h1, hwf.2.2]
    exact hL
  refine ⟨{ w with Grid :=
      { SetTileState (SetGridAddress
          { g1 with GameTiles := g1.GameTiles.set L.toNat (some t) } t L) t
          ETileState.ETS_Normal with
        FallingTiles := TArray.RemoveSingleSwap w.Grid.FallingTiles t,
        TilesToCheck := w.Grid.TilesToCheck ++ [t] } }, h4, ?_, ?_, ?_, ?_, ?_, rfl, ?_, ?_,
    ?_, ?_, rfl⟩
  · intro c
    have e := getTile_set g1
      { SetTileState (SetGridAddress
          { g1 with GameTiles := g1.GameTiles.set L.toNat (some t) } t L) t
          ETileState.ETS_Normal with
        FallingTiles := TArray.RemoveSingleSwap w.Grid.FallingTiles t,
        TilesToCheck := w.Grid.TilesToCheck ++ [t] } L (some t) hr rfl c
    rw [e, h2 c]
  · rw [h3]
    simp [SetTileState, SetGridAddress]
  · intro u hu
    rw [h3]
    simp [SetTileState, SetGridAddress, Function.update_noteq hu]
  · intro u
    exact (RemoveSingleSwap_mem w.Grid.FallingTiles t u hnd).1
  · exact (RemoveSingleSwap_mem w.Grid.FallingTiles t t hnd).2
  · rw [h3]
    rfl
  · rw [h3]
    rfl
  · simp [SetTileState, SetGridAddress, h1]
  · rw [h3]
    rfl

/-- C23 as amended, on the world with tiles 3 and 6 falling into the emptied cell 0: tile 3
lands at address 0 while tile 6 is still falling. -/
theorem OnTileFinishedFalling_landed_witness :
    ∃ w1 : UWorld, OnTileFinishedFalling 3 fallingWorld 3 0 = Outcome.done w1 ∧
      GetTileFromGridAddress w1.Grid 0 = some 3 ∧
      GetTileFromGridAddress w1.Grid 3 = none ∧
      GetTileFromGridAddress w1.Grid 6 = some 6 ∧
      GetGridAddress w1.Grid 3 = 0 ∧
      (w1.Grid.heap 3).TileState = ETileState.ETS_Normal ∧
      (∀ u, u ∈ w1.Grid.FallingTiles ↔ u ∈ fallingWorld.Grid.FallingTiles ∧ u ≠ 3) ∧
      w1.Grid.TilesToCheck = [3] := by
  obtain ⟨w1, a1, a2, a3, _, a5, _, a7, _⟩ :=
    OnTileFinishedFalling_landed 3 fallingWorld 3 0 ⟨by decide, by decide, by decide⟩
      ⟨by decide, by decide⟩ (by decide)
  have hne : ¬ w1.Grid.FallingTiles.length = 0 := by
    intro e
    have h6 : (6 : TilePtr) ∈ w1.Grid.FallingTiles := (a5 6).mpr ⟨by decide, by decide⟩
    rw [List.length_eq_zero.mp e] at h6
    cases h6
  rw [if_neg hne] at a1
  refine ⟨w1, a1, ?_, ?_, ?_, ?_, ?_, a5, a7⟩
  · rw [a2 0]
    rfl
  · rw [a2 3]
    rfl
  · rw [a2 6]
    rfl
  · unfold GetGridAddress
    rw [a3]
  · rw [a3]

/-! ## Run detection reads the board, the addresses and the types only -/

theorem offset_congr (g g' : AGrid) (hW : g'.GridWidth = g.GridWidth)
    (hH : g'.GridHeight = g.GridHeight) (a dx dy : Int) :
    GetGridAddressWithOffset g' a dx dy = GetGridAddressWithOffset g a dx dy := by
  unfold GetGridAddressWithOffset
  rw [hW, hH]

theorem walk_congr (g g' : AGrid) (hW : g'.GridWidth = g.GridWidth)
    (hH : g'.GridHeight = g.GridHeight) (hT : g'.GameTiles = g.GameTiles)
    (hh : ∀ t, (g'.heap t).TileTypeID = (g.heap t).TileTypeID ∧
      (g'.heap t).GridAddress = (g.heap t).GridAddress)
    (t : TilePtr) (must hz : Bool) (d : Int) :
    ∀ (n : Nat) (off : Int) (acc : List TilePtr),
      FindNeighbors_walk g' t must hz d n off acc =
        FindNeighbors_walk g t must hz d n off acc := by
  intro n
  induction n with
  | zero => intro off acc; rfl
  | succ n ih =>
    intro off acc
    have ha : GetGridAddress g' t = GetGridAddress g t := (hh t).2
    simp only [FindNeighbors_walk, offset_congr g g' hW hH, getTile_congr g g' hT, ih, ha,
      (hh _).1]

theorem FindNeighbors_congr (g g' : AGrid) (hW : g'.GridWidth = g.GridWidth)
    (hH : g'.GridHeight = g.GridHeight) (hR : g'.MinimumRunLength = g.MinimumRunLength)
    (hT : g'.GameTiles = g.GameTiles)
    (hh : ∀ t, (g'.heap t).TileTypeID = (g.heap t).TileTypeID ∧
      (g'.heap t).GridAddress = (g.heap t).GridAddress)
    (t : TilePtr) (must : Bool) (R : Int) :
    FindNeighbors g' t must R = FindNeighbors g t must R := by
  simp only [FindNeighbors, FindNeighbors_axis, walk_congr g g' hW hH hT hh, hW, hH, hR]

/-- With a run length of at least 1 and no type matching, the result of run detection holds
the starting tile. -/
theorem FindNeighbors_free_self (g : AGrid) (t : TilePtr) (R : Int) (r : List TilePtr)
    (hR : 1 ≤ R) (h : FindNeighbors g t false R = some r) : t ∈ r := by
  unfold FindNeighbors at h
  simp only [if_neg (by omega : ¬ R < 0), if_neg (by omega : ¬ R = 0)] at h
  split_ifs at h with h1
  · injection h with h
    subst h
    exact List.mem_singleton_self _
  · revert h
    cases FindNeighbors_axis g t false R false with
    | none => intro h; cases h
    | some v =>
      simp only
      cases FindNeighbors_axis g t false R true with
      | none => intro h; cases h
      | some hz =>
        simp only [Bool.not_false, Bool.or_true, if_true]
        intro h
        injection h with h
        subst h
        simp

/-! ## Unions without repetition -/

theorem AddUnique_spec (l : List TilePtr) (x : TilePtr) (hnd : l.Nodup) :
    (TArray.AddUnique l x).Nodup ∧ ∀ u, u ∈ TArray.AddUnique l x ↔ u ∈ l ∨ u = x := by
  unfold TArray.AddUnique
  split_ifs with h
  · refine ⟨hnd, fun u => ⟨fun hu => Or.inl hu, ?_⟩⟩
    rintro (hu | hu)
    · exact hu
    · exact hu ▸ h
  · refine ⟨?_, fun u => by simp⟩
    rw [List.nodup_append]
    refine ⟨hnd, List.nodup_singleton _, ?_⟩
    intro a ha ha'
    rw [List.mem_singleton] at ha'
    exact h (ha' ▸ ha)

theorem foldl_AddUnique_spec :
    ∀ (r acc : List TilePtr), acc.Nodup →
      (r.foldl TArray.AddUnique acc).Nodup ∧
        ∀ u, u ∈ r.foldl TArray.AddUnique acc ↔ u ∈ acc ∨ u ∈ r := by
  intro r
  induction r with
  | nil =>
    intro acc h
    exact ⟨h, fun u => by simp⟩
  | cons x r ih =>
    intro acc h
    obtain ⟨h1, h2⟩ := AddUnique_spec acc x h
    obtain ⟨h3, h4⟩ := ih _ h1
    refine ⟨h3, fun u => ?_⟩
    rw [List.foldl_cons, h4 u, h2 u]
    simp only [List.mem_cons]
    tauto

/-- The loop of `RespawnTiles` that collects the matches: the union without repetition of
the runs of the tiles to check. -/
theorem matches_spec (g : AGrid) :
    ∀ (L acc : List TilePtr), acc.Nodup →
      (∀ t ∈ L, ∃ r, FindNeighbors g t true (-1) = some r) →
      ∃ U, RespawnTiles_matches g L acc = some U ∧ U.Nodup ∧
        ∀ u, u ∈ U ↔ u ∈ acc ∨ ∃ t ∈ L, ∃ r, FindNeighbors g t true (-1) = some r ∧ u ∈ r := by
  intro L
  induction L with
  | nil =>
    intro acc h _
    exact ⟨acc, rfl, h, fun u => by simp⟩
  | cons T L ih =>
    intro acc h htot
    obtain ⟨r, hr⟩ := htot T (List.mem_cons_self _ _)
    obtain ⟨h1, h2⟩ := foldl_AddUnique_spec r acc h
    obtain ⟨U, e, hn, hm⟩ := ih _ h1 (fun t ht => htot t (List.mem_cons_of_mem _ ht))
    refine ⟨U, ?_, hn, ?_⟩
    · unfold RespawnTiles_matches
      rw [hr]
      exact e
    · intro u
      rw [hm u, h2 u]
      constructor
      · rintro ((h' | h') | ⟨t, ht, r', hr', hu⟩)
        · exact Or.inl h'
        · exact Or.inr ⟨T, List.mem_cons_self _ _, r, hr, h'⟩
        · exact Or.inr ⟨t, List.mem_cons_of_mem _ ht, r', hr', hu⟩
      · rintro (h' | ⟨t, ht, r', hr', hu⟩)
        · exact Or.inl (Or.inl h')
        · rcases List.mem_cons.mp ht with e' | e'
          · subst e'
            rw [hr] at hr'
            injection hr' with hr'
            subst hr'
            exact Or.inl (Or.inr hu)
          · exact Or.inr ⟨t, e', r', hr', hu⟩

/-! ## Respawn: the scan of a column -/

/-- The top cell of a column of a grid of the data model. -/
theorem top_cell (g : AGrid) (x : Int) (hwf : WellFormed g) (hx0 : 0 ≤ x)
    (hx1 : x < g.GridWidth) :
    GetGridAddressWithOffset g 0 x (g.GridHeight - 1) =
        some (true, x + (g.GridHeight - 1) * g.GridWidth) ∧
      ValidAddress g (x + (g.GridHeight - 1) * g.GridWidth) ∧
      (x + (g.GridHeight - 1) * g.GridWidth) % g.GridWidth = x ∧
      (x + (g.GridHeight - 1) * g.GridWidth) / g.GridWidth = g.GridHeight - 1 := by
  obtain ⟨hW, hH, _⟩ := hwf
  have hpos : 0 < g.GridWidth * g.GridHeight := Int.mul_pos hW hH
  have h1 : 0 ≤ (g.GridHeight - 1) * g.GridWidth :=
    Int.mul_nonneg (by omega) (le_of_lt hW)
  have h2 : (g.GridHeight - 1) * g.GridWidth + g.GridWidth = g.GridWidth * g.GridHeight := by
    ring
  refine ⟨?_, ⟨by omega, by omega⟩, ?_, ?_⟩
  · rw [offset_eq g 0 x _ hW (le_refl _) hpos]
    rw [if_pos ⟨by simpa using hx0, by simpa using hx1, by simp; omega, by simp⟩]
    simp
  · rw [Int.add_mul_emod_self]
    exact Int.emod_eq_of_lt hx0 hx1
  · rw [Int.add_mul_ediv_right _ _ (ne_of_gt hW), Int.ediv_eq_zero_of_lt hx0 hx1]
    simp

/-- The loop of `RespawnTiles` that counts the empty cells from the top of a column returns
the number of cells that are empty from the top down to the first occupied cell. -/
theorem depth_spec (g : AGrid) (x : Int) (hwf : WellFormed g) (hx0 : 0 ≤ x)
    (hx1 : x < g.GridWidth) :
    ∀ (n : Nat) (y : Int), 0 ≤ y → y ≤ g.GridHeight → g.GridHeight - y < n →
      (∀ j : Int, 0 ≤ j → j < y →
        GetTileFromGridAddress g (x + (g.GridHeight - 1) * g.GridWidth - j * g.GridWidth) =
          none) →
      ∃ d : Int, RespawnTiles_depth g (x + (g.GridHeight - 1) * g.GridWidth) n y =
          Outcome.done d ∧ y ≤ d ∧ d ≤ g.GridHeight ∧
        (∀ j : Int, 0 ≤ j → j < d →
          GetTileFromGridAddress g (x + (g.GridHeight - 1) * g.GridWidth - j * g.GridWidth) =
            none) ∧
        (d < g.GridHeight →
          GetTileFromGridAddress g (x + (g.GridHeight - 1) * g.GridWidth - d * g.GridWidth) ≠
            none) := by
  obtain ⟨htop, hv, hcol, hrow⟩ := top_cell g x hwf hx0 hx1
  have hW := hwf.1
  intro n
  induction n with
  | zero =>
    intro y h0 h1 h2
    have : ((0 : Nat) : Int) = 0 := rfl
    omega
  | succ n ih =>
    intro y h0 h1 h2 hB
    unfold RespawnTiles_depth
    rw [offset_eq g _ 0 (-y) hW hv.1 hv.2, hcol, hrow]
    have ea : x + (g.GridHeight - 1) * g.GridWidth + 0 + -y * g.GridWidth =
        x + (g.GridHeight - 1) * g.GridWidth - y * g.GridWidth := by ring
    by_cases hin : y < g.GridHeight
    · rw [if_pos ⟨by omega, by omega, by omega, by omega⟩]
      simp only
      rw [ea]
      cases hs : GetTileFromGridAddress g
          (x + (g.GridHeight - 1) * g.GridWidth - y * g.GridWidth) with
      | none =>
        simp only
        obtain ⟨d, e1, e2, e3, e4, e5⟩ := ih (y + 1) (by omega) (by omega)
          (by push_cast at h2; omega)
          (by
            intro j hj0 hj1
            rcases lt_or_eq_of_le (by omega : j ≤ y) with h' | h'
            · exact hB j hj0 h'
            · subst h'
              exact hs)
        exact ⟨d, e1, by omega, e3, e4, e5⟩
      | some v =>
        simp only
        refine ⟨y, rfl, le_refl _, h1, hB, ?_⟩
        intro _
        rw [hs]
        exact fun h => by cases h
    · rw [if_neg (by omega)]
      exact ⟨y, rfl, le_refl _, h1, hB, fun h => absurd h hin⟩

/-- On a full board the loop over the columns of `RespawnTiles` creates nothing. -/
theorem columns_full (f : Nat) (w : UWorld) (hwf : WellFormed w.Grid)
    (hfull : FullyPopulated w.Grid) :
    ∀ (n : Nat) (x : Int), 0 ≤ x → x + n ≤ w.Grid.GridWidth →
      RespawnTiles_columns (f + 1) n x w = Outcome.done w := by
  intro n
  induction n with
  | zero => intro x _ _; rfl
  | succ n ih =>
    intro x hx0 hx1
    push_cast at hx1
    obtain ⟨htop, hv, _, _⟩ := top_cell w.Grid x hwf hx0 (by omega)
    unfold RespawnTiles_columns
    rw [htop]
    simp only
    have hd : RespawnTiles_depth w.Grid (x + (w.Grid.GridHeight - 1) * w.Grid.GridWidth)
        (f + 1) 0 = Outcome.done 0 := by
      unfold RespawnTiles_depth
      rw [neg_zero, (offset_zero w.Grid _ hwf.1).1 hv]
      simp only
      cases hs : GetTileFromGridAddress w.Grid
          (x + (w.Grid.GridHeight - 1) * w.Grid.GridWidth) with
      | none => exact absurd hs (hfull _ hv)
      | some v => rfl
    rw [hd]
    simp only [Outcome.bind, Int.toNat_zero, RespawnTiles_spawn, Outcome.ofOption]
    exact ih (x + 1) (by omega) (by omega)

/-! ## Claim on the cascade check -/

/-- C29: on a fully populated consistent board of the data model with an empty falling set,
the tiles to check being at valid addresses, `RespawnTiles` creates nothing and computes the
union `U`, without repetition, of the runs of the tiles to check.  If `U` is not empty the
call is `ExecuteMatch` on `U` after the last move has been set to `MT_Combo`.  If `U` is
empty, `IsUnwinnable` returns; when it answers true and a game mode is present the call
returns after `GameOver`, and otherwise it returns after the game timer has been resumed. -/
theorem RespawnTiles_cascade (n : Nat) (w : UWorld) (hwf : WellFormed w.Grid)
    (hfull : FullyPopulated w.Grid) (hcons : Consistent w.Grid)
    (hfall : w.Grid.FallingTiles = [])
    (hchk : ∀ t ∈ w.Grid.TilesToCheck, ValidAddress w.Grid (GetGridAddress w.Grid t)) :
    ∃ U : List TilePtr,
      RespawnTiles_matches w.Grid w.Grid.TilesToCheck [] = some U ∧ U.Nodup ∧
      (∀ u, u ∈ U ↔ ∃ t ∈ w.Grid.TilesToCheck, ∃ r,
        FindNeighbors w.Grid t true (-1) = some r ∧ u ∈ r) ∧
      (U ≠ [] →
        RespawnTiles (n + 1) w = ExecuteMatch n (SetLastMove w EMatch3MoveType.MT_Combo) U) ∧
      (U = [] → ∃ (r : Bool) (l : List TilePtr),
        IsUnwinnable w.Grid = some (r, { w.Grid with LastLegalMatch := l }) ∧
        (r = true → ∀ gm, w.GameMode = some gm →
          RespawnTiles (n + 1) w = Outcome.done
            (GameOver { w with Grid := { w.Grid with LastLegalMatch := l } } gm)) ∧
        (r = true → w.GameMode = none →
          RespawnTiles (n + 1) w = Outcome.done
            (PauseGameTimer { w with Grid := { w.Grid with LastLegalMatch := l } } false)) ∧
        (r = false →
          RespawnTiles (n + 1) w = Outcome.done
            (PauseGameTimer { w with Grid := { w.Grid with LastLegalMatch := l } } false))) := by
  obtain ⟨U, hU, hn, hm⟩ := matches_spec w.Grid w.Grid.TilesToCheck [] List.nodup_nil
    (fun t ht => FindNeighbors_total w.Grid t true (-1) hwf.1 (hchk t ht))
  have hcol : RespawnTiles_columns (n + 1) w.Grid.GridWidth.toNat 0 w = Outcome.done w :=
    columns_full n w hwf hfull _ 0 (le_refl _) (by
      have := hwf.1
      rw [Int.toNat_of_nonneg (le_of_lt this)]
      omega)
  have hstart : RespawnTiles (n + 1) w =
      (if U.length > 0 then
        ExecuteMatch n (SetLastMove w EMatch3MoveType.MT_Combo) U
      else
        match IsUnwinnable w.Grid with
        | none => Outcome.failed
        | some (true, g2) =>
          match w.GameMode with
          | some GameMode => Outcome.done (GameOver { w with Grid := g2 } GameMode)
          | none => Outcome.done (PauseGameTimer { w with Grid := g2 } false)
        | some (false, g2) => Outcome.done (PauseGameTimer { w with Grid := g2 } false)) := by
    unfold RespawnTiles RespawnTiles_with
    rw [hcol]
    simp only [Outcome.bind, hfall, List.length_nil, lt_self_iff_false, if_false, hU]
    rfl
  refine ⟨U, hU, hn, fun u => by simpa using hm u, ?_, ?_⟩
  · intro hne
    rw [hstart, if_pos (List.length_pos.mpr hne)]
  · intro he
    obtain ⟨r, l, hl, _⟩ := loop_frame w.Grid hwf hcons hfull w.Grid.GameTiles.length 0
      w.Grid.LastLegalMatch
    have hI : IsUnwinnable w.Grid = some (r, { w.Grid with LastLegalMatch := l }) := hl
    refine ⟨r, l, hI, ?_, ?_, ?_⟩
    · intro hr gm hgm
      subst hr
      rw [hstart, he, hI]
      simp only [List.length_nil, lt_self_iff_false, if_false, hgm]
    · intro hr hgm
      subst hr
      rw [hstart, he, hI]
      simp only [List.length_nil, lt_self_iff_false, if_false, hgm]
    · intro hr
      subst hr
      rw [hstart, he, hI]
      simp only [List.length_nil, lt_self_iff_false, if_false]

/-- C29 on the 3 x 3 board whose bottom row is a run, with the tile at address 2 to check:
the union is the run of the tiles 1, 0 and 2, and the match is executed as a combo. -/
theorem RespawnTiles_cascade_witness :
    RespawnTiles_matches checkWorld.Grid checkWorld.Grid.TilesToCheck [] = some [1, 0, 2] ∧
      RespawnTiles 1 checkWorld =
        ExecuteMatch 0 (SetLastMove checkWorld EMatch3MoveType.MT_Combo) [1, 0, 2] := by
  obtain ⟨U, hU, _, _, h1, _⟩ := RespawnTiles_cascade 0 checkWorld
    (plainBoard_wellFormed 3 3 3 _ (by decide) (by decide) (by decide))
    (plainBoard_full 3 3 3 _ (by decide)) (plainBoard_consistent 3 3 3 _) rfl
    (by
      intro t ht
      have ht' : t ∈ ([2] : List TilePtr) := ht
      rw [List.mem_singleton] at ht'
      subst ht'
      exact ⟨by decide, by decide⟩)
  have e : RespawnTiles_matches checkWorld.Grid checkWorld.Grid.TilesToCheck [] =
      some [1, 0, 2] := by decide
  rw [e] at hU
  injection hU with hU
  subst hU
  exact ⟨e, h1 (List.cons_ne_nil _ _)⟩

/-! ## The selection of a bomb: lemmas -/

theorem GetExplosionList_SetLastMove (w : UWorld) (m : EMatch3MoveType)
    (A : Option TilePtr) :
    GetExplosionList (SetLastMove w m) A = GetExplosionList w A := by
  unfold SetLastMove
  cases hpc : w.PlayerController with
  | none => rfl
  | some pc =>
    cases A with
    | none => rfl
    | some a =>
      have e := FindNeighbors_congr w.Grid
        { w.Grid with LastMoves := Function.update w.Grid.LastMoves LocalPlayerKey (some m) }
        rfl rfl rfl rfl (fun _ => ⟨rfl, rfl⟩)
      simp only [GetExplosionList, CalculateBombPower, hpc, e]

theorem FindTilesOfType_SetLastMove (w : UWorld) (m : EMatch3MoveType) (ty : Int) :
    FindTilesOfType (SetLastMove w m).Grid ty = FindTilesOfType w.Grid ty ∧
      (SetLastMove w m).Grid.heap = w.Grid.heap ∧
      (SetLastMove w m).GameMode = w.GameMode := by
  unfold SetLastMove
  cases w.PlayerController <;> exact ⟨rfl, rfl, rfl⟩

/-- The tiles that `FindTilesOfType` returns on a consistent board: the placed tiles of the
type. -/
theorem FindTilesOfType_mem (g : AGrid) (ty : Int) (b : TilePtr) (hcons : Consistent g) :
    b ∈ FindTilesOfType g ty ↔ OnBoard g b ∧ (g.heap b).TileTypeID = ty := by
  unfold FindTilesOfType
  rw [List.mem_filterMap, onBoard_iff_slot g b hcons]
  constructor
  · rintro ⟨s, hs, he⟩
    cases s with
    | none => cases he
    | some t =>
      simp only at he
      split_ifs at he with hty
      injection he with he
      subst he
      obtain ⟨j, hj, hjt⟩ := List.getElem_of_mem hs
      exact ⟨⟨j, by rw [List.getElem?_eq_getElem hj, hjt]⟩, hty⟩
  · rintro ⟨⟨j, hj⟩, hty⟩
    refine ⟨some b, List.mem_iff_getElem?.mpr ⟨j, hj⟩, ?_⟩
    simp only [hty, if_true]

/-- The explosion list of a tile that can explode, at a valid address, with a game mode:
it is computed, and it holds the tile. -/
theorem GetExplosionList_total (w : UWorld) (b : TilePtr) (gm : AMatch3GameMode)
    (hgm : w.GameMode = some gm) (hW : 0 < w.Grid.GridWidth)
    (hv : ValidAddress w.Grid (GetGridAddress w.Grid b))
    (hex : (w.Grid.heap b).Abilities.CanExplode = true) :
    ∃ r, GetExplosionList w (some b) = some r ∧ b ∈ r := by
  have e : GetExplosionList w (some b) =
      FindNeighbors w.Grid b false
        (FMath.Max 1 ((w.Grid.heap b).Abilities.BombPower + 1 + CalculateBombPower w)) := by
    unfold GetExplosionList
    simp only [hex, not_true_eq_false, if_false, hgm]
  obtain ⟨r, hr⟩ := FindNeighbors_total w.Grid b false
    (FMath.Max 1 ((w.Grid.heap b).Abilities.BombPower + 1 + CalculateBombPower w)) hW hv
  refine ⟨r, e.trans hr, ?_⟩
  apply FindNeighbors_free_self w.Grid b _ r _ hr
  rw [FMath_Max_eq]
  exact le_max_left _ _

/-- The loop over the bombs in `OnTileWasSelected`: the union without repetition of the
explosion lists of the bombs. -/
theorem bombs_spec (w : UWorld) :
    ∀ (L acc : List TilePtr), acc.Nodup →
      (∀ b ∈ L, ∃ r, GetExplosionList w (some b) = some r) →
      ∃ U, OnTileWasSelected_bombs w L acc = some U ∧ U.Nodup ∧
        ∀ u, u ∈ U ↔ u ∈ acc ∨ ∃ b ∈ L, ∃ r, GetExplosionList w (some b) = some r ∧ u ∈ r := by
  intro L
  induction L with
  | nil =>
    intro acc h _
    exact ⟨acc, rfl, h, fun u => by simp⟩
  | cons T L ih =>
    intro acc h htot
    obtain ⟨r, hr⟩ := htot T (List.mem_cons_self _ _)
    obtain ⟨h1, h2⟩ := foldl_AddUnique_spec r acc h
    obtain ⟨U, e, hn, hm⟩ := ih _ h1 (fun t ht => htot t (List.mem_cons_of_mem _ ht))
    refine ⟨U, ?_, hn, ?_⟩
    · unfold OnTileWasSelected_bombs
      rw [hr]
      exact e
    · intro u
      rw [hm u, h2 u]
      constructor
      · rintro ((h' | h') | ⟨t, ht, r', hr', hu⟩)
        · exact Or.inl h'
        · exact Or.inr ⟨T, List.mem_cons_self _ _, r, hr, h'⟩
        · exact Or.inr ⟨t, List.mem_cons_of_mem _ ht, r', hr', hu⟩
      · rintro (h' | ⟨t, ht, r', hr', hu⟩)
        · exact Or.inl (Or.inl h')
        · rcases List.mem_cons.mp ht with e' | e'
          · subst e'
            rw [hr] at hr'
            injection hr' with hr'
            subst hr'
            exact Or.inl (Or.inr hu)
          · exact Or.inr ⟨t, e', r', hr', hu⟩

/-- The first selection of a tile whose type can explode, no guard being active. -/
theorem OnTileWasSelected_explode_eq (fuel : Nat) (w : UWorld) (New : TilePtr)
    (T : FTileType) (gm : AMatch3GameMode)
    (hsel : w.Grid.CurrentlySelectedTile = none)
    (hfall : w.Grid.FallingTiles = []) (hdes : w.Grid.TilesBeingDestroyed = [])
    (hpend : w.Grid.bPendingSwapMove = false) (hact : IsGameActive w = true)
    (hgm : w.GameMode = some gm)
    (hT : GetTileType w (w.Grid.heap New).TileTypeID = some T)
    (hexp : T.Abilities.CanExplode = true) :
    OnTileWasSelected fuel w (some New) =
      match (if GetComboPower w = GetMaxComboPower w then
          match OnTileWasSelected_bombs (SetLastMove w EMatch3MoveType.MT_AllTheBombs)
              (FindTilesOfType (SetLastMove w EMatch3MoveType.MT_AllTheBombs).Grid
                ((SetLastMove w EMatch3MoveType.MT_AllTheBombs).Grid.heap New).TileTypeID)
              [] with
          | none => none
          | some TilesToDestroy =>
            some (SetLastMove w EMatch3MoveType.MT_AllTheBombs, TilesToDestroy)
        else some (w, [])) with
      | none => Outcome.failed
      | some (w1, TilesToDestroy) =>
        if TilesToDestroy.length = 0 then
          match GetExplosionList (SetLastMove w1 EMatch3MoveType.MT_Bomb) (some New) with
          | none => Outcome.failed
          | some TilesToDestroy =>
            ExecuteMatch fuel (SetLastMove w1 EMatch3MoveType.MT_Bomb) TilesToDestroy
        else ExecuteMatch fuel w1 TilesToDestroy := by
  unfold OnTileWasSelected
  simp only [hfall, hdes, hpend, hact, List.length_nil, ne_eq, not_true_eq_false,
    Bool.false_eq_true, Bool.true_eq_false, or_self, if_false, hT, hsel, hexp, if_true, hgm]

/-! ## Claim on the selection of a bomb -/

/-- C30: no tile being selected and no guard being active, for a placed tile whose type can
explode, on a consistent board of the data model whose placed tiles of that type can
explode: if the combo power equals its maximum, the selection is `ExecuteMatch`, after the
last move has been set to `MT_AllTheBombs`, on the union without repetition of the explosion
lists of the placed tiles of the type of the tile; otherwise it is `ExecuteMatch`, after the
last move has been set to `MT_Bomb`, on the explosion list of the tile.  In both cases the
list holds the tile, and with a local player controller the last move reads as set. -/
theorem OnTileWasSelected_bomb (fuel : Nat) (w : UWorld) (New : TilePtr) (T : FTileType)
    (hsel : w.Grid.CurrentlySelectedTile = none)
    (hfall : w.Grid.FallingTiles = []) (hdes : w.Grid.TilesBeingDestroyed = [])
    (hpend : w.Grid.bPendingSwapMove = false) (hact : IsGameActive w = true)
    (hT : GetTileType w (w.Grid.heap New).TileTypeID = some T)
    (hexp : T.Abilities.CanExplode = true)
    (hwf : WellFormed w.Grid) (hcons : Consistent w.Grid) (hon : OnBoard w.Grid New)
    (habil : ∀ b, OnBoard w.Grid b →
      (w.Grid.heap b).TileTypeID = (w.Grid.heap New).TileTypeID →
      (w.Grid.heap b).Abilities.CanExplode = true) :
    (GetComboPower w = GetMaxComboPower w →
      ∃ U : List TilePtr, U.Nodup ∧
        (∀ u, u ∈ U ↔ ∃ b, OnBoard w.Grid b ∧
          (w.Grid.heap b).TileTypeID = (w.Grid.heap New).TileTypeID ∧
          ∃ r, GetExplosionList w (some b) = some r ∧ u ∈ r) ∧
        New ∈ U ∧
        OnTileWasSelected fuel w (some New) =
          ExecuteMatch fuel (SetLastMove w EMatch3MoveType.MT_AllTheBombs) U) ∧
    (GetComboPower w ≠ GetMaxComboPower w →
      ∃ r : List TilePtr, GetExplosionList w (some New) = some r ∧ New ∈ r ∧
        OnTileWasSelected fuel w (some New) =
          ExecuteMatch fuel (SetLastMove w EMatch3MoveType.MT_Bomb) r) ∧
    (w.PlayerController ≠ none →
      GetLastMove (SetLastMove w EMatch3MoveType.MT_AllTheBombs) =
          EMatch3MoveType.MT_AllTheBombs ∧
        GetLastMove (SetLastMove w EMatch3MoveType.MT_Bomb) = EMatch3MoveType.MT_Bomb) := by
  have hgm : ∃ gm, w.GameMode = some gm := by
    unfold IsGameActive at hact
    cases h : w.GameMode with
    | none => rw [h] at hact; cases hact
    | some gm => exact ⟨gm, rfl⟩
  obtain ⟨gm, hgm⟩ := hgm
  have heq := OnTileWasSelected_explode_eq fuel w New T gm hsel hfall hdes hpend hact hgm hT
    hexp
  have hexpl : ∀ b, OnBoard w.Grid b →
      (w.Grid.heap b).TileTypeID = (w.Grid.heap New).TileTypeID →
      ∃ r, GetExplosionList w (some b) = some r ∧ b ∈ r :=
    fun b hb hty => GetExplosionList_total w b gm hgm hwf.1
      (valid_of_onBoard w.Grid b hwf hb) (habil b hb hty)
  refine ⟨?_, ?_, ?_⟩
  · intro hc
    obtain ⟨f1, f2, _⟩ := FindTilesOfType_SetLastMove w EMatch3MoveType.MT_AllTheBombs
      (w.Grid.heap New).TileTypeID
    obtain ⟨U, hU, hn, hm⟩ := bombs_spec (SetLastMove w EMatch3MoveType.MT_AllTheBombs)
      (FindTilesOfType w.Grid (w.Grid.heap New).TileTypeID) [] List.nodup_nil
      (by
        intro b hb
        rw [GetExplosionList_SetLastMove]
        obtain ⟨h1, h2⟩ := (FindTilesOfType_mem w.Grid _ b hcons).mp hb
        obtain ⟨r, hr, _⟩ := hexpl b h1 h2
        exact ⟨r, hr⟩)
    have hmem : ∀ u, u ∈ U ↔ ∃ b, OnBoard w.Grid b ∧
        (w.Grid.heap b).TileTypeID = (w.Grid.heap New).TileTypeID ∧
        ∃ r, GetExplosionList w (some b) = some r ∧ u ∈ r := by
      intro u
      rw [hm u]
      simp only [List.not_mem_nil, false_or, GetExplosionList_SetLastMove]
      constructor
      · rintro ⟨b, hb, r, hr, hu⟩
        obtain ⟨h1, h2⟩ := (FindTilesOfType_mem w.Grid _ b hcons).mp hb
        exact ⟨b, h1, h2, r, hr, hu⟩
      · rintro ⟨b, h1, h2, r, hr, hu⟩
        exact ⟨b, (FindTilesOfType_mem w.Grid _ b hcons).mpr ⟨h1, h2⟩, r, hr, hu⟩
    have hNew : New ∈ U := by
      obtain ⟨r, hr, hin⟩ := hexpl New hon rfl
      exact (hmem New).mpr ⟨New, hon, rfl, r, hr, hin⟩
    refine ⟨U, hn, hmem, hNew, ?_⟩
    rw [heq, if_pos hc, f2, f1, hU]
    simp only
    rw [if_neg]
    intro h0
    rw [List.length_eq_zero.mp h0] at hNew
    cases hNew
  · intro hc
    obtain ⟨r, hr, hin⟩ := hexpl New hon rfl
    refine ⟨r, hr, hin, ?_⟩
    rw [heq, if_neg hc]
    simp only [List.length_nil, if_true, GetExplosionList_SetLastMove, hr]
  · intro hpc
    rw [SetLastMove_eq w w.Grid _ hpc, SetLastMove_eq w w.Grid _ hpc]
    exact ⟨GetLastMove_update w _ _ hpc, GetLastMove_update w _ _ hpc⟩

/-- C30 on the 3 x 3 board with a bomb of power 1 in the centre, the combo power being 0 of 5:
the tiles of the explosion are matched as a bomb. -/
theorem OnTileWasSelected_bomb_witness :
    GetExplosionList bombWorld (some 4) = some [1, 7, 3, 5, 4] ∧
      OnTileWasSelected 0 bombWorld (some 4) =
        ExecuteMatch 0 (SetLastMove bombWorld EMatch3MoveType.MT_Bomb) [1, 7, 3, 5, 4] := by
  have hon : ∀ p : Nat, p < 9 → OnBoard bombWorld.Grid p :=
    fun p hp => plainBoard_onBoard 3 3 3 [1, 2, 3, 4, 0, 5, 6, 7, 8] p hp
  have T := OnTileWasSelected_bomb 0 bombWorld 4 bombType rfl rfl rfl rfl rfl rfl rfl
    ⟨by decide, by decide, by decide⟩
    (plainBoard_consistent 3 3 3 [1, 2, 3, 4, 0, 5, 6, 7, 8]) (hon 4 (by decide))
    (by
      intro b hb hty
      have hb' : OnBoard (plainBoard 3 3 3 [1, 2, 3, 4, 0, 5, 6, 7, 8]) b := hb
      have hlt := (plainBoard_slot 3 3 3 _ _ b hb').2
      have hlt' : b < 9 := by simpa using hlt
      interval_cases b <;> first | rfl | exact absurd hty (by decide))
  obtain ⟨r, hr, _, he⟩ := T.2.1 (by decide)
  have e : GetExplosionList bombWorld (some 4) = some [1, 7, 3, 5, 4] := by decide
  rw [e] at hr
  injection hr with hr
  subst hr
  exact ⟨e, he⟩

/-! ## Board consistency: lemmas -/

/-- Consistency depends on the slots and on the grid addresses only. -/
theorem Consistent_congr (g g' : AGrid) (hT : g'.GameTiles = g.GameTiles)
    (hA : ∀ t, GetGridAddress g' t = GetGridAddress g t) (h : Consistent g) :
    Consistent g' := by
  intro a t ht
  rw [getTile_congr g g' hT] at ht
  rw [hA t]
  exact h a t ht

/-- Emptying slots keeps a board consistent. -/
theorem Consistent_of_shrink (g g' : AGrid)
    (hS : ∀ a, GetTileFromGridAddress g' a = GetTileFromGridAddress g a ∨
      GetTileFromGridAddress g' a = none)
    (hA : ∀ t, GetGridAddress g' t = GetGridAddress g t) (h : Consistent g) :
    Consistent g' := by
  intro a t ht
  rcases hS a with h1 | h1
  · rw [h1] at ht
    rw [hA t]
    exact h a t ht
  · rw [h1] at ht
    cases ht

/-- What `CreateTile` with a tile class does, whenever it returns: the next pointer is handed
out, the new tile has the type, the abilities of the type and the address, state normal, and
sits in the slot of the address; nothing else changes. -/
theorem CreateTile_some (w : UWorld) (a ty : Int) (res : Option TilePtr) (w' : UWorld)
    (h : CreateTile w true a ty = some (res, w')) :
    ∃ T : FTileType, GetTileType w ty = some T ∧ res = some w.NextTile ∧
      (0 ≤ a ∧ a < w.Grid.GameTiles.length) ∧
      w' = { w with
        Grid := { w.Grid with
          heap := Function.update w.Grid.heap w.NextTile
            { TileTypeID := ty, TileState := ETileState.ETS_Normal, Abilities := T.Abilities,
              GridAddress := a, LandingGridAddress := 0 },
          GameTiles := w.Grid.GameTiles.set a.toNat (some w.NextTile) },
        NextTile := w.NextTile + 1 } := by
  unfold CreateTile at h
  simp only [if_true] at h
  revert h
  cases hT : GetTileType w ty with
  | none => intro h; cases h
  | some T =>
    simp only
    unfold SetGameTile
    simp only [SetGridAddress, Function.update_same, Function.update_idem]
    intro h
    split_ifs at h with hr
    simp only [Option.some.injEq, Prod.mk.injEq] at h
    obtain ⟨h1, h2⟩ := h
    exact ⟨T, rfl, h1.symm, hr, h2.symm⟩

theorem CreateTile_consistent (w : UWorld) (cls : Bool) (a ty : Int) (res : Option TilePtr)
    (w' : UWorld) (hcons : Consistent w.Grid) (hfresh : FreshAllocator w)
    (h : CreateTile w cls a ty = some (res, w')) :
    Consistent w'.Grid ∧ FreshAllocator w' := by
  cases cls with
  | false =>
    unfold CreateTile at h
    simp only [Bool.false_eq_true, if_false, Option.some.injEq, Prod.mk.injEq] at h
    obtain ⟨_, h2⟩ := h
    subst h2
    exact ⟨hcons, hfresh⟩
  | true =>
    obtain ⟨T, _, _, hr, e⟩ := CreateTile_some w a ty res w' h
    subst e
    have hslot := getTile_set w.Grid
      { w.Grid with
        heap := Function.update w.Grid.heap w.NextTile
          { TileTypeID := ty, TileState := ETileState.ETS_Normal, Abilities := T.Abilities,
            GridAddress := a, LandingGridAddress := 0 },
        GameTiles := w.Grid.GameTiles.set a.toNat (some w.NextTile) } a (some w.NextTile) hr rfl
    constructor
    · intro c t ht
      rw [hslot c] at ht
      unfold GetGridAddress
      simp only
      split_ifs at ht with hc
      · injection ht with ht
        subst ht
        subst hc
        simp
      · have hlt := hfresh c t ht
        have hne : t ≠ w.NextTile := Nat.ne_of_lt hlt
        rw [Function.update_noteq hne]
        exact hcons c t ht
    · intro c t ht
      rw [hslot c] at ht
      show t < w.NextTile + 1
      split_ifs at ht with hc
      · injection ht with ht
        rw [← ht]
        exact Nat.lt_succ_self _
      · exact Nat.lt_succ_of_lt (hfresh c t ht)

/-- A slot write that returns was in range and changed that slot only. -/
theorem SetGameTile_some (g : AGrid) (i : Int) (v : Option TilePtr) (g' : AGrid)
    (h : SetGameTile g i v = some g') :
    (0 ≤ i ∧ i < g.GameTiles.length) ∧ g' = { g with GameTiles := g.GameTiles.set i.toNat v } := by
  unfold SetGameTile at h
  split_ifs at h with hr
  injection h with h
  exact ⟨hr, h.symm⟩

/-- The result of `SwapTiles`, whenever it returns, for any two tiles (equal ones too): both
slot writes were in range, and the result has the exchanged addresses and the rewritten
slots. -/
theorem SwapTiles_some (g : AGrid) (a b : TilePtr) (g' : AGrid) (h : SwapTiles g a b = some g') :
    ∃ x y : Int, ∃ G1 : List (Option TilePtr),
      (0 ≤ y ∧ y < g.GameTiles.length) ∧ (0 ≤ x ∧ x < g.GameTiles.length) ∧
      G1 = g.GameTiles.set y.toNat (some a) ∧
      g'.GameTiles = G1.set x.toNat (some b) ∧
      GetGridAddress g' b = x ∧ GetGridAddress g' a = y ∧
      x = GetGridAddress g a ∧ (a ≠ b → y = GetGridAddress g b) ∧ (a = b → y = x) ∧
      (∀ t, t ≠ a → t ≠ b → GetGridAddress g' t = GetGridAddress g t) := by
  unfold SwapTiles at h
  simp only at h
  revert h
  cases h3 : SetGameTile (SetGridAddress (SetGridAddress g a (GetGridAddress g b)) b
      (GetGridAddress g a))
      (GetGridAddress (SetGridAddress (SetGridAddress g a (GetGridAddress g b)) b
        (GetGridAddress g a)) a) (some a) with
  | none => intro h; cases h
  | some g3 =>
    intro h
    simp only at h
    obtain ⟨hr3, e3⟩ := SetGameTile_some _ _ _ _ h3
    obtain ⟨hr4, e4⟩ := SetGameTile_some _ _ _ _ h
    have hb3 : GetGridAddress g3 b = GetGridAddress g a := by
      rw [e3]
      simp [GetGridAddress, SetGridAddress]
    have hlen3 : g3.GameTiles.length = g.GameTiles.length := by
      rw [e3]
      simp [SetGridAddress]
    rw [hb3, hlen3] at hr4
    refine ⟨GetGridAddress g a, GetGridAddress (SetGridAddress (SetGridAddress g a
      (GetGridAddress g b)) b (GetGridAddress g a)) a, _, hr3, hr4, rfl, ?_, ?_, ?_, rfl, ?_, ?_, ?_⟩
    · rw [e4, hb3, e3]
      rfl
    · rw [e4, e3]
      simp [GetGridAddress, SetGridAddress]
    · rw [e4, e3]
      rfl
    · intro hab
      simp [GetGridAddress, SetGridAddress, Function.update_noteq hab]
    · intro hab
      subst hab
      simp [GetGridAddress, SetGridAddress]
    · intro t hta htb
      rw [e4, e3]
      simp [GetGridAddress, SetGridAddress, Function.update_noteq hta, Function.update_noteq htb]

/-- The method `SwapTiles` keeps a board consistent, whatever the two tiles are. -/
theorem SwapTiles_consistent (g : AGrid) (a b : TilePtr) (g' : AGrid) (hcons : Consistent g)
    (h : SwapTiles g a b = some g') : Consistent g' := by
  obtain ⟨x, y, G1, hy, hx, hG1, hG, hb, ha, hxe, hye, hyx, hoth⟩ := SwapTiles_some g a b g' h
  have hx1 : 0 ≤ x ∧ x < ({ g with GameTiles := G1 } : AGrid).GameTiles.length := by
    show 0 ≤ x ∧ x < (G1.length : Int)
    rw [hG1, List.length_set]
    exact hx
  have s1 := getTile_set g { g with GameTiles := G1 } y (some a) hy hG1
  have s2 := getTile_set { g with GameTiles := G1 } g' x (some b) hx1 hG
  intro c t ht
  rw [s2 c] at ht
  by_cases hcx : c = x
  · rw [if_pos hcx] at ht
    injection ht with ht
    subst ht
    rw [hb, hcx]
  · rw [if_neg hcx, s1 c] at ht
    by_cases hcy : c = y
    · rw [if_pos hcy] at ht
      injection ht with ht
      subst ht
      rw [ha, hcy]
    · rw [if_neg hcy] at ht
      have hc := hcons c t ht
      have hta : t ≠ a := by
        intro e
        subst e
        exact hcx (by rw [hxe, hc])
      by_cases hab : a = b
      · subst hab
        rw [hoth t hta hta]
        exact hc
      · have htb : t ≠ b := by
          intro e
          subst e
          exact hcy (by rw [hye hab, hc])
        rw [hoth t hta htb]
        exact hc

theorem AddScore_rewards_next (Old New : Int) :
    ∀ (l : List Int) (w : UWorld) (gm : AMatch3GameMode) (w' : UWorld)
      (gm' : AMatch3GameMode), AddScore_rewards Old New l w gm = some (w', gm') →
      w'.NextTile = w.NextTile := by
  intro l
  induction l with
  | nil =>
    intro w gm w' gm' h
    simp only [AddScore_rewards, Option.some.injEq, Prod.mk.injEq] at h
    obtain ⟨h1, _⟩ := h
    subst h1
    rfl
  | cons I l ih =>
    intro w gm w' gm' h
    unfold AddScore_rewards at h
    dsimp only at h
    split_ifs at h with h1 h2 h3
    · have e := ih _ _ _ _ h
      exact e
    · exact ih _ _ _ _ h
    · exact ih _ _ _ _ h

theorem AddScore_next (w : UWorld) (gm : AMatch3GameMode) (p : Int) (w' : UWorld)
    (h : AddScore w gm p = some w') : w'.NextTile = w.NextTile := by
  unfold AddScore at h
  cases hpc : w.PlayerController with
  | none =>
    rw [hpc] at h
    simp only [Option.some.injEq] at h
    subst h
    rfl
  | some PC =>
    rw [hpc] at h
    simp only at h
    revert h
    cases hr : AddScore_rewards _ _ _ _ _ with
    | none => intro h; cases h
    | some q =>
      obtain ⟨w3, gm3⟩ := q
      intro h
      simp only [Option.some.injEq] at h
      subst h
      have e := AddScore_rewards_next _ _ _ _ _ _ _ hr
      exact e

theorem SetComboPower_next (w : UWorld) (n : Int) : (SetComboPower w n).NextTile = w.NextTile := by
  unfold SetComboPower
  cases w.PlayerController <;> rfl

theorem score_next (w : UWorld) (c : Int) (w' : UWorld)
    (h : ExecuteMatch_score w c = some w') : w'.NextTile = w.NextTile := by
  unfold ExecuteMatch_score at h
  cases hgm : w.GameMode with
  | none =>
    rw [hgm] at h
    simp only [Option.some.injEq] at h
    subst h
    rfl
  | some gm =>
    rw [hgm] at h
    simp only at h
    have e := AddScore_next _ _ _ _ h
    rw [e]
    cases GetLastMove w <;> simp [Emit, SetComboPower_next]

theorem PauseGameTimer_next (w : UWorld) (b : Bool) :
    (PauseGameTimer w b).NextTile = w.NextTile := by
  unfold PauseGameTimer
  cases w.GameMode <;> rfl

theorem SetLastMove_frame (w : UWorld) (m : EMatch3MoveType) :
    (SetLastMove w m).NextTile = w.NextTile ∧
      (SetLastMove w m).Grid.GameTiles = w.Grid.GameTiles ∧
      (SetLastMove w m).Grid.heap = w.Grid.heap := by
  unfold SetLastMove
  cases w.PlayerController <;> exact ⟨rfl, rfl, rfl⟩

/-- Freshness depends on the slots and on the allocator only. -/
theorem FreshAllocator_congr (w w' : UWorld) (hT : w'.Grid.GameTiles = w.Grid.GameTiles)
    (hN : w'.NextTile = w.NextTile) (h : FreshAllocator w) : FreshAllocator w' := by
  intro a t ht
  rw [getTile_congr w.Grid w'.Grid hT] at ht
  rw [hN]
  exact h a t ht

theorem FreshAllocator_of_shrink (w w' : UWorld)
    (hS : ∀ a, GetTileFromGridAddress w'.Grid a = GetTileFromGridAddress w.Grid a ∨
      GetTileFromGridAddress w'.Grid a = none)
    (hN : w'.NextTile = w.NextTile) (h : FreshAllocator w) : FreshAllocator w' := by
  intro a t ht
  rcases hS a with h1 | h1
  · rw [h1] at ht
    rw [hN]
    exact h a t ht
  · rw [h1] at ht
    cases ht

/-- The method `IsMoveLegal` keeps a board consistent. -/
theorem IsMoveLegal_consistent (g : AGrid) (A B : Option TilePtr) (r : Bool) (g' : AGrid)
    (hcons : Consistent g) (h : IsMoveLegal g A B = some (r, g')) : Consistent g' := by
  unfold IsMoveLegal at h
  cases A with
  | none =>
    simp only [Option.some.injEq, Prod.mk.injEq] at h
    rw [← h.2]
    exact hcons
  | some a =>
    cases B with
    | none =>
      simp only [Option.some.injEq, Prod.mk.injEq] at h
      rw [← h.2]
      exact hcons
    | some b =>
      simp only at h
      split_ifs at h with h1 h2
      · revert h
        cases hs : SwapTiles g a b with
        | none => intro h; cases h
        | some g1 =>
          simp only
          cases hA : FindNeighbors g1 a true (-1) with
          | none => intro h; cases h
          | some MA =>
            simp only
            cases hB : FindNeighbors g1 b true (-1) with
            | none => intro h; cases h
            | some MB =>
              simp only
              cases hs2 : SwapTiles { g1 with LastLegalMatch := MA ++ MB } a b with
              | none => intro h; cases h
              | some g2 =>
                intro h
                simp only [Option.some.injEq, Prod.mk.injEq] at h
                rw [← h.2]
                have c1 := SwapTiles_consistent g a b g1 hcons hs
                have c2 : Consistent { g1 with LastLegalMatch := MA ++ MB } :=
                  Consistent_congr g1 _ rfl (fun _ => rfl) c1
                exact SwapTiles_consistent _ a b g2 c2 hs2
      · simp only [Option.some.injEq, Prod.mk.injEq] at h
        rw [← h.2]
        exact hcons
      · simp only [Option.some.injEq, Prod.mk.injEq] at h
        rw [← h.2]
        exact hcons

theorem IsUnwinnable_probe_consistent (g : AGrid) (T : TilePtr) (a x y : Int) (r : Bool)
    (g' : AGrid) (hcons : Consistent g) (h : IsUnwinnable_probe g T a x y = some (r, g')) :
    Consistent g' := by
  unfold IsUnwinnable_probe at h
  revert h
  cases ho : GetGridAddressWithOffset g a x y with
  | none => intro h; cases h
  | some p =>
    obtain ⟨b, n⟩ := p
    cases b with
    | false =>
      intro h
      simp only [Option.some.injEq, Prod.mk.injEq] at h
      rw [← h.2]
      exact hcons
    | true =>
      intro h
      exact IsMoveLegal_consistent g _ _ r g' hcons h

theorem IsUnwinnable_body_consistent (g : AGrid) (T : TilePtr) (r : Bool)
    (g' : AGrid) (hcons : Consistent g) (h : IsUnwinnable_body g T = some (r, g')) :
    Consistent g' := by
  unfold IsUnwinnable_body at h
  simp only at h
  split_ifs at h with hx
  · simp only [Option.some.injEq, Prod.mk.injEq] at h
    rw [← h.2]
    exact hcons
  · revert h
    cases h1 : IsUnwinnable_probe g T (GetGridAddress g T) 0 (-1) with
    | none => intro h; cases h
    | some p1 =>
      obtain ⟨b1, g1⟩ := p1
      have c1 := IsUnwinnable_probe_consistent g T _ _ _ b1 g1 hcons h1
      cases b1 with
      | true =>
        intro h
        simp only [Option.some.injEq, Prod.mk.injEq] at h
        rw [← h.2]
        exact c1
      | false =>
        simp only
        cases h2 : IsUnwinnable_probe g1 T (GetGridAddress g T) 0 1 with
        | none => intro h; cases h
        | some p2 =>
          obtain ⟨b2, g2⟩ := p2
          have c2 := IsUnwinnable_probe_consistent g1 T _ _ _ b2 g2 c1 h2
          cases b2 with
          | true =>
            intro h
            simp only [Option.some.injEq, Prod.mk.injEq] at h
            rw [← h.2]
            exact c2
          | false =>
            simp only
            cases h3 : IsUnwinnable_probe g2 T (GetGridAddress g T) (-1) 0 with
            | none => intro h; cases h
            | some p3 =>
              obtain ⟨b3, g3⟩ := p3
              have c3 := IsUnwinnable_probe_consistent g2 T _ _ _ b3 g3 c2 h3
              cases b3 with
              | true =>
                intro h
                simp only [Option.some.injEq, Prod.mk.injEq] at h
                rw [← h.2]
                exact c3
              | false =>
                simp only
                cases h4 : IsUnwinnable_probe g3 T (GetGridAddress g T) 1 0 with
                | none => intro h; cases h
                | some p4 =>
                  obtain ⟨b4, g4⟩ := p4
                  have c4 := IsUnwinnable_probe_consistent g3 T _ _ _ b4 g4 c3 h4
                  cases b4 with
                  | true =>
                    intro h
                    simp only [Option.some.injEq, Prod.mk.injEq] at h
                    rw [← h.2]
                    exact c4
                  | false =>
                    intro h
                    simp only [Option.some.injEq, Prod.mk.injEq] at h
                    rw [← h.2]
                    exact c4

/-- What the probes of `IsUnwinnable` leave: the slots are the same set of tiles. -/
theorem IsUnwinnable_loop_consistent :
    ∀ (n i : Nat) (g : AGrid) (r : Bool) (g' : AGrid), Consistent g →
      IsUnwinnable_loop n i g = some (r, g') → Consistent g' := by
  intro n
  induction n with
  | zero =>
    intro i g r g' hcons h
    simp only [IsUnwinnable_loop, Option.some.injEq, Prod.mk.injEq] at h
    rw [← h.2]
    exact hcons
  | succ n ih =>
    intro i g r g' hcons h
    unfold IsUnwinnable_loop at h
    revert h
    cases hi : g.GameTiles[i]? with
    | none =>
      intro h
      simp only [Option.some.injEq, Prod.mk.injEq] at h
      rw [← h.2]
      exact hcons
    | some s =>
      cases s with
      | none => intro h; cases h
      | some T =>
        simp only
        cases hb : IsUnwinnable_body g T with
        | none => intro h; cases h
        | some p =>
          obtain ⟨b, g1⟩ := p
          have c1 := IsUnwinnable_body_consistent g T b g1 hcons hb
          cases b with
          | true =>
            intro h
            simp only [Option.some.injEq, Prod.mk.injEq] at h
            rw [← h.2]
            exact c1
          | false =>
            intro h
            exact ih _ _ _ _ c1 h

/-- The spawn loop of `RespawnTiles` keeps a board consistent and the allocator fresh. -/
theorem RespawnTiles_spawn_consistent (Base : Int) :
    ∀ (n : Nat) (w w' : UWorld), Consistent w.Grid → FreshAllocator w →
      RespawnTiles_spawn Base n w = some w' → Consistent w'.Grid ∧ FreshAllocator w' := by
  intro n
  induction n with
  | zero =>
    intro w w' hcons hfresh h
    simp only [RespawnTiles_spawn, Option.some.injEq] at h
    subst h
    exact ⟨hcons, hfresh⟩
  | succ y ih =>
    intro w w' hcons hfresh h
    unfold RespawnTiles_spawn at h
    simp only [SelectTileFromLibrary] at h
    revert h
    cases ho : GetGridAddressWithOffset w.Grid Base 0 (-(y : Int)) with
    | none => intro h; cases h
    | some p =>
      obtain ⟨b, a⟩ := p
      simp only
      cases hT : GetTileType { w with RandomCount := w.RandomCount + 1 }
          (SelectTileFromLibrary_scan (NextTestNumber w) w.TileLibrary 0 0) with
      | none => intro h; cases h
      | some T =>
        simp only
        cases hc : CreateTile { w with RandomCount := w.RandomCount + 1 } T.TileClass a
            (SelectTileFromLibrary_scan (NextTestNumber w) w.TileLibrary 0 0) with
        | none => intro h; cases h
        | some q =>
          obtain ⟨res, w2⟩ := q
          have hcons1 : Consistent ({ w with RandomCount := w.RandomCount + 1 } : UWorld).Grid :=
            hcons
          have hfresh1 : FreshAllocator { w with RandomCount := w.RandomCount + 1 } := hfresh
          obtain ⟨c2, f2⟩ := CreateTile_consistent _ _ _ _ _ _ hcons1 hfresh1 hc
          cases res with
          | none =>
            intro h
            exact ih _ _ c2 f2 h
          | some N =>
            simp only
            intro h
            split_ifs at h with hmem
            refine ih _ _ ?_ ?_ h
            · refine Consistent_congr w2.Grid _ rfl ?_ c2
              intro t
              simp only [GetGridAddress, SetTileState]
              by_cases e : t = N
              · subst e
                simp
              · rw [Function.update_noteq e]
            · exact FreshAllocator_congr w2 _ rfl rfl f2

/-- The column loop of `RespawnTiles` keeps a board consistent and the allocator fresh. -/
theorem RespawnTiles_columns_consistent (fuel : Nat) :
    ∀ (n : Nat) (x : Int) (w w' : UWorld), Consistent w.Grid → FreshAllocator w →
      RespawnTiles_columns fuel n x w = Outcome.done w' →
      Consistent w'.Grid ∧ FreshAllocator w' := by
  intro n
  induction n with
  | zero =>
    intro x w w' hcons hfresh h
    simp only [RespawnTiles_columns, Outcome.done.injEq] at h
    subst h
    exact ⟨hcons, hfresh⟩
  | succ n ih =>
    intro x w w' hcons hfresh h
    unfold RespawnTiles_columns at h
    revert h
    cases ho : GetGridAddressWithOffset w.Grid 0 x (w.Grid.GridHeight - 1) with
    | none => intro h; cases h
    | some p =>
      obtain ⟨b, Base⟩ := p
      cases b with
      | false => intro h; cases h
      | true =>
        simp only
        intro h
        obtain ⟨d, _, h1⟩ := Outcome_bind_eq_done _ _ _ h
        obtain ⟨w1, hs, h2⟩ := Outcome_bind_eq_done _ _ _ h1
        have hs1 : RespawnTiles_spawn Base d.toNat w = some w1 := by
          revert hs
          cases RespawnTiles_spawn Base d.toNat w with
          | none => intro hs; cases hs
          | some v =>
            intro hs
            simp only [Outcome.ofOption, Outcome.done.injEq] at hs
            rw [hs]
        obtain ⟨c1, f1⟩ := RespawnTiles_spawn_consistent Base _ _ _ hcons hfresh hs1
        exact ih _ _ _ c1 f1 h2

/-- The landing step with a landing address off the grid: the tile is not placed. -/
theorem OnTileFinishedFalling_off (fuel : Nat) (w : UWorld) (t : TilePtr) (L : Int)
    (hwf : WellFormed w.Grid) (hL : ¬ ValidAddress w.Grid L) :
    ∃ g1 : AGrid,
      (∀ c, GetTileFromGridAddress g1 c = GetTileFromGridAddress w.Grid c ∨
        GetTileFromGridAddress g1 c = none) ∧
      g1 = { w.Grid with GameTiles := g1.GameTiles } ∧
      OnTileFinishedFalling fuel w t L =
        (if (TArray.RemoveSingleSwap w.Grid.FallingTiles t).length = 0 then
          RespawnTiles fuel { w with Grid :=
            { g1 with
              FallingTiles := TArray.RemoveSingleSwap w.Grid.FallingTiles t,
              TilesToCheck := w.Grid.TilesToCheck ++ [t] } }
        else
          Outcome.done { w with Grid :=
            { g1 with
              FallingTiles := TArray.RemoveSingleSwap w.Grid.FallingTiles t,
              TilesToCheck := w.Grid.TilesToCheck ++ [t] } }) := by
  obtain ⟨g1, h1, h2, h3, h4⟩ := landing_clear w.Grid t hwf
  refine ⟨g1, ?_, h4, ?_⟩
  · intro c
    rw [h3 c]
    split_ifs
    · exact Or.inr rfl
    · exact Or.inl rfl
  have hW1 : 0 < g1.GridWidth := by rw [h4]; exact hwf.1
  have hL1 : ¬ ValidAddress g1 L := by
    unfold ValidAddress at hL ⊢
    rw [h4]
    exact hL
  have hF : g1.FallingTiles = w.Grid.FallingTiles := by rw [h4]
  have hC : g1.TilesToCheck = w.Grid.TilesToCheck := by rw [h4]
  unfold OnTileFinishedFalling
  revert h1
  cases GetGridAddressWithOffset w.Grid (GetGridAddress w.Grid t) 0 0 with
  | none => intro h1; cases h1
  | some p =>
    obtain ⟨bOld, Old⟩ := p
    intro h1
    simp only at h1 ⊢
    rw [h1]
    simp only [Outcome.bind]
    rw [(offset_zero g1 L hW1).2 hL1]
    simp only [Bool.false_eq_true, if_false, Outcome.ofOption, Outcome.bind, hF, hC]

theorem fallingWorld_consistent : Consistent fallingWorld.Grid := by
  refine Consistent_of_shrink deadBoard fallingWorld.Grid ?_ (fun _ => rfl)
    (plainBoard_consistent 3 3 3 [1, 2, 3, 4, 5, 6, 7, 8, 9])
  intro a
  rw [getTile_set deadBoard fallingWorld.Grid 0 none (by decide) rfl a]
  split_ifs
  · exact Or.inr rfl
  · exact Or.inl rfl

theorem fallingWorld_fresh : FreshAllocator fallingWorld := by
  intro a t ht
  rw [getTile_set deadBoard fallingWorld.Grid 0 none (by decide) rfl a] at ht
  split_ifs at ht
  have h := (plainBoard_slot 3 3 3 [1, 2, 3, 4, 5, 6, 7, 8, 9] a t ht).2
  have h9 : t < 9 := h
  exact Nat.lt_trans h9 (by decide)

/-! ## Board consistency -/

/-! ## Respawn: the creation of tiles -/

/-- The index that the scan of the library returns is 0 or an index of the scanned part. -/
theorem scan_index (d : ℚ) :
    ∀ (rest : List FTileType) (i : Int) (c : ℚ),
      SelectTileFromLibrary_scan d rest i c = 0 ∨
        (i ≤ SelectTileFromLibrary_scan d rest i c ∧
          SelectTileFromLibrary_scan d rest i c < i + rest.length) := by
  intro rest
  induction rest with
  | nil =>
    intro i c
    exact Or.inl rfl
  | cons T rest ih =>
    intro i c
    unfold SelectTileFromLibrary_scan
    split_ifs with h
    · right
      simp only [List.length_cons, Nat.cast_add, Nat.cast_one]
      omega
    · rcases ih (i + 1) (c + T.Probability) with h0 | ⟨h1, h2⟩
      · exact Or.inl h0
      · right
        simp only [List.length_cons, Nat.cast_add, Nat.cast_one]
        omega

/-- With a library that is not empty, the selected index is an index of the library. -/
theorem SelectTileFromLibrary_index (w : UWorld) (hlib : w.TileLibrary ≠ []) :
    ∃ T : FTileType, T ∈ w.TileLibrary ∧
      ∀ w1 : UWorld, w1.TileLibrary = w.TileLibrary →
        GetTileType w1 (SelectTileFromLibrary w).1 = some T := by
  have hpos : 0 < w.TileLibrary.length := List.length_pos.mpr hlib
  have hr : 0 ≤ (SelectTileFromLibrary w).1 ∧
      (SelectTileFromLibrary w).1 < w.TileLibrary.length := by
    unfold SelectTileFromLibrary
    simp only
    rcases scan_index (NextTestNumber w) w.TileLibrary 0 0 with h0 | ⟨h1, h2⟩
    · rw [h0]
      omega
    · omega
  have hlt : (SelectTileFromLibrary w).1.toNat < w.TileLibrary.length := by omega
  refine ⟨w.TileLibrary[(SelectTileFromLibrary w).1.toNat], List.getElem_mem _, ?_⟩
  intro w1 h1
  unfold GetTileType
  rw [h1, if_pos hr]
  exact List.getElem?_eq_getElem hlt

/-- One pass of the spawn loop of `RespawnTiles` at a valid cell, with a library entry that
has a tile class and a new pointer that is not falling: the tile is created at the cell,
falling and to be checked. -/
theorem spawn_step (Base : Int) (y : Nat) (w : UWorld) (hwf : WellFormed w.Grid)
    (hB : ValidAddress w.Grid Base)
    (hy : 0 ≤ Base / w.Grid.GridWidth - (y : Int))
    (hlib : w.TileLibrary ≠ []) (hcls : ∀ T ∈ w.TileLibrary, T.TileClass = true)
    (hfresh : ∀ p ∈ w.Grid.FallingTiles, p < w.NextTile) :
    ∃ (w3 : UWorld) (id : Int) (T : FTileType),
      RespawnTiles_spawn Base (y + 1) w = RespawnTiles_spawn Base y w3 ∧
      (0 ≤ Base - (y : Int) * w.Grid.GridWidth ∧
        Base - (y : Int) * w.Grid.GridWidth < w.Grid.GameTiles.length) ∧
      ValidAddress w.Grid (Base - (y : Int) * w.Grid.GridWidth) ∧
      w3.Grid.GameTiles = w.Grid.GameTiles.set (Base - (y : Int) * w.Grid.GridWidth).toNat
        (some w.NextTile) ∧
      w3.Grid.heap = Function.update w.Grid.heap w.NextTile
        { TileTypeID := id, TileState := ETileState.ETS_Falling,
          Abilities := T.Abilities, GridAddress := Base - (y : Int) * w.Grid.GridWidth,
          LandingGridAddress := 0 } ∧
      w3.Grid.FallingTiles = w.Grid.FallingTiles ++ [w.NextTile] ∧
      w3.Grid.TilesToCheck = w.Grid.TilesToCheck ++ [w.NextTile] ∧
      w3.NextTile = w.NextTile + 1 ∧
      w3.Grid.GridWidth = w.Grid.GridWidth ∧ w3.Grid.GridHeight = w.Grid.GridHeight ∧
      w3.TileLibrary = w.TileLibrary := by
  obtain ⟨hW, hH, hlen⟩ := hwf
  obtain ⟨T, hTm, hT⟩ := SelectTileFromLibrary_index w hlib
  have hc := hcls T hTm
  obtain ⟨hr0, hr1, hc0, hc1, hd⟩ :=
    coords_of_valid w.Grid.GridWidth w.Grid.GridHeight Base hW hB.1 hB.2
  have hmul : (y : Int) * w.Grid.GridWidth ≤ (Base / w.Grid.GridWidth) * w.Grid.GridWidth :=
    Int.mul_le_mul_of_nonneg_right (by omega) (le_of_lt hW)
  have hva : ValidAddress w.Grid (Base - (y : Int) * w.Grid.GridWidth) := by
    constructor
    · have : (Base / w.Grid.GridWidth) * w.Grid.GridWidth ≤ Base := by
        rw [mul_comm]
        omega
      omega
    · have : 0 ≤ (y : Int) * w.Grid.GridWidth :=
        Int.mul_nonneg (Int.ofNat_nonneg y) (le_of_lt hW)
      have := hB.2
      omega
  have hra : 0 ≤ Base - (y : Int) * w.Grid.GridWidth ∧
      Base - (y : Int) * w.Grid.GridWidth < w.Grid.GameTiles.length := by
    rw [hlen]
    exact hva
  have hoff : GetGridAddressWithOffset w.Grid Base 0 (-(y : Int)) =
      some (true, Base - (y : Int) * w.Grid.GridWidth) := by
    rw [offset_eq w.Grid Base 0 (-(y : Int)) hW hB.1 hB.2]
    rw [if_pos ⟨by omega, by omega, by omega, by omega⟩]
    congr 2
    ring
  have hnot : w.NextTile ∉ w.Grid.FallingTiles := fun hm => Nat.lt_irrefl _ (hfresh _ hm)
  refine ⟨{ w with
      Grid := { w.Grid with
        heap := Function.update w.Grid.heap w.NextTile
          { TileTypeID := (SelectTileFromLibrary w).1, TileState := ETileState.ETS_Falling,
            Abilities := T.Abilities, GridAddress := Base - (y : Int) * w.Grid.GridWidth,
            LandingGridAddress := 0 },
        GameTiles := w.Grid.GameTiles.set (Base - (y : Int) * w.Grid.GridWidth).toNat
          (some w.NextTile),
        TilesToCheck := w.Grid.TilesToCheck ++ [w.NextTile],
        FallingTiles := w.Grid.FallingTiles ++ [w.NextTile] },
      RandomCount := w.RandomCount + 1,
      NextTile := w.NextTile + 1 }, (SelectTileFromLibrary w).1, T, ?_, hra, hva,
    rfl, rfl, rfl, rfl, rfl, rfl, rfl, rfl⟩
  have hT1 := hT { w with RandomCount := w.RandomCount + 1 } rfl
  conv_lhs => unfold RespawnTiles_spawn
  have hsel : SelectTileFromLibrary w =
      ((SelectTileFromLibrary w).1, { w with RandomCount := w.RandomCount + 1 }) := rfl
  rw [hsel]
  simp only
  rw [hoff]
  simp only
  rw [hT1]
  simp only
  rw [hc]
  unfold CreateTile
  simp only [if_true]
  rw [hT1]
  simp only
  unfold SetGameTile
  simp only [SetGridAddress, SetTileState, Function.update_same, Function.update_idem]
  rw [if_pos hra]
  simp only [Function.update_same, Function.update_idem]
  rw [if_neg hnot]

/-- The spawn loop of `RespawnTiles` for a column: with `n` passes left it creates `n` tiles,
with the next `n` pointers in order, at the `n` cells from the cell `n - 1` rows under the
base cell up to the base cell, each falling and to be checked, and changes nothing else. -/
theorem spawn_spec (Base : Int) :
    ∀ (n : Nat) (w : UWorld), WellFormed w.Grid → ValidAddress w.Grid Base →
      (n : Int) ≤ Base / w.Grid.GridWidth + 1 →
      w.TileLibrary ≠ [] → (∀ T ∈ w.TileLibrary, T.TileClass = true) →
      (∀ p ∈ w.Grid.FallingTiles, p < w.NextTile) →
      ∃ (w' : UWorld) (cells : List Int), RespawnTiles_spawn Base n w = some w' ∧
        cells.length = n ∧ cells.Nodup ∧
        (∀ a, a ∈ cells ↔ ∃ j : Nat, j < n ∧ a = Base - (j : Int) * w.Grid.GridWidth) ∧
        (∀ (i : Nat) (a : Int), cells[i]? = some a →
          GetTileFromGridAddress w'.Grid a = some (w.NextTile + i) ∧
          (w'.Grid.heap (w.NextTile + i)).GridAddress = a ∧
          (w'.Grid.heap (w.NextTile + i)).TileState = ETileState.ETS_Falling) ∧
        (∀ c, c ∉ cells → GetTileFromGridAddress w'.Grid c = GetTileFromGridAddress w.Grid c) ∧
        (∀ p, p < w.NextTile → w'.Grid.heap p = w.Grid.heap p) ∧
        w'.Grid.FallingTiles = w.Grid.FallingTiles ++ List.range' w.NextTile n ∧
        w'.Grid.TilesToCheck = w.Grid.TilesToCheck ++ List.range' w.NextTile n ∧
        w'.NextTile = w.NextTile + n ∧
        w'.Grid.GridWidth = w.Grid.GridWidth ∧ w'.Grid.GridHeight = w.Grid.GridHeight ∧
        w'.Grid.GameTiles.length = w.Grid.GameTiles.length ∧
        w'.TileLibrary = w.TileLibrary := by
  intro n
  induction n with
  | zero =>
    intro w _ _ _ _ _ _
    refine ⟨w, [], rfl, rfl, List.nodup_nil, ?_, ?_, fun _ _ => rfl, fun _ _ => rfl, ?_, ?_,
      rfl, rfl, rfl, rfl, rfl⟩
    · intro a
      constructor
      · intro h
        cases h
      · rintro ⟨j, hj, _⟩
        exact absurd hj (Nat.not_lt_zero j)
    · intro i a h
      simp at h
    · simp
    · simp
  | succ y ih =>
    intro w hwf hB hn hlib hcls hfresh
    have hW := hwf.1
    obtain ⟨w3, id, T, hstep, hra, hva, hG3, hh3, hF3, hC3, hN3, hW3, hH3, hlib3⟩ :=
      spawn_step Base y w hwf hB (by push_cast at hn; omega) hlib hcls hfresh
    rw [hstep]
    have hfresh3 : ∀ p ∈ w3.Grid.FallingTiles, p < w3.NextTile := by
      intro p hp
      rw [hF3] at hp
      rw [hN3]
      rcases List.mem_append.mp hp with h | h
      · exact Nat.lt_succ_of_lt (hfresh p h)
      · rw [List.mem_singleton.mp h]
        exact Nat.lt_succ_self _
    have hwf3 : WellFormed w3.Grid := by
      refine ⟨by rw [hW3]; exact hwf.1, by rw [hH3]; exact hwf.2.1, ?_⟩
      rw [hG3, List.length_set, hW3, hH3]
      exact hwf.2.2
    have hB3 : ValidAddress w3.Grid Base := by
      unfold ValidAddress
      rw [hW3, hH3]
      exact hB
    obtain ⟨w', cells, hrun, hlen, hnd, hmem, hnew, hoth, hold, hF, hC, hN, hW', hH', hL', hlib'⟩ :=
      ih w3 hwf3 hB3 (by rw [hW3]; push_cast at hn; omega)
        (by rw [hlib3]; exact hlib) (by rw [hlib3]; exact hcls) hfresh3
    rw [hW3] at hmem
    rw [hN3] at hnew hold hN hF hC
    rw [hF3] at hF
    rw [hC3] at hC
    have hset := getTile_set w.Grid w3.Grid (Base - (y : Int) * w.Grid.GridWidth)
      (some w.NextTile) hra hG3
    have hanot : Base - (y : Int) * w.Grid.GridWidth ∉ cells := by
      intro hm
      obtain ⟨j, hj, e⟩ := (hmem _).mp hm
      have e2 : (y : Int) * w.Grid.GridWidth = (j : Int) * w.Grid.GridWidth := by
        have e3 : Base - (y : Int) * w.Grid.GridWidth = Base - (j : Int) * w.Grid.GridWidth := e
        omega
      have e4 := Int.eq_of_mul_eq_mul_right (ne_of_gt hW) e2
      omega
    refine ⟨w', (Base - (y : Int) * w.Grid.GridWidth) :: cells, hrun, by simp [hlen],
      List.nodup_cons.mpr ⟨hanot, hnd⟩, ?_, ?_, ?_, ?_, ?_, ?_, ?_, by rw [hW', hW3],
      by rw [hH', hH3], ?_, by rw [hlib', hlib3]⟩
    · intro a
      rw [List.mem_cons, hmem a]
      constructor
      · rintro (h | ⟨j, hj, e⟩)
        · exact ⟨y, Nat.lt_succ_self y, h⟩
        · exact ⟨j, Nat.lt_succ_of_lt hj, e⟩
      · rintro ⟨j, hj, e⟩
        by_cases hjy : j = y
        · subst hjy
          exact Or.inl e
        · exact Or.inr ⟨j, by omega, e⟩
    · intro i a hi
      cases i with
      | zero =>
        simp only [List.getElem?_cons_zero, Option.some.injEq] at hi
        subst hi
        have h1 := hoth _ hanot
        have h2 := hold w.NextTile (Nat.lt_succ_self _)
        refine ⟨?_, ?_, ?_⟩
        · rw [Nat.add_zero, h1, hset, if_pos rfl]
        · rw [Nat.add_zero, h2, hh3]
          simp
        · rw [Nat.add_zero, h2, hh3]
          simp
      | succ i =>
        simp only [List.getElem?_cons_succ] at hi
        obtain ⟨h1, h2, h3⟩ := hnew i a hi
        have e : w.NextTile + (i + 1) = w.NextTile + 1 + i := by
          rw [Nat.add_comm i 1, Nat.add_assoc]
        rw [e]
        exact ⟨h1, h2, h3⟩
    · intro c hc
      rw [List.mem_cons, not_or] at hc
      rw [hoth c hc.2, hset, if_neg hc.1]
    · intro p hp
      rw [hold p (Nat.lt_succ_of_lt hp), hh3]
      have hne : p ≠ w.NextTile := Nat.ne_of_lt hp
      rw [Function.update_noteq hne]
    · rw [hF]
      simp [List.range'_succ]
    · rw [hC]
      simp [List.range'_succ]
    · rw [hN, Nat.add_assoc, Nat.add_comm 1 y]
    · rw [hL', hG3, List.length_set]

/-- Above an empty cell of a column whose empty cells lie on top, every cell is empty. -/
theorem empties_up (g : AGrid) (x : Int) (hW : 0 < g.GridWidth)
    (hset : ∀ a : Int, ValidAddress g a → x ≤ a % g.GridWidth →
      GetTileFromGridAddress g a = none → ValidAddress g (a + g.GridWidth) →
      GetTileFromGridAddress g (a + g.GridWidth) = none) :
    ∀ (k : Nat) (a : Int), ValidAddress g a → x ≤ a % g.GridWidth →
      GetTileFromGridAddress g a = none → ValidAddress g (a + (k : Int) * g.GridWidth) →
      GetTileFromGridAddress g (a + (k : Int) * g.GridWidth) = none := by
  intro k
  induction k with
  | zero =>
    intro a _ _ he _
    simp only [Nat.cast_zero, zero_mul, add_zero]
    exact he
  | succ k ih =>
    intro a hv hx he hv2
    have hk : 0 ≤ (k : Int) * g.GridWidth := Int.mul_nonneg (Int.ofNat_nonneg k) (le_of_lt hW)
    have e : a + ((k + 1 : Nat) : Int) * g.GridWidth = a + (k : Int) * g.GridWidth + g.GridWidth := by
      push_cast
      ring
    rw [e] at hv2 ⊢
    have hv1 : ValidAddress g (a + (k : Int) * g.GridWidth) := by
      unfold ValidAddress at hv hv2 ⊢
      constructor
      · omega
      · omega
    have hx1 : x ≤ (a + (k : Int) * g.GridWidth) % g.GridWidth := by
      rw [Int.add_mul_emod_self]
      exact hx
    exact hset _ hv1 hx1 (ih a hv hx he hv1) hv2

/-- The cells that the spawn loop fills in the column `x` are the empty cells of that column,
when the empty cells of the column lie on top. -/
theorem column_cells (g : AGrid) (x : Int) (hwf : WellFormed g) (hx0 : 0 ≤ x)
    (hx1 : x < g.GridWidth)
    (hset : ∀ a : Int, ValidAddress g a → x ≤ a % g.GridWidth →
      GetTileFromGridAddress g a = none → ValidAddress g (a + g.GridWidth) →
      GetTileFromGridAddress g (a + g.GridWidth) = none)
    (d : Int) (hd0 : 0 ≤ d) (hd1 : d ≤ g.GridHeight)
    (hemp : ∀ j : Int, 0 ≤ j → j < d →
      GetTileFromGridAddress g (x + (g.GridHeight - 1) * g.GridWidth - j * g.GridWidth) = none)
    (hocc : d < g.GridHeight →
      GetTileFromGridAddress g (x + (g.GridHeight - 1) * g.GridWidth - d * g.GridWidth) ≠ none)
    (a : Int) :
    (∃ j : Nat, j < d.toNat ∧ a = x + (g.GridHeight - 1) * g.GridWidth - (j : Int) * g.GridWidth) ↔
      ValidAddress g a ∧ a % g.GridWidth = x ∧ GetTileFromGridAddress g a = none := by
  obtain ⟨hW, hH, hlen⟩ := hwf
  constructor
  · rintro ⟨j, hj, e⟩
    have hjd : (j : Int) < d := by omega
    have hcol : a % g.GridWidth = x := by
      rw [e]
      have e2 : x + (g.GridHeight - 1) * g.GridWidth - (j : Int) * g.GridWidth =
          x + (g.GridHeight - 1 - (j : Int)) * g.GridWidth := by ring
      rw [e2, Int.add_mul_emod_self]
      exact Int.emod_eq_of_lt hx0 hx1
    refine ⟨?_, hcol, ?_⟩
    · have e2 : a = x + (g.GridHeight - 1 - (j : Int)) * g.GridWidth := by
        rw [e]
        ring
      have h1 : 0 ≤ (g.GridHeight - 1 - (j : Int)) * g.GridWidth :=
        Int.mul_nonneg (by omega) (le_of_lt hW)
      have h2 : (g.GridHeight - 1 - (j : Int)) * g.GridWidth ≤
          (g.GridHeight - 1) * g.GridWidth :=
        Int.mul_le_mul_of_nonneg_right (by omega) (le_of_lt hW)
      have h3 : g.GridWidth * g.GridHeight = (g.GridHeight - 1) * g.GridWidth + g.GridWidth := by
        ring
      unfold ValidAddress
      constructor
      · omega
      · omega
    · rw [e]
      exact hemp j (Int.ofNat_nonneg j) hjd
  · rintro ⟨hv, hcol, he⟩
    obtain ⟨hr0, hr1, hc0, hc1, hdec⟩ :=
      coords_of_valid g.GridWidth g.GridHeight a hW hv.1 hv.2
    have ea : a = x + (a / g.GridWidth) * g.GridWidth := by
      rw [← hcol, mul_comm]
      exact hdec.symm
    have hjd : g.GridHeight - 1 - a / g.GridWidth < d := by
      by_contra hnot
      have hdH : d < g.GridHeight := by omega
      have hk0 : 0 ≤ g.GridHeight - 1 - d - a / g.GridWidth := by omega
      have hup := empties_up g x hW hset (g.GridHeight - 1 - d - a / g.GridWidth).toNat a hv
        (by rw [hcol]) he
      have e2 : a + ((g.GridHeight - 1 - d - a / g.GridWidth).toNat : Int) * g.GridWidth =
          x + (g.GridHeight - 1) * g.GridWidth - d * g.GridWidth := by
        rw [Int.toNat_of_nonneg hk0]
        have : (g.GridHeight - 1 - d - a / g.GridWidth) * g.GridWidth =
            (g.GridHeight - 1) * g.GridWidth - d * g.GridWidth -
              (a / g.GridWidth) * g.GridWidth := by ring
        omega
      rw [e2] at hup
      have hv2 : ValidAddress g (x + (g.GridHeight - 1) * g.GridWidth - d * g.GridWidth) := by
        have e3 : x + (g.GridHeight - 1) * g.GridWidth - d * g.GridWidth =
            x + (g.GridHeight - 1 - d) * g.GridWidth := by ring
        have h1 : 0 ≤ (g.GridHeight - 1 - d) * g.GridWidth :=
          Int.mul_nonneg (by omega) (le_of_lt hW)
        have h2 : (g.GridHeight - 1 - d) * g.GridWidth ≤ (g.GridHeight - 1) * g.GridWidth :=
          Int.mul_le_mul_of_nonneg_right (by omega) (le_of_lt hW)
        have h3 : g.GridWidth * g.GridHeight =
            (g.GridHeight - 1) * g.GridWidth + g.GridWidth := by ring
        unfold ValidAddress
        constructor
        · omega
        · omega
      exact hocc hdH (hup hv2)
    refine ⟨(g.GridHeight - 1 - a / g.GridWidth).toNat, by omega, ?_⟩
    rw [Int.toNat_of_nonneg (by omega)]
    have : (g.GridHeight - 1 - a / g.GridWidth) * g.GridWidth =
        (g.GridHeight - 1) * g.GridWidth - (a / g.GridWidth) * g.GridWidth := by ring
    omega

/-- The loop over the columns of `RespawnTiles`, from the column `x` on, on a grid of the data
model whose empty cells lie on top in these columns: it creates one tile at every empty cell
of these columns, with the next pointers in order, each falling and to be checked, and
changes nothing else. -/
theorem columns_spec (fuel : Nat) :
    ∀ (n : Nat) (x : Int) (w : UWorld), 0 ≤ x → x + (n : Int) = w.Grid.GridWidth →
      WellFormed w.Grid →
      (∀ a : Int, ValidAddress w.Grid a → x ≤ a % w.Grid.GridWidth →
        GetTileFromGridAddress w.Grid a = none → ValidAddress w.Grid (a + w.Grid.GridWidth) →
        GetTileFromGridAddress w.Grid (a + w.Grid.GridWidth) = none) →
      w.TileLibrary ≠ [] → (∀ T ∈ w.TileLibrary, T.TileClass = true) →
      (∀ p ∈ w.Grid.FallingTiles, p < w.NextTile) → w.Grid.GridHeight < fuel →
      ∃ (w' : UWorld) (cells : List Int),
        RespawnTiles_columns fuel n x w = Outcome.done w' ∧ cells.Nodup ∧
        (∀ a, a ∈ cells ↔ ValidAddress w.Grid a ∧ x ≤ a % w.Grid.GridWidth ∧
          GetTileFromGridAddress w.Grid a = none) ∧
        (∀ (i : Nat) (a : Int), cells[i]? = some a →
          GetTileFromGridAddress w'.Grid a = some (w.NextTile + i) ∧
          (w'.Grid.heap (w.NextTile + i)).GridAddress = a ∧
          (w'.Grid.heap (w.NextTile + i)).TileState = ETileState.ETS_Falling) ∧
        (∀ c, c ∉ cells → GetTileFromGridAddress w'.Grid c = GetTileFromGridAddress w.Grid c) ∧
        (∀ p, p < w.NextTile → w'.Grid.heap p = w.Grid.heap p) ∧
        w'.Grid.FallingTiles = w.Grid.FallingTiles ++ List.range' w.NextTile cells.length ∧
        w'.Grid.TilesToCheck = w.Grid.TilesToCheck ++ List.range' w.NextTile cells.length ∧
        w'.NextTile = w.NextTile + cells.length ∧
        w'.Grid.GridWidth = w.Grid.GridWidth ∧ w'.Grid.GridHeight = w.Grid.GridHeight ∧
        w'.Grid.GameTiles.length = w.Grid.GameTiles.length ∧
        w'.TileLibrary = w.TileLibrary := by
  intro n
  induction n with
  | zero =>
    intro x w hx0 hxn hwf _ _ _ _ _
    refine ⟨w, [], rfl, List.nodup_nil, ?_, ?_, fun _ _ => rfl, fun _ _ => rfl, by simp,
      by simp, rfl, rfl, rfl, rfl, rfl⟩
    · intro a
      constructor
      · intro h
        cases h
      · rintro ⟨hv, hx, _⟩
        exfalso
        have := Int.emod_lt_of_pos a hwf.1
        simp only [Nat.cast_zero, add_zero] at hxn
        omega
    · intro i a h
      simp at h
  | succ n ih =>
    intro x w hx0 hxn hwf hset hlib hcls hfresh hfuel
    have hW := hwf.1
    have hx1 : x < w.Grid.GridWidth := by
      push_cast at hxn
      omega
    obtain ⟨htop, hBv, hBc, hBr⟩ := top_cell w.Grid x hwf hx0 hx1
    obtain ⟨d, hdep, hd0, hd1, hemp, hocc⟩ :=
      depth_spec w.Grid x hwf hx0 hx1 fuel 0 (le_refl 0) (le_of_lt hwf.2.1) (by omega)
        (fun j h0 h1 => absurd h1 (not_lt.mpr h0))
    obtain ⟨w1, cells1, hrun1, hlen1, hnd1, hmem1, hnew1, hoth1, hold1, hF1, hC1, hN1, hW1, hH1,
        hL1, hlib1⟩ :=
      spawn_spec (x + (w.Grid.GridHeight - 1) * w.Grid.GridWidth) d.toNat w hwf hBv
        (by rw [hBr]; omega) hlib hcls hfresh
    have hcells1 : ∀ a, a ∈ cells1 ↔ ValidAddress w.Grid a ∧ a % w.Grid.GridWidth = x ∧
        GetTileFromGridAddress w.Grid a = none := by
      intro a
      rw [hmem1 a]
      exact column_cells w.Grid x hwf hx0 hx1 hset d hd0 hd1 hemp hocc a
    have hwf1 : WellFormed w1.Grid := by
      refine ⟨by rw [hW1]; exact hwf.1, by rw [hH1]; exact hwf.2.1, ?_⟩
      rw [hL1, hW1, hH1]
      exact hwf.2.2
    have hval1 : ∀ a, ValidAddress w1.Grid a ↔ ValidAddress w.Grid a := by
      intro a
      unfold ValidAddress
      rw [hW1, hH1]
    have hset1 : ∀ a : Int, ValidAddress w1.Grid a → x + 1 ≤ a % w1.Grid.GridWidth →
        GetTileFromGridAddress w1.Grid a = none → ValidAddress w1.Grid (a + w1.Grid.GridWidth) →
        GetTileFromGridAddress w1.Grid (a + w1.Grid.GridWidth) = none := by
      intro a hv hx he hv2
      rw [hW1] at hx hv2 ⊢
      rw [hval1] at hv hv2
      have hn1 : a ∉ cells1 := fun hm => by
        have := ((hcells1 a).mp hm).2.1
        omega
      have hn2 : a + w.Grid.GridWidth ∉ cells1 := fun hm => by
        have := ((hcells1 _).mp hm).2.1
        rw [Int.add_emod_self] at this
        omega
      rw [hoth1 _ hn1] at he
      rw [hoth1 _ hn2]
      exact hset a hv (by omega) he hv2
    have hfresh1 : ∀ p ∈ w1.Grid.FallingTiles, p < w1.NextTile := by
      intro p hp
      rw [hF1] at hp
      rw [hN1]
      rcases List.mem_append.mp hp with h | h
      · exact Nat.lt_of_lt_of_le (hfresh p h) (Nat.le_add_right _ _)
      · have := (List.mem_range'_1.mp h).2
        exact this
    obtain ⟨w', cells2, hrun2, hnd2, hmem2, hnew2, hoth2, hold2, hF2, hC2, hN2, hW2, hH2, hL2,
        hlib2⟩ :=
      ih (x + 1) w1 (by omega) (by rw [hW1]; push_cast at hxn; omega) hwf1 hset1
        (by rw [hlib1]; exact hlib) (by rw [hlib1]; exact hcls) hfresh1
        (by rw [hH1]; exact hfuel)
    have hcells2 : ∀ a, a ∈ cells2 ↔ ValidAddress w.Grid a ∧ x + 1 ≤ a % w.Grid.GridWidth ∧
        GetTileFromGridAddress w.Grid a = none := by
      intro a
      rw [hmem2 a, hval1, hW1]
      constructor
      · rintro ⟨hv, hx, he⟩
        have hn1 : a ∉ cells1 := fun hm => by
          have := ((hcells1 a).mp hm).2.1
          omega
        rw [hoth1 _ hn1] at he
        exact ⟨hv, hx, he⟩
      · rintro ⟨hv, hx, he⟩
        have hn1 : a ∉ cells1 := fun hm => by
          have := ((hcells1 a).mp hm).2.1
          omega
        rw [← hoth1 _ hn1] at he
        exact ⟨hv, hx, he⟩
    have hdisj : ∀ a, a ∈ cells1 → a ∉ cells2 := by
      intro a h1 h2
      have c1 := ((hcells1 a).mp h1).2.1
      have c2 := ((hcells2 a).mp h2).2.1
      omega
    refine ⟨w', cells1 ++ cells2, ?_, ?_, ?_, ?_, ?_, ?_, ?_, ?_, ?_, by rw [hW2, hW1],
      by rw [hH2, hH1], by rw [hL2, hL1], by rw [hlib2, hlib1]⟩
    · unfold RespawnTiles_columns
      rw [htop]
      simp only
      rw [hdep]
      simp only [Outcome.bind]
      rw [hrun1]
      simp only [Outcome.ofOption, Outcome.bind]
      exact hrun2
    · exact List.nodup_append.mpr ⟨hnd1, hnd2, fun a h1 h2 => hdisj a h1 h2⟩
    · intro a
      rw [List.mem_append, hcells1, hcells2]
      constructor
      · rintro (⟨hv, hx, he⟩ | ⟨hv, hx, he⟩)
        · exact ⟨hv, by omega, he⟩
        · exact ⟨hv, by omega, he⟩
      · rintro ⟨hv, hx, he⟩
        by_cases hc : a % w.Grid.GridWidth = x
        · exact Or.inl ⟨hv, hc, he⟩
        · exact Or.inr ⟨hv, by omega, he⟩
    · intro i a hi
      by_cases hlt : i < cells1.length
      · rw [List.getElem?_append_left hlt] at hi
        obtain ⟨h1, h2, h3⟩ := hnew1 i a hi
        have hm : a ∈ cells1 := List.mem_iff_getElem?.mpr ⟨i, hi⟩
        have hp : w.NextTile + i < w1.NextTile := by
          rw [hN1, ← hlen1]
          exact Nat.add_lt_add_left hlt _
        rw [hoth2 a (hdisj a hm), hold2 _ hp]
        exact ⟨h1, h2, h3⟩
      · have hge : cells1.length ≤ i := Nat.le_of_not_lt hlt
        rw [List.getElem?_append_right hge] at hi
        obtain ⟨h1, h2, h3⟩ := hnew2 (i - cells1.length) a hi
        have e : w1.NextTile + (i - cells1.length) = w.NextTile + i := by
          rw [hN1, ← hlen1, Nat.add_assoc, Nat.add_sub_cancel' hge]
        rw [e] at h1 h2 h3
        exact ⟨h1, h2, h3⟩
    · intro c hc
      rw [List.mem_append, not_or] at hc
      rw [hoth2 c hc.2, hoth1 c hc.1]
    · intro p hp
      have hp1 : p < w1.NextTile := by
        rw [hN1]
        exact Nat.lt_of_lt_of_le hp (Nat.le_add_right _ _)
      rw [hold2 p hp1, hold1 p hp]
    · rw [hF2, hF1, hN1, List.append_assoc, ← hlen1, List.range'_append_1, List.length_append,
        Nat.add_comm]
    · rw [hC2, hC1, hN1, List.append_assoc, ← hlen1, List.range'_append_1, List.length_append,
        Nat.add_comm]
    · rw [hN2, hN1, ← hlen1, List.length_append, Nat.add_assoc]

/-- The loop of fall requests from the current locations always returns: every tile of the
list gets its grid address as landing address, and the other tiles are not touched. -/
theorem StartFalling_all_here (fuel : Nat) :
    ∀ (l : List TilePtr) (w : UWorld),
      ∃ w', StartFalling_all fuel true l w = Outcome.done w' ∧
        (∀ t ∈ l, (w'.Grid.heap t).LandingGridAddress = GetGridAddress w.Grid t) ∧
        (∀ t, t ∉ l → w'.Grid.heap t = w.Grid.heap t) := by
  intro l
  induction l with
  | nil =>
    intro w
    exact ⟨w, rfl, fun _ h => absurd h (List.not_mem_nil _), fun _ _ => rfl⟩
  | cons T l ih =>
    intro w
    obtain ⟨w', hrun, hl, ho⟩ := ih (Emit
      { w with Grid := SetLandingGridAddress w.Grid T (GetGridAddress w.Grid T) }
      (FEvent.StartFalling T true (GetGridAddress w.Grid T)))
    refine ⟨w', ?_, ?_, ?_⟩
    · unfold StartFalling_all StartFalling
      simp only [Bool.not_true, Bool.false_eq_true, if_false, Outcome.bind]
      exact hrun
    · intro t ht
      have haddr : ∀ u, GetGridAddress (Emit
          { w with Grid := SetLandingGridAddress w.Grid T (GetGridAddress w.Grid T) }
          (FEvent.StartFalling T true (GetGridAddress w.Grid T))).Grid u =
          GetGridAddress w.Grid u := by
        intro u
        simp only [GetGridAddress, Emit, SetLandingGridAddress]
        by_cases e : u = T
        · subst e
          simp
        · rw [Function.update_noteq e]
      by_cases hm : t ∈ l
      · rw [hl t hm, haddr]
      · rw [ho t hm]
        have e : t = T := by
          rcases List.mem_cons.mp ht with h | h
          · exact h
          · exact absurd h hm
        subst e
        simp [Emit, SetLandingGridAddress, GetGridAddress]
    · intro t ht
      rw [List.mem_cons, not_or] at ht
      rw [ho t ht.2]
      simp only [Emit, SetLandingGridAddress]
      rw [Function.update_noteq ht.1]

/-! ## Claim on the creation of tiles by the respawn -/

/-- C24, as amended: on a board of the data model whose empty cells lie on top in every
column, with a library that is not empty and whose entries have a tile class, when some cell
is empty or some tile is falling, `RespawnTiles` returns, and with `cells` the empty cells in
the order of the loops: as many tiles as there are empty cells have been created, the tile
number `i` sits at the cell number `i`, has that grid address and that landing address, is
falling, and is in the falling set and in the tiles to check; its landing callback reaches a
world in which it is normal.  Every other slot is as before, the tiles that existed keep
their state, address and type, and every cell is occupied. -/
theorem RespawnTiles_fills (fuel : Nat) (w : UWorld) (hwf : WellFormed w.Grid)
    (htop : EmptiesOnTop w.Grid) (hlib : w.TileLibrary ≠ [])
    (hcls : ∀ T ∈ w.TileLibrary, T.TileClass = true)
    (hfresh : ∀ p ∈ w.Grid.FallingTiles, p < w.NextTile)
    (hfuel : w.Grid.GridHeight < fuel)
    (hsome : (∃ a, ValidAddress w.Grid a ∧ GetTileFromGridAddress w.Grid a = none) ∨
      w.Grid.FallingTiles ≠ []) :
    ∃ (w' : UWorld) (cells : List Int),
      RespawnTiles fuel w = Outcome.done w' ∧ cells.Nodup ∧
      (∀ a, a ∈ cells ↔ ValidAddress w.Grid a ∧ GetTileFromGridAddress w.Grid a = none) ∧
      w'.NextTile = w.NextTile + cells.length ∧
      (∀ (i : Nat) (a : Int), cells[i]? = some a →
        GetTileFromGridAddress w'.Grid a = some (w.NextTile + i) ∧
        GetGridAddress w'.Grid (w.NextTile + i) = a ∧
        (w'.Grid.heap (w.NextTile + i)).TileState = ETileState.ETS_Falling ∧
        (w'.Grid.heap (w.NextTile + i)).LandingGridAddress = a ∧
        w.NextTile + i ∈ w'.Grid.FallingTiles ∧ w.NextTile + i ∈ w'.Grid.TilesToCheck ∧
        ∀ fuel2 : Nat, ∃ w2 : UWorld,
          OnTileFinishedFalling fuel2 w' (w.NextTile + i) a =
            (if w2.Grid.FallingTiles.length = 0 then RespawnTiles fuel2 w2
              else Outcome.done w2) ∧
          (w2.Grid.heap (w.NextTile + i)).TileState = ETileState.ETS_Normal) ∧
      w'.Grid.FallingTiles = w.Grid.FallingTiles ++ List.range' w.NextTile cells.length ∧
      w'.Grid.TilesToCheck = w.Grid.TilesToCheck ++ List.range' w.NextTile cells.length ∧
      (∀ c, c ∉ cells → GetTileFromGridAddress w'.Grid c = GetTileFromGridAddress w.Grid c) ∧
      (∀ p, p < w.NextTile → (w'.Grid.heap p).TileState = (w.Grid.heap p).TileState ∧
        (w'.Grid.heap p).GridAddress = (w.Grid.heap p).GridAddress ∧
        (w'.Grid.heap p).TileTypeID = (w.Grid.heap p).TileTypeID) ∧
      FullyPopulated w'.Grid := by
  obtain ⟨n, rfl⟩ : ∃ n, fuel = n + 1 := ⟨fuel - 1, by have := hwf.2.1; omega⟩
  have hWn : (0 : Int) + (w.Grid.GridWidth.toNat : Int) = w.Grid.GridWidth := by
    have := hwf.1
    omega
  obtain ⟨w1, cells, hcol, hnd, hmem, hnew, hoth, hold, hF, hC, hN, hW1, hH1, hL1, hlib1⟩ :=
    columns_spec (n + 1) w.Grid.GridWidth.toNat 0 w (le_refl 0) hWn hwf
      (fun a hv _ he hv2 => htop a hv he hv2) hlib hcls hfresh hfuel
  have hmem' : ∀ a, a ∈ cells ↔ ValidAddress w.Grid a ∧ GetTileFromGridAddress w.Grid a = none := by
    intro a
    rw [hmem a]
    constructor
    · rintro ⟨hv, _, he⟩
      exact ⟨hv, he⟩
    · rintro ⟨hv, he⟩
      exact ⟨hv, Int.emod_nonneg a (ne_of_gt hwf.1), he⟩
  have hpos : w1.Grid.FallingTiles.length > 0 := by
    rw [hF, List.length_append, List.length_range']
    rcases hsome with ⟨a, hv, he⟩ | hne
    · have hm := (hmem' a).mpr ⟨hv, he⟩
      have := List.length_pos_of_mem hm
      omega
    · have := List.length_pos.mpr hne
      omega
  obtain ⟨w', hrun, hland, hrest⟩ := StartFalling_all_here (n + 1) w1.Grid.FallingTiles w1
  obtain ⟨hsame, _, _, _, _, _, _, _, hN', _⟩ := StartFalling_all_trace _ _ _ _ _ hrun
  obtain ⟨sW, sH, _, sG, _, _, sF, _, sC, _, _, _, _, sheap⟩ := hsame
  have hslot : ∀ c, GetTileFromGridAddress w'.Grid c = GetTileFromGridAddress w1.Grid c :=
    fun c => getTile_congr w1.Grid w'.Grid sG c
  have hwf' : WellFormed w'.Grid := by
    refine ⟨by rw [sW, hW1]; exact hwf.1, by rw [sH, hH1]; exact hwf.2.1, ?_⟩
    rw [sG, hL1, sW, sH, hW1, hH1]
    exact hwf.2.2
  have hval' : ∀ a, ValidAddress w'.Grid a ↔ ValidAddress w.Grid a := by
    intro a
    unfold ValidAddress
    rw [sW, sH, hW1, hH1]
  have hin : ∀ i, i < cells.length → w.NextTile + i ∈ List.range' w.NextTile cells.length := by
    intro i hi
    exact List.mem_range'_1.mpr ⟨Nat.le_add_right _ _, Nat.add_lt_add_left hi _⟩
  refine ⟨w', cells, ?_, hnd, hmem', by rw [hN', hN], ?_, by rw [sF, hF], by rw [sC, hC], ?_,
    ?_, ?_⟩
  · unfold RespawnTiles RespawnTiles_with
    rw [hcol]
    simp only [Outcome.bind]
    rw [if_pos hpos]
    exact hrun
  · intro i a hi
    obtain ⟨h1, h2, h3⟩ := hnew i a hi
    have hi' : i < cells.length := (List.getElem?_eq_some.mp hi).1
    have hmF : w.NextTile + i ∈ w1.Grid.FallingTiles := by
      rw [hF]
      exact List.mem_append_right _ (hin i hi')
    have hva : ValidAddress w'.Grid a :=
      (hval' a).mpr ((hmem' a).mp (List.mem_iff_getElem?.mpr ⟨i, hi⟩)).1
    refine ⟨by rw [hslot, h1], ?_, ?_, ?_, ?_, ?_, ?_⟩
    · unfold GetGridAddress
      rw [(sheap _).2.2.2, h2]
    · rw [(sheap _).2.1, h3]
    · rw [hland _ hmF]
      exact h2
    · rw [sF]
      exact hmF
    · rw [sC, hC]
      exact List.mem_append_right _ (hin i hi')
    · intro fuel2
      obtain ⟨g1, _, _, _, hcall⟩ :=
        OnTileFinishedFalling_steps fuel2 w' (w.NextTile + i) a hwf' hva
      refine ⟨{ w' with Grid :=
        { SetTileState (SetGridAddress
            { g1 with GameTiles := g1.GameTiles.set a.toNat (some (w.NextTile + i)) }
            (w.NextTile + i) a) (w.NextTile + i) ETileState.ETS_Normal with
          FallingTiles := TArray.RemoveSingleSwap w'.Grid.FallingTiles (w.NextTile + i),
          TilesToCheck := w'.Grid.TilesToCheck ++ [w.NextTile + i] } }, hcall, ?_⟩
      simp [SetTileState]
  · intro c hc
    rw [hslot, hoth c hc]
  · intro p hp
    rw [← hold p hp]
    exact ⟨(sheap p).2.1, (sheap p).2.2.2, (sheap p).1⟩
  · intro a hv
    rw [hval'] at hv
    rw [hslot]
    by_cases hc : a ∈ cells
    · obtain ⟨i, hi⟩ := List.mem_iff_getElem?.mp hc
      rw [(hnew i a hi).1]
      exact fun h => by cases h
    · rw [hoth a hc]
      intro he
      exact hc ((hmem' a).mpr ⟨hv, he⟩)

theorem eq_singleton_of_nodup (l : List Int) (b : Int) (hnd : l.Nodup)
    (h : ∀ a, a ∈ l ↔ a = b) : l = [b] := by
  have hp : l.Perm [b] := by
    refine (List.perm_ext_iff_of_nodup hnd (List.nodup_singleton b)).mpr ?_
    intro a
    rw [h a, List.mem_singleton]
  exact List.perm_singleton.mp hp

theorem respawnWorld_empty (a : Int) :
    (ValidAddress respawnWorld.Grid a ∧ GetTileFromGridAddress respawnWorld.Grid a = none) ↔
      a = 6 := by
  constructor
  · rintro ⟨hv, he⟩
    have h0 : 0 ≤ a := hv.1
    have h1 : a < 9 := hv.2
    interval_cases a
    · exact absurd he (by decide)
    · exact absurd he (by decide)
    · exact absurd he (by decide)
    · exact absurd he (by decide)
    · exact absurd he (by decide)
    · exact absurd he (by decide)
    · rfl
    · exact absurd he (by decide)
    · exact absurd he (by decide)
  · intro h
    subst h
    exact ⟨⟨by decide, by decide⟩, by decide⟩

theorem respawnWorld_top : EmptiesOnTop respawnWorld.Grid := by
  intro a hv he hv2
  have e := (respawnWorld_empty a).mp ⟨hv, he⟩
  subst e
  exact absurd hv2.2 (by decide)

/-- C24 at the board whose only empty cell is the top cell of the first column: the respawn
returns with one new tile, the tile 100, at that cell, falling and to be checked, and the
board is full. -/
theorem RespawnTiles_fills_witness :
    ∃ w' : UWorld, RespawnTiles 4 respawnWorld = Outcome.done w' ∧ w'.NextTile = 101 ∧
      GetTileFromGridAddress w'.Grid 6 = some 100 ∧ GetGridAddress w'.Grid 100 = 6 ∧
      (w'.Grid.heap 100).TileState = ETileState.ETS_Falling ∧
      w'.Grid.FallingTiles = [100] ∧ w'.Grid.TilesToCheck = [100] ∧
      FullyPopulated w'.Grid := by
  obtain ⟨w', cells, hrun, hnd, hmem, hN, hnew, hF, hC, _, _, hfull⟩ :=
    RespawnTiles_fills 4 respawnWorld
      (plainBoard_wellFormed 3 3 3 [1, 2, 3, 4, 5, 6, 7, 8, 9] (by decide) (by decide) rfl)
      respawnWorld_top (List.cons_ne_nil _ _)
      (fun T hT => by rw [List.eq_of_mem_replicate hT]; rfl)
      (fun p hp => absurd hp (List.not_mem_nil p)) (by decide)
      (Or.inl ⟨6, (respawnWorld_empty 6).mpr rfl⟩)
  have hc : cells = [6] :=
    eq_singleton_of_nodup cells 6 hnd (fun a => (hmem a).trans (respawnWorld_empty a))
  subst hc
  obtain ⟨h1, h2, h3, _⟩ := hnew 0 6 rfl
  exact ⟨w', hrun, hN, h1, h2, h3, hF, hC, hfull⟩

/-- C24 fails on the code on a full board with an empty falling set: the respawn creates no
tile and goes on to the check for cascades.  On the board whose bottom row is a run, with the
tile at address 2 to be checked, it matches the run, and when it returns the cells 0, 1 and 2
are empty. -/
theorem RespawnTiles_fills_counterexample :
    WellFormed checkWorld.Grid ∧ EmptiesOnTop checkWorld.Grid ∧
      ∃ w' : UWorld, RespawnTiles 4 checkWorld = Outcome.done w' ∧
        w'.NextTile = checkWorld.NextTile ∧ ValidAddress w'.Grid 0 ∧
        GetTileFromGridAddress w'.Grid 0 = none ∧ GetTileFromGridAddress w'.Grid 1 = none ∧
        GetTileFromGridAddress w'.Grid 2 = none :=
  ⟨plainBoard_wellFormed 3 3 3 [1, 1, 1, 2, 3, 4, 5, 6, 7] (by decide) (by decide) rfl,
    fun a hv he _ =>
      absurd he (plainBoard_full 3 3 3 [1, 1, 1, 2, 3, 4, 5, 6, 7] rfl a hv),
    ⟨_, rfl, rfl, ⟨by decide, by decide⟩, rfl, rfl, rfl⟩⟩

/-! ## Claim on the range assertions of the offset computation -/

/-- C39: on a grid of positive width (and any height, a positive one included), over the integers with truncating division
and remainder, for every base address and all offsets: when the new column and the new row
pass their range tests, `GetGridAddressWithOffset` returns the address
`base + dx + dy * GridWidth`, which is the new column plus the new row times the width and
lies in `[0, W * H)`; otherwise it returns failure with the value -1.  So no `check` of the
function fails. -/
theorem GetGridAddressWithOffset_asserts (g : AGrid) (base dx dy : Int)
    (hW : 0 < g.GridWidth) :
    ((0 ≤ Int.tmod base g.GridWidth + dx ∧ Int.tmod base g.GridWidth + dx < g.GridWidth ∧
        0 ≤ Int.tdiv base g.GridWidth + dy ∧ Int.tdiv base g.GridWidth + dy < g.GridHeight) →
      GetGridAddressWithOffset g base dx dy = some (true, base + dx + dy * g.GridWidth) ∧
      base + dx + dy * g.GridWidth =
        (Int.tmod base g.GridWidth + dx) + (Int.tdiv base g.GridWidth + dy) * g.GridWidth ∧
      ValidAddress g (base + dx + dy * g.GridWidth)) ∧
    (¬ (0 ≤ Int.tmod base g.GridWidth + dx ∧ Int.tmod base g.GridWidth + dx < g.GridWidth ∧
        0 ≤ Int.tdiv base g.GridWidth + dy ∧ Int.tdiv base g.GridWidth + dy < g.GridHeight) →
      GetGridAddressWithOffset g base dx dy = some (false, -1)) ∧
    GetGridAddressWithOffset g base dx dy ≠ none := by
  have hid : Int.tmod base g.GridWidth + g.GridWidth * Int.tdiv base g.GridWidth = base :=
    Int.tmod_add_tdiv base g.GridWidth
  have hpass : (0 ≤ Int.tmod base g.GridWidth + dx ∧
      Int.tmod base g.GridWidth + dx < g.GridWidth ∧
      0 ≤ Int.tdiv base g.GridWidth + dy ∧ Int.tdiv base g.GridWidth + dy < g.GridHeight) →
      GetGridAddressWithOffset g base dx dy = some (true, base + dx + dy * g.GridWidth) ∧
      base + dx + dy * g.GridWidth =
        (Int.tmod base g.GridWidth + dx) + (Int.tdiv base g.GridWidth + dy) * g.GridWidth ∧
      ValidAddress g (base + dx + dy * g.GridWidth) := by
    rintro ⟨c0, c1, r0, r1⟩
    have e : base + dx + dy * g.GridWidth =
        (Int.tmod base g.GridWidth + dx) + (Int.tdiv base g.GridWidth + dy) * g.GridWidth := by
      have : (Int.tdiv base g.GridWidth + dy) * g.GridWidth =
          g.GridWidth * Int.tdiv base g.GridWidth + dy * g.GridWidth := by ring
      omega
    have h1 : 0 ≤ (Int.tdiv base g.GridWidth + dy) * g.GridWidth :=
      Int.mul_nonneg r0 (le_of_lt hW)
    have h2 : (Int.tdiv base g.GridWidth + dy) * g.GridWidth ≤
        (g.GridHeight - 1) * g.GridWidth :=
      Int.mul_le_mul_of_nonneg_right (by omega) (le_of_lt hW)
    have h3 : g.GridWidth * g.GridHeight = (g.GridHeight - 1) * g.GridWidth + g.GridWidth := by
      ring
    have hv : ValidAddress g (base + dx + dy * g.GridWidth) := by
      unfold ValidAddress
      constructor
      · omega
      · omega
    refine ⟨?_, e, hv⟩
    unfold GetGridAddressWithOffset
    simp only [gt_iff_lt, hW, not_true_eq_false, if_false, ge_iff_le, not_le, not_lt]
    rw [if_neg (by rw [Clamp_ne_iff]; exact not_not.mpr ⟨c0, c1⟩),
      if_neg (by rw [Clamp_ne_iff]; exact not_not.mpr ⟨r0, r1⟩)]
    rw [if_neg (by have := hv.1; omega), if_neg (by have := hv.2; omega)]
  have hfail : ¬ (0 ≤ Int.tmod base g.GridWidth + dx ∧
      Int.tmod base g.GridWidth + dx < g.GridWidth ∧
      0 ≤ Int.tdiv base g.GridWidth + dy ∧ Int.tdiv base g.GridWidth + dy < g.GridHeight) →
      GetGridAddressWithOffset g base dx dy = some (false, -1) := by
    intro hn
    unfold GetGridAddressWithOffset
    simp only [gt_iff_lt, hW, not_true_eq_false, if_false]
    by_cases hc : 0 ≤ Int.tmod base g.GridWidth + dx ∧ Int.tmod base g.GridWidth + dx < g.GridWidth
    · rw [if_neg (by rw [Clamp_ne_iff]; exact not_not.mpr hc)]
      have hr : ¬ (0 ≤ Int.tdiv base g.GridWidth + dy ∧
          Int.tdiv base g.GridWidth + dy < g.GridHeight) := fun h => hn ⟨hc.1, hc.2, h.1, h.2⟩
      rw [if_pos (by rw [Clamp_ne_iff]; exact hr)]
    · rw [if_pos (by rw [Clamp_ne_iff]; exact hc)]
  refine ⟨hpass, hfail, ?_⟩
  by_cases h : 0 ≤ Int.tmod base g.GridWidth + dx ∧
      Int.tmod base g.GridWidth + dx < g.GridWidth ∧
      0 ≤ Int.tdiv base g.GridWidth + dy ∧ Int.tdiv base g.GridWidth + dy < g.GridHeight
  · rw [(hpass h).1]
    exact fun e => by cases e
  · rw [hfail h]
    exact fun e => by cases e

/-- C39 on the 3 x 3 board at the negative base address -1, whose truncated column is -1 and
row 0: the offset (1, 2) passes both tests and gives the address 6, and the offset (0, 0)
fails the column test. -/
theorem GetGridAddressWithOffset_asserts_witness :
    (0 : Int) < board3x3.GridWidth ∧
      GetGridAddressWithOffset board3x3 (-1) 1 2 = some (true, 6) ∧
      ValidAddress board3x3 6 ∧
      GetGridAddressWithOffset board3x3 (-1) 0 0 = some (false, -1) :=
  have T := GetGridAddressWithOffset_asserts board3x3 (-1) 1 2 (by decide)
  have T0 := GetGridAddressWithOffset_asserts board3x3 (-1) 0 0 (by decide)
  ⟨by decide, (T.1 (by decide)).1, (T.1 (by decide)).2.2, T0.2.1 (by decide)⟩

/-! ## Run detection for every run length -/

/-- The result of `FindNeighbors` for every run length, with `E` the run length in effect
(the minimum run length of the grid when the argument is negative). -/
theorem FindNeighbors_shape (g : AGrid) (t : TilePtr) (must : Bool) (R : Int)
    (hW : 0 < g.GridWidth) (hv : ValidAddress g (GetGridAddress g t)) :
    ∃ E : Int, E = (if R < 0 then g.MinimumRunLength else R) ∧
    (((E = 0 ∧ FindNeighbors g t must R = some []) ∨
      (E = 1 ∧ FindNeighbors g t must R = some [t])) ∨
    (E ≠ 0 ∧ E ≠ 1 ∧ ∃ v1 v2 h1 h2 : List TilePtr,
      IsRun g t must false (-1) (walkSteps g must E false) v1 ∧
      IsRun g t must false 1 (walkSteps g must E false) v2 ∧
      IsRun g t must true (-1) (walkSteps g must E true) h1 ∧
      IsRun g t must true 1 (walkSteps g must E true) h2 ∧
      FindNeighbors g t must R = some
        (if decide ((keptOnAxis g must E false (v1 ++ v2) ++
              keptOnAxis g must E true (h1 ++ h2)).length > 0) || !must then
          keptOnAxis g must E false (v1 ++ v2) ++ keptOnAxis g must E true (h1 ++ h2) ++ [t]
        else
          keptOnAxis g must E false (v1 ++ v2) ++ keptOnAxis g must E true (h1 ++ h2)))) := by
  obtain ⟨E, hE⟩ : ∃ E : Int, E = (if R < 0 then g.MinimumRunLength else R) := ⟨_, rfl⟩
  refine ⟨E, hE, ?_⟩
  by_cases h0 : E = 0
  · left
    left
    refine ⟨h0, ?_⟩
    unfold FindNeighbors
    simp only [← hE, h0, if_true]
  · by_cases h1 : E = 1
    · left
      right
      refine ⟨h1, ?_⟩
      unfold FindNeighbors
      simp only [← hE, h1, if_true, one_ne_zero, if_false]
    · right
      obtain ⟨v1, v2, rv1, rv2, ev⟩ := axis_spec g t must false E hW hv
      obtain ⟨h1', h2', rh1, rh2, eh⟩ := axis_spec g t must true E hW hv
      refine ⟨h0, h1, v1, v2, h1', h2', rv1, rv2, rh1, rh2, ?_⟩
      unfold FindNeighbors
      simp only [← hE, h0, h1, if_false, ev, eh]
      split_ifs <;> rfl

/-- On a consistent board of the data model, the list returned by `FindNeighbors` for a
placed tile holds no tile twice, whatever the matching mode and the run length. -/
theorem FindNeighbors_nodup (g : AGrid) (t : TilePtr) (must : Bool) (R : Int)
    (hwf : WellFormed g) (hcons : Consistent g) (hon : OnBoard g t) :
    ∃ res, FindNeighbors g t must R = some res ∧ res.Nodup := by
  have hv := valid_of_onBoard g t hwf hon
  obtain ⟨E, _, hsh⟩ := FindNeighbors_shape g t must R hwf.1 hv
  rcases hsh with (⟨_, e⟩ | ⟨_, e⟩) | h
  · exact ⟨[], e, List.nodup_nil⟩
  · exact ⟨[t], e, List.nodup_singleton t⟩
  · obtain ⟨_, _, v1, v2, h1, h2, rv1, rv2, rh1, rh2, e⟩ := h
    refine ⟨_, e, ?_⟩
    have hnd := runs_nodup g t must _ _ v1 v2 h1 h2 hwf hcons hon rv1 rv2 rh1 rh2
    have hsub : List.Sublist
        (keptOnAxis g must E false (v1 ++ v2) ++ keptOnAxis g must E true (h1 ++ h2))
        ((v1 ++ v2) ++ (h1 ++ h2)) :=
      List.Sublist.append (keptOnAxis_sublist g must _ false _)
        (keptOnAxis_sublist g must _ true _)
    split_ifs
    · exact List.Nodup.sublist (List.Sublist.append hsub (List.Sublist.refl [t])) hnd
    · exact List.Nodup.sublist (hsub.trans (List.sublist_append_left _ _)) hnd

/-- The tiles of a walk in matching mode have the type of the starting tile. -/
theorem IsRun_types (g : AGrid) (t : TilePtr) (hz : Bool) (d : Int) (n : Nat)
    (ts : List TilePtr) (hr : IsRun g t true hz d n ts) :
    ∀ x ∈ ts, (g.heap x).TileTypeID = (g.heap t).TileTypeID := by
  intro x hx
  obtain ⟨i, hi⟩ := List.mem_iff_getElem?.mp hx
  have hlt : i < ts.length := by
    by_contra hcon
    rw [List.getElem?_eq_none (by omega)] at hi
    cases hi
  obtain ⟨_, y, hy, hacc⟩ := hr.2.1 i hlt
  rw [hi] at hy
  injection hy with hy
  subst hy
  rcases hacc with h | h
  · cases h
  · exact h

/-- In matching mode every tile of the result of `FindNeighbors` has the type of the
starting tile. -/
theorem FindNeighbors_types (g : AGrid) (t : TilePtr) (R : Int) (res : List TilePtr)
    (hW : 0 < g.GridWidth) (hv : ValidAddress g (GetGridAddress g t))
    (hres : FindNeighbors g t true R = some res) :
    ∀ x ∈ res, (g.heap x).TileTypeID = (g.heap t).TileTypeID := by
  obtain ⟨E, _, hsh⟩ := FindNeighbors_shape g t true R hW hv
  rcases hsh with (⟨_, e⟩ | ⟨_, e⟩) | h
  · rw [e] at hres
    injection hres with hres
    subst hres
    intro x hx
    cases hx
  · rw [e] at hres
    injection hres with hres
    subst hres
    intro x hx
    rw [List.mem_singleton.mp hx]
  · obtain ⟨_, _, v1, v2, h1, h2, rv1, rv2, rh1, rh2, e⟩ := h
    rw [e] at hres
    injection hres with hres
    have hall : ∀ x ∈ (v1 ++ v2) ++ (h1 ++ h2) ++ [t],
        (g.heap x).TileTypeID = (g.heap t).TileTypeID := by
      intro x hx
      simp only [List.mem_append, List.mem_singleton] at hx
      rcases hx with ((hx | hx) | (hx | hx)) | hx
      · exact IsRun_types g t false (-1) _ v1 rv1 x hx
      · exact IsRun_types g t false 1 _ v2 rv2 x hx
      · exact IsRun_types g t true (-1) _ h1 rh1 x hx
      · exact IsRun_types g t true 1 _ h2 rh2 x hx
      · rw [hx]
    have hsub : List.Sublist
        (keptOnAxis g true E false (v1 ++ v2) ++ keptOnAxis g true E true (h1 ++ h2))
        ((v1 ++ v2) ++ (h1 ++ h2)) :=
      List.Sublist.append (keptOnAxis_sublist g true _ false _)
        (keptOnAxis_sublist g true _ true _)
    intro x hx
    rw [← hres] at hx
    split_ifs at hx
    · exact hall x ((List.Sublist.append hsub (List.Sublist.refl [t])).subset hx)
    · exact hall x ((hsub.trans (List.sublist_append_left _ _)).subset hx)

/-! ## Claim on repeated tiles in the result of run detection -/

/-- C32: on a consistent board of the data model, for every tile placed on it, both matching
modes and every run length (negative, 0 and 1 included), `FindNeighbors` returns a list that
holds no tile twice. -/
theorem FindNeighbors_no_repeat (g : AGrid) (t : TilePtr) (bMustMatchID : Bool)
    (RunLength : Int) (hwf : WellFormed g) (hcons : Consistent g) (hon : OnBoard g t) :
    ∃ res : List TilePtr, FindNeighbors g t bMustMatchID RunLength = some res ∧ res.Nodup :=
  FindNeighbors_nodup g t bMustMatchID RunLength hwf hcons hon

/-- C32 on the board whose bottom row is a run, for the tile in the middle of that row: the
two results, with and without type matching, hold no tile twice. -/
theorem FindNeighbors_no_repeat_witness :
    WellFormed runBoard ∧ Consistent runBoard ∧ OnBoard runBoard 1 ∧
      (∃ res, FindNeighbors runBoard 1 true (-1) = some res ∧ res = [0, 2, 1] ∧ res.Nodup) ∧
      (∃ res, FindNeighbors runBoard 1 false 2 = some res ∧ res = [4, 0, 2, 1] ∧
        res.Nodup) :=
  have hwf := plainBoard_wellFormed 3 3 3 [1, 1, 1, 2, 3, 4, 5, 6, 7] (by decide) (by decide) rfl
  have hc := plainBoard_consistent 3 3 3 [1, 1, 1, 2, 3, 4, 5, 6, 7]
  have ho := plainBoard_onBoard 3 3 3 [1, 1, 1, 2, 3, 4, 5, 6, 7] 1 (by decide)
  ⟨hwf, hc, ho,
    (FindNeighbors_no_repeat runBoard 1 true (-1) hwf hc ho).elim
      (fun res h => ⟨res, h.1, Option.some.inj (h.1.symm.trans (by decide)), h.2⟩),
    (FindNeighbors_no_repeat runBoard 1 false 2 hwf hc ho).elim
      (fun res h => ⟨res, h.1, Option.some.inj (h.1.symm.trans (by decide)), h.2⟩)⟩

/-! ## Claim on repeated tiles in the cached legal match -/

/-- What `SwapTiles` leaves alone: the dimensions, the number of slots, the cached match, and
every field of every tile other than the grid address. -/
theorem SwapTiles_keeps (g : AGrid) (a b : TilePtr) (g' : AGrid)
    (h : SwapTiles g a b = some g') :
    g'.GridWidth = g.GridWidth ∧ g'.GridHeight = g.GridHeight ∧
      g'.MinimumRunLength = g.MinimumRunLength ∧
      g'.GameTiles.length = g.GameTiles.length ∧ g'.LastLegalMatch = g.LastLegalMatch ∧
      ∀ t, (g'.heap t).TileTypeID = (g.heap t).TileTypeID := by
  unfold SwapTiles at h
  simp only at h
  revert h
  cases h3 : SetGameTile (SetGridAddress (SetGridAddress g a (GetGridAddress g b)) b
      (GetGridAddress g a))
      (GetGridAddress (SetGridAddress (SetGridAddress g a (GetGridAddress g b)) b
        (GetGridAddress g a)) a) (some a) with
  | none => intro h; cases h
  | some g3 =>
    intro h
    simp only at h
    obtain ⟨_, e3⟩ := SetGameTile_some _ _ _ _ h3
    obtain ⟨_, e4⟩ := SetGameTile_some _ _ _ _ h
    rw [e4, e3]
    refine ⟨rfl, rfl, rfl, by simp [SetGridAddress], rfl, ?_⟩
    intro t
    simp only [SetGridAddress]
    by_cases hb : t = b
    · subst hb
      rw [Function.update_same]
      by_cases ha : t = a
      · subst ha
        rw [Function.update_same]
      · rw [Function.update_noteq ha]
    · rw [Function.update_noteq hb]
      by_cases ha : t = a
      · subst ha
        rw [Function.update_same]
      · rw [Function.update_noteq ha]

/-- C37: on a consistent board of the data model, whenever `IsMoveLegal` on two tiles
returns true, the cached legal match is the run of the first tile followed by the run of the
second, the tiles of the first run have the type of the first tile, those of the second run
the type of the second, the two types differ, and the cached match holds no tile twice; so
its length, by which `ExecuteMatch` multiplies the score of the move, is the number of its
different tiles. -/
theorem IsMoveLegal_match_nodup (g : AGrid) (a b : TilePtr) (g' : AGrid)
    (hwf : WellFormed g) (hcons : Consistent g)
    (h : IsMoveLegal g (some a) (some b) = some (true, g')) :
    g'.LastLegalMatch.Nodup ∧
      (∃ ra rb : List TilePtr, g'.LastLegalMatch = ra ++ rb ∧
        (∀ x ∈ ra, (g.heap x).TileTypeID = (g.heap a).TileTypeID) ∧
        (∀ x ∈ rb, (g.heap x).TileTypeID = (g.heap b).TileTypeID) ∧
        (g.heap a).TileTypeID ≠ (g.heap b).TileTypeID) ∧
      g'.LastLegalMatch.length = g'.LastLegalMatch.toFinset.card := by
  have hnd : g'.LastLegalMatch.Nodup ∧
      (∃ ra rb : List TilePtr, g'.LastLegalMatch = ra ++ rb ∧
        (∀ x ∈ ra, (g.heap x).TileTypeID = (g.heap a).TileTypeID) ∧
        (∀ x ∈ rb, (g.heap x).TileTypeID = (g.heap b).TileTypeID) ∧
        (g.heap a).TileTypeID ≠ (g.heap b).TileTypeID) := by
    unfold IsMoveLegal at h
    simp only at h
    split_ifs at h with h1 h2
    · revert h
      cases hs : SwapTiles g a b with
      | none => intro h; cases h
      | some g1 =>
        simp only
        cases hA : FindNeighbors g1 a true (-1) with
        | none => intro h; cases h
        | some MA =>
          simp only
          cases hB : FindNeighbors g1 b true (-1) with
          | none => intro h; cases h
          | some MB =>
            simp only
            cases hs2 : SwapTiles { g1 with LastLegalMatch := MA ++ MB } a b with
            | none => intro h; cases h
            | some g2 =>
              intro h
              simp only [Option.some.injEq, Prod.mk.injEq] at h
              obtain ⟨_, hg⟩ := h
              subst hg
              obtain ⟨hab, _, _⟩ := h1
              obtain ⟨hty, hn⟩ := h2
              obtain ⟨x, y, G1, hy, hx, hG1, hG, hb', ha', hxe, hye, _, _⟩ :=
                SwapTiles_some g a b g1 hs
              obtain ⟨kW, kH, _, kL, _, kT⟩ := SwapTiles_keeps g a b g1 hs
              obtain ⟨_, _, _, _, kM, _⟩ := SwapTiles_keeps _ a b g2 hs2
              have hwf1 : WellFormed g1 := by
                refine ⟨by rw [kW]; exact hwf.1, by rw [kH]; exact hwf.2.1, ?_⟩
                rw [kL, kW, kH]
                exact hwf.2.2
              have hc1 := SwapTiles_consistent g a b g1 hcons hs
              have hxy : x ≠ y := by
                rw [hxe, hye hab]
                intro e
                unfold AreAddressesNeighbors at hn
                rw [e] at hn
                split_ifs at hn with hr
                simp only [sub_self, decide_eq_true_eq] at hn
                unfold FMath.Abs at hn
                have := hwf.1
                simp at hn
                omega
              have hx1 : 0 ≤ x ∧ x < ({ g with GameTiles := G1 } : AGrid).GameTiles.length := by
                show 0 ≤ x ∧ x < (G1.length : Int)
                rw [hG1, List.length_set]
                exact hx
              have s1 := getTile_set g { g with GameTiles := G1 } y (some a) hy hG1
              have s2 := getTile_set { g with GameTiles := G1 } g1 x (some b) hx1 hG
              have hona : OnBoard g1 a := by
                unfold OnBoard
                rw [ha', s2, if_neg (fun e => hxy e.symm), s1, if_pos rfl]
              have honb : OnBoard g1 b := by
                unfold OnBoard
                rw [hb', s2, if_pos rfl]
              obtain ⟨ra, era, nda⟩ := FindNeighbors_nodup g1 a true (-1) hwf1 hc1 hona
              obtain ⟨rb, erb, ndb⟩ := FindNeighbors_nodup g1 b true (-1) hwf1 hc1 honb
              rw [hA] at era
              rw [hB] at erb
              injection era with era
              injection erb with erb
              subst era
              subst erb
              have ta := FindNeighbors_types g1 a (-1) MA hwf1.1
                (valid_of_onBoard g1 a hwf1 hona) hA
              have tb := FindNeighbors_types g1 b (-1) MB hwf1.1
                (valid_of_onBoard g1 b hwf1 honb) hB
              have ta' : ∀ x ∈ MA, (g.heap x).TileTypeID = (g.heap a).TileTypeID := by
                intro x hx
                rw [← kT x, ← kT a]
                exact ta x hx
              have tb' : ∀ x ∈ MB, (g.heap x).TileTypeID = (g.heap b).TileTypeID := by
                intro x hx
                rw [← kT x, ← kT b]
                exact tb x hx
              have kM' : g2.LastLegalMatch = MA ++ MB := kM
              refine ⟨?_, MA, MB, kM', ta', tb', hty⟩
              rw [kM']
              refine List.nodup_append.mpr ⟨nda, ndb, ?_⟩
              intro x hxa hxb
              exact hty ((ta' x hxa).symm.trans (tb' x hxb))
    · simp at h
    · simp at h
  exact ⟨hnd.1, hnd.2, (List.toFinset_card_of_nodup hnd.1).symm⟩

/-- C37 on the 3 x 3 board for the swap of the tiles at addresses 2 and 5, which completes
two runs: the test answers true and caches the six tiles of the two runs, none twice. -/
theorem IsMoveLegal_match_nodup_witness :
    WellFormed board3x3 ∧ Consistent board3x3 ∧
      ∃ g' : AGrid, IsMoveLegal board3x3 (some 2) (some 5) = some (true, g') ∧
        g'.LastLegalMatch = [4, 3, 2, 1, 0, 5] ∧ g'.LastLegalMatch.Nodup ∧
        g'.LastLegalMatch.length = g'.LastLegalMatch.toFinset.card :=
  have hwf := plainBoard_wellFormed 3 3 3 [1, 1, 2, 2, 2, 1, 3, 4, 5] (by decide) (by decide) rfl
  have hc := plainBoard_consistent 3 3 3 [1, 1, 2, 2, 2, 1, 3, 4, 5]
  ⟨hwf, hc, _, rfl, rfl, (IsMoveLegal_match_nodup board3x3 2 5 _ hwf hc rfl).1,
    (IsMoveLegal_match_nodup board3x3 2 5 _ hwf hc rfl).2.2⟩

/-! ## Run detection in matching mode: the segment seen from another of its tiles -/

/-- The result of `FindNeighbors` in matching mode for a run length of at least 2, as a set:
the tiles of the qualifying maximal segments on cells other than the starting cell, and the
starting tile when there is such a tile. -/
theorem FindNeighbors_matching_mem (g : AGrid) (t : TilePtr) (R : Int)
    (hwf : WellFormed g) (hon : OnBoard g t) (hR : 2 ≤ R) :
    ∃ (lov hiv loh hih : Nat) (res : List TilePtr),
      IsMaximalSegment g t false lov hiv ∧ IsMaximalSegment g t true loh hih ∧
      FindNeighbors g t true R = some res ∧
      ∀ x, x ∈ res ↔
        (inQualifyingUnion g t R lov hiv loh hih x ∨
          (x = t ∧ ∃ y, inQualifyingUnion g t R lov hiv loh hih y)) := by
  have hv := valid_of_onBoard g t hwf hon
  obtain ⟨v1, v2, h1, h2, rv1, rv2, rh1, rh2, e⟩ := FindNeighbors_spec g t true R hwf.1 hv hR
  have hsv := IsMaximalSegment_of_runs g t false R v1 v2 hwf hon rv1 rv2
  have hsh := IsMaximalSegment_of_runs g t true R h1 h2 hwf hon rh1 rh2
  have hall : ∀ x, x ∈ keptOnAxis g true R false (v1 ++ v2) ++ keptOnAxis g true R true (h1 ++ h2)
      ↔ inQualifyingUnion g t R v1.length v2.length h1.length h2.length x := by
    intro x
    unfold inQualifyingUnion
    rw [List.mem_append, ← mem_runs_iff g t true false _ v1 v2 rv1 rv2 x,
      ← mem_runs_iff g t true true _ h1 h2 rh1 rh2 x]
    rcases keptOnAxis_matching g R false v1 v2 with ⟨q, k⟩ | ⟨q, k⟩ <;>
      rcases keptOnAxis_matching g R true h1 h2 with ⟨q', k'⟩ | ⟨q', k'⟩ <;>
      rw [k, k'] <;> simp [q, q']
  refine ⟨v1.length, v2.length, h1.length, h2.length, _, hsv, hsh, e, ?_⟩
  intro x
  simp only [Bool.not_true, Bool.or_false, decide_eq_true_eq]
  split_ifs with hpos
  · obtain ⟨y, hy⟩ := List.exists_mem_of_length_pos hpos
    rw [List.mem_append, List.mem_singleton, hall]
    constructor
    · rintro (h | h)
      · exact Or.inl h
      · exact Or.inr ⟨h, y, (hall y).mp hy⟩
    · rintro (h | ⟨h, _⟩)
      · exact Or.inl h
      · exact Or.inr h
  · rw [hall]
    constructor
    · intro h; exact Or.inl h
    · rintro (h | ⟨_, y, hy⟩)
      · exact h
      · exact absurd (List.length_pos_of_mem ((hall y).mpr hy)) hpos

/-- A tile found on the line of another is placed on the board. -/
theorem onBoard_of_lineTile (g : AGrid) (s t : TilePtr) (hz : Bool) (k : Int)
    (hcons : Consistent g) (h : lineTile g s hz k = some t) : OnBoard g t := by
  unfold lineTile at h
  split_ifs at h with hg
  unfold OnBoard
  rw [hcons _ t h]
  exact h

/-- The line of a tile that lies `k` steps from `s` is the line of `s`, shifted by `k`. -/
theorem lineTile_shift (g : AGrid) (s t : TilePtr) (hz : Bool) (k : Int)
    (hW : 0 < g.GridWidth) (hcons : Consistent g) (h : lineTile g s hz k = some t) (j : Int) :
    lineTile g t hz j = lineTile g s hz (k + j) := by
  obtain ⟨_, hc, hr⟩ := lineTile_coords g s t hz k hW hcons h
  have ec : lineCol g t hz j = lineCol g s hz (k + j) := by
    unfold lineCol at hc ⊢
    rw [hc]
    cases hz <;> simp
    ring
  have er : lineRow g t hz j = lineRow g s hz (k + j) := by
    unfold lineRow at hr ⊢
    rw [hr]
    cases hz <;> simp
    ring
  unfold lineTile lineOnGrid
  simp only [ec, er]

/-- The maximal segment through a tile, seen from another tile of the segment. -/
theorem segment_shift (g : AGrid) (s t : TilePtr) (hz : Bool) (lo hi : Nat) (k : Int)
    (hW : 0 < g.GridWidth) (hcons : Consistent g)
    (hseg : IsMaximalSegment g s hz lo hi) (hlo : -(lo : Int) ≤ k) (hhi : k ≤ (hi : Int))
    (h : lineTile g s hz k = some t) :
    (g.heap t).TileTypeID = (g.heap s).TileTypeID ∧
      IsMaximalSegment g t hz ((lo : Int) + k).toNat ((hi : Int) - k).toNat := by
  have hty : (g.heap t).TileTypeID = (g.heap s).TileTypeID := by
    obtain ⟨x, hx, hxt⟩ := hseg.1 k hlo hhi
    rw [h] at hx
    injection hx with hx
    rw [hx]
    exact hxt
  have hsame : ∀ j, sameTypeAt g t hz j ↔ sameTypeAt g s hz (k + j) := by
    intro j
    unfold sameTypeAt
    rw [lineTile_shift g s t hz k hW hcons h j, hty]
  have e1 : (((lo : Int) + k).toNat : Int) = (lo : Int) + k := Int.toNat_of_nonneg (by omega)
  have e2 : (((hi : Int) - k).toNat : Int) = (hi : Int) - k := Int.toNat_of_nonneg (by omega)
  refine ⟨hty, ?_, ?_, ?_⟩
  · intro j hj1 hj2
    rw [e1] at hj1
    rw [e2] at hj2
    rw [hsame]
    exact hseg.1 _ (by omega) (by omega)
  · rw [hsame, e1]
    have e : k + -((lo : Int) + k + 1) = -((lo : Int) + 1) := by ring
    rw [e]
    exact hseg.2.1
  · rw [hsame, e2]
    have e : k + ((hi : Int) - k + 1) = (hi : Int) + 1 := by ring
    rw [e]
    exact hseg.2.2

/-- Every tile of a qualifying maximal segment of at least two cells is in the result of
`FindNeighbors`, in matching mode, from every tile of the segment. -/
theorem segment_found (g : AGrid) (u t x : TilePtr) (hz : Bool) (lo hi : Nat) (kt kx : Int)
    (R : Int) (hwf : WellFormed g) (hcons : Consistent g) (hR : 2 ≤ R)
    (hseg : IsMaximalSegment g u hz lo hi) (hq : axisQualifies g hz R lo hi)
    (htwo : 1 ≤ lo + hi)
    (ht1 : -(lo : Int) ≤ kt) (ht2 : kt ≤ (hi : Int)) (ht : lineTile g u hz kt = some t)
    (hx1 : -(lo : Int) ≤ kx) (hx2 : kx ≤ (hi : Int)) (hx : lineTile g u hz kx = some x) :
    ∃ r, FindNeighbors g t true R = some r ∧ x ∈ r := by
  have hont := onBoard_of_lineTile g u t hz kt hcons ht
  obtain ⟨_, hsegt⟩ := segment_shift g u t hz lo hi kt hwf.1 hcons hseg ht1 ht2 ht
  obtain ⟨lov, hiv, loh, hih, res, sv, sh, e, hmem⟩ :=
    FindNeighbors_matching_mem g t R hwf hont hR
  have e1 : (((lo : Int) + kt).toNat : Int) = (lo : Int) + kt := Int.toNat_of_nonneg (by omega)
  have e2 : (((hi : Int) - kt).toNat : Int) = (hi : Int) - kt := Int.toNat_of_nonneg (by omega)
  have hqt : axisQualifies g hz R ((lo : Int) + kt).toNat ((hi : Int) - kt).toNat := by
    unfold axisQualifies at hq ⊢
    rw [e1, e2]
    have : (lo : Int) + kt + ((hi : Int) - kt) + 1 = (lo : Int) + (hi : Int) + 1 := by ring
    rw [this]
    exact hq
  have hother : ∀ (y : TilePtr) (ky : Int), -(lo : Int) ≤ ky → ky ≤ (hi : Int) → ky ≠ kt →
      lineTile g u hz ky = some y → inQualifyingUnion g t R lov hiv loh hih y := by
    intro y ky hy1 hy2 hne hy
    have hin : inSegmentOther g t hz ((lo : Int) + kt).toNat ((hi : Int) - kt).toNat y := by
      refine ⟨ky - kt, by omega, by rw [e1]; omega, by rw [e2]; omega, ?_⟩
      rw [lineTile_shift g u t hz kt hwf.1 hcons ht]
      have : kt + (ky - kt) = ky := by ring
      rw [this]
      exact hy
    cases hz with
    | false =>
      obtain ⟨el, eh⟩ := IsMaximalSegment_unique g t false _ _ _ _ hsegt sv
      rw [← el, ← eh] at hqt hin
      exact Or.inl ⟨hqt, hin⟩
    | true =>
      obtain ⟨el, eh⟩ := IsMaximalSegment_unique g t true _ _ _ _ hsegt sh
      rw [← el, ← eh] at hqt hin
      exact Or.inr ⟨hqt, hin⟩
  refine ⟨res, e, (hmem x).mpr ?_⟩
  by_cases hk : kx = kt
  · right
    have hxt : x = t := by
      rw [hk, ht] at hx
      injection hx with hx
      exact hx.symm
    refine ⟨hxt, ?_⟩
    by_cases h0 : kt = (hi : Int)
    · obtain ⟨y, hy, _⟩ := hseg.1 (kt - 1) (by omega) (by omega)
      exact ⟨y, hother y (kt - 1) (by omega) (by omega) (by omega) hy⟩
    · obtain ⟨y, hy, _⟩ := hseg.1 (kt + 1) (by omega) (by omega)
      exact ⟨y, hother y (kt + 1) (by omega) (by omega) (by omega) hy⟩
  · left
    exact hother x kx hx1 hx2 hk hx

/-- A tile of the result of `FindNeighbors` in matching mode lies on a qualifying maximal
segment of at least two cells through the starting tile. -/
theorem found_on_segment (g : AGrid) (u x : TilePtr) (R : Int) (r : List TilePtr)
    (hwf : WellFormed g) (hon : OnBoard g u) (hR : 2 ≤ R)
    (hr : FindNeighbors g u true R = some r) (hx : x ∈ r) :
    ∃ (hz : Bool) (lo hi : Nat) (kx : Int), IsMaximalSegment g u hz lo hi ∧
      axisQualifies g hz R lo hi ∧ 1 ≤ lo + hi ∧ -(lo : Int) ≤ kx ∧ kx ≤ (hi : Int) ∧
      lineTile g u hz kx = some x := by
  obtain ⟨lov, hiv, loh, hih, res, sv, sh, e, hmem⟩ :=
    FindNeighbors_matching_mem g u R hwf hon hR
  rw [hr] at e
  injection e with e
  subst e
  have key : ∀ y, inQualifyingUnion g u R lov hiv loh hih y →
      ∃ (hz : Bool) (lo hi : Nat) (ky : Int), IsMaximalSegment g u hz lo hi ∧
        axisQualifies g hz R lo hi ∧ 1 ≤ lo + hi ∧ -(lo : Int) ≤ ky ∧ ky ≤ (hi : Int) ∧
        lineTile g u hz ky = some y := by
    rintro y (⟨q, k, hk, h1, h2, hl⟩ | ⟨q, k, hk, h1, h2, hl⟩)
    · exact ⟨false, lov, hiv, k, sv, q, by omega, h1, h2, hl⟩
    · exact ⟨true, loh, hih, k, sh, q, by omega, h1, h2, hl⟩
  rcases (hmem x).mp hx with h | ⟨hxu, y, hy⟩
  · exact key x h
  · obtain ⟨hz, lo, hi, ky, s, q, h2, _, _, _⟩ := key y hy
    refine ⟨hz, lo, hi, 0, s, q, h2, by omega, by omega, ?_⟩
    rw [hxu]
    exact lineTile_zero g u hz hwf hon

/-! ## Claim on the symmetry of run detection -/

/-- C38: on a consistent board of the data model, for a tile `s` placed on it and a run
length of at least 2, in matching mode: a tile `t` of the result of `FindNeighbors` from `s`
is placed on the board, and the result of `FindNeighbors` from `t` holds `s`. -/
theorem FindNeighbors_symm (g : AGrid) (s t : TilePtr) (R : Int) (rs : List TilePtr)
    (hwf : WellFormed g) (hcons : Consistent g) (hon : OnBoard g s) (hR : 2 ≤ R)
    (hrs : FindNeighbors g s true R = some rs) (ht : t ∈ rs) :
    OnBoard g t ∧ ∃ rt, FindNeighbors g t true R = some rt ∧ s ∈ rt := by
  obtain ⟨hz, lo, hi, kt, hseg, hq, htwo, h1, h2, hl⟩ :=
    found_on_segment g s t R rs hwf hon hR hrs ht
  exact ⟨onBoard_of_lineTile g s t hz kt hcons hl,
    segment_found g s t s hz lo hi kt 0 R hwf hcons hR hseg hq htwo h1 h2 hl (by omega)
      (by omega) (lineTile_zero g s hz hwf hon)⟩

/-- C38 on the board whose bottom row is a run: the tile at address 2 is in the run found
from the tile at address 0, and the tile at address 0 is in the run found from it. -/
theorem FindNeighbors_symm_witness :
    FindNeighbors runBoard 0 true 3 = some [1, 2, 0] ∧ 2 ∈ [1, 2, 0] ∧
      OnBoard runBoard 2 ∧ ∃ rt, FindNeighbors runBoard 2 true 3 = some rt ∧ 0 ∈ rt :=
  ⟨by decide, by decide,
    FindNeighbors_symm runBoard 0 2 3 [1, 2, 0]
      (plainBoard_wellFormed 3 3 3 _ (by decide) (by decide) (by decide))
      (plainBoard_consistent 3 3 3 _) (plainBoard_onBoard 3 3 3 _ 0 (by decide)) (by decide)
      (by decide) (by decide)⟩

/-! ## Claim on the completeness of the cascade check -/

/-- With a minimum run length that is not negative, the default run length of `FindNeighbors`
is the minimum run length. -/
theorem FindNeighbors_default (g : AGrid) (t : TilePtr) (must : Bool)
    (hR : 0 ≤ g.MinimumRunLength) :
    FindNeighbors g t must (-1) = FindNeighbors g t must g.MinimumRunLength := by
  unfold FindNeighbors
  have h1 : (-1 : Int) < 0 := by decide
  have h2 : ¬ g.MinimumRunLength < 0 := by omega
  simp only [h1, h2, if_true, if_false]

/-- C35: on a consistent board of the data model with a minimum run length of at least 2,
when the tiles to check are placed on the board and every qualifying maximal segment of
tiles of one type, on either axis, holds a tile to check, the loop of `RespawnTiles` over
the tiles to check returns a list that holds exactly the tiles found by `FindNeighbors` from
some tile to check, and these are exactly the tiles found by `FindNeighbors` from some tile
placed on the board. -/
theorem RespawnTiles_matches_complete (g : AGrid) (L : List TilePtr)
    (hwf : WellFormed g) (hcons : Consistent g) (hR : 2 ≤ g.MinimumRunLength)
    (hL : ∀ t ∈ L, OnBoard g t)
    (hcover : ∀ (u : TilePtr) (hz : Bool) (lo hi : Nat), OnBoard g u →
      IsMaximalSegment g u hz lo hi → axisQualifies g hz g.MinimumRunLength lo hi →
      ∃ t ∈ L, ∃ k : Int, -(lo : Int) ≤ k ∧ k ≤ (hi : Int) ∧ lineTile g u hz k = some t) :
    ∃ U : List TilePtr, RespawnTiles_matches g L [] = some U ∧
      (∀ x, x ∈ U ↔ ∃ t ∈ L, ∃ r, FindNeighbors g t true (-1) = some r ∧ x ∈ r) ∧
      (∀ x, x ∈ U ↔ ∃ u, OnBoard g u ∧ ∃ r, FindNeighbors g u true (-1) = some r ∧ x ∈ r) := by
  have htot : ∀ t ∈ L, ∃ r, FindNeighbors g t true (-1) = some r := fun t ht =>
    FindNeighbors_total g t true (-1) hwf.1 (valid_of_onBoard g t hwf (hL t ht))
  obtain ⟨U, hU, _, hmem⟩ := matches_spec g L [] List.nodup_nil htot
  have hmem' : ∀ x, x ∈ U ↔ ∃ t ∈ L, ∃ r, FindNeighbors g t true (-1) = some r ∧ x ∈ r := by
    intro x
    rw [hmem x]
    constructor
    · rintro (h | h)
      · cases h
      · exact h
    · intro h
      exact Or.inr h
  refine ⟨U, hU, hmem', ?_⟩
  intro x
  rw [hmem' x]
  constructor
  · rintro ⟨t, ht, r, hr, hx⟩
    exact ⟨t, hL t ht, r, hr, hx⟩
  · rintro ⟨u, hon, r, hr, hx⟩
    rw [FindNeighbors_default g u true (by omega)] at hr
    obtain ⟨hz, lo, hi, kx, hseg, hq, htwo, h1, h2, hl⟩ :=
      found_on_segment g u x g.MinimumRunLength r hwf hon hR hr hx
    obtain ⟨t, ht, kt, ht1, ht2, htl⟩ := hcover u hz lo hi hon hseg hq
    obtain ⟨rt, hrt, hxt⟩ := segment_found g u t x hz lo hi kt kx g.MinimumRunLength hwf hcons
      hR hseg hq htwo ht1 ht2 htl h1 h2 hl
    refine ⟨t, ht, rt, ?_, hxt⟩
    rw [FindNeighbors_default g t true (by omega)]
    exact hrt

/-- The ends of a maximal segment, read off the cells next to the tile. -/
theorem segment_ends (g : AGrid) (u : TilePtr) (hz : Bool) (lo hi : Nat)
    (hseg : IsMaximalSegment g u hz lo hi) :
    (¬ sameTypeAt g u hz 1 → hi = 0) ∧ (¬ sameTypeAt g u hz (-1) → lo = 0) ∧
      (sameTypeAt g u hz 1 → 1 ≤ hi) ∧ (sameTypeAt g u hz 1 → sameTypeAt g u hz 2 → 2 ≤ hi) ∧
      (sameTypeAt g u hz (-1) → 1 ≤ lo) := by
  obtain ⟨h1, h2, h3⟩ := hseg
  refine ⟨?_, ?_, ?_, ?_, ?_⟩
  · intro hn
    by_contra hne
    exact hn (h1 1 (by omega) (by omega))
  · intro hn
    by_contra hne
    exact hn (h1 (-1) (by omega) (by omega))
  · intro hs
    by_contra hne
    have e : hi = 0 := by omega
    subst e
    exact h3 hs
  · intro hs1 hs2
    by_contra hne
    have e : hi = 0 ∨ hi = 1 := by omega
    rcases e with e | e
    · subst e
      exact h3 hs1
    · subst e
      exact h3 hs2
  · intro hs
    by_contra hne
    have e : lo = 0 := by omega
    subst e
    exact h2 hs

/-- C35 on the board whose bottom row is a run, with the tile at address 2 to be checked:
the only qualifying segment is the bottom row, which holds the tile, and the loop returns
the three tiles of the row, which are the tiles found from any tile of the board. -/
theorem RespawnTiles_matches_complete_witness :
    ∃ U : List TilePtr, RespawnTiles_matches runBoard [2] [] = some U ∧ U = [1, 0, 2] ∧
      (∀ x, x ∈ U ↔ ∃ t ∈ [2], ∃ r, FindNeighbors runBoard t true (-1) = some r ∧ x ∈ r) ∧
      (∀ x, x ∈ U ↔
        ∃ u, OnBoard runBoard u ∧ ∃ r, FindNeighbors runBoard u true (-1) = some r ∧ x ∈ r) := by
  obtain ⟨U, hU, h1, h2⟩ := RespawnTiles_matches_complete runBoard [2]
    (plainBoard_wellFormed 3 3 3 _ (by decide) (by decide) (by decide))
    (plainBoard_consistent 3 3 3 _) (by decide)
    (fun t ht => by
      rw [List.mem_singleton.mp ht]
      exact plainBoard_onBoard 3 3 3 _ 2 (by decide))
    (by
      intro u hz lo hi hon hseg hq
      have hu : u < 9 := (plainBoard_slot 3 3 3 _ _ u hon).2
      obtain ⟨e1, e2, e3, e4, e5⟩ := segment_ends runBoard u hz lo hi hseg
      have hq' : (3 : Int) ≤ (lo : Int) + (hi : Int) + 1 := by
        unfold axisQualifies axisExtent at hq
        cases hz
        · exact le_trans (by decide) hq
        · exact le_trans (by decide) hq
      interval_cases u <;> cases hz <;>
        first
        | (exfalso
           have a := e1 (by decide)
           have b := e2 (by decide)
           omega)
        | (have a := e4 (by decide) (by decide)
           exact ⟨2, List.mem_singleton.mpr rfl, 2, by omega, by omega, by decide⟩)
        | (have a := e3 (by decide)
           exact ⟨2, List.mem_singleton.mpr rfl, 1, by omega, by omega, by decide⟩)
        | exact ⟨2, List.mem_singleton.mpr rfl, 0, by omega, by omega, by decide⟩)
  have e : U = [1, 0, 2] := Option.some.inj (hU.symm.trans (by decide))
  exact ⟨U, hU, e, h1, h2⟩

/-! ## Claim on run detection without type matching -/

/-- On a full board, a walk of `n` steps without type matching collects the tiles of the
on-grid cells 1 to `n` steps away. -/
theorem IsRun_free_mem (g : AGrid) (t : TilePtr) (hz : Bool) (d : Int) (n : Nat)
    (ts : List TilePtr) (hwf : WellFormed g) (hfull : FullyPopulated g)
    (hv : ValidAddress g (GetGridAddress g t)) (hd : d = 1 ∨ d = -1)
    (hrun : IsRun g t false hz d n ts) (x : TilePtr) :
    x ∈ ts ↔ ∃ k : Int, 1 ≤ k ∧ k ≤ (n : Int) ∧ lineTile g t hz (d * k) = some x := by
  rw [IsRun_mem g t false hz d n ts hrun x]
  constructor
  · rintro ⟨i, hi, hl⟩
    have := hrun.1
    exact ⟨1 + (i : Int), by omega, by omega, hl⟩
  · rintro ⟨k, hk1, hk2, hl⟩
    have hgrid := lineOnGrid_of_lineTile g t x hz (d * k) hl
    have hlen : k - 1 < (ts.length : Int) := by
      by_contra hcon
      have hlt : ts.length < n := by omega
      apply hrun.2.2 hlt
      have hg := lineOnGrid_mono g t hz d (1 + (ts.length : Int)) k hd (by omega) (by omega)
        hgrid (lineOnGrid_zero g t hz hwf.1 hv)
      obtain ⟨y, hy⟩ := lineTile_of_full g t hz _ hwf.1 hfull hg
      exact ⟨y, hy, Or.inl rfl⟩
    refine ⟨(k - 1).toNat, by omega, ?_⟩
    have e : d * (1 + ((k - 1).toNat : Int)) = d * k := by
      rw [Int.toNat_of_nonneg (by omega)]
      ring
    rw [e]
    exact hl

/-- C40: on a fully populated consistent board of the data model, for a tile placed on it and
a run length `n` of at least 2, `FindNeighbors` without type matching returns a list without
repetition that holds exactly the tile and the tiles of the on-grid cells 1 to `n - 1` steps
away along its row and along its column, in both directions; the list has at most
`4 * (n - 1) + 1` tiles.  With run length 1 the list is the tile alone, and so is the
explosion list of a bomb whose power in effect, `max 1 (BombPower + 1 + bonus)`, is 1. -/
theorem FindNeighbors_free_set (w : UWorld) (t : TilePtr) (n : Int)
    (hwf : WellFormed w.Grid) (hfull : FullyPopulated w.Grid) (hcons : Consistent w.Grid)
    (hon : OnBoard w.Grid t) (hn : 2 ≤ n) :
    (∃ res : List TilePtr, FindNeighbors w.Grid t false n = some res ∧ res.Nodup ∧
      (∀ x, x ∈ res ↔ x = t ∨ ∃ (hz : Bool) (d k : Int), (d = 1 ∨ d = -1) ∧ 1 ≤ k ∧
        k ≤ n - 1 ∧ lineTile w.Grid t hz (d * k) = some x) ∧
      (res.length : Int) ≤ 4 * (n - 1) + 1) ∧
    FindNeighbors w.Grid t false 1 = some [t] ∧
    (∀ gm : AMatch3GameMode, w.GameMode = some gm →
      (w.Grid.heap t).Abilities.CanExplode = true →
      max 1 ((w.Grid.heap t).Abilities.BombPower + 1 + CalculateBombPower w) = 1 →
      GetExplosionList w (some t) = some [t]) := by
  have hv := valid_of_onBoard w.Grid t hwf hon
  have hone : FindNeighbors w.Grid t false 1 = some [t] := by
    unfold FindNeighbors
    simp
  refine ⟨?_, hone, ?_⟩
  · obtain ⟨v1, v2, h1, h2, rv1, rv2, rh1, rh2, e⟩ :=
      FindNeighbors_spec w.Grid t false n hwf.1 hv hn
    simp only [keptOnAxis_free, Bool.not_false, Bool.or_true, if_true] at e
    have hsteps : ∀ hz, ((walkSteps w.Grid false n hz : Nat) : Int) = n - 1 := by
      intro hz
      unfold walkSteps
      simp only [Bool.not_false, if_true]
      exact Int.toNat_of_nonneg (by omega)
    have hnd := runs_nodup w.Grid t false _ _ v1 v2 h1 h2 hwf hcons hon rv1 rv2 rh1 rh2
    refine ⟨_, e, hnd, ?_, ?_⟩
    · intro x
      simp only [List.mem_append, List.mem_singleton]
      rw [IsRun_free_mem w.Grid t false (-1) _ v1 hwf hfull hv (Or.inr rfl) rv1 x,
        IsRun_free_mem w.Grid t false 1 _ v2 hwf hfull hv (Or.inl rfl) rv2 x,
        IsRun_free_mem w.Grid t true (-1) _ h1 hwf hfull hv (Or.inr rfl) rh1 x,
        IsRun_free_mem w.Grid t true 1 _ h2 hwf hfull hv (Or.inl rfl) rh2 x]
      rw [hsteps false, hsteps true]
      constructor
      · rintro (((⟨k, a, b, c⟩ | ⟨k, a, b, c⟩) | (⟨k, a, b, c⟩ | ⟨k, a, b, c⟩)) | h)
        · exact Or.inr ⟨false, -1, k, Or.inr rfl, a, b, c⟩
        · exact Or.inr ⟨false, 1, k, Or.inl rfl, a, b, c⟩
        · exact Or.inr ⟨true, -1, k, Or.inr rfl, a, b, c⟩
        · exact Or.inr ⟨true, 1, k, Or.inl rfl, a, b, c⟩
        · exact Or.inl h
      · rintro (h | ⟨hz, d, k, hd, a, b, c⟩)
        · exact Or.inr h
        · left
          cases hz with
          | false =>
            left
            rcases hd with rfl | rfl
            · exact Or.inr ⟨k, a, b, c⟩
            · exact Or.inl ⟨k, a, b, c⟩
          | true =>
            right
            rcases hd with rfl | rfl
            · exact Or.inr ⟨k, a, b, c⟩
            · exact Or.inl ⟨k, a, b, c⟩
    · have a1 := rv1.1
      have a2 := rv2.1
      have a3 := rh1.1
      have a4 := rh2.1
      have s1 := hsteps false
      have s2 := hsteps true
      simp only [List.length_append, List.length_singleton]
      push_cast
      omega
  · intro gm hgm hex hmax
    unfold GetExplosionList
    simp only [hex, not_true_eq_false, if_false, hgm, FMath_Max_eq, hmax]
    exact hone

/-- C40 for the bomb in the centre of the 3 x 3 board: with run length 2 the list holds the
bomb and its four neighbours, and with run length 1 the bomb alone. -/
theorem FindNeighbors_free_set_witness :
    (∃ res : List TilePtr, FindNeighbors bombWorld.Grid 4 false 2 = some res ∧
      res = [1, 7, 3, 5, 4] ∧ res.Nodup ∧
      (∀ x, x ∈ res ↔ x = 4 ∨ ∃ (hz : Bool) (d k : Int), (d = 1 ∨ d = -1) ∧ 1 ≤ k ∧
        k ≤ 2 - 1 ∧ lineTile bombWorld.Grid 4 hz (d * k) = some x) ∧
      (res.length : Int) ≤ 4 * (2 - 1) + 1) ∧
    FindNeighbors bombWorld.Grid 4 false 1 = some [4] := by
  have T := FindNeighbors_free_set bombWorld 4 2
    (plainBoard_wellFormed 3 3 3 [1, 2, 3, 4, 0, 5, 6, 7, 8] (by decide) (by decide) rfl)
    (plainBoard_full 3 3 3 [1, 2, 3, 4, 0, 5, 6, 7, 8] rfl)
    (plainBoard_consistent 3 3 3 [1, 2, 3, 4, 0, 5, 6, 7, 8])
    (plainBoard_onBoard 3 3 3 [1, 2, 3, 4, 0, 5, 6, 7, 8] 4 (by decide)) (by decide)
  obtain ⟨⟨res, e, hnd, hmem, hlen⟩, hone, _⟩ := T
  exact ⟨⟨res, e, Option.some.inj (e.symm.trans (by decide)), hnd, hmem, hlen⟩, hone⟩

/-! ## Claim on the assertions of the match execution -/

/-! ## The landing address of a fall -/

theorem fallingCount_succ (g : AGrid) (c lo : Int) (n : Nat) :
    fallingCount g c lo (n + 1) = fallingCount g c lo n +
      (match GetTileFromGridAddress g (c + (lo + (n : Int)) * g.GridWidth) with
        | some u => if (g.heap u).TileState = ETileState.ETS_Falling then 1 else 0
        | none => 0) := by
  unfold fallingCount
  rw [List.range_succ, List.filter_append, List.length_append]
  congr 1
  cases h : GetTileFromGridAddress g (c + (lo + (n : Int)) * g.GridWidth) with
  | none => simp [List.filter, h]
  | some u =>
    by_cases hs : (g.heap u).TileState = ETileState.ETS_Falling
    · simp [List.filter, h, hs]
    · simp [List.filter, h, hs]

theorem fallingCount_le (g : AGrid) (c lo : Int) (n : Nat) : fallingCount g c lo n ≤ n := by
  unfold fallingCount
  exact (List.length_filter_le _ _).trans (by rw [List.length_range])

/-- The end of the scan of `StartFalling`: the landing cell lies `HeightAboveBottom` rows
above the row at which the scan stopped. -/
theorem StartFalling_stop_eq (g : AGrid) (T : TilePtr) (Y Hab : Int) (hW : 0 < g.GridWidth)
    (hv : ValidAddress g (GetGridAddress g T)) (h1 : Hab ≤ Y)
    (h2 : Y - Hab ≤ GetGridAddress g T / g.GridWidth) :
    StartFalling_stop g T Y Hab = Outcome.done (GetGridAddress g T - (Y - Hab) * g.GridWidth) := by
  obtain ⟨hr0, hr1, hc0, hc1, hd⟩ :=
    coords_of_valid g.GridWidth g.GridHeight (GetGridAddress g T) hW hv.1 hv.2
  unfold StartFalling_stop
  rw [offset_eq g _ 0 (-(Y - Hab)) hW hv.1 hv.2, if_pos ⟨by omega, by omega, by omega, by omega⟩]
  simp only [Outcome.done.injEq]
  ring

/-- The scan of `StartFalling` from a pass on: with `m` rows left above the row `s` at which
it stops, it returns the cell of the column in the row `s` plus the height above the bottom
plus the number of falling tiles in the rows left. -/
theorem StartFalling_scan_spec (g : AGrid) (T : TilePtr) (s : Int) (hW : 0 < g.GridWidth)
    (hv : ValidAddress g (GetGridAddress g T)) (hs : -1 ≤ s)
    (hstop : s = -1 ∨ staysAt g (GetGridAddress g T % g.GridWidth + s * g.GridWidth))
    (hpass : ∀ j : Int, s < j → j < GetGridAddress g T / g.GridWidth →
      ¬ staysAt g (GetGridAddress g T % g.GridWidth + j * g.GridWidth)) :
    ∀ (m n : Nat) (Y Hab : Int), 0 ≤ Y → 1 ≤ Hab → Hab ≤ Y + 1 →
      Y + (m : Int) + 1 = GetGridAddress g T / g.GridWidth - s → m < n →
      StartFalling_scan g T n Y Hab = Outcome.done
        (GetGridAddress g T % g.GridWidth +
          (s + Hab + (fallingCount g (GetGridAddress g T % g.GridWidth) (s + 1) m : Int)) *
            g.GridWidth) := by
  obtain ⟨hr0, hr1, hc0, hc1, hd⟩ :=
    coords_of_valid g.GridWidth g.GridHeight (GetGridAddress g T) hW hv.1 hv.2
  intro m
  induction m with
  | zero =>
    intro n Y Hab hY hH1 hH2 hm hn
    obtain ⟨n', rfl⟩ : ∃ n', n = n' + 1 := ⟨n - 1, by omega⟩
    simp only [Nat.cast_zero, add_zero] at hm
    have hfc : fallingCount g (GetGridAddress g T % g.GridWidth) (s + 1) 0 = 0 := rfl
    rw [hfc]
    have hres : StartFalling_stop g T (Y + 1) Hab = Outcome.done
        (GetGridAddress g T % g.GridWidth + (s + Hab + ((0 : Nat) : Int)) * g.GridWidth) := by
      rw [StartFalling_stop_eq g T (Y + 1) Hab hW hv (by omega) (by omega)]
      simp only [Outcome.done.injEq, Nat.cast_zero, add_zero]
      have e1 : (Y + 1 - Hab) * g.GridWidth =
          (GetGridAddress g T / g.GridWidth) * g.GridWidth - (s + Hab) * g.GridWidth := by
        have : Y + 1 - Hab = GetGridAddress g T / g.GridWidth - (s + Hab) := by omega
        rw [this]
        ring
      have e2 : g.GridWidth * (GetGridAddress g T / g.GridWidth) =
          (GetGridAddress g T / g.GridWidth) * g.GridWidth := by ring
      omega
    unfold StartFalling_scan
    rw [offset_eq g _ 0 (-(Y + 1)) hW hv.1 hv.2]
    rcases hstop with hneg | hst
    · rw [if_neg (by omega)]
      exact hres
    · have hs0 : 0 ≤ s := by
        by_contra hcon
        have e : s = -1 := by omega
        obtain ⟨u, hu, _⟩ := hst
        rw [e] at hu
        unfold GetTileFromGridAddress at hu
        rw [if_neg (by
          have : (-1 : Int) * g.GridWidth = -g.GridWidth := by ring
          omega)] at hu
        cases hu
      rw [if_pos ⟨by omega, by omega, by omega, by omega⟩]
      simp only
      obtain ⟨u, hu, hnf, hnp⟩ := hst
      have ea : GetGridAddress g T + 0 + -(Y + 1) * g.GridWidth =
          GetGridAddress g T % g.GridWidth + s * g.GridWidth := by
        have e1 : -(Y + 1) * g.GridWidth =
            s * g.GridWidth - (GetGridAddress g T / g.GridWidth) * g.GridWidth := by
          have : -(Y + 1) = s - GetGridAddress g T / g.GridWidth := by omega
          rw [this]
          ring
        have e2 : g.GridWidth * (GetGridAddress g T / g.GridWidth) =
            (GetGridAddress g T / g.GridWidth) * g.GridWidth := by ring
        omega
      rw [ea, hu]
      simp only
      rw [if_neg hnf, if_neg hnp]
      exact hres
  | succ m ih =>
    intro n Y Hab hY hH1 hH2 hm hn
    obtain ⟨n', rfl⟩ : ∃ n', n = n' + 1 := ⟨n - 1, by omega⟩
    push_cast at hm
    unfold StartFalling_scan
    rw [offset_eq g _ 0 (-(Y + 1)) hW hv.1 hv.2,
      if_pos ⟨by omega, by omega, by omega, by omega⟩]
    simp only
    have ea : GetGridAddress g T + 0 + -(Y + 1) * g.GridWidth =
        GetGridAddress g T % g.GridWidth + (s + 1 + (m : Int)) * g.GridWidth := by
      have e1 : -(Y + 1) * g.GridWidth =
          (s + 1 + (m : Int)) * g.GridWidth -
            (GetGridAddress g T / g.GridWidth) * g.GridWidth := by
        have : -(Y + 1) = (s + 1 + (m : Int)) - GetGridAddress g T / g.GridWidth := by omega
        rw [this]
        ring
      have e2 : g.GridWidth * (GetGridAddress g T / g.GridWidth) =
          (GetGridAddress g T / g.GridWidth) * g.GridWidth := by ring
      omega
    rw [ea, fallingCount_succ]
    have hns := hpass (s + 1 + (m : Int)) (by omega) (by omega)
    cases hu : GetTileFromGridAddress g
        (GetGridAddress g T % g.GridWidth + (s + 1 + (m : Int)) * g.GridWidth) with
    | none =>
      simp only
      rw [ih n' (Y + 1) Hab (by omega) hH1 (by omega) (by omega) (by omega)]
      simp
    | some u =>
      simp only
      by_cases hf : (g.heap u).TileState = ETileState.ETS_Falling
      · rw [if_pos hf, if_pos hf]
        rw [ih n' (Y + 1) (Hab + 1) (by omega) (by omega) (by omega) (by omega) (by omega)]
        simp only [Outcome.done.injEq]
        push_cast
        ring
      · rw [if_neg hf, if_neg hf]
        have hp : (g.heap u).TileState = ETileState.ETS_PendingDelete := by
          by_contra hnp
          exact hns ⟨u, hu, hf, hnp⟩
        rw [if_pos hp]
        rw [ih n' (Y + 1) Hab (by omega) hH1 (by omega) (by omega) (by omega)]
        simp

/-- Below every row of a column there is a nearest cell that holds a staying tile, or none
at all. -/
theorem stop_row_exists (g : AGrid) (c : Int) :
    ∀ k : Nat, ∃ s : Int, -1 ≤ s ∧ s < (k : Int) ∧
      (s = -1 ∨ staysAt g (c + s * g.GridWidth)) ∧
      ∀ j : Int, s < j → j < (k : Int) → ¬ staysAt g (c + j * g.GridWidth) := by
  intro k
  induction k with
  | zero =>
    exact ⟨-1, le_refl _, by decide, Or.inl rfl, fun j h1 h2 => by
      simp only [Nat.cast_zero] at h2
      omega⟩
  | succ k ih =>
    by_cases hk : staysAt g (c + (k : Int) * g.GridWidth)
    · exact ⟨k, by omega, by push_cast; omega, Or.inr hk, fun j h1 h2 => by
        push_cast at h2
        omega⟩
    · obtain ⟨s, h1, h2, h3, h4⟩ := ih
      refine ⟨s, h1, by push_cast; omega, h3, ?_⟩
      intro j hj1 hj2
      push_cast at hj2
      by_cases e : j = (k : Int)
      · rw [e]
        exact hk
      · exact h4 j hj1 (by omega)

/-! ## Claim on the landing address of a fall -/

/-- C31: on a grid of the data model, for a tile at a valid address, in column `c` and row
`r`, and a bound on the passes of at least the height of the grid.  There is a row `s` below
`r` that is the row of the nearest cell below holding a staying tile (neither falling nor
pending delete), or -1 when no cell below holds one.  For such a row `s`, with `f` the
number of falling tiles in the rows strictly between `s` and `r`, the scan of `StartFalling`
returns the address of column `c` in row `s + 1 + f`, a valid address whose row is at most
`r`, and `StartFalling` keeps it in the tile as landing address and requests the fall. -/
theorem StartFalling_landing (fuel : Nat) (w : UWorld) (T : TilePtr)
    (hwf : WellFormed w.Grid) (hv : ValidAddress w.Grid (GetGridAddress w.Grid T))
    (hfuel : w.Grid.GridHeight ≤ fuel) :
    (∃ s : Int, -1 ≤ s ∧ s < rowOf w.Grid (GetGridAddress w.Grid T) ∧
      (s = -1 ∨ staysAt w.Grid (colOf w.Grid (GetGridAddress w.Grid T) + s * w.Grid.GridWidth)) ∧
      ∀ j : Int, s < j → j < rowOf w.Grid (GetGridAddress w.Grid T) →
        ¬ staysAt w.Grid (colOf w.Grid (GetGridAddress w.Grid T) + j * w.Grid.GridWidth)) ∧
    ∀ s : Int, -1 ≤ s → s < rowOf w.Grid (GetGridAddress w.Grid T) →
      (s = -1 ∨ staysAt w.Grid (colOf w.Grid (GetGridAddress w.Grid T) + s * w.Grid.GridWidth)) →
      (∀ j : Int, s < j → j < rowOf w.Grid (GetGridAddress w.Grid T) →
        ¬ staysAt w.Grid (colOf w.Grid (GetGridAddress w.Grid T) + j * w.Grid.GridWidth)) →
      ∃ (f : Nat) (L : Int),
        f = fallingCount w.Grid (colOf w.Grid (GetGridAddress w.Grid T)) (s + 1)
          (rowOf w.Grid (GetGridAddress w.Grid T) - s - 1).toNat ∧
        L = colOf w.Grid (GetGridAddress w.Grid T) + (s + 1 + (f : Int)) * w.Grid.GridWidth ∧
        StartFalling_scan w.Grid T fuel 0 1 = Outcome.done L ∧
        StartFalling fuel w T false = Outcome.done (Emit
          { w with Grid := SetLandingGridAddress w.Grid T L }
          (FEvent.StartFalling T false L)) ∧
        0 ≤ s + 1 + (f : Int) ∧ s + 1 + (f : Int) ≤ rowOf w.Grid (GetGridAddress w.Grid T) ∧
        ValidAddress w.Grid L ∧ colOf w.Grid L = colOf w.Grid (GetGridAddress w.Grid T) ∧
        rowOf w.Grid L = s + 1 + (f : Int) := by
  obtain ⟨hW, hH, hlen⟩ := hwf
  obtain ⟨hr0, hr1, hc0, hc1, hd⟩ :=
    coords_of_valid w.Grid.GridWidth w.Grid.GridHeight (GetGridAddress w.Grid T) hW hv.1 hv.2
  constructor
  · obtain ⟨s, h1, h2, h3, h4⟩ := stop_row_exists w.Grid
      (colOf w.Grid (GetGridAddress w.Grid T)) (rowOf w.Grid (GetGridAddress w.Grid T)).toNat
    have e : (((rowOf w.Grid (GetGridAddress w.Grid T)).toNat : Nat) : Int) =
        rowOf w.Grid (GetGridAddress w.Grid T) := Int.toNat_of_nonneg hr0
    rw [e] at h2 h4
    exact ⟨s, h1, h2, h3, h4⟩
  · intro s hs1 hs2 hstop hpass
    simp only [colOf, rowOf] at hs2 hstop hpass ⊢
    have hle := fallingCount_le w.Grid (GetGridAddress w.Grid T % w.Grid.GridWidth) (s + 1)
      (GetGridAddress w.Grid T / w.Grid.GridWidth - s - 1).toNat
    have hscan := StartFalling_scan_spec w.Grid T s hW hv hs1 hstop hpass
      (GetGridAddress w.Grid T / w.Grid.GridWidth - s - 1).toNat fuel 0 1 (le_refl 0)
      (le_refl 1) (by omega) (by omega) (by omega)
    refine ⟨_, _, rfl, rfl, hscan, ?_, by omega, by omega, ?_, ?_, ?_⟩
    · unfold StartFalling
      simp only [Bool.not_false, if_true]
      rw [hscan]
      rfl
    · have h1 : 0 ≤ (s + 1 + (fallingCount w.Grid (GetGridAddress w.Grid T % w.Grid.GridWidth)
          (s + 1) (GetGridAddress w.Grid T / w.Grid.GridWidth - s - 1).toNat : Int)) *
          w.Grid.GridWidth := Int.mul_nonneg (by omega) (le_of_lt hW)
      have h2 : (s + 1 + (fallingCount w.Grid (GetGridAddress w.Grid T % w.Grid.GridWidth)
          (s + 1) (GetGridAddress w.Grid T / w.Grid.GridWidth - s - 1).toNat : Int)) *
          w.Grid.GridWidth ≤ (w.Grid.GridHeight - 1) * w.Grid.GridWidth :=
        Int.mul_le_mul_of_nonneg_right (by omega) (le_of_lt hW)
      have h3 : w.Grid.GridWidth * w.Grid.GridHeight =
          (w.Grid.GridHeight - 1) * w.Grid.GridWidth + w.Grid.GridWidth := by ring
      unfold ValidAddress
      constructor
      · omega
      · omega
    · rw [Int.add_mul_emod_self]
      exact Int.emod_emod_of_dvd _ (dvd_refl _)
    · rw [Int.add_mul_ediv_right _ _ (ne_of_gt hW)]
      have : GetGridAddress w.Grid T % w.Grid.GridWidth / w.Grid.GridWidth = 0 :=
        Int.ediv_eq_zero_of_lt hc0 hc1
      omega

/-- C31 on the board with the empty cell 0 and the falling tiles 3 and 6 above it, for the
tile 6 in row 2: no cell below holds a staying tile, one falling tile lies below, and the
landing address is 3, in row 1. -/
theorem StartFalling_landing_witness :
    WellFormed fallingWorld.Grid ∧
      ValidAddress fallingWorld.Grid (GetGridAddress fallingWorld.Grid 6) ∧
      rowOf fallingWorld.Grid (GetGridAddress fallingWorld.Grid 6) = 2 ∧
      ∃ (f : Nat) (L : Int), f = 1 ∧ L = 3 ∧
        StartFalling_scan fallingWorld.Grid 6 3 0 1 = Outcome.done L ∧
        rowOf fallingWorld.Grid L = -1 + 1 + (f : Int) := by
  have hwf : WellFormed fallingWorld.Grid :=
    plainBoard_wellFormed 3 3 3 [1, 2, 3, 4, 5, 6, 7, 8, 9] (by decide) (by decide) rfl
  have hv : ValidAddress fallingWorld.Grid (GetGridAddress fallingWorld.Grid 6) :=
    ⟨by decide, by decide⟩
  obtain ⟨f, L, hf, hL, hscan, _, _, _, _, _, hrow⟩ :=
    (StartFalling_landing 3 fallingWorld 6 hwf hv (by decide)).2 (-1) (le_refl _) (by decide)
      (Or.inl rfl) (fun j h1 h2 => by
        have h3 : j < 2 := h2
        interval_cases j <;> decide)
  have ef : f = 1 := hf.trans (by decide)
  have eL : L = 3 := by
    rw [hL, ef]
    decide
  exact ⟨hwf, hv, by decide, f, L, ef, eL, hscan, hrow⟩

/-! ## Gravity: the surviving tiles of a column -/

theorem survivorsBelow_le (g : AGrid) (M : List TilePtr) (c : Int) :
    ∀ k : Nat, survivorsBelow g M c k ≤ k := by
  intro k
  induction k with
  | zero => exact le_refl 0
  | succ k ih =>
    unfold survivorsBelow
    cases GetTileFromGridAddress g (c + (k : Int) * g.GridWidth) with
    | none =>
      simp only
      omega
    | some v =>
      simp only
      split_ifs <;> omega

theorem survivorsBelow_mono (g : AGrid) (M : List TilePtr) (c : Int) :
    ∀ k k' : Nat, k ≤ k' → survivorsBelow g M c k ≤ survivorsBelow g M c k' := by
  intro k k' h
  induction k' with
  | zero =>
    have e : k = 0 := by omega
    rw [e]
  | succ k' ih =>
    by_cases e : k = k' + 1
    · rw [e]
    · have h1 := ih (by omega)
      have h2 : survivorsBelow g M c k' ≤ survivorsBelow g M c (k' + 1) := by
        conv_rhs => unfold survivorsBelow
        exact Nat.le_add_right _ _
      exact le_trans h1 h2

/-- A surviving tile counts for the rows above it. -/
theorem survivorsBelow_step (g : AGrid) (M : List TilePtr) (c : Int) (k : Nat) (v : TilePtr)
    (hv : GetTileFromGridAddress g (c + (k : Int) * g.GridWidth) = some v) (hM : v ∉ M) :
    survivorsBelow g M c (k + 1) = survivorsBelow g M c k + 1 := by
  conv_lhs => unfold survivorsBelow
  rw [hv]
  simp only [hM, if_false]

theorem survivorsBelow_strict (g : AGrid) (M : List TilePtr) (c : Int) (k k' : Nat)
    (v : TilePtr) (hv : GetTileFromGridAddress g (c + (k : Int) * g.GridWidth) = some v)
    (hM : v ∉ M) (h : k < k') : survivorsBelow g M c k < survivorsBelow g M c k' := by
  have h1 := survivorsBelow_step g M c k v hv hM
  have h2 := survivorsBelow_mono g M c (k + 1) k' h
  omega

/-- Every number below the count of the surviving tiles is the count below one of them. -/
theorem survivorsBelow_surj (g : AGrid) (M : List TilePtr) (c : Int) :
    ∀ (k j : Nat), j < survivorsBelow g M c k →
      ∃ (k' : Nat) (v : TilePtr), k' < k ∧
        GetTileFromGridAddress g (c + (k' : Int) * g.GridWidth) = some v ∧ v ∉ M ∧
        survivorsBelow g M c k' = j := by
  intro k
  induction k with
  | zero =>
    intro j hj
    exact absurd hj (Nat.not_lt_zero j)
  | succ k ih =>
    intro j hj
    by_cases hlt : j < survivorsBelow g M c k
    · obtain ⟨k', v, h1, h2, h3, h4⟩ := ih j hlt
      exact ⟨k', v, by omega, h2, h3, h4⟩
    · unfold survivorsBelow at hj
      revert hj
      cases hv : GetTileFromGridAddress g (c + (k : Int) * g.GridWidth) with
      | none =>
        simp only
        intro hj
        omega
      | some v =>
        simp only
        intro hj
        by_cases hM : v ∈ M
        · rw [if_pos hM] at hj
          omega
        · rw [if_neg hM] at hj
          exact ⟨k, v, Nat.lt_succ_self k, hv, hM, by omega⟩

/-- When every cell below row `k` holds a surviving tile, the count is `k`. -/
theorem survivorsBelow_all (g : AGrid) (M : List TilePtr) (c : Int) :
    ∀ k : Nat, (∀ j : Nat, j < k →
        ∃ v, GetTileFromGridAddress g (c + (j : Int) * g.GridWidth) = some v ∧ v ∉ M) →
      survivorsBelow g M c k = k := by
  intro k
  induction k with
  | zero =>
    intro _
    rfl
  | succ k ih =>
    intro h
    obtain ⟨v, hv, hM⟩ := h k (Nat.lt_succ_self k)
    rw [survivorsBelow_step g M c k v hv hM, ih (fun j hj => h j (by omega))]

/-- The rising loop keeps the falling set that it found and every tile that it does not
put there. -/
theorem rise_other (M : List TilePtr) (T : TilePtr) :
    ∀ (n : Nat) (y : Int) (g g' : AGrid), ExecuteMatch_rise M T n y g = some g' →
      (∀ u ∈ g.FallingTiles, u ∈ g'.FallingTiles) ∧
        ∀ u, u ∉ g'.FallingTiles → g'.heap u = g.heap u := by
  intro n
  induction n with
  | zero =>
    intro y g g' h
    simp only [ExecuteMatch_rise, Option.some.injEq] at h
    subst h
    exact ⟨fun _ h => h, fun _ _ => rfl⟩
  | succ n ih =>
    intro y g g' h
    unfold ExecuteMatch_rise at h
    cases ho : GetGridAddressWithOffset g (GetGridAddress g T) 0 y with
    | none => rw [ho] at h; cases h
    | some p =>
      obtain ⟨ok, a⟩ := p
      rw [ho] at h
      cases ok with
      | false =>
        simp only at h
        exact ih (y + 1) g g' h
      | true =>
        simp only at h
        cases hu : GetTileFromGridAddress g a with
        | none =>
          rw [hu] at h
          simp only [Option.some.injEq] at h
          subst h
          exact ⟨fun _ h => h, fun _ _ => rfl⟩
        | some up =>
          rw [hu] at h
          simp only at h
          by_cases hm : up ∈ M
          · rw [if_neg (by simpa using hm)] at h
            simp only [Option.some.injEq] at h
            subst h
            exact ⟨fun _ h => h, fun _ _ => rfl⟩
          · rw [if_pos hm] at h
            split_ifs at h with hc
            obtain ⟨h1, h2⟩ := ih (y + 1) _ g' h
            have hin : up ∈ g'.FallingTiles :=
              h1 up (List.mem_append_right _ (List.mem_singleton_self up))
            refine ⟨fun u hu => h1 u (List.mem_append_left _ hu), ?_⟩
            intro u hu
            rw [h2 u hu]
            have hne : u ≠ up := fun e => hu (e ▸ hin)
            simp only [SetTileState, Function.update_noteq hne]

/-- The marking loop keeps every tile that is neither in the list it goes through nor in the
falling set at its end. -/
theorem mark_other (M : List TilePtr) :
    ∀ (L : List TilePtr) (g g' : AGrid), ExecuteMatch_mark M L g = some g' →
      (∀ u ∈ g.FallingTiles, u ∈ g'.FallingTiles) ∧
        ∀ u, u ∉ L → u ∉ g'.FallingTiles → g'.heap u = g.heap u := by
  intro L
  induction L with
  | nil =>
    intro g g' h
    simp only [ExecuteMatch_mark, Option.some.injEq] at h
    subst h
    exact ⟨fun _ h => h, fun _ _ _ => rfl⟩
  | cons T L ih =>
    intro g g' h
    unfold ExecuteMatch_mark at h
    cases hr : ExecuteMatch_rise M T (g.GridHeight - 1).toNat 1 g with
    | none => rw [hr] at h; cases h
    | some g1 =>
      rw [hr] at h
      simp only at h
      obtain ⟨f1, k1⟩ := rise_other M T _ _ g g1 hr
      obtain ⟨f2, k2⟩ := ih _ g' h
      refine ⟨fun u hu => f2 u (f1 u hu), ?_⟩
      intro u huL huF
      have hne : u ≠ T := fun e => huL (e ▸ List.mem_cons_self _ _)
      have huL' : u ∉ L := fun e => huL (List.mem_cons_of_mem _ e)
      rw [k2 u huL' huF]
      simp only [SetTileState, Function.update_noteq hne]
      exact k1 u (fun e => huF (f2 u e))

/-! ## Gravity: the landing addresses after a match -/

/-- The scan of `StartFalling` does not read the landing addresses. -/
theorem StartFalling_scan_congr (g g' : AGrid) (h : sameButLanding g g') (T : TilePtr) :
    ∀ (n : Nat) (Y Hab : Int),
      StartFalling_scan g' T n Y Hab = StartFalling_scan g T n Y Hab := by
  obtain ⟨hW, hH, _, hG, _, _, _, _, _, _, _, _, _, sh⟩ := h
  have hA : GetGridAddress g' T = GetGridAddress g T := (sh T).2.2.2
  have hO := offset_congr g g' hW hH
  have hS := getTile_congr g g' hG
  have hst : ∀ t, (g'.heap t).TileState = (g.heap t).TileState := fun t => (sh t).2.1
  intro n
  induction n with
  | zero =>
    intro Y Hab
    rfl
  | succ n ih =>
    intro Y Hab
    simp only [StartFalling_scan, StartFalling_stop, hA, hO, hS, hst, ih]

/-- The loop of fall requests in normal-fall mode keeps in every tile of the list the landing
address that the scan finds on the grid at the start of the loop. -/
theorem StartFalling_all_landings (fuel : Nat) (w0 : UWorld) :
    ∀ (l : List TilePtr) (w : UWorld), sameButLanding w0.Grid w.Grid →
      (∀ t ∈ l, ∃ L, StartFalling_scan w0.Grid t fuel 0 1 = Outcome.done L) →
      ∃ w', StartFalling_all fuel false l w = Outcome.done w' ∧
        (∀ t ∈ l, StartFalling_scan w0.Grid t fuel 0 1 =
          Outcome.done (w'.Grid.heap t).LandingGridAddress) ∧
        (∀ t, t ∉ l → w'.Grid.heap t = w.Grid.heap t) := by
  intro l
  induction l with
  | nil =>
    intro w _ _
    exact ⟨w, rfl, fun _ h => absurd h (List.not_mem_nil _), fun _ _ => rfl⟩
  | cons T l ih =>
    intro w hs hl
    obtain ⟨L, hL⟩ := hl T (List.mem_cons_self _ _)
    have hL' : StartFalling_scan w.Grid T fuel 0 1 = Outcome.done L := by
      rw [StartFalling_scan_congr w0.Grid w.Grid hs T fuel 0 1]
      exact hL
    have h1 : StartFalling fuel w T false = Outcome.done (Emit
        { w with Grid := SetLandingGridAddress w.Grid T L }
        (FEvent.StartFalling T false L)) := by
      unfold StartFalling
      simp only [Bool.not_false, if_true, hL']
      rfl
    obtain ⟨w', hrun, hland, hrest⟩ := ih (Emit
        { w with Grid := SetLandingGridAddress w.Grid T L }
        (FEvent.StartFalling T false L))
      (sameButLanding_trans _ _ _ hs (sameButLanding_set w.Grid T L))
      (fun t ht => hl t (List.mem_cons_of_mem _ ht))
    refine ⟨w', ?_, ?_, ?_⟩
    · unfold StartFalling_all
      rw [h1]
      exact hrun
    · intro t ht
      by_cases htl : t ∈ l
      · exact hland t htl
      · have e : t = T := by
          rcases List.mem_cons.mp ht with h | h
          · exact h
          · exact absurd h htl
        subst e
        rw [hrest t htl, hL]
        simp [Emit, SetLandingGridAddress]
    · intro t ht
      rw [List.mem_cons, not_or] at ht
      rw [hrest t ht.2]
      simp only [Emit, SetLandingGridAddress]
      rw [Function.update_noteq ht.1]

/-- The column and the row of the cell of column `c` in row `j`. -/
theorem cell_coords (g : AGrid) (hW : 0 < g.GridWidth) (c j : Int) (hc0 : 0 ≤ c)
    (hc1 : c < g.GridWidth) :
    (c + j * g.GridWidth) % g.GridWidth = c ∧ (c + j * g.GridWidth) / g.GridWidth = j := by
  constructor
  · rw [Int.add_mul_emod_self]
    exact Int.emod_eq_of_lt hc0 hc1
  · rw [Int.add_mul_ediv_right _ _ (ne_of_gt hW), Int.ediv_eq_zero_of_lt hc0 hc1]
    omega

theorem cell_valid (g : AGrid) (hW : 0 < g.GridWidth) (c j : Int) (hc0 : 0 ≤ c)
    (hc1 : c < g.GridWidth) (hj0 : 0 ≤ j) (hj1 : j < g.GridHeight) :
    ValidAddress g (c + j * g.GridWidth) := by
  constructor
  · have := mul_nonneg hj0 (le_of_lt hW)
    omega
  · have h1 : (j + 1) * g.GridWidth ≤ g.GridHeight * g.GridWidth :=
      mul_le_mul_of_nonneg_right (by omega) (le_of_lt hW)
    have h2 : g.GridHeight * g.GridWidth = g.GridWidth * g.GridHeight := mul_comm _ _
    have h3 : (j + 1) * g.GridWidth = j * g.GridWidth + g.GridWidth := by ring
    omega

/-- Every valid address is the cell of its column in its row. -/
theorem cell_of_valid (g : AGrid) (hW : 0 < g.GridWidth) (a : Int) (hv : ValidAddress g a) :
    0 ≤ colOf g a ∧ colOf g a < g.GridWidth ∧ 0 ≤ rowOf g a ∧ rowOf g a < g.GridHeight ∧
      a = colOf g a + rowOf g a * g.GridWidth := by
  obtain ⟨hr0, hr1, hc0, hc1, hd⟩ := coords_of_valid g.GridWidth g.GridHeight a hW hv.1 hv.2
  refine ⟨hc0, hc1, hr0, hr1, ?_⟩
  unfold colOf rowOf
  rw [mul_comm] at hd
  exact hd.symm

/-- The tile in a cell of a fully populated consistent board, with its coordinates. -/
theorem tile_at_cell (g : AGrid) (hwf : WellFormed g) (hfull : FullyPopulated g)
    (hcons : Consistent g) (c : Int) (hc0 : 0 ≤ c) (hc1 : c < g.GridWidth) (j : Nat)
    (hj : (j : Int) < g.GridHeight) :
    ∃ v, GetTileFromGridAddress g (c + (j : Int) * g.GridWidth) = some v ∧
      GetGridAddress g v = c + (j : Int) * g.GridWidth ∧
      colOf g (GetGridAddress g v) = c ∧ rowOf g (GetGridAddress g v) = (j : Int) := by
  have hv := cell_valid g hwf.1 c j hc0 hc1 (Int.natCast_nonneg j) hj
  cases h : GetTileFromGridAddress g (c + (j : Int) * g.GridWidth) with
  | none => exact absurd h (hfull _ hv)
  | some v =>
    have e := hcons _ v h
    obtain ⟨e1, e2⟩ := cell_coords g hwf.1 c j hc0 hc1
    refine ⟨v, rfl, e, ?_, ?_⟩
    · unfold colOf
      rw [e, e1]
    · unfold rowOf
      rw [e, e2]

/-- The column of a tile with a tile of the match below it: from some row `k0` below the
tile on, every cell holds a tile of the match or a tile with a tile of the match below it,
and under that row every cell holds a tile outside the match with none of the match below. -/
theorem column_split (g : AGrid) (M : List TilePtr) (hwf : WellFormed g)
    (hfull : FullyPopulated g) (hcons : Consistent g) (hon : ∀ t ∈ M, OnBoard g t)
    (u : TilePtr) (huon : OnBoard g u) (hub : matchBelow g M u) :
    ∃ k0 : Nat, (k0 : Int) < rowOf g (GetGridAddress g u) ∧
      (∀ j : Nat, j < k0 →
        ∃ v, GetTileFromGridAddress g
            (colOf g (GetGridAddress g u) + (j : Int) * g.GridWidth) = some v ∧
          v ∉ M ∧ ¬ matchBelow g M v) ∧
      (∀ j : Nat, k0 ≤ j → (j : Int) < g.GridHeight →
        ∃ v, GetTileFromGridAddress g
            (colOf g (GetGridAddress g u) + (j : Int) * g.GridWidth) = some v ∧
          (v ∉ M → matchBelow g M v)) := by
  classical
  obtain ⟨uc0, uc1, ur0, ur1, ueq⟩ :=
    cell_of_valid g hwf.1 _ (valid_of_onBoard g u hwf huon)
  have hcell : ∀ T ∈ M, colOf g (GetGridAddress g T) = colOf g (GetGridAddress g u) →
      0 ≤ rowOf g (GetGridAddress g T) ∧
      GetTileFromGridAddress g (colOf g (GetGridAddress g u) +
        ((rowOf g (GetGridAddress g T)).toNat : Int) * g.GridWidth) = some T := by
    intro T hT hc
    obtain ⟨_, _, tr0, _, teq⟩ := cell_of_valid g hwf.1 _ (valid_of_onBoard g T hwf (hon T hT))
    refine ⟨tr0, ?_⟩
    rw [Int.toNat_of_nonneg tr0, ← hc, ← teq]
    exact hon T hT
  obtain ⟨T, hT, hcT, hrT⟩ := hub
  have hP : ∃ k : Nat, ∃ T ∈ M, GetTileFromGridAddress g
      (colOf g (GetGridAddress g u) + (k : Int) * g.GridWidth) = some T :=
    ⟨_, T, hT, (hcell T hT hcT).2⟩
  have hmin : ∀ T ∈ M, colOf g (GetGridAddress g T) = colOf g (GetGridAddress g u) →
      (Nat.find hP : Int) ≤ rowOf g (GetGridAddress g T) := by
    intro T' hT' hc'
    obtain ⟨r0, hs⟩ := hcell T' hT' hc'
    have := Nat.find_min' hP ⟨T', hT', hs⟩
    omega
  refine ⟨Nat.find hP, ?_, ?_, ?_⟩
  · have := hmin T hT hcT
    omega
  · intro j hj
    have hjH : (j : Int) < g.GridHeight := by
      have := hmin T hT hcT
      omega
    obtain ⟨v, hv, _, hvc, hvr⟩ := tile_at_cell g hwf hfull hcons _ uc0 uc1 j hjH
    refine ⟨v, hv, ?_, ?_⟩
    · intro hvM
      exact Nat.find_min hP hj ⟨v, hvM, hv⟩
    · rintro ⟨T', hT', hc', hr'⟩
      have := hmin T' hT' (hc'.trans hvc)
      omega
  · intro j hj hjH
    obtain ⟨v, hv, _, hvc, hvr⟩ := tile_at_cell g hwf hfull hcons _ uc0 uc1 j hjH
    refine ⟨v, hv, ?_⟩
    intro hvM
    obtain ⟨T0, hT0, hs0⟩ := Nat.find_spec hP
    have hk0 : (Nat.find hP : Int) < g.GridHeight := by omega
    obtain ⟨v0, hv0, _, hvc0, hvr0⟩ :=
      tile_at_cell g hwf hfull hcons _ uc0 uc1 (Nat.find hP) hk0
    have e0 : v0 = T0 := Option.some.inj (hv0.symm.trans hs0)
    subst e0
    have hne : j ≠ Nat.find hP := by
      intro e
      rw [e] at hv
      exact hvM ((Option.some.inj (hv.symm.trans hs0)) ▸ hT0)
    refine ⟨v0, hT0, hvc0.trans hvc.symm, ?_⟩
    rw [hvr0, hvr]
    omega

/-- The falling tiles among the cells from row `k0` on are the tiles outside the match. -/
theorem fallingCount_survivors (g g1 : AGrid) (M : List TilePtr) (c : Int) (k0 : Nat)
    (hW : g1.GridWidth = g.GridWidth)
    (hcell : ∀ j : Nat, k0 ≤ j → (j : Int) < g.GridHeight →
      ∃ v, GetTileFromGridAddress g (c + (j : Int) * g.GridWidth) = some v ∧
        (v ∈ M → GetTileFromGridAddress g1 (c + (j : Int) * g.GridWidth) = none) ∧
        (v ∉ M → GetTileFromGridAddress g1 (c + (j : Int) * g.GridWidth) = some v ∧
          (g1.heap v).TileState = ETileState.ETS_Falling)) :
    ∀ m : Nat, ((k0 + m : Nat) : Int) ≤ g.GridHeight →
      fallingCount g1 c (k0 : Int) m + survivorsBelow g M c k0 =
        survivorsBelow g M c (k0 + m) := by
  intro m
  induction m with
  | zero =>
    intro _
    have e : fallingCount g1 c (k0 : Int) 0 = 0 := rfl
    rw [e]
    simp
  | succ m ih =>
    intro hm
    have hm' : ((k0 + m : Nat) : Int) ≤ g.GridHeight := by push_cast at hm ⊢; omega
    have hlt : ((k0 + m : Nat) : Int) < g.GridHeight := by push_cast at hm ⊢; omega
    obtain ⟨v, hv, hin, hout⟩ := hcell (k0 + m) (Nat.le_add_right _ _) hlt
    have e1 : ((k0 : Int) + (m : Int)) = ((k0 + m : Nat) : Int) := by push_cast; rfl
    rw [fallingCount_succ, hW, e1]
    have e2 : k0 + (m + 1) = (k0 + m) + 1 := rfl
    rw [e2]
    conv_rhs => unfold survivorsBelow
    rw [hv, ← ih hm']
    by_cases hvM : v ∈ M
    · rw [hin hvM]
      simp only [hvM, if_true]
      omega
    · obtain ⟨h1, h2⟩ := hout hvM
      rw [h1]
      simp only [hvM, h2, if_true, if_false]
      omega

/-- The scan of `StartFalling` for a tile with a tile of the match below it, on a grid that
holds the board after the match: the cells of the match are empty, the tiles with a tile of
the match below them are falling and the other tiles stay.  The landing address is the
settled address of the tile. -/
theorem column_scan (g g1 : AGrid) (M : List TilePtr) (hwf : WellFormed g)
    (hfull : FullyPopulated g) (hcons : Consistent g) (hon : ∀ t ∈ M, OnBoard g t)
    (hW : g1.GridWidth = g.GridWidth) (hH : g1.GridHeight = g.GridHeight)
    (hA : ∀ t, GetGridAddress g1 t = GetGridAddress g t)
    (hsM : ∀ a t, GetTileFromGridAddress g a = some t → t ∈ M →
      GetTileFromGridAddress g1 a = none)
    (hsS : ∀ a t, GetTileFromGridAddress g a = some t → t ∉ M →
      GetTileFromGridAddress g1 a = some t)
    (hfalls : ∀ v, v ∉ M → OnBoard g v → matchBelow g M v →
      (g1.heap v).TileState = ETileState.ETS_Falling)
    (hstays : ∀ v, v ∉ M → OnBoard g v → ¬ matchBelow g M v →
      (g1.heap v).TileState ≠ ETileState.ETS_Falling ∧
      (g1.heap v).TileState ≠ ETileState.ETS_PendingDelete)
    (u : TilePtr) (huon : OnBoard g u) (hub : matchBelow g M u)
    (n : Nat) (hn : g.GridHeight ≤ n) :
    StartFalling_scan g1 u n 0 1 = Outcome.done (settledAddress g M u) := by
  obtain ⟨uc0, uc1, ur0, ur1, ueq⟩ :=
    cell_of_valid g hwf.1 _ (valid_of_onBoard g u hwf huon)
  obtain ⟨k0, hk0, hlow, hhigh⟩ := column_split g M hwf hfull hcons hon u huon hub
  have hW1 : 0 < g1.GridWidth := by rw [hW]; exact hwf.1
  have hv1 : ValidAddress g1 (GetGridAddress g1 u) := by
    unfold ValidAddress
    rw [hA, hW, hH]
    exact valid_of_onBoard g u hwf huon
  have hon_of : ∀ (a : Int) (v : TilePtr), GetTileFromGridAddress g a = some v → OnBoard g v := by
    intro a v hv
    unfold OnBoard
    rw [hcons a v hv]
    exact hv
  have hcol : GetGridAddress g1 u % g1.GridWidth = colOf g (GetGridAddress g u) := by
    rw [hA, hW]
    rfl
  have hrow : GetGridAddress g1 u / g1.GridWidth = rowOf g (GetGridAddress g u) := by
    rw [hA, hW]
    rfl
  have hstop : ((k0 : Int) - 1) = -1 ∨ staysAt g1
      (GetGridAddress g1 u % g1.GridWidth + ((k0 : Int) - 1) * g1.GridWidth) := by
    by_cases hz : k0 = 0
    · left
      rw [hz]
      rfl
    · right
      obtain ⟨v, hv, hvM, hvb⟩ := hlow (k0 - 1) (by omega)
      have e : (((k0 - 1 : Nat)) : Int) = (k0 : Int) - 1 := by omega
      rw [e] at hv
      rw [hcol, hW]
      exact ⟨v, hsS _ v hv hvM, hstays v hvM (hon_of _ v hv) hvb⟩
  have hpass : ∀ j : Int, (k0 : Int) - 1 < j → j < GetGridAddress g1 u / g1.GridWidth →
      ¬ staysAt g1 (GetGridAddress g1 u % g1.GridWidth + j * g1.GridWidth) := by
    intro j hj1 hj2
    rw [hrow] at hj2
    rw [hcol, hW]
    obtain ⟨v, hv, hvb⟩ := hhigh j.toNat (by omega) (by omega)
    have e : ((j.toNat : Nat) : Int) = j := by omega
    rw [e] at hv
    rintro ⟨x, hx, hx1, _⟩
    by_cases hvM : v ∈ M
    · rw [hsM _ v hv hvM] at hx
      cases hx
    · rw [hsS _ v hv hvM] at hx
      have ex : v = x := Option.some.inj hx
      subst ex
      exact hx1 (hfalls v hvM (hon_of _ v hv) (hvb hvM))
  have hspec := StartFalling_scan_spec g1 u ((k0 : Int) - 1) hW1 hv1 (by omega) hstop hpass
    ((rowOf g (GetGridAddress g u)).toNat - k0) n 0 1 (le_refl 0) (le_refl 1) (by omega)
    (by rw [hrow]; omega) (by omega)
  rw [hspec, hcol, hW]
  have hcnt := fallingCount_survivors g g1 M (colOf g (GetGridAddress g u)) k0 hW
    (by
      intro j hj hjH
      obtain ⟨v, hv, hvb⟩ := hhigh j hj hjH
      exact ⟨v, hv, fun hvM => hsM _ v hv hvM,
        fun hvM => ⟨hsS _ v hv hvM, hfalls v hvM (hon_of _ v hv) (hvb hvM)⟩⟩)
    ((rowOf g (GetGridAddress g u)).toNat - k0) (by omega)
  have hall := survivorsBelow_all g M (colOf g (GetGridAddress g u)) k0
    (by
      intro j hj
      obtain ⟨v, hv, hvM, _⟩ := hlow j hj
      exact ⟨v, hv, hvM⟩)
  have e3 : k0 + ((rowOf g (GetGridAddress g u)).toNat - k0) =
      (rowOf g (GetGridAddress g u)).toNat := by omega
  rw [e3, hall] at hcnt
  have e4 : ((k0 : Int) - 1 + 1) = (k0 : Int) := by omega
  rw [e4]
  unfold settledAddress
  rw [← hcnt]
  push_cast
  ring_nf

/-! ## Gravity: the landing callbacks -/

/-- The method `OnTileFinishedFalling` is its landing step followed by its last `if`. -/
theorem OnTileFinishedFalling_eq (fuel : Nat) (w : UWorld) (t : TilePtr) (L : Int) :
    OnTileFinishedFalling fuel w t L =
      (Outcome.ofOption (OnTileFinishedFalling_land w t L)).bind fun w1 =>
        if w1.Grid.FallingTiles.length = 0 then RespawnTiles fuel w1 else Outcome.done w1 := by
  unfold OnTileFinishedFalling OnTileFinishedFalling_land
  cases GetGridAddressWithOffset w.Grid (GetGridAddress w.Grid t) 0 0 with
  | none => rfl
  | some p =>
    obtain ⟨bOld, Old⟩ := p
    simp only
    generalize (if bOld = true then
        (if GetTileFromGridAddress w.Grid Old = some t then SetGameTile w.Grid Old none
          else some w.Grid)
        else some w.Grid) = x1
    cases x1 with
    | none => rfl
    | some g1 =>
      simp only [Outcome.ofOption, Outcome.bind, Option.bind]
      cases GetGridAddressWithOffset g1 L 0 0 with
      | none => rfl
      | some q =>
        obtain ⟨bNew, New⟩ := q
        simp only
        cases bNew with
        | false => rfl
        | true =>
          simp only [if_true]
          cases SetGameTile g1 New (some t) with
          | none => rfl
          | some g2 => rfl

theorem ofOption_eq_done {α : Type} (x : Option α) (a : α)
    (h : Outcome.ofOption x = Outcome.done a) : x = some a := by
  cases x with
  | none => cases h
  | some b =>
    injection h with h
    rw [h]

/-- The landing step of `OnTileFinishedFalling` on a board of the data model with a valid
landing address. -/
theorem land_steps (w : UWorld) (t : TilePtr) (L : Int)
    (hwf : WellFormed w.Grid) (hL : ValidAddress w.Grid L) :
    ∃ g1 : AGrid,
      g1.GameTiles.length = w.Grid.GameTiles.length ∧
      (∀ c, GetTileFromGridAddress g1 c =
        if c = GetGridAddress w.Grid t ∧ GetTileFromGridAddress w.Grid c = some t then none
        else GetTileFromGridAddress w.Grid c) ∧
      g1 = { w.Grid with GameTiles := g1.GameTiles } ∧
      OnTileFinishedFalling_land w t L =
        some { w with Grid :=
          { SetTileState (SetGridAddress
              { g1 with GameTiles := g1.GameTiles.set L.toNat (some t) } t L) t
              ETileState.ETS_Normal with
            FallingTiles := TArray.RemoveSingleSwap w.Grid.FallingTiles t,
            TilesToCheck := w.Grid.TilesToCheck ++ [t] } } := by
  obtain ⟨g1, h1, h2, h3, h4⟩ := landing_clear w.Grid t hwf
  refine ⟨g1, h2, h3, h4, ?_⟩
  have hW1 : 0 < g1.GridWidth := by rw [h4]; exact hwf.1
  have hL1 : ValidAddress g1 L := by
    unfold ValidAddress at hL ⊢
    rw [h4]
    exact hL
  have hr : 0 ≤ L ∧ L < g1.GameTiles.length := by
    rw [h2, hwf.2.2]
    exact hL
  have hF : g1.FallingTiles = w.Grid.FallingTiles := by rw [h4]
  have hC : g1.TilesToCheck = w.Grid.TilesToCheck := by rw [h4]
  unfold OnTileFinishedFalling_land
  revert h1
  cases GetGridAddressWithOffset w.Grid (GetGridAddress w.Grid t) 0 0 with
  | none => intro h1; cases h1
  | some p =>
    obtain ⟨bOld, Old⟩ := p
    intro h1
    simp only at h1 ⊢
    rw [ofOption_eq_done _ _ h1]
    simp only [Option.bind]
    rw [(offset_zero g1 L hW1).1 hL1]
    simp only [if_true]
    unfold SetGameTile
    rw [if_pos hr]
    simp only [SetTileState, SetGridAddress, hF, hC]

/-- One landing callback keeps the board of the landing callbacks: the tile joins the tiles
that have landed. -/
theorem land_step (g2 : AGrid) (S : TilePtr → Int) (F : List TilePtr)
    (hwf : WellFormed g2) (hcons : Consistent g2)
    (hval : ∀ u ∈ F, ValidAddress g2 (S u))
    (hland : ∀ u ∈ F, (g2.heap u).LandingGridAddress = S u)
    (hinj : ∀ u ∈ F, ∀ v ∈ F, S u = S v → u = v)
    (w : UWorld) (D : List TilePtr) (hinv : landedBoard g2 S F D w.Grid)
    (t : TilePtr) (htF : t ∈ F) (htD : t ∉ D) :
    ∃ g4 : AGrid, OnTileFinishedFalling_land w t (w.Grid.heap t).LandingGridAddress =
        some { w with Grid := g4 } ∧ landedBoard g2 S F (t :: D) g4 := by
  obtain ⟨iW, iH, iL, iDF, iS, iO, iHD, iHO, iN, iF⟩ := hinv
  have hwfs : WellFormed w.Grid :=
    ⟨by rw [iW]; exact hwf.1, by rw [iH]; exact hwf.2.1, by rw [iL, iW, iH]; exact hwf.2.2⟩
  have hLt : (w.Grid.heap t).LandingGridAddress = S t := by
    rw [iHO t htD]
    exact hland t htF
  have hvL : ValidAddress w.Grid (S t) := by
    unfold ValidAddress
    rw [iW, iH]
    exact hval t htF
  rw [hLt]
  obtain ⟨g1, h1, h2, h3, h4⟩ := land_steps w t (S t) hwfs hvL
  have hr : 0 ≤ S t ∧ S t < g1.GameTiles.length := by
    rw [h1, hwfs.2.2]
    exact hvL
  have haddr : GetGridAddress w.Grid t = GetGridAddress g2 t := by
    unfold GetGridAddress
    rw [iHO t htD]
  have e1W : g1.GridWidth = w.Grid.GridWidth := by rw [h3]
  have e1H : g1.GridHeight = w.Grid.GridHeight := by rw [h3]
  have e1h : g1.heap = w.Grid.heap := by rw [h3]
  obtain ⟨g4, hg4⟩ : ∃ g4 : AGrid, g4 =
      { SetTileState (SetGridAddress
          { g1 with GameTiles := g1.GameTiles.set (S t).toNat (some t) } t (S t)) t
          ETileState.ETS_Normal with
        FallingTiles := TArray.RemoveSingleSwap w.Grid.FallingTiles t,
        TilesToCheck := w.Grid.TilesToCheck ++ [t] } := ⟨_, rfl⟩
  rw [← hg4] at h4
  have hslot : ∀ c, GetTileFromGridAddress g4 c =
      if c = S t then some t else GetTileFromGridAddress g1 c :=
    fun c => getTile_set g1 g4 (S t) (some t) hr (by rw [hg4]; rfl) c
  have hheap : ∀ u, g4.heap u =
      if u = t then { w.Grid.heap t with GridAddress := S t, TileState := ETileState.ETS_Normal }
      else w.Grid.heap u := by
    intro u
    rw [hg4]
    by_cases hu : u = t
    · subst hu
      simp [SetTileState, SetGridAddress, e1h]
    · simp [SetTileState, SetGridAddress, Function.update_noteq hu, e1h, hu]
  have hne : ∀ u ∈ D, u ≠ t := fun u hu e => htD (e ▸ hu)
  refine ⟨g4, h4, ?_, ?_, ?_, ?_, ?_, ?_, ?_, ?_, ?_, ?_⟩
  · rw [hg4]
    exact e1W.trans iW
  · rw [hg4]
    exact e1H.trans iH
  · rw [hg4]
    show (g1.GameTiles.set (S t).toNat (some t)).length = _
    rw [List.length_set, h1, iL]
  · intro u hu
    rcases List.mem_cons.mp hu with h | h
    · rw [h]
      exact htF
    · exact iDF u h
  · intro u hu
    rcases List.mem_cons.mp hu with h | h
    · rw [h, hslot, if_pos rfl]
    · have hSne : S u ≠ S t := fun e => hne u h (hinj u (iDF u h) t htF e)
      rw [hslot, if_neg hSne, h2, iS u h]
      rw [if_neg]
      rintro ⟨_, e⟩
      exact hne u h (Option.some.inj e)
  · intro a ha
    have haS : a ≠ S t := fun e => ha t (List.mem_cons_self _ _) e.symm
    have haD : ∀ u ∈ D, S u ≠ a := fun u hu => ha u (List.mem_cons_of_mem _ hu)
    rw [hslot, if_neg haS, h2, iO a haD, haddr]
    cases hv : GetTileFromGridAddress g2 a with
    | none => simp
    | some v =>
      simp only
      by_cases hvD : v ∈ D
      · rw [if_pos hvD, if_pos (List.mem_cons_of_mem _ hvD)]
        simp
      · rw [if_neg hvD]
        by_cases hvt : v = t
        · subst hvt
          rw [if_pos ⟨(hcons a v hv).symm, rfl⟩, if_pos (List.mem_cons_self _ _)]
        · rw [if_neg, if_neg]
          · intro h
            rcases List.mem_cons.mp h with h | h
            · exact hvt h
            · exact hvD h
          · rintro ⟨_, e⟩
            exact hvt (Option.some.inj e)
  · intro u hu
    rw [hheap]
    rcases List.mem_cons.mp hu with h | h
    · rw [if_pos h, h, iHO t htD]
    · rw [if_neg (hne u h)]
      exact iHD u h
  · intro u hu
    rw [List.mem_cons, not_or] at hu
    rw [hheap, if_neg hu.1]
    exact iHO u hu.2
  · rw [hg4]
    exact (RemoveSingleSwap_mem w.Grid.FallingTiles t t iN).2
  · intro u
    rw [hg4]
    show u ∈ TArray.RemoveSingleSwap w.Grid.FallingTiles t ↔ _
    rw [(RemoveSingleSwap_mem w.Grid.FallingTiles t u iN).1, iF u, List.mem_cons, not_or]
    tauto

/-- The landing callbacks of a list of falling tiles, while another tile is still falling:
every call returns, and the tiles of the list have joined the tiles that have landed. -/
theorem land_all (g2 : AGrid) (S : TilePtr → Int) (F : List TilePtr)
    (hwf : WellFormed g2) (hcons : Consistent g2)
    (hval : ∀ u ∈ F, ValidAddress g2 (S u))
    (hland : ∀ u ∈ F, (g2.heap u).LandingGridAddress = S u)
    (hinj : ∀ u ∈ F, ∀ v ∈ F, S u = S v → u = v) (fuel : Nat) :
    ∀ (init : List TilePtr) (w : UWorld) (D : List TilePtr),
      landedBoard g2 S F D w.Grid → init.Nodup → (∀ t ∈ init, t ∈ F ∧ t ∉ D) →
      (∃ x ∈ F, x ∉ D ∧ x ∉ init) →
      ∃ (g3 : AGrid) (D' : List TilePtr),
        FinishFalling_all fuel init w = Outcome.done { w with Grid := g3 } ∧
        landedBoard g2 S F D' g3 ∧ ∀ u, u ∈ D' ↔ u ∈ init ∨ u ∈ D := by
  intro init
  induction init with
  | nil =>
    intro w D hinv _ _ _
    exact ⟨w.Grid, D, rfl, hinv, fun u => by simp⟩
  | cons t rest ih =>
    intro w D hinv hnd hin hx
    obtain ⟨htF, htD⟩ := hin t (List.mem_cons_self _ _)
    obtain ⟨g4, h4, hinv4⟩ := land_step g2 S F hwf hcons hval hland hinj w D hinv t htF htD
    obtain ⟨x, hxF, hxD, hxI⟩ := hx
    rw [List.mem_cons, not_or] at hxI
    have hx4 : x ∈ g4.FallingTiles :=
      (hinv4.2.2.2.2.2.2.2.2.2 x).mpr ⟨hxF, fun h => by
        rcases List.mem_cons.mp h with h | h
        · exact hxI.1 h
        · exact hxD h⟩
    have hlen : ¬ g4.FallingTiles.length = 0 := by
      intro h
      rw [List.length_eq_zero] at h
      rw [h] at hx4
      cases hx4
    have hcall : FinishFalling fuel w t = Outcome.done { w with Grid := g4 } := by
      unfold FinishFalling
      rw [OnTileFinishedFalling_eq, h4]
      simp only [Outcome.ofOption, Outcome.bind]
      rw [if_neg hlen]
    rw [List.nodup_cons] at hnd
    obtain ⟨g3, D', hrun, hinv3, hD'⟩ := ih { w with Grid := g4 } (t :: D) hinv4 hnd.2
      (fun u hu => ⟨(hin u (List.mem_cons_of_mem _ hu)).1, fun h => by
        rcases List.mem_cons.mp h with h | h
        · exact hnd.1 (h ▸ hu)
        · exact (hin u (List.mem_cons_of_mem _ hu)).2 h⟩)
      ⟨x, hxF, fun h => by
        rcases List.mem_cons.mp h with h | h
        · exact hxI.1 h
        · exact hxD h, hxI.2⟩
    refine ⟨g3, D', ?_, hinv3, ?_⟩
    · unfold FinishFalling_all
      rw [hcall]
      exact hrun
    · intro u
      rw [hD' u]
      simp only [List.mem_cons]
      tauto

/-- The landing callback of the last falling tile: its landing step leaves an empty falling
set, and the call is the respawn on the world of that step. -/
theorem land_last (g2 : AGrid) (S : TilePtr → Int) (F : List TilePtr)
    (hwf : WellFormed g2) (hcons : Consistent g2)
    (hval : ∀ u ∈ F, ValidAddress g2 (S u))
    (hland : ∀ u ∈ F, (g2.heap u).LandingGridAddress = S u)
    (hinj : ∀ u ∈ F, ∀ v ∈ F, S u = S v → u = v)
    (w : UWorld) (D : List TilePtr) (hinv : landedBoard g2 S F D w.Grid)
    (t : TilePtr) (htF : t ∈ F) (htD : t ∉ D) (hall : ∀ x ∈ F, x = t ∨ x ∈ D) :
    ∃ g4 : AGrid, OnTileFinishedFalling_land w t (w.Grid.heap t).LandingGridAddress =
        some { w with Grid := g4 } ∧
      (∀ fuel, FinishFalling fuel w t = RespawnTiles fuel { w with Grid := g4 }) ∧
      landedBoard g2 S F (t :: D) g4 ∧ g4.FallingTiles = [] := by
  obtain ⟨g4, h4, hinv4⟩ := land_step g2 S F hwf hcons hval hland hinj w D hinv t htF htD
  have hemp : g4.FallingTiles = [] := by
    apply List.eq_nil_iff_forall_not_mem.mpr
    intro x hx
    obtain ⟨hxF, hxD⟩ := (hinv4.2.2.2.2.2.2.2.2.2 x).mp hx
    rcases hall x hxF with h | h
    · exact hxD (h ▸ List.mem_cons_self _ _)
    · exact hxD (List.mem_cons_of_mem _ h)
  refine ⟨g4, h4, ?_, hinv4, hemp⟩
  intro fuel
  unfold FinishFalling
  rw [OnTileFinishedFalling_eq, h4]
  simp only [Outcome.ofOption, Outcome.bind]
  rw [if_pos (by rw [hemp]; rfl)]

/-- The landing callbacks of the tiles of the falling set in any order: all but the last
return, and the last is the respawn on a board on which every tile of the falling set has
landed. -/
theorem land_order (g2 : AGrid) (S : TilePtr → Int) (w2 : UWorld) (hg : w2.Grid = g2)
    (hwf : WellFormed g2) (hcons : Consistent g2) (hnd : g2.FallingTiles.Nodup)
    (hval : ∀ u ∈ g2.FallingTiles, ValidAddress g2 (S u))
    (hland : ∀ u ∈ g2.FallingTiles, (g2.heap u).LandingGridAddress = S u)
    (hinj : ∀ u ∈ g2.FallingTiles, ∀ v ∈ g2.FallingTiles, S u = S v → u = v)
    (fuel : Nat) (init : List TilePtr) (last : TilePtr)
    (hperm : (init ++ [last]).Perm g2.FallingTiles) :
    ∃ (w3 w4 : UWorld) (D : List TilePtr),
      FinishFalling_all fuel init w2 = Outcome.done w3 ∧
      OnTileFinishedFalling_land w3 last (w3.Grid.heap last).LandingGridAddress = some w4 ∧
      (∀ fuel2, FinishFalling fuel2 w3 last = RespawnTiles fuel2 w4) ∧
      w4 = { w2 with Grid := w4.Grid } ∧
      landedBoard g2 S g2.FallingTiles D w4.Grid ∧ w4.Grid.FallingTiles = [] ∧
      ∀ u, u ∈ D ↔ u ∈ g2.FallingTiles := by
  have hnd' : (init ++ [last]).Nodup := hperm.nodup_iff.mpr hnd
  have hmem : ∀ u, u ∈ g2.FallingTiles ↔ u ∈ init ∨ u = last := by
    intro u
    rw [← hperm.mem_iff, List.mem_append, List.mem_singleton]
  rw [List.nodup_append] at hnd'
  obtain ⟨ndi, _, hdis⟩ := hnd'
  have hli : last ∉ init := fun h => hdis h (List.mem_singleton_self last)
  have hinv0 : landedBoard g2 S g2.FallingTiles [] w2.Grid := by
    rw [hg]
    refine ⟨rfl, rfl, rfl, fun _ h => absurd h (List.not_mem_nil _),
      fun _ h => absurd h (List.not_mem_nil _), ?_, fun _ h => absurd h (List.not_mem_nil _),
      fun _ _ => rfl, hnd, fun u => by simp⟩
    intro a _
    cases GetTileFromGridAddress g2 a with
    | none => rfl
    | some v => simp
  obtain ⟨g3, D', hrun, hinv3, hD'⟩ := land_all g2 S g2.FallingTiles hwf hcons hval hland hinj
    fuel init w2 [] hinv0 ndi
    (fun t ht => ⟨(hmem t).mpr (Or.inl ht), List.not_mem_nil t⟩)
    ⟨last, (hmem last).mpr (Or.inr rfl), List.not_mem_nil last, hli⟩
  have hlD : last ∉ D' := by
    rw [hD']
    rintro (h | h)
    · exact hli h
    · cases h
  obtain ⟨g4, h4, hcall, hinv4, hemp⟩ := land_last g2 S g2.FallingTiles hwf hcons hval hland
    hinj { w2 with Grid := g3 } D' hinv3 last ((hmem last).mpr (Or.inr rfl)) hlD
    (by
      intro x hx
      rcases (hmem x).mp hx with h | h
      · exact Or.inr ((hD' x).mpr (Or.inl h))
      · exact Or.inl h)
  refine ⟨{ w2 with Grid := g3 }, { w2 with Grid := g4 }, last :: D', hrun, h4, hcall, rfl,
    hinv4, hemp, ?_⟩
  intro u
  rw [List.mem_cons, hD', hmem]
  simp only [List.not_mem_nil, or_false]
  tauto

/-! ## Gravity: the settled board -/

/-- The cell of a placed tile. -/
theorem cell_of_onBoard (g : AGrid) (hwf : WellFormed g) (u : TilePtr) (hon : OnBoard g u) :
    0 ≤ colOf g (GetGridAddress g u) ∧ colOf g (GetGridAddress g u) < g.GridWidth ∧
      ((rowOf g (GetGridAddress g u)).toNat : Int) = rowOf g (GetGridAddress g u) ∧
      rowOf g (GetGridAddress g u) < g.GridHeight ∧
      GetGridAddress g u = colOf g (GetGridAddress g u) +
        ((rowOf g (GetGridAddress g u)).toNat : Int) * g.GridWidth ∧
      GetTileFromGridAddress g (colOf g (GetGridAddress g u) +
        ((rowOf g (GetGridAddress g u)).toNat : Int) * g.GridWidth) = some u := by
  obtain ⟨c0, c1, r0, r1, e⟩ := cell_of_valid g hwf.1 _ (valid_of_onBoard g u hwf hon)
  have er := Int.toNat_of_nonneg r0
  refine ⟨c0, c1, er, r1, ?_, ?_⟩
  · rw [er]
    exact e
  · rw [er, ← e]
    exact hon

/-- The settled address of a tile outside the match: a valid address in the column of the
tile, in the row numbered by the tiles outside the match below it. -/
theorem settled_coords (g : AGrid) (M : List TilePtr) (hwf : WellFormed g) (u : TilePtr)
    (hon : OnBoard g u) :
    ValidAddress g (settledAddress g M u) ∧
      colOf g (settledAddress g M u) = colOf g (GetGridAddress g u) ∧
      rowOf g (settledAddress g M u) =
        (survivorsBelow g M (colOf g (GetGridAddress g u))
          (rowOf g (GetGridAddress g u)).toNat : Int) ∧
      rowOf g (settledAddress g M u) ≤ rowOf g (GetGridAddress g u) := by
  obtain ⟨c0, c1, er, r1, _, _⟩ := cell_of_onBoard g hwf u hon
  have hle := survivorsBelow_le g M (colOf g (GetGridAddress g u))
    (rowOf g (GetGridAddress g u)).toNat
  obtain ⟨e1, e2⟩ := cell_coords g hwf.1 (colOf g (GetGridAddress g u))
    (survivorsBelow g M (colOf g (GetGridAddress g u))
      (rowOf g (GetGridAddress g u)).toNat : Int) c0 c1
  have hrow : rowOf g (settledAddress g M u) =
      (survivorsBelow g M (colOf g (GetGridAddress g u))
        (rowOf g (GetGridAddress g u)).toNat : Int) := e2
  refine ⟨?_, e1, hrow, ?_⟩
  · exact cell_valid g hwf.1 _ _ c0 c1 (Int.natCast_nonneg _) (by omega)
  · rw [hrow]
    omega

/-- A tile with no tile of the match below it settles where it is. -/
theorem settled_stays (g : AGrid) (M : List TilePtr) (hwf : WellFormed g)
    (hfull : FullyPopulated g) (hcons : Consistent g) (u : TilePtr) (hon : OnBoard g u)
    (hnb : ¬ matchBelow g M u) : settledAddress g M u = GetGridAddress g u := by
  obtain ⟨c0, c1, er, r1, e, _⟩ := cell_of_onBoard g hwf u hon
  have hall := survivorsBelow_all g M (colOf g (GetGridAddress g u))
    (rowOf g (GetGridAddress g u)).toNat
    (by
      intro j hj
      obtain ⟨v, hv, _, hvc, hvr⟩ := tile_at_cell g hwf hfull hcons _ c0 c1 j (by omega)
      refine ⟨v, hv, ?_⟩
      intro hvM
      exact hnb ⟨v, hvM, hvc, by rw [hvr]; omega⟩)
  unfold settledAddress
  rw [hall]
  exact e.symm

/-- Two tiles outside the match have different settled addresses. -/
theorem settled_inj (g : AGrid) (M : List TilePtr) (hwf : WellFormed g) (u v : TilePtr)
    (hu : OnBoard g u) (huM : u ∉ M) (hv : OnBoard g v) (hvM : v ∉ M)
    (h : settledAddress g M u = settledAddress g M v) : u = v := by
  obtain ⟨_, uc, ur, _⟩ := settled_coords g M hwf u hu
  obtain ⟨_, vc, vr, _⟩ := settled_coords g M hwf v hv
  obtain ⟨_, _, uer, _, ue, us⟩ := cell_of_onBoard g hwf u hu
  obtain ⟨_, _, ver, _, ve, vs⟩ := cell_of_onBoard g hwf v hv
  have hc : colOf g (GetGridAddress g u) = colOf g (GetGridAddress g v) := by
    rw [← uc, ← vc, h]
  have hr : survivorsBelow g M (colOf g (GetGridAddress g u))
      (rowOf g (GetGridAddress g u)).toNat =
      survivorsBelow g M (colOf g (GetGridAddress g u))
        (rowOf g (GetGridAddress g v)).toNat := by
    have : (survivorsBelow g M (colOf g (GetGridAddress g u))
        (rowOf g (GetGridAddress g u)).toNat : Int) =
        (survivorsBelow g M (colOf g (GetGridAddress g v))
          (rowOf g (GetGridAddress g v)).toNat : Int) := by
      rw [← ur, ← vr, h]
    rw [← hc] at this
    exact Int.ofNat_inj.mp this
  have hrow : (rowOf g (GetGridAddress g u)).toNat = (rowOf g (GetGridAddress g v)).toNat := by
    rcases Nat.lt_trichotomy (rowOf g (GetGridAddress g u)).toNat
      (rowOf g (GetGridAddress g v)).toNat with hlt | heq | hgt
    · have := survivorsBelow_strict g M _ _ _ u us huM hlt
      omega
    · exact heq
    · rw [← hc] at vs
      have := survivorsBelow_strict g M _ _ _ v vs hvM hgt
      omega
  have ha : GetGridAddress g u = GetGridAddress g v := by
    rw [ue, ve, hc, hrow]
  have := hu
  unfold OnBoard at this
  rw [ha, hv] at this
  exact (Option.some.inj this).symm

/-- The board on which every tile of the falling set has landed is the settled board. -/
theorem settled_of_landed (g : AGrid) (M : List TilePtr) (g2 g4 : AGrid) (D : List TilePtr)
    (hwf : WellFormed g) (hfull : FullyPopulated g) (hcons : Consistent g)
    (hnorm : ∀ u, OnBoard g u → (g.heap u).TileState = ETileState.ETS_Normal)
    (hA : ∀ t, GetGridAddress g2 t = GetGridAddress g t)
    (hsM : ∀ a t, GetTileFromGridAddress g a = some t → t ∈ M →
      GetTileFromGridAddress g2 a = none)
    (hsS : ∀ a t, GetTileFromGridAddress g a = some t → t ∉ M →
      GetTileFromGridAddress g2 a = some t)
    (hsN : ∀ a, GetTileFromGridAddress g a = none → GetTileFromGridAddress g2 a = none)
    (hF : ∀ u, u ∈ g2.FallingTiles ↔ u ∉ M ∧ OnBoard g u ∧ matchBelow g M u)
    (hst : ∀ u, u ∉ M → u ∉ g2.FallingTiles →
      (g2.heap u).TileState = (g.heap u).TileState)
    (hinv : landedBoard g2 (settledAddress g M) g2.FallingTiles D g4)
    (hD : ∀ u, u ∈ D ↔ u ∈ g2.FallingTiles) (hemp : g4.FallingTiles = []) :
    settledBoard g M g4 := by
  obtain ⟨_, _, _, _, iS, iO, iHD, iHO, _, _⟩ := hinv
  have hsurv : ∀ u, OnBoard g u → u ∉ M →
      GetTileFromGridAddress g4 (settledAddress g M u) = some u ∧
      GetGridAddress g4 u = settledAddress g M u ∧
      (g4.heap u).TileState = ETileState.ETS_Normal := by
    intro u hu huM
    by_cases huF : u ∈ g2.FallingTiles
    · have huD := (hD u).mpr huF
      refine ⟨iS u huD, ?_, ?_⟩
      · unfold GetGridAddress
        rw [iHD u huD]
      · rw [iHD u huD]
    · have huD : u ∉ D := fun h => huF ((hD u).mp h)
      have hnb : ¬ matchBelow g M u := fun h => huF ((hF u).mpr ⟨huM, hu, h⟩)
      have e := settled_stays g M hwf hfull hcons u hu hnb
      have hfree : ∀ x ∈ D, settledAddress g M x ≠ settledAddress g M u := by
        intro x hx h
        obtain ⟨hxM, hxon, _⟩ := (hF x).mp ((hD x).mp hx)
        have := settled_inj g M hwf x u hxon hxM hu huM h
        exact huD (this ▸ hx)
      refine ⟨?_, ?_, ?_⟩
      · rw [iO _ hfree, e, hsS _ u hu huM]
        simp only [huD, if_false]
      · unfold GetGridAddress
        rw [iHO u huD]
        exact (hA u).trans e.symm
      · rw [iHO u huD, hst u huM huF]
        exact hnorm u hu
  have hocc : ∀ a u, GetTileFromGridAddress g4 a = some u →
      OnBoard g u ∧ u ∉ M ∧ a = settledAddress g M u := by
    intro a u ha
    by_cases hx : ∃ x ∈ D, settledAddress g M x = a
    · obtain ⟨x, hxD, hxa⟩ := hx
      have h1 := iS x hxD
      rw [hxa, ha] at h1
      have e : u = x := Option.some.inj h1
      subst e
      obtain ⟨hxM, hxon, _⟩ := (hF u).mp ((hD u).mp hxD)
      exact ⟨hxon, hxM, hxa.symm⟩
    · have hfree : ∀ x ∈ D, settledAddress g M x ≠ a := fun x hxD h => hx ⟨x, hxD, h⟩
      rw [iO a hfree] at ha
      cases h0 : GetTileFromGridAddress g a with
      | none =>
        rw [hsN a h0] at ha
        cases ha
      | some v =>
        by_cases hvM : v ∈ M
        · rw [hsM a v h0 hvM] at ha
          cases ha
        · rw [hsS a v h0 hvM] at ha
          simp only at ha
          by_cases hvD : v ∈ D
          · rw [if_pos hvD] at ha
            cases ha
          · rw [if_neg hvD] at ha
            have e : v = u := Option.some.inj ha
            subst e
            have hon : OnBoard g v := by
              unfold OnBoard
              rw [hcons a v h0]
              exact h0
            have hnb : ¬ matchBelow g M v :=
              fun h => hvD ((hD v).mpr ((hF v).mpr ⟨hvM, hon, h⟩))
            refine ⟨hon, hvM, ?_⟩
            rw [settled_stays g M hwf hfull hcons v hon hnb]
            exact (hcons a v h0).symm
  refine ⟨hemp, hsurv, hocc, ?_⟩
  intro c j hc0 hc1 hj0 hj1
  constructor
  · intro hne
    cases ha : GetTileFromGridAddress g4 (c + j * g.GridWidth) with
    | none => exact absurd ha hne
    | some u =>
      obtain ⟨hon, huM, e⟩ := hocc _ u ha
      obtain ⟨_, sc, sr, _⟩ := settled_coords g M hwf u hon
      obtain ⟨_, _, er, r1, _, us⟩ := cell_of_onBoard g hwf u hon
      obtain ⟨e1, e2⟩ := cell_coords g hwf.1 c j hc0 hc1
      have hcu : colOf g (GetGridAddress g u) = c := by
        rw [← sc, ← e]
        exact e1
      have hju : j = (survivorsBelow g M c (rowOf g (GetGridAddress g u)).toNat : Int) := by
        rw [← hcu, ← sr, ← e]
        exact e2.symm
      rw [hcu] at us
      have hlt := survivorsBelow_strict g M c (rowOf g (GetGridAddress g u)).toNat
        g.GridHeight.toNat u us huM (by omega)
      omega
  · intro hlt
    obtain ⟨k, v, hk, hv, hvM, hsb⟩ :=
      survivorsBelow_surj g M c g.GridHeight.toNat j.toNat (by omega)
    have hon : OnBoard g v := by
      unfold OnBoard
      rw [hcons _ v hv]
      exact hv
    have ea := hcons _ v hv
    obtain ⟨e1, e2⟩ := cell_coords g hwf.1 c (k : Int) hc0 hc1
    have hS : settledAddress g M v = c + j * g.GridWidth := by
      unfold settledAddress colOf rowOf
      rw [ea, e1, e2, Int.toNat_ofNat, hsb, Int.toNat_of_nonneg hj0]
    rw [← hS, (hsurv v hon hvM).1]
    exact fun h => by cases h

/-- Two boards of one length with the same slots are the same board. -/
theorem gameTiles_ext (g g2 : AGrid) (hlen : g2.GameTiles.length = g.GameTiles.length)
    (h : ∀ a, GetTileFromGridAddress g2 a = GetTileFromGridAddress g a) :
    g2.GameTiles = g.GameTiles := by
  apply List.ext_getElem hlen
  intro i h1 h2
  have e := h (i : Int)
  unfold GetTileFromGridAddress at e
  rw [if_pos ⟨Int.natCast_nonneg i, by omega⟩, if_pos ⟨Int.natCast_nonneg i, by omega⟩,
    Int.toNat_ofNat, List.getElem?_eq_getElem h1, List.getElem?_eq_getElem h2] at e
  exact e

/-- Two settled boards of one length are the same board. -/
theorem settledBoard_unique (g : AGrid) (M : List TilePtr) (g4 g5 : AGrid)
    (hlen : g5.GameTiles.length = g4.GameTiles.length)
    (h4 : settledBoard g M g4) (h5 : settledBoard g M g5) : g5.GameTiles = g4.GameTiles := by
  apply gameTiles_ext g4 g5 hlen
  intro a
  obtain ⟨_, a4, b4, _⟩ := h4
  obtain ⟨_, a5, b5, _⟩ := h5
  cases h : GetTileFromGridAddress g4 a with
  | some u =>
    obtain ⟨hon, huM, e⟩ := b4 a u h
    rw [e]
    exact (a5 u hon huM).1
  | none =>
    cases h2 : GetTileFromGridAddress g5 a with
    | none => rfl
    | some u =>
      obtain ⟨hon, huM, e⟩ := b5 a u h2
      have := (a4 u hon huM).1
      rw [← e, h] at this
      cases this

/-- The landing callbacks in one order after the match and the fall requests: the last
callback is the respawn on the settled board. -/
theorem settle_order (w w2 : UWorld) (M : List TilePtr)
    (hwf : WellFormed w.Grid) (hfull : FullyPopulated w.Grid) (hcons : Consistent w.Grid)
    (hnorm : ∀ u, OnBoard w.Grid u → (w.Grid.heap u).TileState = ETileState.ETS_Normal)
    (hwf2 : WellFormed w2.Grid) (hcons2 : Consistent w2.Grid)
    (hnd2 : w2.Grid.FallingTiles.Nodup)
    (hW : w2.Grid.GridWidth = w.Grid.GridWidth) (hH : w2.Grid.GridHeight = w.Grid.GridHeight)
    (hA : ∀ t, GetGridAddress w2.Grid t = GetGridAddress w.Grid t)
    (hsM : ∀ a t, GetTileFromGridAddress w.Grid a = some t → t ∈ M →
      GetTileFromGridAddress w2.Grid a = none)
    (hsS : ∀ a t, GetTileFromGridAddress w.Grid a = some t → t ∉ M →
      GetTileFromGridAddress w2.Grid a = some t)
    (hsN : ∀ a, GetTileFromGridAddress w.Grid a = none →
      GetTileFromGridAddress w2.Grid a = none)
    (hF : ∀ u, u ∈ w2.Grid.FallingTiles ↔ u ∉ M ∧ OnBoard w.Grid u ∧ matchBelow w.Grid M u)
    (hst : ∀ u, u ∉ M → u ∉ w2.Grid.FallingTiles →
      (w2.Grid.heap u).TileState = (w.Grid.heap u).TileState)
    (hland : ∀ u ∈ w2.Grid.FallingTiles,
      (w2.Grid.heap u).LandingGridAddress = settledAddress w.Grid M u)
    (fuel : Nat) (init : List TilePtr) (last : TilePtr)
    (hperm : (init ++ [last]).Perm w2.Grid.FallingTiles) :
    ∃ w3 w4 : UWorld,
      FinishFalling_all fuel init w2 = Outcome.done w3 ∧
      OnTileFinishedFalling_land w3 last (w3.Grid.heap last).LandingGridAddress = some w4 ∧
      (∀ fuel2, FinishFalling fuel2 w3 last = RespawnTiles fuel2 w4) ∧
      w4 = { w2 with Grid := w4.Grid } ∧
      settledBoard w.Grid M w4.Grid ∧
      w4.Grid.GridWidth = w2.Grid.GridWidth ∧ w4.Grid.GridHeight = w2.Grid.GridHeight ∧
      w4.Grid.GameTiles.length = w2.Grid.GameTiles.length ∧
      w4.Grid.heap = fun u =>
        if u ∈ w2.Grid.FallingTiles then
          { w2.Grid.heap u with
            GridAddress := settledAddress w.Grid M u, TileState := ETileState.ETS_Normal }
        else w2.Grid.heap u := by
  have hval : ∀ u ∈ w2.Grid.FallingTiles, ValidAddress w2.Grid (settledAddress w.Grid M u) := by
    intro u hu
    obtain ⟨_, huon, _⟩ := (hF u).mp hu
    have := (settled_coords w.Grid M hwf u huon).1
    unfold ValidAddress at this ⊢
    rw [hW, hH]
    exact this
  have hinj : ∀ u ∈ w2.Grid.FallingTiles, ∀ v ∈ w2.Grid.FallingTiles,
      settledAddress w.Grid M u = settledAddress w.Grid M v → u = v := by
    intro u hu v hv h
    obtain ⟨huM, huon, _⟩ := (hF u).mp hu
    obtain ⟨hvM, hvon, _⟩ := (hF v).mp hv
    exact settled_inj w.Grid M hwf u v huon huM hvon hvM h
  obtain ⟨w3, w4, D, hrun, hl, hcall, hw4, hinv, hemp, hD⟩ :=
    land_order w2.Grid (settledAddress w.Grid M) w2 rfl hwf2 hcons2 hnd2 hval hland hinj
      fuel init last hperm
  have hset := settled_of_landed w.Grid M w2.Grid w4.Grid D hwf hfull hcons hnorm hA hsM hsS
    hsN hF hst hinv hD hemp
  obtain ⟨iW, iH, iL, _, _, _, iHD, iHO, _, _⟩ := hinv
  refine ⟨w3, w4, hrun, hl, hcall, hw4, hset, iW, iH, iL, ?_⟩
  funext u
  by_cases hu : u ∈ w2.Grid.FallingTiles
  · rw [if_pos hu]
    exact iHD u ((hD u).mpr hu)
  · rw [if_neg hu]
    exact iHO u (fun h => hu ((hD u).mp h))

/-- Gravity keeps the order of the tiles of a column. -/
theorem settled_order (g : AGrid) (M : List TilePtr) (hwf : WellFormed g) (u v : TilePtr)
    (hu : OnBoard g u) (huM : u ∉ M) (hv : OnBoard g v)
    (hc : colOf g (GetGridAddress g u) = colOf g (GetGridAddress g v))
    (hr : rowOf g (GetGridAddress g u) < rowOf g (GetGridAddress g v)) :
    colOf g (settledAddress g M u) = colOf g (settledAddress g M v) ∧
      rowOf g (settledAddress g M u) < rowOf g (settledAddress g M v) := by
  obtain ⟨_, uc, ur, _⟩ := settled_coords g M hwf u hu
  obtain ⟨_, vc, vr, _⟩ := settled_coords g M hwf v hv
  obtain ⟨_, _, uer, _, _, us⟩ := cell_of_onBoard g hwf u hu
  obtain ⟨_, _, ver, _, _, _⟩ := cell_of_onBoard g hwf v hv
  refine ⟨by rw [uc, vc, hc], ?_⟩
  rw [ur, vr, ← hc]
  have := survivorsBelow_strict g M _ (rowOf g (GetGridAddress g u)).toNat
    (rowOf g (GetGridAddress g v)).toNat u us huM (by omega)
  omega

/-- The landing callbacks of a list and of one more tile. -/
theorem FinishFalling_all_concat (fuel : Nat) (last : TilePtr) :
    ∀ (init : List TilePtr) (w : UWorld),
      FinishFalling_all fuel (init ++ [last]) w =
        (FinishFalling_all fuel init w).bind fun w3 => FinishFalling fuel w3 last := by
  intro init
  induction init with
  | nil =>
    intro w
    show (FinishFalling fuel w last).bind (fun w1 => Outcome.done w1) = FinishFalling fuel w last
    cases FinishFalling fuel w last <;> rfl
  | cons t rest ih =>
    intro w
    show (FinishFalling fuel w t).bind (fun w1 => FinishFalling_all fuel (rest ++ [last]) w1) =
      ((FinishFalling fuel w t).bind fun w1 => FinishFalling_all fuel rest w1).bind
        fun w3 => FinishFalling fuel w3 last
    cases FinishFalling fuel w t with
    | done w1 => exact ih w1
    | failed => rfl
    | outOfFuel => rfl

/-- On a settled board the empty cells of every column lie on top. -/
theorem settled_top (g : AGrid) (M : List TilePtr) (g4 : AGrid) (hwf : WellFormed g)
    (hW : g4.GridWidth = g.GridWidth) (hH : g4.GridHeight = g.GridHeight)
    (h : settledBoard g M g4) : EmptiesOnTop g4 := by
  obtain ⟨_, _, _, hocc⟩ := h
  intro a hv he hv2
  have hv' : ValidAddress g a := by
    unfold ValidAddress at hv ⊢
    rw [← hW, ← hH]
    exact hv
  have hv2' : ValidAddress g (a + g.GridWidth) := by
    unfold ValidAddress at hv2 ⊢
    rw [← hW, ← hH]
    exact hv2
  obtain ⟨c0, c1, r0, r1, e⟩ := cell_of_valid g hwf.1 a hv'
  obtain ⟨_, _, _, r1', _⟩ := cell_of_valid g hwf.1 _ hv2'
  have e2 : a + g.GridWidth = colOf g a + (rowOf g a + 1) * g.GridWidth := by
    have : (rowOf g a + 1) * g.GridWidth = rowOf g a * g.GridWidth + g.GridWidth := by ring
    omega
  have hrow : rowOf g (a + g.GridWidth) = rowOf g a + 1 := by
    rw [e2]
    exact (cell_coords g hwf.1 (colOf g a) (rowOf g a + 1) c0 c1).2
  rw [hrow] at r1'
  have h1 := hocc (colOf g a) (rowOf g a) c0 c1 r0 r1
  have h2 := hocc (colOf g a) (rowOf g a + 1) c0 c1 (by omega) r1'
  rw [← e] at h1
  rw [← e2] at h2
  rw [hW]
  have hn : ¬ (rowOf g a < (survivorsBelow g M (colOf g a) g.GridHeight.toNat : Int)) :=
    fun hlt => h1.mpr hlt he
  by_contra hne
  have := h2.mp hne
  omega

/-- The respawn on a board of the data model with an empty cell, empty cells on top and a
library whose entries have a tile class: it returns with the new tiles falling. -/
theorem respawn_falls (fuel : Nat) (w : UWorld) (hwf : WellFormed w.Grid)
    (htop : EmptiesOnTop w.Grid) (hlib : w.TileLibrary ≠ [])
    (hcls : ∀ T ∈ w.TileLibrary, T.TileClass = true)
    (hfresh : ∀ p ∈ w.Grid.FallingTiles, p < w.NextTile)
    (hfuel : w.Grid.GridHeight < fuel)
    (hsome : ∃ a, ValidAddress w.Grid a ∧ GetTileFromGridAddress w.Grid a = none) :
    ∃ w2 : UWorld, RespawnTiles fuel w = Outcome.done w2 ∧ w2.Grid.FallingTiles ≠ [] := by
  obtain ⟨n, rfl⟩ : ∃ n, fuel = n + 1 := ⟨fuel - 1, by have := hwf.2.1; omega⟩
  have hWn : (0 : Int) + (w.Grid.GridWidth.toNat : Int) = w.Grid.GridWidth := by
    have := hwf.1
    omega
  obtain ⟨w1, cells, hcol, _, hmem, _, _, _, hF, _⟩ :=
    columns_spec (n + 1) w.Grid.GridWidth.toNat 0 w (le_refl 0) hWn hwf
      (fun a hv _ he hv2 => htop a hv he hv2) hlib hcls hfresh hfuel
  have hpos : w1.Grid.FallingTiles.length > 0 := by
    rw [hF, List.length_append, List.length_range']
    obtain ⟨a, hv, he⟩ := hsome
    have hm := (hmem a).mpr ⟨hv, Int.emod_nonneg a (ne_of_gt hwf.1), he⟩
    have := List.length_pos_of_mem hm
    omega
  obtain ⟨w2, hrun, _, _⟩ := StartFalling_all_here (n + 1) w1.Grid.FallingTiles w1
  obtain ⟨hsame, _⟩ := StartFalling_all_trace _ _ _ _ _ hrun
  obtain ⟨_, _, _, _, _, _, sF, _⟩ := hsame
  refine ⟨w2, ?_, ?_⟩
  · unfold RespawnTiles RespawnTiles_with
    rw [hcol]
    simp only [Outcome.bind]
    rw [if_pos hpos]
    exact hrun
  · rw [sF]
    exact List.ne_nil_of_length_pos hpos

/-! ## Claim on the settling of the board after a match -/

theorem runWorld_onBoard (t : TilePtr) (ht : t ∈ ([0, 1, 2] : List TilePtr)) :
    OnBoard runWorld.Grid t := by
  simp only [List.mem_cons, List.mem_singleton, List.not_mem_nil, or_false] at ht
  rcases ht with h | h | h <;> subst h <;> exact plainBoard_onBoard 3 3 3 _ _ (by decide)

theorem runWorld_rewards (gm : AMatch3GameMode) (hgm : runWorld.GameMode = some gm)
    (I : Int) (hI : I ∈ gm.RewardIntervals) : 0 < I := by
  simp only [runWorld, worldOf, Option.some.injEq] at hgm
  subst hgm
  simp only [List.mem_singleton] at hI
  subst hI
  decide

/-! ## Grid initialisation: the check of a tile type -/

/-- The address computation from the address 0: the cell of the column and the row given as
offsets, when they are on the grid. -/
theorem offset_origin (g : AGrid) (hW : 0 < g.GridWidth) (hH : 0 < g.GridHeight)
    (dx dy : Int) :
    GetGridAddressWithOffset g 0 dx dy =
      if 0 ≤ dx ∧ dx < g.GridWidth ∧ 0 ≤ dy ∧ dy < g.GridHeight then
        some (true, dx + dy * g.GridWidth)
      else some (false, -1) := by
  rw [offset_eq g 0 dx dy hW (le_refl 0) (mul_pos hW hH)]
  simp only [Int.zero_emod, Int.zero_ediv, zero_add]

/-- The inner loop of the check of `InitGrid` runs to the minimum run length when every cell
that it reads is on the grid and holds a tile of the type. -/
theorem InitGrid_run_full (g : AGrid) (hW : 0 < g.GridWidth) (hH : 0 < g.GridHeight)
    (C Rw T : Int) (hz : Bool) (R : Int) :
    ∀ (n : Nat) (o : Int), o + (n : Int) = R →
      (∀ k : Int, o ≤ k → k < R →
        (0 ≤ C - (if hz then k else 0) ∧ C - (if hz then k else 0) < g.GridWidth ∧
          0 ≤ Rw - (if hz then 0 else k) ∧ Rw - (if hz then 0 else k) < g.GridHeight) ∧
        ∃ p, GetTileFromGridAddress g
            ((C - (if hz then k else 0)) + (Rw - (if hz then 0 else k)) * g.GridWidth) =
              some p ∧ (g.heap p).TileTypeID = T) →
      InitGrid_run g C Rw T hz n o = some R := by
  intro n
  induction n with
  | zero =>
    intro o ho _
    simp only [Nat.cast_zero, add_zero] at ho
    rw [ho]
    rfl
  | succ n ih =>
    intro o ho hall
    obtain ⟨hon, p, hp, hty⟩ := hall o (le_refl o) (by push_cast at ho; omega)
    unfold InitGrid_run
    rw [offset_origin g hW hH, if_pos hon]
    simp only
    rw [hp]
    simp only
    rw [if_neg (by rw [hty]; exact fun h => h rfl)]
    exact ih (o + 1) (by push_cast at ho; omega) (fun k hk1 hk2 => hall k (by omega) hk2)

/-- The selection loop of `InitGrid`, whenever it returns: only random values have been
used, and when the check ran the type drawn passed it. -/
theorem InitGrid_pick_spec :
    ∀ (n : Nat) (w : UWorld) (C Rw T : Int) (w2 : UWorld),
      InitGrid_pick n w C Rw = Outcome.done (T, w2) →
      w2.Grid = w.Grid ∧ w2.NextTile = w.NextTile ∧ w2.TileLibrary = w.TileLibrary ∧
      ((C ≥ w.Grid.MinimumRunLength - 1 ∨ Rw ≥ w.Grid.MinimumRunLength - 1) →
        ∃ o, InitGrid_axes w.Grid C Rw T = some o ∧ o < w.Grid.MinimumRunLength) := by
  intro n
  induction n with
  | zero =>
    intro w C Rw T w2 h
    cases h
  | succ n ih =>
    intro w C Rw T w2 h
    unfold InitGrid_pick at h
    unfold InitGrid_try at h
    simp only [SelectTileFromLibrary] at h
    by_cases hc : C ≥ w.Grid.MinimumRunLength - 1 ∨ Rw ≥ w.Grid.MinimumRunLength - 1
    · rw [if_pos hc] at h
      revert h
      cases hax : InitGrid_axes w.Grid C Rw
          (SelectTileFromLibrary_scan (NextTestNumber w) w.TileLibrary 0 0) with
      | none =>
        intro h
        cases h
      | some o =>
        simp only
        by_cases ho : o < w.Grid.MinimumRunLength
        · rw [if_pos ho]
          intro h
          simp only [Outcome.done.injEq, Prod.mk.injEq] at h
          obtain ⟨h1, h2⟩ := h
          subst h1
          subst h2
          exact ⟨rfl, rfl, rfl, fun _ => ⟨o, hax, ho⟩⟩
        · rw [if_neg ho]
          intro h
          exact ih { w with RandomCount := w.RandomCount + 1 } C Rw T w2 h
    · rw [if_neg hc] at h
      simp only [Outcome.done.injEq, Prod.mk.injEq] at h
      obtain ⟨h1, h2⟩ := h
      subst h1
      subst h2
      exact ⟨rfl, rfl, rfl, fun h => absurd h hc⟩

/-- A cell number determines its column and its row. -/
theorem cell_number_inj (Hn c r c2 r2 : Nat) (hr : r < Hn) (hr2 : r2 < Hn)
    (h : c * Hn + r = c2 * Hn + r2) : c = c2 ∧ r = r2 := by
  have h1 : (c * Hn + r) / Hn = c := by
    rw [Nat.mul_comm, Nat.mul_add_div (by omega), Nat.div_eq_of_lt hr, Nat.add_zero]
  have h2 : (c2 * Hn + r2) / Hn = c2 := by
    rw [Nat.mul_comm, Nat.mul_add_div (by omega), Nat.div_eq_of_lt hr2, Nat.add_zero]
  have hc : c = c2 := by rw [← h1, ← h2, h]
  subst hc
  exact ⟨rfl, by omega⟩

/-- The cell numbers are ordered by column, then by row. -/
theorem cell_number_lt (Hn c r c2 r2 : Nat) (hr2 : r2 < Hn)
    (h : c * Hn + r < c2 * Hn + r2) : c < c2 ∨ (c = c2 ∧ r < r2) := by
  rcases Nat.lt_trichotomy c c2 with hlt | heq | hgt
  · exact Or.inl hlt
  · subst heq
    exact Or.inr ⟨rfl, by omega⟩
  · exfalso
    have : (c2 + 1) * Hn ≤ c * Hn := Nat.mul_le_mul_right Hn hgt
    have e : (c2 + 1) * Hn = c2 * Hn + Hn := by ring
    omega

theorem cell_number_col (Hn c r c2 r2 : Nat) (hr2 : r2 < Hn) (h : c < c2) :
    c * Hn + r2 < c2 * Hn + r := by
  have : (c + 1) * Hn ≤ c2 * Hn := Nat.mul_le_mul_right Hn h
  have e : (c + 1) * Hn = c * Hn + Hn := by ring
  omega

/-- Whether a tile completes a run backwards depends on the types of the tiles up to it. -/
theorem noRunBack_congr (g g2 : AGrid) (N0 : TilePtr) (c r : Nat)
    (hH : g2.GridHeight = g.GridHeight) (hR : g2.MinimumRunLength = g.MinimumRunLength)
    (hr : (r : Int) < g.GridHeight)
    (hty : ∀ m : Nat, m ≤ c * g.GridHeight.toNat + r →
      (g2.heap (N0 + m)).TileTypeID = (g.heap (N0 + m)).TileTypeID)
    (h : noRunBack g N0 c r) : noRunBack g2 N0 c r := by
  unfold noRunBack at h ⊢
  rw [hH, hR]
  have hr' : r < g.GridHeight.toNat := by omega
  obtain ⟨h1, h2⟩ := h
  refine ⟨?_, ?_⟩
  · rintro ⟨a, b⟩
    apply h1
    refine ⟨a, ?_⟩
    intro k hk1 hk2
    have := b k hk1 hk2
    rw [hty _ (by omega), hty _ (le_refl _)] at this
    exact this
  · rintro ⟨a, b⟩
    apply h2
    refine ⟨a, ?_⟩
    intro k hk1 hk2
    have := b k hk1 hk2
    have hle : (c - k) * g.GridHeight.toNat + r ≤ c * g.GridHeight.toNat + r :=
      Nat.add_le_add_right (Nat.mul_le_mul_right _ (Nat.sub_le c k)) r
    rw [hty _ hle, hty _ (le_refl _)] at this
    exact this

/-- A type that passes the check of `InitGrid` at the next cell to fill does not complete a
run backwards there. -/
theorem accept_noRun (W H R : Int) (N0 : TilePtr) (hW : 0 < W) (hH : 0 < H) (hR : 2 ≤ R)
    (g g3 : AGrid) (c r : Nat) (hr : (r : Int) < H) (hc : (c : Int) < W)
    (hinv : filledTo W H R N0 (c * H.toNat + r) g) (T : Int)
    (hacc : ((c : Int) ≥ g.MinimumRunLength - 1 ∨ (r : Int) ≥ g.MinimumRunLength - 1) →
      ∃ o, InitGrid_axes g c r T = some o ∧ o < g.MinimumRunLength)
    (h3H : g3.GridHeight = H) (h3R : g3.MinimumRunLength = R)
    (hold : ∀ m : Nat, m < c * H.toNat + r →
      (g3.heap (N0 + m)).TileTypeID = (g.heap (N0 + m)).TileTypeID)
    (hnew : (g3.heap (N0 + (c * H.toNat + r))).TileTypeID = T) :
    noRunBack g3 N0 c r := by
  obtain ⟨iW, iH, iR, _, iS, _, _⟩ := hinv
  have gW : 0 < g.GridWidth := by rw [iW]; exact hW
  have gH : 0 < g.GridHeight := by rw [iH]; exact hH
  have hr' : r < H.toNat := by omega
  have hn : ((R - 1).toNat : Int) = R - 1 := Int.toNat_of_nonneg (by omega)
  unfold noRunBack
  rw [h3H, h3R, hnew]
  refine ⟨?_, ?_⟩
  · rintro ⟨a, b⟩
    have hfull : InitGrid_run g c r T false (R - 1).toNat 1 = some R := by
      apply InitGrid_run_full g gW gH c r T false R (R - 1).toNat 1 (by omega)
      intro k hk1 hk2
      simp only [Bool.false_eq_true, if_false, sub_zero]
      have hkn : ((k.toNat : Nat) : Int) = k := Int.toNat_of_nonneg (by omega)
      have hsub : (((r - k.toNat : Nat)) : Int) = (r : Int) - k := by omega
      have hlt : c * H.toNat + (r - k.toNat) < c * H.toNat + r := by omega
      obtain ⟨s1, _⟩ := iS c (r - k.toNat) (by omega) hlt
      rw [hsub] at s1
      refine ⟨⟨by omega, by rw [iW]; exact hc, by omega, by rw [iH]; omega⟩,
        N0 + (c * H.toNat + (r - k.toNat)), ?_, ?_⟩
      · rw [iW]
        exact s1
      · rw [← hold _ hlt]
        exact b k.toNat (by omega) (by omega)
    obtain ⟨o, ho, hlt⟩ := hacc (Or.inr (by rw [iR]; omega))
    unfold InitGrid_axes at ho
    rw [iR, hfull] at ho
    simp only [if_true, Option.some.injEq] at ho
    rw [iR] at hlt
    omega
  · rintro ⟨a, b⟩
    have hfull : InitGrid_run g c r T true (R - 1).toNat 1 = some R := by
      apply InitGrid_run_full g gW gH c r T true R (R - 1).toNat 1 (by omega)
      intro k hk1 hk2
      simp only [if_true, sub_zero]
      have hkn : ((k.toNat : Nat) : Int) = k := Int.toNat_of_nonneg (by omega)
      have hsub : (((c - k.toNat : Nat)) : Int) = (c : Int) - k := by omega
      have hlt : (c - k.toNat) * H.toNat + r < c * H.toNat + r :=
        cell_number_col H.toNat (c - k.toNat) r c r hr' (by omega)
      obtain ⟨s1, _⟩ := iS (c - k.toNat) r hr hlt
      rw [hsub] at s1
      refine ⟨⟨by omega, by rw [iW]; omega, by omega, by rw [iH]; exact hr⟩,
        N0 + ((c - k.toNat) * H.toNat + r), ?_, ?_⟩
      · rw [iW]
        exact s1
      · rw [← hold _ hlt]
        exact b k.toNat (by omega) (by omega)
    obtain ⟨o, ho, hlt⟩ := hacc (Or.inl (by rw [iR]; omega))
    unfold InitGrid_axes at ho
    rw [iR] at ho hlt
    revert ho
    cases InitGrid_run g c r T false (R - 1).toNat 1 with
    | none =>
      intro ho
      cases ho
    | some o1 =>
      simp only
      by_cases e : o1 = R
      · rw [if_pos e]
        intro ho
        injection ho with ho
        omega
      · rw [if_neg e, hfull]
        intro ho
        injection ho with ho
        omega

/-- An entry read from the library is an entry of the library. -/
theorem GetTileType_mem (w : UWorld) (i : Int) (T : FTileType) (h : GetTileType w i = some T) :
    T ∈ w.TileLibrary := by
  unfold GetTileType at h
  split_ifs at h
  exact List.getElem?_mem h

/-- The body of the loops of `InitGrid`, whenever it returns: one more cell is filled. -/
theorem InitGrid_cell_step (fuel : Nat) (W H R : Int) (N0 : TilePtr) (lib : List FTileType)
    (hW : 0 < W) (hH : 0 < H) (hR : 2 ≤ R) (hcls : ∀ T ∈ lib, T.TileClass = true)
    (w : UWorld) (c r : Nat) (hr : (r : Int) < H) (hc : (c : Int) < W)
    (hinv : filledTo W H R N0 (c * H.toNat + r) w.Grid)
    (hN : w.NextTile = N0 + (c * H.toNat + r)) (hlib : w.TileLibrary = lib)
    (w3 : UWorld) (h : InitGrid_cell fuel w c r = Outcome.done w3) :
    filledTo W H R N0 (c * H.toNat + r + 1) w3.Grid ∧
      w3.NextTile = N0 + (c * H.toNat + r + 1) ∧ w3.TileLibrary = lib := by
  have hinv' := hinv
  obtain ⟨iW, iH, iR, iL, iS, iO, iN⟩ := hinv
  have gW : 0 < w.Grid.GridWidth := by rw [iW]; exact hW
  have gH : 0 < w.Grid.GridHeight := by rw [iH]; exact hH
  have hr' : r < H.toNat := by omega
  unfold InitGrid_cell at h
  simp only [SelectTileFromLibrary] at h
  rw [offset_origin w.Grid gW gH, if_pos ⟨Int.natCast_nonneg c, by rw [iW]; exact hc,
    Int.natCast_nonneg r, by rw [iH]; exact hr⟩] at h
  simp only at h
  obtain ⟨⟨T, w2⟩, hp, h2⟩ := Outcome_bind_eq_done _ _ _ h
  obtain ⟨pG, pN, pL, pacc⟩ := InitGrid_pick_spec fuel _ c r T w2 hp
  simp only at h2 pG pN pL pacc
  revert h2
  cases hT : GetTileType w2 T with
  | none =>
    intro h2
    cases h2
  | some TileType =>
    simp only
    have hcl : TileType.TileClass = true := by
      apply hcls
      rw [← hlib, ← pL]
      exact GetTileType_mem w2 T TileType hT
    rw [hcl]
    cases hC : CreateTile w2 true ((c : Int) + (r : Int) * w.Grid.GridWidth) T with
    | none =>
      intro h2
      cases h2
    | some q =>
      obtain ⟨res, w4⟩ := q
      intro h2
      simp only [Outcome.done.injEq] at h2
      subst h2
      obtain ⟨T0, _, _, hi, hw4⟩ := CreateTile_some w2 _ T res w4 hC
      rw [pG] at hi
      have e4G : w4.Grid = { w.Grid with
          heap := Function.update w.Grid.heap (N0 + (c * H.toNat + r))
            { TileTypeID := T, TileState := ETileState.ETS_Normal,
              Abilities := T0.Abilities,
              GridAddress := (c : Int) + (r : Int) * w.Grid.GridWidth,
              LandingGridAddress := 0 },
          GameTiles := w.Grid.GameTiles.set ((c : Int) + (r : Int) * w.Grid.GridWidth).toNat
            (some (N0 + (c * H.toNat + r))) } := by
        rw [hw4]
        simp only [pG, pN, hN]
      have e4N : w4.NextTile = N0 + (c * H.toNat + r + 1) := by
        rw [hw4]
        simp only [pN, hN]
        rfl
      have e4L : w4.TileLibrary = lib := by
        rw [hw4]
        simp only [pL, hlib]
      refine ⟨?_, e4N, e4L⟩
      have hslot : ∀ x, GetTileFromGridAddress w4.Grid x =
          if x = (c : Int) + (r : Int) * w.Grid.GridWidth then some (N0 + (c * H.toNat + r))
          else GetTileFromGridAddress w.Grid x :=
        fun x => getTile_set w.Grid w4.Grid _ _ hi (by rw [e4G]) x
      have hheap : ∀ m : Nat, m ≠ c * H.toNat + r →
          w4.Grid.heap (N0 + m) = w.Grid.heap (N0 + m) := by
        intro m hm
        rw [e4G]
        simp only
        rw [Function.update_noteq]
        intro e
        exact hm (Nat.add_left_cancel e)
      have hnewh : (w4.Grid.heap (N0 + (c * H.toNat + r))).TileTypeID = T ∧
          (w4.Grid.heap (N0 + (c * H.toNat + r))).GridAddress =
            (c : Int) + (r : Int) * w.Grid.GridWidth := by
        rw [e4G]
        simp only [Function.update_same, and_self]
      have h4W : w4.Grid.GridWidth = W := by rw [e4G]; exact iW
      have h4H : w4.Grid.GridHeight = H := by rw [e4G]; exact iH
      have h4R : w4.Grid.MinimumRunLength = R := by rw [e4G]; exact iR
      have haddr : ∀ c2 r2 : Nat, (r2 : Int) < H → c2 * H.toNat + r2 < c * H.toNat + r →
          (c2 : Int) + (r2 : Int) * W ≠ (c : Int) + (r : Int) * W := by
        intro c2 r2 h2r hlt e
        have hc2 : c2 ≤ c := by
          rcases cell_number_lt H.toNat c2 r2 c r hr' hlt with h | ⟨h, _⟩ <;> omega
        obtain ⟨a1, a2⟩ := cell_coords w.Grid gW (c : Int) (r : Int) (Int.natCast_nonneg c)
          (by rw [iW]; exact hc)
        obtain ⟨b1, b2⟩ := cell_coords w.Grid gW (c2 : Int) (r2 : Int) (Int.natCast_nonneg c2)
          (by rw [iW]; omega)
        rw [iW] at a1 a2 b1 b2
        rw [e] at b1 b2
        have e1 : (c2 : Int) = c := b1.symm.trans a1
        have e2 : (r2 : Int) = r := b2.symm.trans a2
        have e1' : c2 = c := by omega
        have e2' : r2 = r := by omega
        subst e1'
        subst e2'
        omega
      refine ⟨h4W, h4H, h4R, ?_, ?_, ?_, ?_⟩
      · rw [e4G]
        simp only [List.length_set]
        exact iL
      · intro c2 r2 h2r hlt
        by_cases e : c2 * H.toNat + r2 = c * H.toNat + r
        · obtain ⟨e1, e2⟩ := cell_number_inj H.toNat c2 r2 c r (by omega) hr' e
          subst e1
          subst e2
          rw [hslot, ← iW, if_pos rfl]
          exact ⟨rfl, hnewh.2⟩
        · have hlt' : c2 * H.toNat + r2 < c * H.toNat + r := by omega
          obtain ⟨s1, s2⟩ := iS c2 r2 h2r hlt'
          rw [hslot, if_neg (by rw [iW]; exact haddr c2 r2 h2r hlt')]
          refine ⟨s1, ?_⟩
          unfold GetGridAddress at s2 ⊢
          rw [hheap _ e]
          exact s2
      · intro a p ha
        rw [hslot] at ha
        by_cases e : a = (c : Int) + (r : Int) * w.Grid.GridWidth
        · rw [if_pos e] at ha
          injection ha with ha
          exact ⟨c, r, hr, Nat.lt_succ_self _, by rw [e, iW], ha.symm⟩
        · rw [if_neg e] at ha
          obtain ⟨c2, r2, h1, h2, h3, h4⟩ := iO a p ha
          exact ⟨c2, r2, h1, Nat.lt_succ_of_lt h2, h3, h4⟩
      · intro c2 r2 h2r hlt
        by_cases e : c2 * H.toNat + r2 = c * H.toNat + r
        · obtain ⟨e1, e2⟩ := cell_number_inj H.toNat c2 r2 c r (by omega) hr' e
          subst e1
          subst e2
          exact accept_noRun W H R N0 hW hH hR w.Grid w4.Grid c2 r2 hr hc hinv' T pacc h4H h4R
            (fun m hm => by rw [hheap m (Nat.ne_of_lt hm)]) hnewh.1
        · have hlt' : c2 * H.toNat + r2 < c * H.toNat + r := by omega
          refine noRunBack_congr w.Grid w4.Grid N0 c2 r2 (h4H.trans iH.symm)
            (h4R.trans iR.symm) (by rw [iH]; exact h2r) ?_ (iN c2 r2 h2r hlt')
          intro m hm
          rw [iH] at hm
          rw [hheap m (by omega)]

/-- The loop over the rows of `InitGrid`, whenever it returns: the column is filled. -/
theorem InitGrid_rows_spec (fuel : Nat) (W H R : Int) (N0 : TilePtr) (lib : List FTileType)
    (hW : 0 < W) (hH : 0 < H) (hR : 2 ≤ R) (hcls : ∀ T ∈ lib, T.TileClass = true)
    (c : Nat) (hc : (c : Int) < W) :
    ∀ (n r : Nat) (w w2 : UWorld), (r : Int) + (n : Int) = H →
      filledTo W H R N0 (c * H.toNat + r) w.Grid →
      w.NextTile = N0 + (c * H.toNat + r) → w.TileLibrary = lib →
      InitGrid_rows fuel n w c r = Outcome.done w2 →
      filledTo W H R N0 ((c + 1) * H.toNat) w2.Grid ∧
        w2.NextTile = N0 + (c + 1) * H.toNat ∧ w2.TileLibrary = lib := by
  intro n
  induction n with
  | zero =>
    intro r w w2 hn hinv hN hlib h
    simp only [InitGrid_rows, Outcome.done.injEq] at h
    subst h
    have e : c * H.toNat + r = (c + 1) * H.toNat := by
      have : r = H.toNat := by
        simp only [Nat.cast_zero, add_zero] at hn
        omega
      rw [this]
      ring
    rw [e] at hinv hN
    exact ⟨hinv, hN, hlib⟩
  | succ n ih =>
    intro r w w2 hn hinv hN hlib h
    unfold InitGrid_rows at h
    obtain ⟨w1, h1, h2⟩ := Outcome_bind_eq_done _ _ _ h
    obtain ⟨s1, s2, s3⟩ := InitGrid_cell_step fuel W H R N0 lib hW hH hR hcls w c r
      (by push_cast at hn; omega) hc hinv hN hlib w1 h1
    have e : ((r : Int) + 1) = ((r + 1 : Nat) : Int) := by push_cast; rfl
    rw [e] at h2
    exact ih (r + 1) w1 w2 (by push_cast at hn ⊢; omega) s1 s2 s3 h2

/-- The loop over the columns of `InitGrid`, whenever it returns: the grid is filled. -/
theorem InitGrid_columns_spec (fuel : Nat) (W H R : Int) (N0 : TilePtr)
    (lib : List FTileType) (hW : 0 < W) (hH : 0 < H) (hR : 2 ≤ R)
    (hcls : ∀ T ∈ lib, T.TileClass = true) :
    ∀ (n c : Nat) (w w2 : UWorld), (c : Int) + (n : Int) = W →
      filledTo W H R N0 (c * H.toNat) w.Grid →
      w.NextTile = N0 + c * H.toNat → w.TileLibrary = lib →
      InitGrid_columns fuel n w c = Outcome.done w2 →
      filledTo W H R N0 (W.toNat * H.toNat) w2.Grid := by
  intro n
  induction n with
  | zero =>
    intro c w w2 hn hinv _ _ h
    simp only [InitGrid_columns, Outcome.done.injEq] at h
    subst h
    have e : c = W.toNat := by
      simp only [Nat.cast_zero, add_zero] at hn
      omega
    rw [e] at hinv
    exact hinv
  | succ n ih =>
    intro c w w2 hn hinv hN hlib h
    unfold InitGrid_columns at h
    obtain ⟨w1, h1, h2⟩ := Outcome_bind_eq_done _ _ _ h
    rw [hinv.2.1] at h1
    have e0 : ((0 : Nat) : Int) = 0 := rfl
    rw [← e0] at h1
    obtain ⟨s1, s2, s3⟩ := InitGrid_rows_spec fuel W H R N0 lib hW hH hR hcls c
      (by push_cast at hn; omega) H.toNat 0 w w1 (by push_cast; omega)
      (by rw [Nat.add_zero]; exact hinv) (by rw [Nat.add_zero]; exact hN) hlib h1
    have e : ((c : Int) + 1) = ((c + 1 : Nat) : Int) := by push_cast; rfl
    rw [e] at h2
    exact ih (c + 1) w1 w2 (by push_cast at hn ⊢; omega) s1 s2 s3 h2

/-- An empty board holds no tile. -/
theorem getTile_replicate (g : AGrid) (n : Nat) (h : g.GameTiles = List.replicate n none)
    (a : Int) : GetTileFromGridAddress g a = none := by
  unfold GetTileFromGridAddress
  rw [h]
  split_ifs with hr
  · rw [List.length_replicate] at hr
    rw [List.getElem?_replicate, if_pos (by omega)]
    rfl
  · rfl

/-- The method `InitGrid`, whenever it returns on a grid of positive dimensions with a
minimum run length of at least 2 and a library whose entries have a tile class: every cell
is filled, column by column, with the tiles created from the first new pointer on, and no
tile completes a run backwards. -/
theorem InitGrid_filled (fuel : Nat) (w w2 : UWorld) (hW : 0 < w.Grid.GridWidth)
    (hH : 0 < w.Grid.GridHeight) (hR : 2 ≤ w.Grid.MinimumRunLength)
    (hcls : ∀ T ∈ w.TileLibrary, T.TileClass = true)
    (h : InitGrid fuel w = Outcome.done w2) :
    filledTo w.Grid.GridWidth w.Grid.GridHeight w.Grid.MinimumRunLength w.NextTile
      (w.Grid.GridWidth.toNat * w.Grid.GridHeight.toNat) w2.Grid := by
  unfold InitGrid at h
  have hpos : ¬ w.Grid.GridWidth * w.Grid.GridHeight < 0 := by
    have := mul_pos hW hH
    omega
  rw [if_neg hpos] at h
  simp only at h
  obtain ⟨w1, hw1⟩ : ∃ w1 : UWorld, w1 = { w with Grid := { w.Grid with
      GameTiles := List.replicate (w.Grid.GridWidth * w.Grid.GridHeight).toNat none } } :=
    ⟨_, rfl⟩
  rw [← hw1] at h
  have e0 : ((0 : Nat) : Int) = 0 := rfl
  rw [← e0] at h
  have hG : w1.Grid.GameTiles =
      List.replicate (w.Grid.GridWidth * w.Grid.GridHeight).toNat none := by rw [hw1]
  refine InitGrid_columns_spec fuel _ _ _ w.NextTile w.TileLibrary hW hH hR hcls
    w.Grid.GridWidth.toNat 0 w1 w2 (by push_cast; omega) ?_ (by rw [hw1]; simp)
    (by rw [hw1]) h
  refine ⟨by rw [hw1], by rw [hw1], by rw [hw1], ?_, ?_, ?_, ?_⟩
  · rw [hG]
    simp only [List.length_replicate]
    have := mul_pos hW hH
    omega
  · intro c r _ hlt
    omega
  · intro a p ha
    rw [getTile_replicate _ _ hG a] at ha
    cases ha
  · intro c r _ hlt
    omega

/-! ## Grid initialisation: the filled grid has no run -/

theorem cell_number_bound (Wn Hn c r : Nat) (hr : r < Hn) :
    c * Hn + r < Wn * Hn ↔ c < Wn := by
  constructor
  · intro h
    by_contra hc
    have : Wn * Hn ≤ c * Hn := Nat.mul_le_mul_right Hn (by omega)
    omega
  · intro h
    have : (c + 1) * Hn ≤ Wn * Hn := Nat.mul_le_mul_right Hn h
    have e : (c + 1) * Hn = c * Hn + Hn := by ring
    omega

/-- The filled grid is a fully populated consistent board of the data model. -/
theorem filled_board (W H R : Int) (N0 : TilePtr) (g : AGrid) (hW : 0 < W) (hH : 0 < H)
    (h : filledTo W H R N0 (W.toNat * H.toNat) g) :
    WellFormed g ∧ FullyPopulated g ∧ Consistent g := by
  obtain ⟨iW, iH, iR, iL, iS, iO, _⟩ := h
  have hwf : WellFormed g := ⟨by rw [iW]; exact hW, by rw [iH]; exact hH, by rw [iL, iW, iH]⟩
  refine ⟨hwf, ?_, ?_⟩
  · intro a hv
    obtain ⟨c0, c1, r0, r1, e⟩ := cell_of_valid g hwf.1 a hv
    rw [iW] at c1 e
    rw [iH] at r1
    have hnum : (colOf g a).toNat * H.toNat + (rowOf g a).toNat < W.toNat * H.toNat :=
      (cell_number_bound W.toNat H.toNat _ _ (by omega)).mpr (by omega)
    obtain ⟨s1, _⟩ := iS (colOf g a).toNat (rowOf g a).toNat (by omega) hnum
    rw [Int.toNat_of_nonneg c0, Int.toNat_of_nonneg r0, ← e] at s1
    rw [s1]
    exact fun h => by cases h
  · intro a p ha
    obtain ⟨c, r, h1, h2, h3, h4⟩ := iO a p ha
    rw [h3, h4]
    exact (iS c r h1 h2).2

/-- The cell of a tile of the filled grid. -/
theorem filled_cell (W H R : Int) (N0 : TilePtr) (g : AGrid) (hW : 0 < W)
    (h : filledTo W H R N0 (W.toNat * H.toNat) g) (t : TilePtr) (hon : OnBoard g t) :
    ∃ c r : Nat, (r : Int) < H ∧ (c : Int) < W ∧ t = N0 + (c * H.toNat + r) ∧
      colOf g (GetGridAddress g t) = (c : Int) ∧ rowOf g (GetGridAddress g t) = (r : Int) := by
  obtain ⟨iW, iH, iR, iL, iS, iO, _⟩ := h
  obtain ⟨c, r, h1, h2, h3, h4⟩ := iO _ t hon
  have hc : c < W.toNat := (cell_number_bound W.toNat H.toNat c r (by omega)).mp h2
  have hcW : (c : Int) < W := by omega
  obtain ⟨e1, e2⟩ := cell_coords g (by rw [iW]; exact hW) (c : Int) (r : Int)
    (Int.natCast_nonneg c) (by rw [iW]; exact hcW)
  rw [iW] at e1 e2
  refine ⟨c, r, h1, hcW, h4, ?_, ?_⟩
  · unfold colOf
    rw [h3, iW]
    exact e1
  · unfold rowOf
    rw [h3, iW]
    exact e2

/-- A cell of the line of a tile of the filled grid that holds the type of the tile. -/
theorem filled_same (W H R : Int) (N0 : TilePtr) (g : AGrid)
    (h : filledTo W H R N0 (W.toNat * H.toNat) g) (t : TilePtr) (c r : Nat)
    (hc : colOf g (GetGridAddress g t) = (c : Int))
    (hr : rowOf g (GetGridAddress g t) = (r : Int)) (hz : Bool) (k : Int)
    (hs : sameTypeAt g t hz k) :
    ∃ c2 r2 : Nat, (c2 : Int) = (c : Int) + (if hz then k else 0) ∧
      (r2 : Int) = (r : Int) + (if hz then 0 else k) ∧ (r2 : Int) < H ∧ (c2 : Int) < W ∧
      (g.heap (N0 + (c2 * H.toNat + r2))).TileTypeID = (g.heap t).TileTypeID := by
  obtain ⟨iW, iH, iR, iL, iS, iO, _⟩ := h
  obtain ⟨x, hx, hty⟩ := hs
  unfold lineTile at hx
  split_ifs at hx with hon
  obtain ⟨a1, a2, a3, a4⟩ := hon
  unfold lineCol at a1 a2 hx
  unfold lineRow at a3 a4 hx
  rw [hc] at a1 a2 hx
  rw [hr] at a3 a4 hx
  rw [iW] at a2 hx
  rw [iH] at a4
  have e1 : ((((c : Int) + (if hz then k else 0)).toNat : Nat) : Int) =
      (c : Int) + (if hz then k else 0) := Int.toNat_of_nonneg a1
  have e2 : ((((r : Int) + (if hz then 0 else k)).toNat : Nat) : Int) =
      (r : Int) + (if hz then 0 else k) := Int.toNat_of_nonneg a3
  have hnum : ((c : Int) + (if hz then k else 0)).toNat * H.toNat +
      ((r : Int) + (if hz then 0 else k)).toNat < W.toNat * H.toNat :=
    (cell_number_bound W.toNat H.toNat _ _ (by omega)).mpr (by omega)
  obtain ⟨s1, _⟩ := iS _ _ (by rw [e2]; exact a4) hnum
  rw [e1, e2, hx] at s1
  injection s1 with s1
  refine ⟨_, _, e1, e2, by rw [e2]; exact a4, by rw [e1]; exact a2, ?_⟩
  rw [← s1]
  exact hty

/-- On the filled grid no maximal segment of tiles of one type reaches the minimum run
length. -/
theorem filled_short (W H R : Int) (N0 : TilePtr) (g : AGrid) (hW : 0 < W) (hR : 2 ≤ R)
    (hRW : R ≤ W) (hRH : R ≤ H)
    (h : filledTo W H R N0 (W.toNat * H.toNat) g) (t : TilePtr) (hon : OnBoard g t)
    (hz : Bool) (lo hi : Nat) (hseg : IsMaximalSegment g t hz lo hi) :
    ¬ axisQualifies g hz R lo hi := by
  intro hq
  obtain ⟨c, r, hr, hc, ht, ec, er⟩ := filled_cell W H R N0 g hW h t hon
  have hsame := filled_same W H R N0 g h t c r ec er hz
  obtain ⟨iW, iH, iR, _, _, _, iN⟩ := h
  have hlen : R ≤ (lo : Int) + (hi : Int) + 1 := by
    unfold axisQualifies axisExtent at hq
    rw [iW, iH] at hq
    cases hz
    · simp only [Bool.false_eq_true, if_false] at hq
      rw [min_eq_left hRH] at hq
      exact hq
    · simp only [if_true] at hq
      rw [min_eq_left hRW] at hq
      exact hq
  obtain ⟨ct, rt, tc, tr, trH, tcW, tty⟩ := hsame (hi : Int) (hseg.1 _ (by omega) (le_refl _))
  have hnum : ct * H.toNat + rt < W.toNat * H.toNat :=
    (cell_number_bound W.toNat H.toNat _ _ (by omega)).mpr (by omega)
  have hno := iN ct rt trH hnum
  unfold noRunBack at hno
  rw [iR, iH] at hno
  obtain ⟨hv, hh⟩ := hno
  cases hz with
  | false =>
    simp only [Bool.false_eq_true, if_false, add_zero] at tc tr hsame
    apply hv
    have hbot := hsame ((hi : Int) - (R - 1)) (hseg.1 _ (by omega) (by omega))
    obtain ⟨cb, rb, bc, br, _, _, _⟩ := hbot
    refine ⟨by omega, ?_⟩
    intro kn hk1 hk2
    obtain ⟨c2, r2, e1, e2, _, _, ty2⟩ :=
      hsame ((hi : Int) - (kn : Int)) (hseg.1 _ (by omega) (by omega))
    have ec2 : c2 = ct := by omega
    have er2 : r2 = rt - kn := by omega
    rw [← ec2, ← er2, ty2, ← tty]
    subst ec2
    rfl
  | true =>
    simp only [if_true, add_zero] at tc tr hsame
    apply hh
    have hbot := hsame ((hi : Int) - (R - 1)) (hseg.1 _ (by omega) (by omega))
    obtain ⟨cb, rb, bc, br, _, _, _⟩ := hbot
    refine ⟨by omega, ?_⟩
    intro kn hk1 hk2
    obtain ⟨c2, r2, e1, e2, _, _, ty2⟩ :=
      hsame ((hi : Int) - (kn : Int)) (hseg.1 _ (by omega) (by omega))
    have ec2 : c2 = ct - kn := by omega
    have er2 : r2 = rt := by omega
    rw [← ec2, ← er2, ty2, ← tty]
    subst er2
    rfl

/-- The body of the loops of `InitGrid` when the first type drawn in the selection loop
passes the check: the tile is created with that type at the cell. -/
theorem InitGrid_cell_done (fuel : Nat) (w : UWorld) (C Rw T : Int) (TT : FTileType)
    (hW : 0 < w.Grid.GridWidth) (hH : 0 < w.Grid.GridHeight)
    (hC : 0 ≤ C ∧ C < w.Grid.GridWidth) (hRw : 0 ≤ Rw ∧ Rw < w.Grid.GridHeight)
    (hidx : SelectTileFromLibrary_scan
      (NextTestNumber { w with RandomCount := w.RandomCount + 1 }) w.TileLibrary 0 0 = T)
    (hacc : if C ≥ w.Grid.MinimumRunLength - 1 ∨ Rw ≥ w.Grid.MinimumRunLength - 1 then
        ∃ o, InitGrid_axes w.Grid C Rw T = some o ∧ o < w.Grid.MinimumRunLength
      else True)
    (hT : GetTileType w T = some TT) (hcl : TT.TileClass = true)
    (hlen : 0 ≤ C + Rw * w.Grid.GridWidth ∧
      C + Rw * w.Grid.GridWidth < w.Grid.GameTiles.length) :
    InitGrid_cell (fuel + 1) w C Rw = Outcome.done
      { w with
        RandomCount := w.RandomCount + 1 + 1, NextTile := w.NextTile + 1,
        Grid := { w.Grid with
          heap := Function.update w.Grid.heap w.NextTile
            { TileTypeID := T, TileState := ETileState.ETS_Normal, Abilities := TT.Abilities,
              GridAddress := C + Rw * w.Grid.GridWidth, LandingGridAddress := 0 },
          GameTiles := w.Grid.GameTiles.set (C + Rw * w.Grid.GridWidth).toNat
            (some w.NextTile) } } := by
  unfold InitGrid_cell
  simp only [SelectTileFromLibrary]
  rw [offset_origin w.Grid hW hH, if_pos ⟨hC.1, hC.2, hRw.1, hRw.2⟩]
  simp only
  have hpick : InitGrid_pick (fuel + 1) { w with RandomCount := w.RandomCount + 1 } C Rw =
      Outcome.done (T, { w with RandomCount := w.RandomCount + 1 + 1 }) := by
    unfold InitGrid_pick InitGrid_try
    simp only [SelectTileFromLibrary, hidx]
    by_cases hc : C ≥ w.Grid.MinimumRunLength - 1 ∨ Rw ≥ w.Grid.MinimumRunLength - 1
    · rw [if_pos hc] at hacc ⊢
      obtain ⟨o, ho, hlt⟩ := hacc
      rw [ho]
      simp only
      rw [if_pos hlt]
    · rw [if_neg hc]
  rw [hpick]
  simp only [Outcome.bind]
  have hT2 : GetTileType { w with RandomCount := w.RandomCount + 1 + 1 } T = some TT := hT
  rw [hT2]
  simp only [hcl]
  unfold CreateTile
  simp only [if_true, hT2]
  unfold SetGameTile
  simp only [SetGridAddress, Function.update_same, Function.update_idem]
  rw [if_pos hlen]

/-- The type drawn from the library of two plain types: the first for the random value 0,
the second for the random value 1. -/
theorem draw_two (w : UWorld) (hlib : w.TileLibrary = [plainType, plainType]) :
    (w.RandomDraws (w.RandomCount + 1) = 0 →
      SelectTileFromLibrary_scan
        (NextTestNumber { w with RandomCount := w.RandomCount + 1 }) w.TileLibrary 0 0 = 0) ∧
    (w.RandomDraws (w.RandomCount + 1) = 1 →
      SelectTileFromLibrary_scan
        (NextTestNumber { w with RandomCount := w.RandomCount + 1 }) w.TileLibrary 0 0 = 1) := by
  constructor
  · intro h
    simp only [NextTestNumber, FMath.FRandRange, hlib, h, SelectTileFromLibrary_sum,
      SelectTileFromLibrary_scan, plainType]
    norm_num
  · intro h
    simp only [NextTestNumber, FMath.FRandRange, hlib, h, SelectTileFromLibrary_sum,
      SelectTileFromLibrary_scan, plainType]
    norm_num

/-- The initialisation of the 2 x 2 grid returns: the types drawn are 0, 1, 1 and 0, and each
passes the check at its cell. -/
theorem initWorld_runs : ∃ w2 : UWorld, InitGrid 1 initWorld = Outcome.done w2 := by
  obtain ⟨w0, h0⟩ : ∃ w0 : UWorld, w0 = { initWorld with
      Grid := { initWorld.Grid with GameTiles := List.replicate 4 none } } := ⟨_, rfl⟩
  have hstart : InitGrid 1 initWorld = InitGrid_columns 1 2 w0 0 := by
    rw [h0]
    rfl
  have c1 := InitGrid_cell_done 0 w0 0 0 0 plainType (by rw [h0]; decide) (by rw [h0]; decide)
    (by rw [h0]; decide) (by rw [h0]; decide)
    ((draw_two w0 (by rw [h0]; rfl)).1 (by rw [h0]; rfl))
    (by rw [h0, if_neg (by decide)]; trivial) (by rw [h0]; rfl) rfl (by rw [h0]; decide)
  obtain ⟨wa, ha⟩ : ∃ wa : UWorld, wa = { w0 with
      RandomCount := w0.RandomCount + 1 + 1, NextTile := w0.NextTile + 1,
      Grid := { w0.Grid with
        heap := Function.update w0.Grid.heap w0.NextTile
          { TileTypeID := 0, TileState := ETileState.ETS_Normal,
            Abilities := plainType.Abilities,
            GridAddress := 0 + 0 * w0.Grid.GridWidth, LandingGridAddress := 0 },
        GameTiles := w0.Grid.GameTiles.set (0 + 0 * w0.Grid.GridWidth).toNat
          (some w0.NextTile) } } := ⟨_, rfl⟩
  rw [← ha] at c1
  rw [h0] at ha
  have c2 := InitGrid_cell_done 0 wa 0 (0 + 1) 1 plainType (by rw [ha]; decide)
    (by rw [ha]; decide) (by rw [ha]; decide) (by rw [ha]; decide)
    ((draw_two wa (by rw [ha]; rfl)).2 (by rw [ha]; rfl))
    (by rw [ha, if_pos (by decide)]; exact ⟨1, rfl, by decide⟩) (by rw [ha]; rfl) rfl
    (by rw [ha]; decide)
  obtain ⟨wb, hb⟩ : ∃ wb : UWorld, wb = { wa with
      RandomCount := wa.RandomCount + 1 + 1, NextTile := wa.NextTile + 1,
      Grid := { wa.Grid with
        heap := Function.update wa.Grid.heap wa.NextTile
          { TileTypeID := 1, TileState := ETileState.ETS_Normal,
            Abilities := plainType.Abilities,
            GridAddress := 0 + (0 + 1) * wa.Grid.GridWidth, LandingGridAddress := 0 },
        GameTiles := wa.Grid.GameTiles.set (0 + (0 + 1) * wa.Grid.GridWidth).toNat
          (some wa.NextTile) } } := ⟨_, rfl⟩
  rw [← hb] at c2
  rw [ha] at hb
  have c3 := InitGrid_cell_done 0 wb (0 + 1) 0 1 plainType (by rw [hb]; decide)
    (by rw [hb]; decide) (by rw [hb]; decide) (by rw [hb]; decide)
    ((draw_two wb (by rw [hb]; rfl)).2 (by rw [hb]; rfl))
    (by rw [hb, if_pos (by decide)]; exact ⟨1, rfl, by decide⟩) (by rw [hb]; rfl) rfl
    (by rw [hb]; decide)
  obtain ⟨wc, hc⟩ : ∃ wc : UWorld, wc = { wb with
      RandomCount := wb.RandomCount + 1 + 1, NextTile := wb.NextTile + 1,
      Grid := { wb.Grid with
        heap := Function.update wb.Grid.heap wb.NextTile
          { TileTypeID := 1, TileState := ETileState.ETS_Normal,
            Abilities := plainType.Abilities,
            GridAddress := (0 + 1) + 0 * wb.Grid.GridWidth, LandingGridAddress := 0 },
        GameTiles := wb.Grid.GameTiles.set ((0 + 1) + 0 * wb.Grid.GridWidth).toNat
          (some wb.NextTile) } } := ⟨_, rfl⟩
  rw [← hc] at c3
  rw [hb] at hc
  have c4 := InitGrid_cell_done 0 wc (0 + 1) (0 + 1) 0 plainType (by rw [hc]; decide)
    (by rw [hc]; decide) (by rw [hc]; decide) (by rw [hc]; decide)
    ((draw_two wc (by rw [hc]; rfl)).1 (by rw [hc]; rfl))
    (by rw [hc, if_pos (by decide)]; exact ⟨1, rfl, by decide⟩) (by rw [hc]; rfl) rfl
    (by rw [hc]; decide)
  obtain ⟨wd, hd⟩ : ∃ wd : UWorld, wd = { wc with
      RandomCount := wc.RandomCount + 1 + 1, NextTile := wc.NextTile + 1,
      Grid := { wc.Grid with
        heap := Function.update wc.Grid.heap wc.NextTile
          { TileTypeID := 0, TileState := ETileState.ETS_Normal,
            Abilities := plainType.Abilities,
            GridAddress := (0 + 1) + (0 + 1) * wc.Grid.GridWidth, LandingGridAddress := 0 },
        GameTiles := wc.Grid.GameTiles.set ((0 + 1) + (0 + 1) * wc.Grid.GridWidth).toNat
          (some wc.NextTile) } } := ⟨_, rfl⟩
  rw [← hd] at c4
  have gH0 : w0.Grid.GridHeight.toNat = 2 := by rw [h0]; rfl
  have gHb : wb.Grid.GridHeight.toNat = 2 := by rw [hb]; rfl
  refine ⟨wd, ?_⟩
  rw [hstart]
  unfold InitGrid_columns
  rw [gH0]
  unfold InitGrid_rows
  rw [c1]
  simp only [Outcome.bind]
  unfold InitGrid_rows
  rw [c2]
  simp only [Outcome.bind, InitGrid_rows]
  unfold InitGrid_columns
  rw [gHb]
  unfold InitGrid_rows
  rw [c3]
  simp only [Outcome.bind]
  unfold InitGrid_rows
  rw [c4]
  simp only [Outcome.bind, InitGrid_rows, InitGrid_columns]

/-! ## Claim on the board that the initialisation leaves -/

/-- C36: on a grid whose width and height are at least the minimum run length, itself at
least 2, with a library whose entries have a tile class, for every stream of random values
and every bound on the passes of the selection loop: whenever `InitGrid` returns, the
dimensions are kept, the board is a fully populated consistent board of the data model, and
for every tile on it `FindNeighbors` in matching mode with the default run length returns
the empty list. -/
theorem InitGrid_no_run (fuel : Nat) (w w2 : UWorld)
    (hR : 2 ≤ w.Grid.MinimumRunLength)
    (hRW : w.Grid.MinimumRunLength ≤ w.Grid.GridWidth)
    (hRH : w.Grid.MinimumRunLength ≤ w.Grid.GridHeight)
    (hcls : ∀ T ∈ w.TileLibrary, T.TileClass = true)
    (h : InitGrid fuel w = Outcome.done w2) :
    w2.Grid.GridWidth = w.Grid.GridWidth ∧ w2.Grid.GridHeight = w.Grid.GridHeight ∧
      w2.Grid.MinimumRunLength = w.Grid.MinimumRunLength ∧
      WellFormed w2.Grid ∧ FullyPopulated w2.Grid ∧ Consistent w2.Grid ∧
      ∀ t, OnBoard w2.Grid t → FindNeighbors w2.Grid t true (-1) = some [] := by
  have hW : 0 < w.Grid.GridWidth := by omega
  have hH : 0 < w.Grid.GridHeight := by omega
  have hfill := InitGrid_filled fuel w w2 hW hH hR hcls h
  obtain ⟨hwf, hfull, hcons⟩ := filled_board _ _ _ _ w2.Grid hW hH hfill
  have iW := hfill.1
  have iH := hfill.2.1
  have iR := hfill.2.2.1
  refine ⟨iW, iH, iR, hwf, hfull, hcons, ?_⟩
  intro t hon
  rw [FindNeighbors_default w2.Grid t true (by rw [iR]; omega)]
  obtain ⟨lov, hiv, loh, hih, res, sv, sh, e, hmem⟩ :=
    FindNeighbors_matching_mem w2.Grid t w2.Grid.MinimumRunLength hwf hon (by rw [iR]; exact hR)
  have hnone : ∀ y, ¬ inQualifyingUnion w2.Grid t w2.Grid.MinimumRunLength lov hiv loh hih y := by
    rintro y (⟨q, _⟩ | ⟨q, _⟩)
    · rw [iR] at q
      exact filled_short _ _ _ _ w2.Grid hW hR hRW hRH hfill t hon false lov hiv sv q
    · rw [iR] at q
      exact filled_short _ _ _ _ w2.Grid hW hR hRW hRH hfill t hon true loh hih sh q
  rw [e]
  congr 1
  apply List.eq_nil_iff_forall_not_mem.mpr
  intro x hx
  rcases (hmem x).mp hx with h1 | ⟨_, y, h2⟩
  · exact hnone x h1
  · exact hnone y h2

/-- C36 on the 2 x 2 grid with minimum run length 2 and a library of two plain types: the
initialisation returns, and the board that it leaves is full and has no run. -/
theorem InitGrid_no_run_witness :
    ∃ w2 : UWorld, InitGrid 1 initWorld = Outcome.done w2 ∧
      w2.Grid.GridWidth = 2 ∧ w2.Grid.GridHeight = 2 ∧
      FullyPopulated w2.Grid ∧ Consistent w2.Grid ∧
      ∀ t, OnBoard w2.Grid t → FindNeighbors w2.Grid t true (-1) = some [] := by
  obtain ⟨w2, h⟩ := initWorld_runs
  obtain ⟨hW, hH, _, _, hfull, hcons, hno⟩ := InitGrid_no_run 1 initWorld w2 (by decide)
    (by decide) (by decide)
    (fun T hT => by
      simp only [initWorld, worldOf, List.mem_cons, List.mem_singleton, List.not_mem_nil,
        or_false, or_self] at hT
      rw [hT]
      rfl) h
  exact ⟨w2, h, hW, hH, hfull, hcons, hno⟩

/-! ## Match execution: the completion of the matched tiles -/

theorem sameButSlots_refl (g : AGrid) : sameButSlots g g :=
  ⟨rfl, rfl, rfl, rfl, rfl, rfl, rfl, rfl, rfl, rfl, rfl, rfl, rfl,
    fun _ => ⟨rfl, rfl, rfl, rfl⟩⟩

theorem sameButSlots_trans (g1 g2 g3 : AGrid) (h12 : sameButSlots g1 g2)
    (h23 : sameButSlots g2 g3) : sameButSlots g1 g3 := by
  obtain ⟨a1, a2, a3, a4, a5, a6, a7, a8, a9, a10, a11, a12, a13, a14⟩ := h12
  obtain ⟨b1, b2, b3, b4, b5, b6, b7, b8, b9, b10, b11, b12, b13, b14⟩ := h23
  refine ⟨b1.trans a1, b2.trans a2, b3.trans a3, b4.trans a4, b5.trans a5, b6.trans a6,
    b7.trans a7, b8.trans a8, b9.trans a9, b10.trans a10, b11.trans a11, b12.trans a12,
    b13.trans a13, ?_⟩
  intro t
  obtain ⟨c1, c2, c3, c4⟩ := a14 t
  obtain ⟨d1, d2, d3, d4⟩ := b14 t
  exact ⟨d1.trans c1, d2.trans c2, d3.trans c3, d4.trans c4⟩

theorem sameButSlots_of_landing (g g' : AGrid) (h : sameButLanding g g') :
    sameButSlots g g' := by
  obtain ⟨a1, a2, a3, a4, a5, a6, a7, a8, a9, a10, a11, a12, a13, a14⟩ := h
  exact ⟨a1, a2, a3, by rw [a4], a5, a6, a7, a8, a9, a10, a11, a12, a13, a14⟩

theorem sameAround_refl (w : UWorld) : sameAround w w :=
  ⟨rfl, rfl, rfl, rfl, rfl, rfl, rfl⟩

theorem sameAround_trans (w1 w2 w3 : UWorld) (h12 : sameAround w1 w2)
    (h23 : sameAround w2 w3) : sameAround w1 w3 := by
  obtain ⟨a1, a2, a3, a4, a5, a6, a7⟩ := h12
  obtain ⟨b1, b2, b3, b4, b5, b6, b7⟩ := h23
  exact ⟨b1.trans a1, b2.trans a2, b3.trans a3, b4.trans a4, b5.trans a5, b6.trans a6,
    b7.trans a7⟩

theorem RemoveSwap_singleton (t : TilePtr) :
    TArray.RemoveSwap ([t] : List TilePtr) t = [] := by
  simp [TArray.RemoveSwap, TArray.RemoveSwap_loop, TArray.RemoveAtSwap]

/-- The completion of a tile through the native body of `OnMatched`. -/
theorem OnMatched_Implementation_eq (respawn : UWorld → Outcome UWorld) (fuel : Nat)
    (w : UWorld) (T : TilePtr) (m : EMatch3MoveType) :
    OnMatched_Implementation respawn fuel w T m =
      OnTileFinishedMatching_with respawn fuel w (some T) := rfl

/-- The completion callback when it leaves the destroying set empty: the falls are requested,
and the respawn runs when nothing is falling. -/
theorem OnTileFinishedMatching_with_empty (respawn : UWorld → Outcome UWorld) (fuel : Nat)
    (w : UWorld) (InTile : Option TilePtr)
    (hdes : ∀ t, InTile = some t → TArray.RemoveSwap w.Grid.TilesBeingDestroyed t = [])
    (hdes0 : InTile = none → w.Grid.TilesBeingDestroyed = []) :
    OnTileFinishedMatching_with respawn fuel w InTile =
      (StartFalling_all fuel false w.Grid.FallingTiles
        { w with
          Grid := { w.Grid with TilesBeingDestroyed := [] },
          Destroyed := w.Destroyed ++ InTile.toList }).bind fun w2 =>
        if w2.Grid.FallingTiles.length = 0 then respawn w2 else Outcome.done w2 := by
  unfold OnTileFinishedMatching_with
  cases InTile with
  | none =>
    have h0 := hdes0 rfl
    simp only [h0, List.length_nil, if_true, Option.toList, List.append_nil]
    have e : ({ w with Grid := { w.Grid with TilesBeingDestroyed := [] } } : UWorld) = w := by
      cases w with
      | mk G a b c d e f g h i =>
        cases G
        simp only at h0
        subst h0
        rfl
    rw [e]
  | some t =>
    have h1 := hdes t rfl
    simp only [h1, List.length_nil, if_true, Option.toList]

/-- The completion callback when it leaves the destroying set empty and tiles are falling, on
a grid of positive width with the falling tiles at valid addresses and a bound that reaches
the height: the falls are requested again, and nothing else happens. -/
theorem OnTileFinishedMatching_with_falls (respawn : UWorld → Outcome UWorld) (fuel : Nat)
    (w : UWorld) (InTile : Option TilePtr)
    (hdes : ∀ t, InTile = some t → TArray.RemoveSwap w.Grid.TilesBeingDestroyed t = [])
    (hdes0 : InTile = none → w.Grid.TilesBeingDestroyed = [])
    (hfall : w.Grid.FallingTiles ≠ []) (hW : 0 < w.Grid.GridWidth)
    (hv : ∀ t ∈ w.Grid.FallingTiles, ValidAddress w.Grid (GetGridAddress w.Grid t))
    (hfuel : w.Grid.GridHeight ≤ fuel) :
    ∃ w' : UWorld, OnTileFinishedMatching_with respawn fuel w InTile = Outcome.done w' ∧
      sameButLanding { w.Grid with TilesBeingDestroyed := [] } w'.Grid ∧
      sameAround w w' ∧ w'.Destroyed = w.Destroyed ++ InTile.toList ∧
      (∃ Ls : List Int, Ls.length = w.Grid.FallingTiles.length ∧
        w'.Events = w.Events ++
          List.zipWith (fun t L => FEvent.StartFalling t false L) w.Grid.FallingTiles Ls) ∧
      StartFalling_all fuel false w.Grid.FallingTiles
        { w with
          Grid := { w.Grid with TilesBeingDestroyed := [] },
          Destroyed := w.Destroyed ++ InTile.toList } = Outcome.done w' := by
  rw [OnTileFinishedMatching_with_empty respawn fuel w InTile hdes hdes0]
  obtain ⟨w', h'⟩ := StartFalling_all_total fuel false w.Grid.FallingTiles
    { w with
      Grid := { w.Grid with TilesBeingDestroyed := [] },
      Destroyed := w.Destroyed ++ InTile.toList } hW hv (fun _ => hfuel)
  obtain ⟨a1, ⟨Ls, a2, a3⟩, b1, b2, b3, b4, b5, b6, b7, b8⟩ :=
    StartFalling_all_trace fuel false _ _ w' h'
  refine ⟨w', ?_, a1, ⟨b1, b2, b3, b4, b5, b6, b7⟩, b8, ⟨Ls, a2, a3⟩, h'⟩
  rw [h']
  simp only [Outcome.bind]
  have hne : ¬ w'.Grid.FallingTiles.length = 0 := by
    rw [a1.2.2.2.2.2.2.1]
    exact fun e => hfall (List.length_eq_zero.mp e)
  rw [if_neg hne]

/-- One pass of the second loop of `ExecuteMatch` for a tile whose grid address is an index of
the board. -/
theorem ExecuteMatch_remove_cons (respawn : UWorld → Outcome UWorld) (fuel : Nat)
    (T : TilePtr) (L : List TilePtr) (w : UWorld)
    (hT : 0 ≤ GetGridAddress w.Grid T ∧ GetGridAddress w.Grid T < w.Grid.GameTiles.length) :
    ExecuteMatch_remove respawn fuel (T :: L) w =
      (OnTileFinishedMatching_with respawn fuel
        { w with
          Grid := { w.Grid with
            TilesBeingDestroyed := w.Grid.TilesBeingDestroyed ++ [T],
            GameTiles := w.Grid.GameTiles.set (GetGridAddress w.Grid T).toNat none },
          Events := w.Events ++ [FEvent.OnMatched T (GetLastMove w)] }
        (some T)).bind fun w1 => ExecuteMatch_remove respawn fuel L w1 := by
  have hset : SetGameTile { w.Grid with
        TilesBeingDestroyed := w.Grid.TilesBeingDestroyed ++ [T] }
      (GetGridAddress { w.Grid with
        TilesBeingDestroyed := w.Grid.TilesBeingDestroyed ++ [T] } T) none =
      some { w.Grid with
        TilesBeingDestroyed := w.Grid.TilesBeingDestroyed ++ [T],
        GameTiles := w.Grid.GameTiles.set (GetGridAddress w.Grid T).toNat none } := by
    unfold SetGameTile
    exact if_pos hT
  rw [ExecuteMatch_remove]
  simp only [hset, OnMatched_Implementation_eq]
  rfl

/-- The second loop of `ExecuteMatch` while tiles are falling, on a grid of positive width
with an empty destroying set, the falling tiles at valid addresses and a bound that reaches
the height: every tile is removed from its slot and destroyed at once, the falls are
requested after each of them, and nothing is respawned. -/
theorem remove_falls (respawn : UWorld → Outcome UWorld) (fuel : Nat) :
    ∀ (L : List TilePtr) (w : UWorld), 0 < w.Grid.GridWidth → w.Grid.GridHeight ≤ fuel →
      w.Grid.TilesBeingDestroyed = [] → w.Grid.FallingTiles ≠ [] →
      (∀ t ∈ w.Grid.FallingTiles, ValidAddress w.Grid (GetGridAddress w.Grid t)) →
      (∀ t ∈ L, inRange w.Grid t) →
      ∃ w' : UWorld, ExecuteMatch_remove respawn fuel L w = Outcome.done w' ∧
        sameButSlots w.Grid w'.Grid ∧ sameAround w w' ∧
        w'.Destroyed = w.Destroyed ++ L ∧
        (∀ t ∈ L, GetTileFromGridAddress w'.Grid (GetGridAddress w.Grid t) = none) ∧
        (∀ a, (∀ t ∈ L, GetGridAddress w.Grid t ≠ a) →
          GetTileFromGridAddress w'.Grid a = GetTileFromGridAddress w.Grid a) ∧
        (∀ a, GetTileFromGridAddress w.Grid a = none →
          GetTileFromGridAddress w'.Grid a = none) := by
  intro L
  induction L with
  | nil =>
    intro w _ _ _ _ _ _
    exact ⟨w, rfl, sameButSlots_refl _, sameAround_refl _, (List.append_nil _).symm,
      fun _ ht => (by cases ht), fun _ _ => rfl, fun _ h => h⟩
  | cons T L ih =>
    intro w hW hfuel hdes hfall hv hr
    have hT := hr T (List.mem_cons_self _ _)
    rw [ExecuteMatch_remove_cons respawn fuel T L w hT]
    obtain ⟨w1, e1, a1, a2, a3, _⟩ := OnTileFinishedMatching_with_falls respawn fuel
      { w with
        Grid := { w.Grid with
          TilesBeingDestroyed := w.Grid.TilesBeingDestroyed ++ [T],
          GameTiles := w.Grid.GameTiles.set (GetGridAddress w.Grid T).toNat none },
        Events := w.Events ++ [FEvent.OnMatched T (GetLastMove w)] } (some T)
      (by
        intro t ht
        injection ht with ht
        subst ht
        simp only [hdes, List.nil_append]
        exact RemoveSwap_singleton T)
      (fun h => by cases h) hfall hW hv hfuel
    rw [e1]
    simp only [Outcome.bind]
    obtain ⟨c1, c2, c3, c4, c5, c6, c7, c8, c9, c10, c11, c12, c13, c14⟩ := a1
    simp only at c1 c2 c3 c4 c5 c6 c7 c8 c9 c10 c11 c12 c13 c14
    have hA : ∀ t, GetGridAddress w1.Grid t = GetGridAddress w.Grid t :=
      fun t => (c14 t).2.2.2
    have hlen : w1.Grid.GameTiles.length = w.Grid.GameTiles.length := by
      rw [c4, List.length_set]
    have hslot : ∀ c, GetTileFromGridAddress w1.Grid c =
        if c = GetGridAddress w.Grid T then none else GetTileFromGridAddress w.Grid c :=
      fun c => getTile_set w.Grid w1.Grid _ none hT c4 c
    obtain ⟨w', e', b1, b2, b3, b4, b5, b6⟩ := ih w1 (by rw [c1]; exact hW)
      (by rw [c2]; exact hfuel) c10 (by rw [c7]; exact hfall)
      (by
        intro t ht
        rw [c7] at ht
        have := hv t ht
        unfold ValidAddress at this ⊢
        rw [c1, c2, hA t]
        exact this)
      (by
        intro t ht
        have := hr t (List.mem_cons_of_mem _ ht)
        unfold inRange at this ⊢
        rw [hA t, hlen]
        exact this)
    refine ⟨w', e', ?_, sameAround_trans _ _ _ a2 b2, ?_, ?_, ?_, ?_⟩
    · refine sameButSlots_trans _ _ _ ?_ b1
      exact ⟨c1, c2, c3, hlen, c5, c6, c7, c8, c9, c10.trans hdes.symm, c11, c12, c13, c14⟩
    · rw [b3, a3]
      simp
    · intro t ht
      rcases List.mem_cons.mp ht with h' | h'
      · subst h'
        apply b6
        rw [hslot, if_pos rfl]
      · rw [← hA t]
        exact b4 t h'
    · intro a ha
      rw [b5 a (fun t ht => by rw [hA t]; exact ha t (List.mem_cons_of_mem _ ht)), hslot,
        if_neg (ha T (List.mem_cons_self _ _)).symm]
    · intro a ha
      apply b6
      rw [hslot]
      split_ifs
      · rfl
      · exact ha

theorem PauseGameTimer_destroyed (w : UWorld) (b : Bool) :
    (PauseGameTimer w b).Destroyed = w.Destroyed := by
  unfold PauseGameTimer
  cases w.GameMode <;> rfl

/-- The steps of `ExecuteMatch` on a match that is not empty, once the marking loop and the
scoring block have returned. -/
theorem ExecuteMatch_with_eq (respawn : UWorld → Outcome UWorld) (fuel : Nat)
    (w : UWorld) (M : List TilePtr) (hM : M ≠ []) (g2 : AGrid) (w3 : UWorld)
    (hmk : ExecuteMatch_mark M M w.Grid = some g2)
    (hsc : ExecuteMatch_score
      { PauseGameTimer w true with Grid := { g2 with TilesToCheck := [] } }
      (M.length : Int) = some w3) :
    ExecuteMatch_with respawn fuel w M =
      (ExecuteMatch_remove respawn fuel M w3).bind fun w4 =>
        OnTileFinishedMatching_with respawn fuel w4 none := by
  have hlen : ¬ M.length = 0 := fun e => hM (List.length_eq_zero.mp e)
  obtain ⟨hpg, _, _⟩ := PauseGameTimer_grid w true
  unfold ExecuteMatch_with
  rw [if_neg hlen]
  simp only
  rw [hpg, hmk]
  simp only
  rw [hsc]

/-- The method `ExecuteMatch` on a board at rest, for a match of placed, pairwise different
tiles above which a tile outside the match stands, with a bound that reaches the height of
the grid: the call returns; every tile of the match has left its slot and has been
destroyed; the tiles set falling have been asked to fall; no tile was respawned. -/
theorem ExecuteMatch_with_falls (respawn : UWorld → Outcome UWorld) (fuel : Nat)
    (w : UWorld) (M : List TilePtr)
    (hon : ∀ t ∈ M, OnBoard w.Grid t) (hwf : WellFormed w.Grid) (hcons : Consistent w.Grid)
    (hnd : M.Nodup) (hfall : w.Grid.FallingTiles = [])
    (hdes : w.Grid.TilesBeingDestroyed = [])
    (hrew : ∀ gm, w.GameMode = some gm → ∀ I ∈ gm.RewardIntervals, 0 < I)
    (hfuel : w.Grid.GridHeight ≤ fuel)
    (hst : ∃ T ∈ M, ∃ (k : Int) (u : TilePtr), stackedAt w.Grid M T k u) :
    ∃ (g2 : AGrid) (w3 w' : UWorld),
      ExecuteMatch_mark M M w.Grid = some g2 ∧
      ExecuteMatch_score
        { PauseGameTimer w true with Grid := { g2 with TilesToCheck := [] } }
        (M.length : Int) = some w3 ∧
      ExecuteMatch_with respawn fuel w M = Outcome.done w' ∧
      sameButSlots { g2 with TilesToCheck := [] } w'.Grid ∧ sameAround w3 w' ∧
      w'.Destroyed = w.Destroyed ++ M ∧
      (∀ t ∈ M, GetTileFromGridAddress w'.Grid (GetGridAddress w.Grid t) = none) ∧
      (∀ a, (∀ t ∈ M, GetGridAddress w.Grid t ≠ a) →
        GetTileFromGridAddress w'.Grid a = GetTileFromGridAddress w.Grid a) ∧
      (∀ a, GetTileFromGridAddress w.Grid a = none →
        GetTileFromGridAddress w'.Grid a = none) ∧
      ∃ v : UWorld, sameButSlots { g2 with TilesToCheck := [] } v.Grid ∧
        v.Grid.GameTiles = w'.Grid.GameTiles ∧
        StartFalling_all fuel false g2.FallingTiles v = Outcome.done w' := by
  have hM : M ≠ [] := by
    obtain ⟨T, hT, _⟩ := hst
    exact List.ne_nil_of_mem hT
  obtain ⟨g2, hmk⟩ := mark_total w.Grid M hwf hcons hon M [] w.Grid
    (sameButStates_refl _) (fun _ h => h) hnd
    (fun _ _ h => by cases h) (fun _ h => by cases h)
    (by
      intro u hu
      rw [hfall] at hu
      cases hu)
  obtain ⟨hsame, _, _⟩ := mark_frame M M _ g2 (fun _ h => h) hmk
  obtain ⟨s1, s2, s3, s4, s5, s6, s7, s8, s9, s10, s11, s12, s13⟩ := hsame
  have hmem := mark_mem w.Grid M hwf hon M w.Grid g2 (sameButStates_refl _)
    (fun _ h => h) hmk
  obtain ⟨hpg, _, hpm⟩ := PauseGameTimer_grid w true
  obtain ⟨w3, hsc⟩ := score_total
    { PauseGameTimer w true with Grid := { g2 with TilesToCheck := [] } } (M.length : Int)
    (by
      intro gm hgm I hI
      obtain ⟨gm0, e0, er⟩ := hpm gm hgm
      rw [er] at hI
      exact hrew gm0 e0 I hI)
  obtain ⟨hg3, hd3⟩ := score_grid _ _ _ hsc
  simp only at hg3 hd3
  rw [PauseGameTimer_destroyed] at hd3
  have hA3 : ∀ t, GetGridAddress w3.Grid t = GetGridAddress w.Grid t := by
    intro t
    unfold GetGridAddress
    rw [hg3]
    exact (s13 t).2.2.1
  have hT3 : w3.Grid.GameTiles = w.Grid.GameTiles := by
    rw [hg3]
    exact s4
  have hF3 : w3.Grid.FallingTiles = g2.FallingTiles := by rw [hg3]
  have hne : g2.FallingTiles ≠ [] := by
    obtain ⟨T, hT, k, u, hu⟩ := hst
    have : u ∈ g2.FallingTiles := (hmem u).mpr (Or.inr ⟨T, hT, k, hu⟩)
    exact List.ne_nil_of_mem this
  have hvalid : ∀ t ∈ g2.FallingTiles, ValidAddress w.Grid (GetGridAddress w.Grid t) := by
    intro t ht
    rcases (hmem t).mp ht with h | ⟨T, _, k, hk⟩
    · rw [hfall] at h
      cases h
    · have hs := hk.2.1
      have ha := hcons _ _ hs
      rw [ha]
      have hi := (slot_index w.Grid _ t hs).1
      unfold ValidAddress
      rw [← hwf.2.2]
      exact hi
  obtain ⟨w4, e4, b1, b2, b3, b4, b5, b6⟩ := remove_falls respawn fuel M w3
    (by rw [hg3]; exact s1.symm ▸ hwf.1)
    (by rw [hg3]; exact s2.symm ▸ hfuel)
    (by rw [hg3]; exact s9.trans hdes)
    (by rw [hF3]; exact hne)
    (by
      intro t ht
      rw [hF3] at ht
      have := hvalid t ht
      unfold ValidAddress at this ⊢
      rw [hA3 t, hg3]
      simp only
      rw [s1, s2]
      exact this)
    (by
      intro t ht
      unfold inRange
      rw [hA3 t, hT3]
      exact (slot_index w.Grid _ t (hon t ht)).1)
  obtain ⟨c1, c2, c3, c4, c5, c6, c7, c8, c9, c10, c11, c12, c13, c14⟩ := b1
  obtain ⟨w5, e5, d1, d2, d3, _, d5⟩ := OnTileFinishedMatching_with_falls respawn fuel w4 none
    (fun t h => by cases h)
    (fun _ => by rw [c10, hg3]; exact s9.trans hdes)
    (by rw [c7, hF3]; exact hne)
    (by rw [c1, hg3]; exact s1.symm ▸ hwf.1)
    (by
      intro t ht
      rw [c7, hF3] at ht
      have := hvalid t ht
      unfold ValidAddress at this ⊢
      have e : GetGridAddress w4.Grid t = GetGridAddress w.Grid t := by
        rw [← hA3 t]
        exact (c14 t).2.2.2
      rw [e, c1, c2, hg3]
      simp only
      rw [s1, s2]
      exact this)
    (by rw [c2, hg3]; exact s2.symm ▸ hfuel)
  have hT5 : w5.Grid.GameTiles = w4.Grid.GameTiles := d1.2.2.2.1
  have h4 : sameButSlots { g2 with TilesToCheck := [] } w4.Grid := by
    have h4 : sameButSlots w3.Grid w4.Grid :=
      ⟨c1, c2, c3, c4, c5, c6, c7, c8, c9, c10, c11, c12, c13, c14⟩
    rw [hg3] at h4
    exact h4
  have hD4 : w4.Grid.TilesBeingDestroyed = [] := by
    rw [c10, hg3]
    exact s9.trans hdes
  refine ⟨g2, w3, w5, hmk, hsc, ?_, ?_, sameAround_trans _ _ _ b2 d2, ?_, ?_, ?_, ?_,
    { w4 with
      Grid := { w4.Grid with TilesBeingDestroyed := [] },
      Destroyed := w4.Destroyed ++ (none : Option TilePtr).toList }, ?_, hT5.symm, ?_⟩
  · rw [ExecuteMatch_with_eq respawn fuel w M hM g2 w3 hmk hsc, e4]
    exact e5
  · refine sameButSlots_trans _ _ _ h4 ?_
    have h5 := sameButSlots_of_landing _ _ d1
    obtain ⟨f1, f2, f3, f4, f5, f6, f7, f8, f9, f10, f11, f12, f13, f14⟩ := h5
    exact ⟨f1, f2, f3, f4, f5, f6, f7, f8, f9,
      f10.trans (by rw [c10, hg3]; exact (s9.trans hdes).symm), f11, f12, f13, f14⟩
  · rw [d3, b3, hd3]
    simp
  · intro t ht
    rw [getTile_congr _ _ hT5, ← hA3 t]
    exact b4 t ht
  · intro a ha
    rw [getTile_congr _ _ hT5, b5 a (fun t ht => by rw [hA3 t]; exact ha t ht),
      getTile_congr _ _ hT3]
  · intro a ha
    rw [getTile_congr _ _ hT5]
    apply b6
    rw [getTile_congr _ _ hT3]
    exact ha
  · obtain ⟨f1, f2, f3, f4, f5, f6, f7, f8, f9, f10, f11, f12, f13, f14⟩ := h4
    exact ⟨f1, f2, f3, f4, f5, f6, f7, f8, f9, hD4.symm.trans f10, f11, f12, f13, f14⟩
  · rw [c7, hF3] at d5
    exact d5

/-! ## What the probes of the unwinnable test keep -/

/-- A property of the grid that every swap of two marked tiles keeps, that does not read the
cached match, and that marks the tiles in the slots, is kept by the legality test. -/
theorem IsMoveLegal_keeps (P : AGrid → Prop) (Q : TilePtr → Prop)
    (hswap : ∀ (g : AGrid) (a b : TilePtr) (g' : AGrid), P g → Q a → Q b →
      SwapTiles g a b = some g' → P g')
    (hmatch : ∀ (g : AGrid) (l : List TilePtr), P g → P { g with LastLegalMatch := l })
    (g : AGrid) (a : TilePtr) (B : Option TilePtr) (r : Bool) (g' : AGrid)
    (hP : P g) (ha : Q a) (hB : ∀ b, B = some b → Q b)
    (h : IsMoveLegal g (some a) B = some (r, g')) : P g' := by
  unfold IsMoveLegal at h
  cases B with
  | none =>
    simp only [Option.some.injEq, Prod.mk.injEq] at h
    rw [← h.2]
    exact hP
  | some b =>
    simp only at h
    split_ifs at h with h1 h2
    · revert h
      cases hs : SwapTiles g a b with
      | none => intro h; cases h
      | some g1 =>
        simp only
        cases hA : FindNeighbors g1 a true (-1) with
        | none => intro h; cases h
        | some MA =>
          simp only
          cases hB2 : FindNeighbors g1 b true (-1) with
          | none => intro h; cases h
          | some MB =>
            simp only
            cases hs2 : SwapTiles { g1 with LastLegalMatch := MA ++ MB } a b with
            | none => intro h; cases h
            | some g2 =>
              intro h
              simp only [Option.some.injEq, Prod.mk.injEq] at h
              rw [← h.2]
              have c1 := hswap g a b g1 hP ha (hB b rfl) hs
              exact hswap _ a b g2 (hmatch g1 _ c1) ha (hB b rfl) hs2
    · simp only [Option.some.injEq, Prod.mk.injEq] at h
      rw [← h.2]
      exact hP
    · simp only [Option.some.injEq, Prod.mk.injEq] at h
      rw [← h.2]
      exact hP

theorem IsUnwinnable_probe_keeps (P : AGrid → Prop) (Q : TilePtr → Prop)
    (hswap : ∀ (g : AGrid) (a b : TilePtr) (g' : AGrid), P g → Q a → Q b →
      SwapTiles g a b = some g' → P g')
    (hmatch : ∀ (g : AGrid) (l : List TilePtr), P g → P { g with LastLegalMatch := l })
    (hslot : ∀ (g : AGrid) (a : Int) (t : TilePtr), P g →
      GetTileFromGridAddress g a = some t → Q t)
    (g : AGrid) (T : TilePtr) (a x y : Int) (r : Bool) (g' : AGrid)
    (hP : P g) (hT : Q T) (h : IsUnwinnable_probe g T a x y = some (r, g')) : P g' := by
  unfold IsUnwinnable_probe at h
  revert h
  cases ho : GetGridAddressWithOffset g a x y with
  | none => intro h; cases h
  | some p =>
    obtain ⟨b, n⟩ := p
    cases b with
    | false =>
      intro h
      simp only [Option.some.injEq, Prod.mk.injEq] at h
      rw [← h.2]
      exact hP
    | true =>
      intro h
      exact IsMoveLegal_keeps P Q hswap hmatch g T _ r g' hP hT
        (fun b hb => hslot g n b hP hb) h

theorem IsUnwinnable_body_keeps (P : AGrid → Prop) (Q : TilePtr → Prop)
    (hswap : ∀ (g : AGrid) (a b : TilePtr) (g' : AGrid), P g → Q a → Q b →
      SwapTiles g a b = some g' → P g')
    (hmatch : ∀ (g : AGrid) (l : List TilePtr), P g → P { g with LastLegalMatch := l })
    (hslot : ∀ (g : AGrid) (a : Int) (t : TilePtr), P g →
      GetTileFromGridAddress g a = some t → Q t)
    (g : AGrid) (T : TilePtr) (r : Bool) (g' : AGrid)
    (hP : P g) (hT : Q T) (h : IsUnwinnable_body g T = some (r, g')) : P g' := by
  have step := IsUnwinnable_probe_keeps P Q hswap hmatch hslot
  unfold IsUnwinnable_body at h
  simp only at h
  split_ifs at h with hx
  · simp only [Option.some.injEq, Prod.mk.injEq] at h
    rw [← h.2]
    exact hP
  · revert h
    cases h1 : IsUnwinnable_probe g T (GetGridAddress g T) 0 (-1) with
    | none => intro h; cases h
    | some p1 =>
      obtain ⟨b1, g1⟩ := p1
      have c1 := step g T _ _ _ b1 g1 hP hT h1
      cases b1 with
      | true =>
        intro h
        simp only [Option.some.injEq, Prod.mk.injEq] at h
        rw [← h.2]
        exact c1
      | false =>
        simp only
        cases h2 : IsUnwinnable_probe g1 T (GetGridAddress g T) 0 1 with
        | none => intro h; cases h
        | some p2 =>
          obtain ⟨b2, g2⟩ := p2
          have c2 := step g1 T _ _ _ b2 g2 c1 hT h2
          cases b2 with
          | true =>
            intro h
            simp only [Option.some.injEq, Prod.mk.injEq] at h
            rw [← h.2]
            exact c2
          | false =>
            simp only
            cases h3 : IsUnwinnable_probe g2 T (GetGridAddress g T) (-1) 0 with
            | none => intro h; cases h
            | some p3 =>
              obtain ⟨b3, g3⟩ := p3
              have c3 := step g2 T _ _ _ b3 g3 c2 hT h3
              cases b3 with
              | true =>
                intro h
                simp only [Option.some.injEq, Prod.mk.injEq] at h
                rw [← h.2]
                exact c3
              | false =>
                simp only
                cases h4 : IsUnwinnable_probe g3 T (GetGridAddress g T) 1 0 with
                | none => intro h; cases h
                | some p4 =>
                  obtain ⟨b4, g4⟩ := p4
                  have c4 := step g3 T _ _ _ b4 g4 c3 hT h4
                  cases b4 with
                  | true =>
                    intro h
                    simp only [Option.some.injEq, Prod.mk.injEq] at h
                    rw [← h.2]
                    exact c4
                  | false =>
                    intro h
                    simp only [Option.some.injEq, Prod.mk.injEq] at h
                    rw [← h.2]
                    exact c4

/-- A property of the grid that every swap of two marked tiles keeps, that does not read the
cached match, and that marks the tiles in the slots, is kept by the unwinnable test. -/
theorem IsUnwinnable_keeps (P : AGrid → Prop) (Q : TilePtr → Prop)
    (hswap : ∀ (g : AGrid) (a b : TilePtr) (g' : AGrid), P g → Q a → Q b →
      SwapTiles g a b = some g' → P g')
    (hmatch : ∀ (g : AGrid) (l : List TilePtr), P g → P { g with LastLegalMatch := l })
    (hslot : ∀ (g : AGrid) (a : Int) (t : TilePtr), P g →
      GetTileFromGridAddress g a = some t → Q t) :
    ∀ (n i : Nat) (g : AGrid) (r : Bool) (g' : AGrid), P g →
      IsUnwinnable_loop n i g = some (r, g') → P g' := by
  intro n
  induction n with
  | zero =>
    intro i g r g' hP h
    simp only [IsUnwinnable_loop, Option.some.injEq, Prod.mk.injEq] at h
    rw [← h.2]
    exact hP
  | succ n ih =>
    intro i g r g' hP h
    unfold IsUnwinnable_loop at h
    revert h
    cases hi : g.GameTiles[i]? with
    | none =>
      intro h
      simp only [Option.some.injEq, Prod.mk.injEq] at h
      rw [← h.2]
      exact hP
    | some s =>
      cases s with
      | none => intro h; cases h
      | some T =>
        simp only
        have hT : Q T := by
          apply hslot g (i : Int) T hP
          unfold GetTileFromGridAddress
          have hlt : i < g.GameTiles.length := by
            by_contra hc
            rw [List.getElem?_eq_none (by omega)] at hi
            cases hi
          rw [if_pos ⟨by omega, by omega⟩]
          simp only [Int.toNat_ofNat, hi, Option.getD_some]
        cases hb : IsUnwinnable_body g T with
        | none => intro h; cases h
        | some p =>
          obtain ⟨b, g1⟩ := p
          have c1 := IsUnwinnable_body_keeps P Q hswap hmatch hslot g T b g1 hP hT hb
          cases b with
          | true =>
            intro h
            simp only [Option.some.injEq, Prod.mk.injEq] at h
            rw [← h.2]
            exact c1
          | false =>
            intro h
            exact ih _ _ _ _ c1 h

/-! ## Match execution: no points but those of the match -/

theorem quietStep_refl (w : UWorld) : quietStep w w :=
  ⟨rfl, rfl, fun _ h => h, [], (List.append_nil _).symm, fun _ h => (by cases h)⟩

theorem quietStep_trans (w1 w2 w3 : UWorld) (h12 : quietStep w1 w2) (h23 : quietStep w2 w3) :
    quietStep w1 w3 := by
  obtain ⟨a1, a2, a3, E1, a4, a5⟩ := h12
  obtain ⟨b1, b2, b3, E2, b4, b5⟩ := h23
  refine ⟨b1.trans a1, b2.trans a2, fun t h => b3 t (a3 t h), E1 ++ E2, ?_, ?_⟩
  · rw [b4, a4, List.append_assoc]
  · intro e he
    rcases List.mem_append.mp he with h | h
    · exact a5 e h
    · exact b5 e h

/-- A step that changes neither the player controller nor the grid addresses and the size of
the board, and that raises only events that are no award, is quiet. -/
theorem quietStep_of (w w' : UWorld) (E : List FEvent)
    (hpc : w'.PlayerController = w.PlayerController)
    (hlen : w'.Grid.GameTiles.length = w.Grid.GameTiles.length)
    (hA : ∀ t, GetGridAddress w'.Grid t = GetGridAddress w.Grid t)
    (hE : w'.Events = w.Events ++ E) (hno : ∀ e ∈ E, ∀ p q : Int, e ≠ FEvent.AwardPlace p q) :
    quietStep w w' := by
  refine ⟨hpc, hlen, ?_, E, hE, hno⟩
  intro t ht
  unfold inRange at ht ⊢
  rw [hA t, hlen]
  exact ht

theorem StartFalling_all_quiet (fuel : Nat) (b : Bool) (l : List TilePtr) (w w' : UWorld)
    (h : StartFalling_all fuel b l w = Outcome.done w') :
    quietStep w w' ∧ sameButLanding w.Grid w'.Grid := by
  obtain ⟨a1, ⟨Ls, _, a3⟩, _, _, b3, _⟩ := StartFalling_all_trace fuel b l w w' h
  refine ⟨quietStep_of w w' _ b3 (by rw [a1.2.2.2.1]) ?_ a3 ?_, a1⟩
  · intro t
    exact (a1.2.2.2.2.2.2.2.2.2.2.2.2.2 t).2.2.2
  · intro e he p q hc
    subst hc
    obtain ⟨i, _, hi⟩ := List.getElem_of_mem he
    simp only [List.getElem_zipWith] at hi
    cases hi

theorem SwapTiles_quiet (g : AGrid) (a b : TilePtr) (g' : AGrid)
    (h : SwapTiles g a b = some g') :
    g'.GameTiles.length = g.GameTiles.length ∧ g'.FallingTiles = g.FallingTiles ∧
      g'.TilesToCheck = g.TilesToCheck ∧
      ∀ t, inRange g t → inRange g' t := by
  obtain ⟨x, y, G1, hy, hx, hG1, hG, hb, ha, _, _, _, hoth⟩ := SwapTiles_some g a b g' h
  have hlen : g'.GameTiles.length = g.GameTiles.length := by
    rw [hG, hG1, List.length_set, List.length_set]
  have hl : g'.FallingTiles = g.FallingTiles ∧ g'.TilesToCheck = g.TilesToCheck := by
    unfold SwapTiles at h
    simp only at h
    revert h
    cases h3 : SetGameTile (SetGridAddress (SetGridAddress g a (GetGridAddress g b)) b
        (GetGridAddress g a))
        (GetGridAddress (SetGridAddress (SetGridAddress g a (GetGridAddress g b)) b
          (GetGridAddress g a)) a) (some a) with
    | none => intro h; cases h
    | some g3 =>
      intro h
      simp only at h
      obtain ⟨_, e3⟩ := SetGameTile_some _ _ _ _ h3
      obtain ⟨_, e4⟩ := SetGameTile_some _ _ _ _ h
      rw [e4, e3]
      exact ⟨rfl, rfl⟩
  refine ⟨hlen, hl.1, hl.2, ?_⟩
  intro t ht
  unfold inRange at ht ⊢
  rw [hlen]
  by_cases hta : t = a
  · subst hta
    rw [ha]
    exact hy
  · by_cases htb : t = b
    · subst htb
      rw [hb]
      exact hx
    · rw [hoth t hta htb]
      exact ht

/-- The unwinnable test keeps the size of the board, the falling set and the tiles to check,
and a grid address that was an index of the board is one. -/
theorem IsUnwinnable_quiet (g : AGrid) (r : Bool) (g' : AGrid)
    (h : IsUnwinnable g = some (r, g')) :
    g'.GameTiles.length = g.GameTiles.length ∧ g'.FallingTiles = g.FallingTiles ∧
      g'.TilesToCheck = g.TilesToCheck ∧
      ∀ t, inRange g t → inRange g' t := by
  exact IsUnwinnable_keeps
    (fun g1 => g1.GameTiles.length = g.GameTiles.length ∧ g1.FallingTiles = g.FallingTiles ∧
      g1.TilesToCheck = g.TilesToCheck ∧ ∀ t, inRange g t → inRange g1 t)
    (fun _ => True)
    (by
      intro g1 a b g2 hP _ _ hs
      obtain ⟨p1, p2, p3, p4⟩ := hP
      obtain ⟨q1, q2, q3, q4⟩ := SwapTiles_quiet g1 a b g2 hs
      exact ⟨q1.trans p1, q2.trans p2, q3.trans p3, fun t ht => q4 t (p4 t ht)⟩)
    (fun g1 l hP => hP)
    (fun _ _ _ _ _ => trivial)
    g.GameTiles.length 0 g r g' ⟨rfl, rfl, rfl, fun _ ht => ht⟩ h

/-- The creation of the tiles of a column raises no event and awards nothing; the new tiles
join the falling set and the tiles to check. -/
theorem RespawnTiles_spawn_quiet (Base : Int) :
    ∀ (n : Nat) (w w' : UWorld), RespawnTiles_spawn Base n w = some w' →
      quietStep w w' ∧ w'.Events = w.Events ∧
      w'.Grid.TilesBeingDestroyed = w.Grid.TilesBeingDestroyed ∧
      ∃ New : List TilePtr, w'.Grid.FallingTiles = w.Grid.FallingTiles ++ New ∧
        w'.Grid.TilesToCheck = w.Grid.TilesToCheck ++ New := by
  intro n
  induction n with
  | zero =>
    intro w w' h
    simp only [RespawnTiles_spawn, Option.some.injEq] at h
    subst h
    exact ⟨quietStep_refl _, rfl, rfl, [], (List.append_nil _).symm,
      (List.append_nil _).symm⟩
  | succ y ih =>
    intro w w' h
    unfold RespawnTiles_spawn at h
    simp only [SelectTileFromLibrary] at h
    revert h
    cases ho : GetGridAddressWithOffset w.Grid Base 0 (-(y : Int)) with
    | none => intro h; cases h
    | some p =>
      obtain ⟨b, a⟩ := p
      simp only
      cases hT : GetTileType { w with RandomCount := w.RandomCount + 1 }
          (SelectTileFromLibrary_scan (NextTestNumber w) w.TileLibrary 0 0) with
      | none => intro h; cases h
      | some T =>
        simp only
        cases hc : CreateTile { w with RandomCount := w.RandomCount + 1 } T.TileClass a
            (SelectTileFromLibrary_scan (NextTestNumber w) w.TileLibrary 0 0) with
        | none => intro h; cases h
        | some q =>
          obtain ⟨res, w2⟩ := q
          cases hcls : T.TileClass with
          | false =>
            rw [hcls] at hc
            simp only [CreateTile, Bool.false_eq_true, if_false, Option.some.injEq,
              Prod.mk.injEq] at hc
            obtain ⟨hres, hw2⟩ := hc
            subst hres hw2
            simp only
            intro h
            obtain ⟨q1, q2, q5, New, q3, q4⟩ := ih _ _ h
            exact ⟨quietStep_trans w _ w'
              (quietStep_of w _ [] rfl rfl (fun _ => rfl) (List.append_nil _).symm
                (fun _ he => by cases he)) q1, q2, q5, New, q3, q4⟩
          | true =>
            rw [hcls] at hc
            obtain ⟨T0, _, hres, hr, hw2⟩ := CreateTile_some _ _ _ _ _ hc
            subst hres
            simp only
            intro h
            split_ifs at h with hmem
            obtain ⟨q1, q2, q5, New, q3, q4⟩ := ih _ _ h
            subst hw2
            simp only [SetTileState] at q1 q2 q3 q4 q5
            refine ⟨quietStep_trans w _ w' ?_ q1, q2, q5, w.NextTile :: New, ?_, ?_⟩
            · refine ⟨rfl, by simp only [List.length_set], ?_, [], ?_, fun _ he => by cases he⟩
              · intro t ht
                unfold inRange GetGridAddress at ht ⊢
                simp only [List.length_set]
                by_cases e : t = w.NextTile
                · subst e
                  simp only [Function.update_same]
                  exact hr
                · simp only [Function.update_noteq e]
                  exact ht
              · simp only [List.append_nil]
            · rw [q3]
              simp
            · rw [q4]
              simp

/-- The column loop of `RespawnTiles` raises no event and awards nothing; the new tiles join
the falling set and the tiles to check. -/
theorem RespawnTiles_columns_quiet (fuel : Nat) :
    ∀ (n : Nat) (x : Int) (w w' : UWorld), RespawnTiles_columns fuel n x w = Outcome.done w' →
      quietStep w w' ∧ w'.Grid.TilesBeingDestroyed = w.Grid.TilesBeingDestroyed ∧
      ∃ New : List TilePtr, w'.Grid.FallingTiles = w.Grid.FallingTiles ++ New ∧
        w'.Grid.TilesToCheck = w.Grid.TilesToCheck ++ New := by
  intro n
  induction n with
  | zero =>
    intro x w w' h
    simp only [RespawnTiles_columns, Outcome.done.injEq] at h
    subst h
    exact ⟨quietStep_refl _, rfl, [], (List.append_nil _).symm, (List.append_nil _).symm⟩
  | succ n ih =>
    intro x w w' h
    unfold RespawnTiles_columns at h
    revert h
    cases ho : GetGridAddressWithOffset w.Grid 0 x (w.Grid.GridHeight - 1) with
    | none => intro h; cases h
    | some p =>
      obtain ⟨b, Base⟩ := p
      cases b with
      | false => intro h; cases h
      | true =>
        simp only
        intro h
        obtain ⟨d, _, h1⟩ := Outcome_bind_eq_done _ _ _ h
        obtain ⟨w1, hs, h2⟩ := Outcome_bind_eq_done _ _ _ h1
        have hs1 : RespawnTiles_spawn Base d.toNat w = some w1 := by
          revert hs
          cases RespawnTiles_spawn Base d.toNat w with
          | none => intro hs; cases hs
          | some v =>
            intro hs
            simp only [Outcome.ofOption, Outcome.done.injEq] at hs
            rw [hs]
        obtain ⟨q1, _, q5, N1, q3, q4⟩ := RespawnTiles_spawn_quiet Base _ _ _ hs1
        obtain ⟨p1, p5, N2, p3, p4⟩ := ih _ _ _ h2
        refine ⟨quietStep_trans _ _ _ q1 p1, p5.trans q5, N1 ++ N2, ?_, ?_⟩
        · rw [p3, q3, List.append_assoc]
        · rw [p4, q4, List.append_assoc]

theorem RespawnTiles_matches_nil (g : AGrid) (A : List TilePtr) :
    RespawnTiles_matches g [] A = some A := rfl

/-- The method `RespawnTiles` when the tiles to check are none unless a tile is falling: no
match is executed, so no points are awarded; and the tiles to check are again none unless a
tile is falling. -/
theorem RespawnTiles_with_quiet (execute : UWorld → List TilePtr → Outcome UWorld)
    (fuel : Nat) (w w' : UWorld)
    (hJ : w.Grid.FallingTiles = [] → w.Grid.TilesToCheck = [])
    (h : RespawnTiles_with execute fuel w = Outcome.done w') :
    quietStep w w' ∧ (w'.Grid.FallingTiles = [] → w'.Grid.TilesToCheck = []) := by
  unfold RespawnTiles_with at h
  obtain ⟨w1, hcol, h1⟩ := Outcome_bind_eq_done _ _ _ h
  obtain ⟨q1, _, New, q3, q4⟩ := RespawnTiles_columns_quiet _ _ _ _ _ hcol
  split_ifs at h1 with hfall
  · obtain ⟨p1, p2⟩ := StartFalling_all_quiet _ _ _ _ _ h1
    refine ⟨quietStep_trans _ _ _ q1 p1, ?_⟩
    intro e
    rw [p2.2.2.2.2.2.2.1] at e
    rw [e] at hfall
    simp at hfall
  · have hF1 : w1.Grid.FallingTiles = [] := by
      cases hl : w1.Grid.FallingTiles with
      | nil => rfl
      | cons a l =>
        rw [hl] at hfall
        simp at hfall
    have hN : New = [] := by
      rw [hF1] at q3
      exact (List.append_eq_nil.mp q3.symm).2
    have hF0 : w.Grid.FallingTiles = [] := by
      rw [hF1] at q3
      exact (List.append_eq_nil.mp q3.symm).1
    have hC1 : w1.Grid.TilesToCheck = [] := by
      rw [q4, hN, hJ hF0]
      rfl
    rw [hC1, RespawnTiles_matches_nil] at h1
    simp only [List.length_nil, gt_iff_lt, lt_self_iff_false, if_false] at h1
    revert h1
    cases hu : IsUnwinnable w1.Grid with
    | none => intro h1; cases h1
    | some p =>
      obtain ⟨b, g2⟩ := p
      obtain ⟨u1, u2, u3, u4⟩ := IsUnwinnable_quiet w1.Grid b g2 hu
      have hpause : ∀ (v : UWorld) (bb : Bool), v.Grid = g2 →
          v.PlayerController = w1.PlayerController → v.Events = w1.Events →
          quietStep w1 (PauseGameTimer v bb) ∧
          ((PauseGameTimer v bb).Grid.FallingTiles = [] →
            (PauseGameTimer v bb).Grid.TilesToCheck = []) := by
        intro v bb hv hvp hve
        have e : (PauseGameTimer v bb).Grid = g2 :=
          ((PauseGameTimer_grid _ bb).1).trans hv
        have e2 : (PauseGameTimer v bb).PlayerController =
            w1.PlayerController := ((PauseGameTimer_grid _ bb).2.1).trans hvp
        have e3 : (PauseGameTimer v bb).Events = w1.Events := by
          rw [← hve]
          unfold PauseGameTimer
          cases v.GameMode <;> rfl
        refine ⟨⟨e2, by rw [e]; exact u1, by rw [e]; exact u4, [], ?_,
          fun _ he => by cases he⟩, ?_⟩
        · rw [e3, List.append_nil]
        · rw [e, u2, u3]
          intro _
          exact hC1
      cases b with
      | false =>
        simp only
        intro h1
        injection h1 with h1
        rw [← h1]
        obtain ⟨r1, r2⟩ := hpause { w1 with Grid := g2 } false rfl rfl rfl
        exact ⟨quietStep_trans _ _ _ q1 r1, r2⟩
      | true =>
        simp only
        cases hgm : w1.GameMode with
        | none =>
          simp only
          intro h1
          injection h1 with h1
          rw [← h1]
          obtain ⟨r1, r2⟩ := hpause { w1 with Grid := g2, GameMode := none } false rfl rfl rfl
          exact ⟨quietStep_trans _ _ _ q1 r1, r2⟩
        | some gm =>
          simp only
          intro h1
          injection h1 with h1
          rw [← h1]
          refine ⟨quietStep_trans _ _ _ q1 ?_, ?_⟩
          · refine ⟨rfl, u1, u4, [FEvent.GameWasWon gm.bGameWillBeWon], rfl, ?_⟩
            intro e he p q hc
            simp only [List.mem_singleton] at he
            rw [he] at hc
            cases hc
          · intro _
            show g2.TilesToCheck = []
            rw [u3]
            exact hC1

theorem RespawnTiles_quiet (fuel : Nat) (w w' : UWorld)
    (hJ : w.Grid.FallingTiles = [] → w.Grid.TilesToCheck = [])
    (h : RespawnTiles fuel w = Outcome.done w') :
    quietStep w w' ∧ (w'.Grid.FallingTiles = [] → w'.Grid.TilesToCheck = []) := by
  cases fuel with
  | zero => cases h
  | succ n =>
    unfold RespawnTiles at h
    exact RespawnTiles_with_quiet _ _ w w' hJ h

/-- The falls and the respawn of the completion callback award no points when the respawn
awards none. -/
theorem falls_or_respawn_quiet (respawn : UWorld → Outcome UWorld) (fuel : Nat)
    (hres : ∀ v v' : UWorld, (v.Grid.FallingTiles = [] → v.Grid.TilesToCheck = []) →
      respawn v = Outcome.done v' →
      quietStep v v' ∧ (v'.Grid.FallingTiles = [] → v'.Grid.TilesToCheck = []))
    (w1 w' : UWorld)
    (hJ : w1.Grid.FallingTiles = [] → w1.Grid.TilesToCheck = [])
    (h : (if w1.Grid.TilesBeingDestroyed.length = 0 then
        (StartFalling_all fuel false w1.Grid.FallingTiles w1).bind fun w2 =>
          if w2.Grid.FallingTiles.length = 0 then respawn w2 else Outcome.done w2
      else Outcome.done w1) = Outcome.done w') :
    quietStep w1 w' ∧ (w'.Grid.FallingTiles = [] → w'.Grid.TilesToCheck = []) := by
  split_ifs at h with hd
  · obtain ⟨w2, hs, h2⟩ := Outcome_bind_eq_done _ _ _ h
    obtain ⟨p1, p2⟩ := StartFalling_all_quiet _ _ _ _ _ hs
    have hJ2 : w2.Grid.FallingTiles = [] → w2.Grid.TilesToCheck = [] := by
      rw [p2.2.2.2.2.2.2.1, p2.2.2.2.2.2.2.2.2.1]
      exact hJ
    split_ifs at h2 with hf
    · obtain ⟨s1, s2⟩ := hres w2 w' hJ2 h2
      exact ⟨quietStep_trans _ _ _ p1 s1, s2⟩
    · injection h2 with h2
      rw [← h2]
      exact ⟨p1, hJ2⟩
  · injection h with h
    rw [← h]
    exact ⟨quietStep_refl _, hJ⟩

/-- The completion callback awards no points when its respawn awards none. -/
theorem OnTileFinishedMatching_with_quiet (respawn : UWorld → Outcome UWorld) (fuel : Nat)
    (hres : ∀ v v' : UWorld, (v.Grid.FallingTiles = [] → v.Grid.TilesToCheck = []) →
      respawn v = Outcome.done v' →
      quietStep v v' ∧ (v'.Grid.FallingTiles = [] → v'.Grid.TilesToCheck = []))
    (w w' : UWorld) (InTile : Option TilePtr)
    (hJ : w.Grid.FallingTiles = [] → w.Grid.TilesToCheck = [])
    (h : OnTileFinishedMatching_with respawn fuel w InTile = Outcome.done w') :
    quietStep w w' ∧ (w'.Grid.FallingTiles = [] → w'.Grid.TilesToCheck = []) := by
  cases InTile with
  | none => exact falls_or_respawn_quiet respawn fuel hres w w' hJ h
  | some t =>
    obtain ⟨p1, p2⟩ := falls_or_respawn_quiet respawn fuel hres
      { w with
        Grid := { w.Grid with
          TilesBeingDestroyed := TArray.RemoveSwap w.Grid.TilesBeingDestroyed t },
        Destroyed := w.Destroyed ++ [t] } w' hJ h
    refine ⟨quietStep_trans _ _ _ ?_ p1, p2⟩
    exact quietStep_of w _ [] rfl rfl (fun _ => rfl) (List.append_nil _).symm
      (fun _ he => by cases he)

/-- The second loop of `ExecuteMatch` awards no points when the respawn that the completion
of a tile may reach awards none. -/
theorem remove_quiet (respawn : UWorld → Outcome UWorld) (fuel : Nat)
    (hres : ∀ v v' : UWorld, (v.Grid.FallingTiles = [] → v.Grid.TilesToCheck = []) →
      respawn v = Outcome.done v' →
      quietStep v v' ∧ (v'.Grid.FallingTiles = [] → v'.Grid.TilesToCheck = [])) :
    ∀ (L : List TilePtr) (w w' : UWorld),
      (w.Grid.FallingTiles = [] → w.Grid.TilesToCheck = []) →
      ExecuteMatch_remove respawn fuel L w = Outcome.done w' →
      quietStep w w' ∧ (w'.Grid.FallingTiles = [] → w'.Grid.TilesToCheck = []) := by
  intro L
  induction L with
  | nil =>
    intro w w' hJ h
    simp only [ExecuteMatch_remove, Outcome.done.injEq] at h
    subst h
    exact ⟨quietStep_refl _, hJ⟩
  | cons T L ih =>
    intro w w' hJ h
    unfold ExecuteMatch_remove at h
    simp only at h
    revert h
    cases hs : SetGameTile _ _ _ with
    | none => intro h; cases h
    | some g2 =>
      simp only
      intro h
      obtain ⟨_, e2⟩ := SetGameTile_some _ _ _ _ hs
      obtain ⟨w1, hc, h1⟩ := Outcome_bind_eq_done _ _ _ h
      rw [OnMatched_Implementation_eq] at hc
      subst e2
      obtain ⟨p1, p2⟩ := OnTileFinishedMatching_with_quiet respawn fuel hres _ w1 _
        (by exact hJ) hc
      obtain ⟨s1, s2⟩ := ih w1 w' p2 h1
      refine ⟨quietStep_trans _ _ _ ?_ (quietStep_trans _ _ _ p1 s1), s2⟩
      refine quietStep_of w _ [FEvent.OnMatched T _] rfl ?_ (fun _ => rfl) rfl ?_
      · simp only [Emit, List.length_set]
      · intro e he p q hc
        simp only [List.mem_singleton] at he
        rw [he] at hc
        cases hc

/-- The method `ExecuteMatch` on a match that is not empty, whenever it returns: the marking
loop and the scoring block have returned, and from the world after the scoring block on no
points were awarded. -/
theorem ExecuteMatch_quiet (fuel : Nat) (w : UWorld) (M : List TilePtr) (hM : M ≠ [])
    (w' : UWorld) (h : ExecuteMatch fuel w M = Outcome.done w') :
    ∃ (g2 : AGrid) (w3 : UWorld),
      ExecuteMatch_mark M M w.Grid = some g2 ∧
      ExecuteMatch_score
        { PauseGameTimer w true with Grid := { g2 with TilesToCheck := [] } }
        (M.length : Int) = some w3 ∧
      quietStep w3 w' := by
  have hlen : ¬ M.length = 0 := fun e => hM (List.length_eq_zero.mp e)
  obtain ⟨hpg, _, _⟩ := PauseGameTimer_grid w true
  unfold ExecuteMatch ExecuteMatch_with at h
  rw [if_neg hlen] at h
  simp only at h
  rw [hpg] at h
  revert h
  cases hmk : ExecuteMatch_mark M M w.Grid with
  | none => intro h; cases h
  | some g2 =>
    simp only
    cases hsc : ExecuteMatch_score
        { PauseGameTimer w true with Grid := { g2 with TilesToCheck := [] } }
        (M.length : Int) with
    | none => intro h; cases h
    | some w3 =>
      simp only
      intro h
      obtain ⟨w4, h4, h5⟩ := Outcome_bind_eq_done _ _ _ h
      have hg3 : w3.Grid = { g2 with TilesToCheck := [] } := (score_grid _ _ _ hsc).1
      have hJ3 : w3.Grid.FallingTiles = [] → w3.Grid.TilesToCheck = [] := by
        intro _
        rw [hg3]
      obtain ⟨p1, p2⟩ := remove_quiet (RespawnTiles fuel) fuel (RespawnTiles_quiet fuel)
        M w3 w4 hJ3 h4
      obtain ⟨s1, _⟩ := OnTileFinishedMatching_with_quiet (RespawnTiles fuel) fuel
        (RespawnTiles_quiet fuel) w4 w' none p2 h5
      exact ⟨g2, w3, rfl, hsc, quietStep_trans _ _ _ p1 s1⟩

/-! ## Respawn of the cells that a match has emptied at the top of a column -/

/-- The respawn on a board of the data model whose empty cells lie on top, with at least one
empty cell: it returns with the new tiles appended to the falling set, each at a valid
address, the destroying set as it was and the older tiles where they were. -/
theorem respawn_spawned (fuel : Nat) (w : UWorld) (hwf : WellFormed w.Grid)
    (htop : EmptiesOnTop w.Grid) (hlib : w.TileLibrary ≠ [])
    (hcls : ∀ T ∈ w.TileLibrary, T.TileClass = true)
    (hfresh : ∀ p ∈ w.Grid.FallingTiles, p < w.NextTile)
    (hfuel : w.Grid.GridHeight < fuel)
    (hsome : ∃ a, ValidAddress w.Grid a ∧ GetTileFromGridAddress w.Grid a = none) :
    ∃ (w2 : UWorld) (n : Nat), RespawnTiles fuel w = Outcome.done w2 ∧ 0 < n ∧
      w2.Grid.FallingTiles = w.Grid.FallingTiles ++ List.range' w.NextTile n ∧
      w2.Grid.TilesBeingDestroyed = w.Grid.TilesBeingDestroyed ∧
      w2.Grid.GridWidth = w.Grid.GridWidth ∧ w2.Grid.GridHeight = w.Grid.GridHeight ∧
      (∀ t ∈ List.range' w.NextTile n, ValidAddress w.Grid (GetGridAddress w2.Grid t)) ∧
      (∀ p, p < w.NextTile → GetGridAddress w2.Grid p = GetGridAddress w.Grid p ∧
        (w2.Grid.heap p).TileState = (w.Grid.heap p).TileState) ∧
      (∀ a, GetTileFromGridAddress w.Grid a ≠ none →
        GetTileFromGridAddress w2.Grid a = GetTileFromGridAddress w.Grid a) := by
  obtain ⟨m, rfl⟩ : ∃ m, fuel = m + 1 := ⟨fuel - 1, by have := hwf.2.1; omega⟩
  have hWn : (0 : Int) + (w.Grid.GridWidth.toNat : Int) = w.Grid.GridWidth := by
    have := hwf.1
    omega
  obtain ⟨w1, cells, hcol, _, hmem, hnew, hoth, hold, hF, _, _, hW1, hH1, _, _⟩ :=
    columns_spec (m + 1) w.Grid.GridWidth.toNat 0 w (le_refl 0) hWn hwf
      (fun a hv _ he hv2 => htop a hv he hv2) hlib hcls hfresh hfuel
  obtain ⟨_, hD1, _⟩ := RespawnTiles_columns_quiet _ _ _ _ _ hcol
  have hlen : 0 < cells.length := by
    obtain ⟨a, hv, he⟩ := hsome
    have hm := (hmem a).mpr ⟨hv, Int.emod_nonneg a (ne_of_gt hwf.1), he⟩
    exact List.length_pos_of_mem hm
  have hpos : w1.Grid.FallingTiles.length > 0 := by
    rw [hF, List.length_append, List.length_range']
    omega
  obtain ⟨w2, hrun, _, _⟩ := StartFalling_all_here (m + 1) w1.Grid.FallingTiles w1
  obtain ⟨hsame, _⟩ := StartFalling_all_trace _ _ _ _ _ hrun
  obtain ⟨sW, sH, _, sG, _, _, sF, _, _, sD, _, _, _, sheap⟩ := hsame
  refine ⟨w2, cells.length, ?_, hlen, by rw [sF, hF], by rw [sD, hD1], by rw [sW, hW1],
    by rw [sH, hH1], ?_, ?_, ?_⟩
  · unfold RespawnTiles RespawnTiles_with
    rw [hcol]
    simp only [Outcome.bind]
    rw [if_pos hpos]
    exact hrun
  · intro t ht
    obtain ⟨h1, h2⟩ := List.mem_range'_1.mp ht
    obtain ⟨i, rfl⟩ : ∃ i, t = w.NextTile + i := ⟨t - w.NextTile, by omega⟩
    have hi : i < cells.length := by omega
    have hc : cells[i]? = some cells[i] := List.getElem?_eq_getElem hi
    obtain ⟨_, h3, _⟩ := hnew i _ hc
    unfold GetGridAddress
    rw [(sheap _).2.2.2, h3]
    exact ((hmem _).mp (List.getElem_mem _)).1
  · intro p hp
    unfold GetGridAddress
    rw [(sheap p).2.2.2, (sheap p).2.1, hold p hp]
    exact ⟨rfl, rfl⟩
  · intro a ha
    rw [getTile_congr _ _ sG]
    apply hoth
    intro hc
    exact ha ((hmem a).mp hc).2.2

/-! ## Board consistency: match execution and respawn -/

/-- After a swap a slot holds one of the two tiles or a tile that was in a slot. -/
theorem SwapTiles_slots (g : AGrid) (a b : TilePtr) (g' : AGrid)
    (h : SwapTiles g a b = some g') (c : Int) (t : TilePtr)
    (hc : GetTileFromGridAddress g' c = some t) :
    t = a ∨ t = b ∨ ∃ c', GetTileFromGridAddress g c' = some t := by
  obtain ⟨x, y, G1, hy, hx, hG1, hG, _⟩ := SwapTiles_some g a b g' h
  have h1 := getTile_set g { g with GameTiles := G1 } y (some a) hy hG1
  have h2 := getTile_set { g with GameTiles := G1 } g' x (some b)
    (by
      show 0 ≤ x ∧ x < G1.length
      rw [hG1, List.length_set]
      exact hx) hG c
  rw [h2] at hc
  split_ifs at hc with e1
  · injection hc with hc
    exact Or.inr (Or.inl hc.symm)
  · rw [h1 c] at hc
    split_ifs at hc with e2
    · injection hc with hc
      exact Or.inl hc.symm
    · exact Or.inr (Or.inr ⟨c, hc⟩)

/-- The unwinnable test puts no tile on the board that was not spawned before. -/
theorem IsUnwinnable_fresh (g : AGrid) (r : Bool) (g' : AGrid) (N : TilePtr)
    (hN : ∀ (a : Int) (t : TilePtr), GetTileFromGridAddress g a = some t → t < N)
    (h : IsUnwinnable g = some (r, g')) :
    ∀ (a : Int) (t : TilePtr), GetTileFromGridAddress g' a = some t → t < N := by
  exact IsUnwinnable_keeps
    (fun g1 => ∀ (a : Int) (t : TilePtr), GetTileFromGridAddress g1 a = some t → t < N)
    (fun t => t < N)
    (by
      intro g1 a b g2 hP ha hb hs c t hc
      rcases SwapTiles_slots g1 a b g2 hs c t hc with e | e | ⟨c', e⟩
      · rw [e]
        exact ha
      · rw [e]
        exact hb
      · exact hP c' t e)
    (fun g1 l hP => hP)
    (fun g1 a t hP ht => hP a t ht)
    g.GameTiles.length 0 g r g' hN h

/-- The falls and the respawn of the completion callback keep a board consistent and the
allocator fresh when the respawn does. -/
theorem falls_or_respawn_consistent (respawn : UWorld → Outcome UWorld) (fuel : Nat)
    (hres : ∀ v v' : UWorld, Consistent v.Grid → FreshAllocator v →
      respawn v = Outcome.done v' → Consistent v'.Grid ∧ FreshAllocator v')
    (w1 w' : UWorld) (hcons : Consistent w1.Grid) (hfresh : FreshAllocator w1)
    (h : (if w1.Grid.TilesBeingDestroyed.length = 0 then
        (StartFalling_all fuel false w1.Grid.FallingTiles w1).bind fun w2 =>
          if w2.Grid.FallingTiles.length = 0 then respawn w2 else Outcome.done w2
      else Outcome.done w1) = Outcome.done w') :
    Consistent w'.Grid ∧ FreshAllocator w' := by
  split_ifs at h with hd
  · obtain ⟨w2, hs, h2⟩ := Outcome_bind_eq_done _ _ _ h
    obtain ⟨hsame, _, _, _, _, _, _, _, hN, _⟩ := StartFalling_all_trace _ _ _ _ _ hs
    obtain ⟨_, _, _, hgt, _, _, _, _, _, _, _, _, _, hheap⟩ := hsame
    have c2 : Consistent w2.Grid :=
      Consistent_congr w1.Grid w2.Grid hgt (fun t => (hheap t).2.2.2) hcons
    have f2 : FreshAllocator w2 := FreshAllocator_congr w1 w2 hgt hN hfresh
    split_ifs at h2 with hf
    · exact hres w2 w' c2 f2 h2
    · injection h2 with h2
      rw [← h2]
      exact ⟨c2, f2⟩
  · injection h with h
    rw [← h]
    exact ⟨hcons, hfresh⟩

/-- The completion callback keeps a board consistent and the allocator fresh when the respawn
does. -/
theorem OnTileFinishedMatching_with_consistent (respawn : UWorld → Outcome UWorld)
    (fuel : Nat)
    (hres : ∀ v v' : UWorld, Consistent v.Grid → FreshAllocator v →
      respawn v = Outcome.done v' → Consistent v'.Grid ∧ FreshAllocator v')
    (w w' : UWorld) (InTile : Option TilePtr) (hcons : Consistent w.Grid)
    (hfresh : FreshAllocator w)
    (h : OnTileFinishedMatching_with respawn fuel w InTile = Outcome.done w') :
    Consistent w'.Grid ∧ FreshAllocator w' := by
  cases InTile with
  | none => exact falls_or_respawn_consistent respawn fuel hres w w' hcons hfresh h
  | some t =>
    exact falls_or_respawn_consistent respawn fuel hres
      { w with
        Grid := { w.Grid with
          TilesBeingDestroyed := TArray.RemoveSwap w.Grid.TilesBeingDestroyed t },
        Destroyed := w.Destroyed ++ [t] } w' hcons hfresh h

/-- The second loop of `ExecuteMatch` keeps a board consistent and the allocator fresh when
the respawn does. -/
theorem remove_consistent (respawn : UWorld → Outcome UWorld) (fuel : Nat)
    (hres : ∀ v v' : UWorld, Consistent v.Grid → FreshAllocator v →
      respawn v = Outcome.done v' → Consistent v'.Grid ∧ FreshAllocator v') :
    ∀ (L : List TilePtr) (w w' : UWorld), Consistent w.Grid → FreshAllocator w →
      ExecuteMatch_remove respawn fuel L w = Outcome.done w' →
      Consistent w'.Grid ∧ FreshAllocator w' := by
  intro L
  induction L with
  | nil =>
    intro w w' hcons hfresh h
    simp only [ExecuteMatch_remove, Outcome.done.injEq] at h
    subst h
    exact ⟨hcons, hfresh⟩
  | cons T L ih =>
    intro w w' hcons hfresh h
    unfold ExecuteMatch_remove at h
    simp only at h
    revert h
    cases hs : SetGameTile _ _ _ with
    | none => intro h; cases h
    | some g2 =>
      simp only
      intro h
      obtain ⟨hr, e2⟩ := SetGameTile_some _ _ _ _ hs
      obtain ⟨w1, hc, h1⟩ := Outcome_bind_eq_done _ _ _ h
      rw [OnMatched_Implementation_eq] at hc
      subst e2
      have hslots : ∀ a, GetTileFromGridAddress
          ({ w.Grid with
            TilesBeingDestroyed := w.Grid.TilesBeingDestroyed ++ [T],
            GameTiles := w.Grid.GameTiles.set (GetGridAddress w.Grid T).toNat none } : AGrid)
          a = GetTileFromGridAddress w.Grid a ∨
          GetTileFromGridAddress
          ({ w.Grid with
            TilesBeingDestroyed := w.Grid.TilesBeingDestroyed ++ [T],
            GameTiles := w.Grid.GameTiles.set (GetGridAddress w.Grid T).toNat none } : AGrid)
          a = none := by
        intro a
        rw [getTile_set w.Grid _ _ none hr rfl a]
        split_ifs
        · exact Or.inr rfl
        · exact Or.inl rfl
      have cE : Consistent ({ w.Grid with
            TilesBeingDestroyed := w.Grid.TilesBeingDestroyed ++ [T],
            GameTiles := w.Grid.GameTiles.set (GetGridAddress w.Grid T).toNat none } : AGrid) :=
        Consistent_of_shrink w.Grid _ hslots (fun _ => rfl) hcons
      have fE : FreshAllocator ({ w with
          Grid := { w.Grid with
            TilesBeingDestroyed := w.Grid.TilesBeingDestroyed ++ [T],
            GameTiles := w.Grid.GameTiles.set (GetGridAddress w.Grid T).toNat none } } :
            UWorld) :=
        FreshAllocator_of_shrink w _ hslots rfl hfresh
      obtain ⟨c1, f1⟩ := OnTileFinishedMatching_with_consistent respawn fuel hres _ w1 _
        (by exact cE) (by exact fE) hc
      exact ih w1 w' c1 f1 h1

/-- The method `ExecuteMatch` keeps a board consistent and the allocator fresh when the
respawn that the completion of a tile may reach does. -/
theorem ExecuteMatch_with_consistent (respawn : UWorld → Outcome UWorld) (fuel : Nat)
    (hres : ∀ v v' : UWorld, Consistent v.Grid → FreshAllocator v →
      respawn v = Outcome.done v' → Consistent v'.Grid ∧ FreshAllocator v')
    (w : UWorld) (M : List TilePtr) (w' : UWorld) (hcons : Consistent w.Grid)
    (hfresh : FreshAllocator w)
    (h : ExecuteMatch_with respawn fuel w M = Outcome.done w') :
    Consistent w'.Grid ∧ FreshAllocator w' := by
  by_cases hM : M = []
  · subst hM
    unfold ExecuteMatch_with at h
    simp only [List.length_nil, if_true, Outcome.done.injEq] at h
    subst h
    exact ⟨hcons, hfresh⟩
  · have hlen : ¬ M.length = 0 := fun e => hM (List.length_eq_zero.mp e)
    obtain ⟨hpg, _, _⟩ := PauseGameTimer_grid w true
    unfold ExecuteMatch_with at h
    rw [if_neg hlen] at h
    simp only at h
    rw [hpg] at h
    revert h
    cases hmk : ExecuteMatch_mark M M w.Grid with
    | none => intro h; cases h
    | some g2 =>
      simp only
      cases hsc : ExecuteMatch_score
          { PauseGameTimer w true with Grid := { g2 with TilesToCheck := [] } }
          (M.length : Int) with
      | none => intro h; cases h
      | some w3 =>
        simp only
        intro h
        obtain ⟨w4, h4, h5⟩ := Outcome_bind_eq_done _ _ _ h
        obtain ⟨hsame, _, _⟩ := mark_frame M M w.Grid g2 (fun _ ht => ht) hmk
        obtain ⟨_, _, _, hgt, _, _, _, _, _, _, _, _, hheap⟩ := hsame
        obtain ⟨hg3, _⟩ := score_grid _ _ _ hsc
        have hn3 := score_next _ _ _ hsc
        have c3 : Consistent w3.Grid := by
          refine Consistent_congr w.Grid w3.Grid ?_ ?_ hcons
          · rw [hg3]
            exact hgt
          · intro t
            rw [hg3]
            exact (hheap t).2.2.1
        have f3 : FreshAllocator w3 := by
          refine FreshAllocator_congr w w3 ?_ ?_ hfresh
          · rw [hg3]
            exact hgt
          · rw [hn3]
            exact PauseGameTimer_next w true
        obtain ⟨c4, f4⟩ := remove_consistent respawn fuel hres M w3 w4 c3 f3 h4
        exact OnTileFinishedMatching_with_consistent respawn fuel hres w4 w' none c4 f4 h5

/-- The method `RespawnTiles` keeps a board consistent and the allocator fresh. -/
theorem RespawnTiles_consistent :
    ∀ (fuel : Nat) (w w' : UWorld), Consistent w.Grid → FreshAllocator w →
      RespawnTiles fuel w = Outcome.done w' → Consistent w'.Grid ∧ FreshAllocator w' := by
  intro fuel
  induction fuel with
  | zero =>
    intro w w' _ _ h
    cases h
  | succ n ih =>
    intro w w' hcons hfresh h
    unfold RespawnTiles RespawnTiles_with at h
    obtain ⟨w1, hcol, h1⟩ := Outcome_bind_eq_done _ _ _ h
    obtain ⟨c1, f1⟩ := RespawnTiles_columns_consistent _ _ _ _ _ hcons hfresh hcol
    split_ifs at h1 with hfall
    · obtain ⟨hsame, _, _, _, _, _, _, _, hN, _⟩ := StartFalling_all_trace _ _ _ _ _ h1
      obtain ⟨_, _, _, hgt, _, _, _, _, _, _, _, _, _, hheap⟩ := hsame
      exact ⟨Consistent_congr w1.Grid w'.Grid hgt (fun t => (hheap t).2.2.2) c1,
        FreshAllocator_congr w1 w' hgt hN f1⟩
    · revert h1
      cases hm : RespawnTiles_matches w1.Grid w1.Grid.TilesToCheck [] with
      | none => intro h1; cases h1
      | some A =>
        simp only
        intro h1
        split_ifs at h1 with hA
        · obtain ⟨hN, hG, hH⟩ := SetLastMove_frame w1 EMatch3MoveType.MT_Combo
          have c2 : Consistent (SetLastMove w1 EMatch3MoveType.MT_Combo).Grid :=
            Consistent_congr w1.Grid _ hG (fun t => by unfold GetGridAddress; rw [hH]) c1
          have f2 : FreshAllocator (SetLastMove w1 EMatch3MoveType.MT_Combo) :=
            FreshAllocator_congr w1 _ hG hN f1
          exact ExecuteMatch_with_consistent (RespawnTiles n) n ih _ _ _ c2 f2 h1
        · revert h1
          cases hu : IsUnwinnable w1.Grid with
          | none => intro h1; cases h1
          | some p =>
            obtain ⟨b, g2⟩ := p
            have c2 : Consistent g2 := IsUnwinnable_loop_consistent _ _ _ _ _ c1 hu
            have f2 := IsUnwinnable_fresh w1.Grid b g2 w1.NextTile f1 hu
            have hp : ∀ (v : UWorld) (bb : Bool), v.Grid = g2 → v.NextTile = w1.NextTile →
                Consistent (PauseGameTimer v bb).Grid ∧ FreshAllocator (PauseGameTimer v bb) := by
              intro v bb hv hvn
              have e := (PauseGameTimer_grid v bb).1
              refine ⟨by rw [e, hv]; exact c2, ?_⟩
              intro a t ht
              rw [e, hv] at ht
              rw [PauseGameTimer_next, hvn]
              exact f2 a t ht
            cases b with
            | false =>
              simp only
              intro h1
              injection h1 with h1
              rw [← h1]
              exact hp _ _ rfl rfl
            | true =>
              simp only
              cases hgm : w1.GameMode with
              | none =>
                simp only
                intro h1
                injection h1 with h1
                rw [← h1]
                exact hp _ _ rfl rfl
              | some gm =>
                simp only
                intro h1
                injection h1 with h1
                rw [← h1]
                exact ⟨c2, f2⟩

/-- The method `OnTileFinishedFalling` with a landing address on the grid keeps a board
consistent. -/
theorem OnTileFinishedFalling_consistent_on (fuel : Nat) (w : UWorld) (t : TilePtr) (L : Int)
    (w' : UWorld) (hwf : WellFormed w.Grid) (hL : ValidAddress w.Grid L)
    (hcons : Consistent w.Grid) (hfresh : FreshAllocator w) (ht : t < w.NextTile)
    (h : OnTileFinishedFalling fuel w t L = Outcome.done w') : Consistent w'.Grid := by
  obtain ⟨g1, hlen, hslot, hg1, hcall⟩ := OnTileFinishedFalling_steps fuel w t L hwf hL
  have hr : 0 ≤ L ∧ L < g1.GameTiles.length := by
    rw [hlen, hwf.2.2]
    exact hL
  have hset := getTile_set g1
    (SetTileState (SetGridAddress { g1 with GameTiles := g1.GameTiles.set L.toNat (some t) } t L)
      t ETileState.ETS_Normal) L (some t) hr rfl
  have haddr : ∀ u, GetGridAddress (SetTileState (SetGridAddress
      { g1 with GameTiles := g1.GameTiles.set L.toNat (some t) } t L) t ETileState.ETS_Normal) u =
      if u = t then L else GetGridAddress w.Grid u := by
    intro u
    rw [hg1]
    by_cases e : u = t
    · subst e
      simp [GetGridAddress, SetTileState, SetGridAddress]
    · simp [GetGridAddress, SetTileState, SetGridAddress, Function.update_noteq e, e]
  have cL : Consistent (SetTileState (SetGridAddress
      { g1 with GameTiles := g1.GameTiles.set L.toNat (some t) } t L) t
      ETileState.ETS_Normal) := by
    intro c u hu
    rw [hset c] at hu
    rw [haddr u]
    by_cases hc : c = L
    · rw [if_pos hc] at hu
      injection hu with hu
      rw [if_pos hu.symm, hc]
    · rw [if_neg hc, hslot c] at hu
      split_ifs at hu with h1
      have hu1 : u ≠ t := by
        intro e
        subst e
        exact h1 ⟨(hcons c u hu).symm, hu⟩
      rw [if_neg hu1]
      exact hcons c u hu
  have fL : ∀ (c : Int) (u : TilePtr), GetTileFromGridAddress (SetTileState (SetGridAddress
      { g1 with GameTiles := g1.GameTiles.set L.toNat (some t) } t L) t
      ETileState.ETS_Normal) c = some u → u < w.NextTile := by
    intro c u hu
    rw [hset c] at hu
    by_cases hc : c = L
    · rw [if_pos hc] at hu
      injection hu with hu
      rw [← hu]
      exact ht
    · rw [if_neg hc, hslot c] at hu
      split_ifs at hu with h1
      exact hfresh c u hu
  rw [hcall] at h
  split_ifs at h with hf
  · refine (RespawnTiles_consistent fuel _ w' ?_ ?_ h).1
    · exact Consistent_congr _ _ rfl (fun _ => rfl) cL
    · exact fL
  · injection h with h
    rw [← h]
    exact Consistent_congr _ _ rfl (fun _ => rfl) cL


/-- The method `OnTileFinishedFalling` keeps a board consistent. -/
theorem OnTileFinishedFalling_consistent (fuel : Nat) (w : UWorld) (t : TilePtr) (L : Int)
    (w' : UWorld) (hwf : WellFormed w.Grid)
    (hcons : Consistent w.Grid) (hfresh : FreshAllocator w) (ht : t < w.NextTile)
    (h : OnTileFinishedFalling fuel w t L = Outcome.done w') : Consistent w'.Grid := by
  by_cases hL : ValidAddress w.Grid L
  · exact OnTileFinishedFalling_consistent_on fuel w t L w' hwf hL hcons hfresh ht h
  · obtain ⟨g1, hslot, hg1, hcall⟩ := OnTileFinishedFalling_off fuel w t L hwf hL
    have c1 : Consistent g1 :=
      Consistent_of_shrink w.Grid g1 hslot (fun u => by rw [hg1]; rfl) hcons
    have f1 : ∀ (c : Int) (u : TilePtr), GetTileFromGridAddress g1 c = some u →
        u < w.NextTile := by
      intro c u hu
      rcases hslot c with e | e
      · rw [e] at hu
        exact hfresh c u hu
      · rw [e] at hu
        cases hu
    rw [hcall] at h
    split_ifs at h with hf
    · refine (RespawnTiles_consistent fuel _ w' ?_ ?_ h).1
      · exact Consistent_congr _ _ rfl (fun _ => rfl) c1
      · exact f1
    · injection h with h
      rw [← h]
      exact Consistent_congr _ _ rfl (fun _ => rfl) c1


/-! ## Board consistency -/

/-- C25: on a consistent board, every board-mutating operation that returns leaves a
consistent board: `CreateTile` (creation and placement of a tile), `SwapTiles`, `IsMoveLegal`,
`ExecuteMatch` with all that the completion of its tiles runs, `OnTileFinishedFalling` and
`RespawnTiles`.  Where a tile is spawned or placed (also by the respawn that `ExecuteMatch` or
the landing may reach), the tiles in question were spawned before, so that the spawned tile
is a new one; the landing is on a board of the data model. -/
theorem Consistent_preserved (w : UWorld) (hcons : Consistent w.Grid) :
    (∀ (TileToSpawn : Bool) (a ty : Int) (res : Option TilePtr) (w' : UWorld),
      FreshAllocator w → CreateTile w TileToSpawn a ty = some (res, w') →
      Consistent w'.Grid) ∧
    (∀ (a b : TilePtr) (g' : AGrid), SwapTiles w.Grid a b = some g' → Consistent g') ∧
    (∀ (A B : Option TilePtr) (r : Bool) (g' : AGrid),
      IsMoveLegal w.Grid A B = some (r, g') → Consistent g') ∧
    (∀ (fuel : Nat) (M : List TilePtr) (w' : UWorld), FreshAllocator w →
      ExecuteMatch fuel w M = Outcome.done w' → Consistent w'.Grid) ∧
    (∀ (fuel : Nat) (t : TilePtr) (L : Int) (w' : UWorld), WellFormed w.Grid →
      FreshAllocator w → t < w.NextTile →
      OnTileFinishedFalling fuel w t L = Outcome.done w' → Consistent w'.Grid) ∧
    (∀ (fuel : Nat) (w' : UWorld), FreshAllocator w →
      RespawnTiles fuel w = Outcome.done w' → Consistent w'.Grid) := by
  refine ⟨?_, ?_, ?_, ?_, ?_, ?_⟩
  · intro cls a ty res w' hfresh h
    exact (CreateTile_consistent w cls a ty res w' hcons hfresh h).1
  · intro a b g' h
    exact SwapTiles_consistent w.Grid a b g' hcons h
  · intro A B r g' h
    exact IsMoveLegal_consistent w.Grid A B r g' hcons h
  · intro fuel M w' hfresh h
    exact (ExecuteMatch_with_consistent (RespawnTiles fuel) fuel
      (RespawnTiles_consistent fuel) w M w' hcons hfresh h).1
  · intro fuel t L w' hwf hfresh ht h
    exact OnTileFinishedFalling_consistent fuel w t L w' hwf hcons hfresh ht h
  · intro fuel w' hfresh h
    exact (RespawnTiles_consistent fuel w w' hcons hfresh h).1

/-- C25 at the board with an empty cell and two falling tiles: each of the six operations
returns there, and the board it leaves is consistent. -/
theorem Consistent_preserved_witness :
    Consistent fallingWorld.Grid ∧ FreshAllocator fallingWorld ∧
    (∃ w', CreateTile fallingWorld true 0 0 = some (some 100, w') ∧ Consistent w'.Grid) ∧
    (∃ g', SwapTiles fallingWorld.Grid 1 2 = some g' ∧ Consistent g') ∧
    (∃ g', IsMoveLegal fallingWorld.Grid (some 1) (some 2) = some (false, g') ∧
      Consistent g') ∧
    (∃ w', ExecuteMatch 3 fallingWorld [1] = Outcome.done w' ∧ Consistent w'.Grid) ∧
    (∃ w', OnTileFinishedFalling 0 fallingWorld 3 0 = Outcome.done w' ∧
      Consistent w'.Grid) ∧
    (∃ w', RespawnTiles 1 fallingWorld = Outcome.done w' ∧ Consistent w'.Grid) :=
  have T := Consistent_preserved fallingWorld fallingWorld_consistent
  ⟨fallingWorld_consistent, fallingWorld_fresh,
    ⟨_, rfl, T.1 true 0 0 _ _ fallingWorld_fresh rfl⟩,
    ⟨_, rfl, T.2.1 1 2 _ rfl⟩,
    ⟨_, rfl, T.2.2.1 (some 1) (some 2) _ _ rfl⟩,
    ⟨_, rfl, T.2.2.2.1 3 [1] _ fallingWorld_fresh rfl⟩,
    ⟨_, rfl, T.2.2.2.2.1 0 3 0 _
      (plainBoard_wellFormed 3 3 3 [1, 2, 3, 4, 5, 6, 7, 8, 9] (by decide) (by decide) rfl)
      fallingWorld_fresh (by decide) rfl⟩,
    ⟨_, rfl, T.2.2.2.2.2 1 _ fallingWorld_fresh rfl⟩⟩

/-! ## Claims on the score and the combo power of a match -/

/-- The tile at address 3 of the board whose bottom row is a run stands on the tile at
address 0 of the run. -/
theorem runBoard_stacked :
    ∃ T ∈ ([0, 1, 2] : List TilePtr), ∃ (k : Int) (u : TilePtr),
      stackedAt runBoard [0, 1, 2] T k u := by
  refine ⟨0, by decide, 1, 3, by decide, rfl, ?_⟩
  intro j h1 h2
  have e : j = 1 := by omega
  subst e
  exact ⟨3, rfl, by decide⟩

/-- C21: for a match that is not empty, with a game mode and a local player controller,
whenever `ExecuteMatch` returns the score has grown by the number of tiles of the match times
the score multiplier of the last move, and the events raised are, in this order, the move
made, one `AwardPlace` with exactly these points, some `AwardBonus`, and events raised by
the completion of the tiles, none of which is an `AwardPlace`: points are awarded once.  With
the native multiplier the points are 100 per tile.  The call returns on a consistent board of
the data model at rest (nothing falling, nothing being destroyed) when the tiles of the match
are placed and pairwise different, a tile outside the match stands on one of them, the
reward intervals are positive and the bound reaches the height of the grid. -/
theorem ExecuteMatch_awards_once (fuel : Nat) (w : UWorld) (M : List TilePtr)
    (gm : AMatch3GameMode) (pc : AMatch3PlayerController) (hM : M ≠ [])
    (hgm : w.GameMode = some gm) (hpc : w.PlayerController = some pc) :
    (∀ w', ExecuteMatch fuel w M = Outcome.done w' →
      ∃ (pc' : AMatch3PlayerController) (place : Int) (k : Nat) (E : List FEvent),
        w'.PlayerController = some pc' ∧
        pc'.Score = pc.Score + (M.length : Int) * w.ScoreMultiplierForMove (GetLastMove w) ∧
        w'.Events = w.Events ++ [FEvent.OnMoveMade (GetLastMove w),
          FEvent.AwardPlace place
            ((M.length : Int) * w.ScoreMultiplierForMove (GetLastMove w))] ++
          List.replicate k FEvent.AwardBonus ++ E ∧
        ∀ e ∈ E, ∀ p q : Int, e ≠ FEvent.AwardPlace p q) ∧
    (w.ScoreMultiplierForMove = GetScoreMultiplierForMove_Implementation →
      (M.length : Int) * w.ScoreMultiplierForMove (GetLastMove w) = (M.length : Int) * 100) ∧
    ((∀ t ∈ M, OnBoard w.Grid t) → WellFormed w.Grid → Consistent w.Grid → M.Nodup →
      w.Grid.FallingTiles = [] → w.Grid.TilesBeingDestroyed = [] →
      (∀ I ∈ gm.RewardIntervals, 0 < I) → w.Grid.GridHeight ≤ fuel →
      (∃ T ∈ M, ∃ (k : Int) (u : TilePtr), stackedAt w.Grid M T k u) →
      ∃ w', ExecuteMatch fuel w M = Outcome.done w') := by
  refine ⟨?_, ?_, ?_⟩
  · intro w' h
    obtain ⟨g2, w3, hmk, hsc, hq⟩ := ExecuteMatch_quiet fuel w M hM w' h
    obtain ⟨hsame, _, _⟩ := mark_frame M M _ g2 (fun _ h => h) hmk
    obtain ⟨s1, s2, s3, _, _, s6, s7⟩ := scoring_world w g2 hsame.2.2.2.2.2.2.2.2.2.1
    obtain ⟨_, _, hsc3⟩ := score_trace _ _ w3 _ (s1 gm hgm) hsc
    obtain ⟨pc', place, k, e1, e2, e3⟩ := hsc3 pc (s2.trans hpc)
    rw [s3, s6] at e2
    rw [s3, s6, s7] at e3
    obtain ⟨q1, _, _, E, q4, q5⟩ := hq
    exact ⟨pc', place, k, E, q1.trans e1, e2, by rw [q4, e3], q5⟩
  · intro hdef
    rw [hdef]
    rfl
  · intro hon hwf hcons hnd hfall hdes hrew hfuel hst
    obtain ⟨_, _, w', _, _, e, _⟩ := ExecuteMatch_with_falls (RespawnTiles fuel) fuel w M hon
      hwf hcons hnd hfall hdes
      (fun gm' h' I hI => by
        rw [hgm] at h'
        injection h' with h'
        subst h'
        exact hrew I hI) hfuel hst
    exact ⟨w', e⟩

/-- C21 on the 3 x 3 board whose bottom row is a run, for the three tiles of that run: the
score grows from 0 to 300. -/
theorem ExecuteMatch_awards_once_witness :
    ∃ (w' : UWorld) (pc' : AMatch3PlayerController) (place : Int) (k : Nat)
        (E : List FEvent),
      ExecuteMatch 3 runWorld [0, 1, 2] = Outcome.done w' ∧
      w'.PlayerController = some pc' ∧ pc'.Score = 300 ∧
      w'.Events = [FEvent.OnMoveMade EMatch3MoveType.MT_None, FEvent.AwardPlace place 300] ++
        List.replicate k FEvent.AwardBonus ++ E ∧
      ∀ e ∈ E, ∀ p q : Int, e ≠ FEvent.AwardPlace p q := by
  have hon : ∀ t ∈ ([0, 1, 2] : List TilePtr), OnBoard runWorld.Grid t := by
    intro t ht
    simp only [List.mem_cons, List.mem_singleton, List.not_mem_nil, or_false] at ht
    rcases ht with h | h | h <;> subst h <;> exact plainBoard_onBoard 3 3 3 _ _ (by decide)
  have T := ExecuteMatch_awards_once 3 runWorld [0, 1, 2] _ _ (List.cons_ne_nil _ _) rfl rfl
  obtain ⟨w', hw'⟩ := T.2.2 hon
    (plainBoard_wellFormed 3 3 3 _ (by decide) (by decide) (by decide))
    (plainBoard_consistent 3 3 3 _) (by decide) rfl rfl (by decide) (by decide)
    runBoard_stacked
  obtain ⟨pc', place, k, E, e1, e2, e3, e4⟩ := T.1 w' hw'
  exact ⟨w', pc', place, k, E, hw', e1, e2, e3, e4⟩

/-- C20, as amended: `ExecuteMatch` on the empty list returns the world unchanged.  On a
consistent board of the data model at rest (nothing falling, nothing being destroyed), for a
list `M` of placed, pairwise different tiles with a tile outside `M` standing on one of them,
with positive reward intervals and a bound that reaches the height of the grid, the call
returns with the destruction of every tile of `M` completed: no tile has changed its grid
address, the slot at the address of each tile of `M` is empty, each tile of `M` is in state
pending delete and has been destroyed, the destroying set is empty again, and every slot
that did not hold a tile of `M` holds what it held. -/
theorem ExecuteMatch_effect (fuel : Nat) (w : UWorld) (M : List TilePtr)
    (hon : ∀ t ∈ M, OnBoard w.Grid t) :
    (M = [] → ExecuteMatch fuel w M = Outcome.done w) ∧
    (WellFormed w.Grid → Consistent w.Grid → M.Nodup → w.Grid.FallingTiles = [] →
      w.Grid.TilesBeingDestroyed = [] →
      (∀ gm, w.GameMode = some gm → ∀ I ∈ gm.RewardIntervals, 0 < I) →
      w.Grid.GridHeight ≤ fuel →
      (∃ T ∈ M, ∃ (k : Int) (u : TilePtr), stackedAt w.Grid M T k u) →
      ∃ w', ExecuteMatch fuel w M = Outcome.done w' ∧
        (∀ t, GetGridAddress w'.Grid t = GetGridAddress w.Grid t) ∧
        (∀ t ∈ M, GetTileFromGridAddress w'.Grid (GetGridAddress w.Grid t) = none ∧
          (w'.Grid.heap t).TileState = ETileState.ETS_PendingDelete ∧
          t ∈ w'.Destroyed) ∧
        w'.Grid.TilesBeingDestroyed = [] ∧
        (∀ a, (∀ t ∈ M, GetTileFromGridAddress w.Grid a ≠ some t) →
          GetTileFromGridAddress w'.Grid a = GetTileFromGridAddress w.Grid a)) := by
  refine ⟨?_, ?_⟩
  · intro h
    subst h
    rfl
  · intro hwf hcons hnd hfall hdes hrew hfuel hst
    obtain ⟨g2, w3, w', hmk, _, e, b1, _, b3, b4, b5, _⟩ :=
      ExecuteMatch_with_falls (RespawnTiles fuel) fuel w M hon hwf hcons hnd hfall hdes hrew
        hfuel hst
    obtain ⟨hsame, hpd, _⟩ := mark_frame M M _ g2 (fun _ h => h) hmk
    obtain ⟨c1, c2, c3, c4, c5, c6, c7, c8, c9, c10, c11, c12, c13, c14⟩ := b1
    refine ⟨w', e, ?_, ?_, ?_, ?_⟩
    · intro t
      unfold GetGridAddress
      rw [(c14 t).2.2.2]
      exact (hsame.2.2.2.2.2.2.2.2.2.2.2.2 t).2.2.1
    · intro t ht
      refine ⟨b4 t ht, ?_, ?_⟩
      · rw [(c14 t).2.1]
        exact hpd t ht
      · rw [b3]
        exact List.mem_append_right _ ht
    · rw [c10]
      exact hsame.2.2.2.2.2.2.2.2.1.trans hdes
    · intro a ha
      apply b5
      intro t ht e'
      apply ha t ht
      rw [← e']
      exact hon t ht

/-- The tile at address 3 of the board of nine types stands on the tile at address 0. -/
theorem deadBoard_stacked :
    ∃ T ∈ ([0] : List TilePtr), ∃ (k : Int) (u : TilePtr), stackedAt deadBoard [0] T k u := by
  refine ⟨0, by decide, 1, 3, by decide, rfl, ?_⟩
  intro j h1 h2
  have e : j = 1 := by omega
  subst e
  exact ⟨3, rfl, by decide⟩

/-- C20 as amended, on the board of nine types, for the tile at address 0. -/
theorem ExecuteMatch_effect_witness :
    ∃ w', ExecuteMatch 3 deadWorld [0] = Outcome.done w' ∧
      (∀ t, GetGridAddress w'.Grid t = GetGridAddress deadWorld.Grid t) ∧
      (∀ t ∈ ([0] : List TilePtr),
        GetTileFromGridAddress w'.Grid (GetGridAddress deadWorld.Grid t) = none ∧
        (w'.Grid.heap t).TileState = ETileState.ETS_PendingDelete ∧
        t ∈ w'.Destroyed) ∧
      w'.Grid.TilesBeingDestroyed = [] ∧
      (∀ a, (∀ t ∈ ([0] : List TilePtr), GetTileFromGridAddress deadWorld.Grid a ≠ some t) →
        GetTileFromGridAddress w'.Grid a = GetTileFromGridAddress deadWorld.Grid a) :=
  (ExecuteMatch_effect 3 deadWorld [0]
    (by
      intro t ht
      simp only [List.mem_singleton] at ht
      subst ht
      exact plainBoard_onBoard 3 3 3 _ 0 (by decide))).2
    (plainBoard_wellFormed 3 3 3 _ (by decide) (by decide) (by decide))
    (plainBoard_consistent 3 3 3 _) (by decide) rfl rfl
    (by
      intro gm hgm I hI
      simp only [deadWorld, worldOf, Option.some.injEq] at hgm
      subst hgm
      simp only [List.mem_singleton] at hI
      subst hI
      decide)
    (by decide) deadBoard_stacked

/-- C20 as stated fails on the code: the native body of `OnMatched` completes the
destruction of a tile inside `ExecuteMatch`, so no completion is outstanding when the call
returns.  On the consistent board of nine types, after `ExecuteMatch` on the tile at address
0 the destroying set is empty: the tile is not in it, it has been destroyed. -/
theorem ExecuteMatch_effect_counterexample :
    Consistent deadWorld.Grid ∧ OnBoard deadWorld.Grid 0 ∧
      ∃ w' : UWorld, ExecuteMatch 3 deadWorld [0] = Outcome.done w' ∧
        w'.Grid.TilesBeingDestroyed = [] ∧ 0 ∉ w'.Grid.TilesBeingDestroyed ∧
        w'.Destroyed = [0] :=
  ⟨plainBoard_consistent 3 3 3 _, plainBoard_onBoard 3 3 3 _ 0 (by decide),
    _, rfl, rfl, by decide, rfl⟩

/-! ## Claim on the falling set of a match -/

/-- C27, as amended: on a fully populated, consistent board of the data model at rest, for a
list `M` of placed, pairwise different tiles such that some tile outside `M` has a tile of
`M` below it in its column, with positive reward intervals and a bound that reaches the
height of the grid, `ExecuteMatch` returns, and then the falling set holds exactly the tiles
outside `M` that have a tile of `M` below them in their column, each once and each in state
falling, and the destroying set is empty, so that no tile is in both sets. -/
theorem ExecuteMatch_falling (fuel : Nat) (w : UWorld) (M : List TilePtr)
    (hwf : WellFormed w.Grid) (hfull : FullyPopulated w.Grid) (hcons : Consistent w.Grid)
    (hfall : w.Grid.FallingTiles = []) (hdes : w.Grid.TilesBeingDestroyed = [])
    (hnd : M.Nodup) (hon : ∀ t ∈ M, OnBoard w.Grid t)
    (hrew : ∀ gm, w.GameMode = some gm → ∀ I ∈ gm.RewardIntervals, 0 < I)
    (hfuel : w.Grid.GridHeight ≤ fuel)
    (hsome : ∃ u, u ∉ M ∧ OnBoard w.Grid u ∧ ∃ T ∈ M,
      colOf w.Grid (GetGridAddress w.Grid T) = colOf w.Grid (GetGridAddress w.Grid u) ∧
      rowOf w.Grid (GetGridAddress w.Grid T) < rowOf w.Grid (GetGridAddress w.Grid u)) :
    ∃ w', ExecuteMatch fuel w M = Outcome.done w' ∧
      (∀ u, u ∈ w'.Grid.FallingTiles ↔
        u ∉ M ∧ OnBoard w.Grid u ∧ ∃ T ∈ M,
          colOf w.Grid (GetGridAddress w.Grid T) = colOf w.Grid (GetGridAddress w.Grid u) ∧
          rowOf w.Grid (GetGridAddress w.Grid T) < rowOf w.Grid (GetGridAddress w.Grid u)) ∧
      w'.Grid.FallingTiles.Nodup ∧
      (∀ u ∈ w'.Grid.FallingTiles, (w'.Grid.heap u).TileState = ETileState.ETS_Falling) ∧
      w'.Grid.TilesBeingDestroyed = [] ∧
      ∀ u, ¬ (u ∈ w'.Grid.FallingTiles ∧ u ∈ w'.Grid.TilesBeingDestroyed) := by
  have hst : ∃ T ∈ M, ∃ (k : Int) (u : TilePtr), stackedAt w.Grid M T k u := by
    obtain ⟨u, hu⟩ := hsome
    obtain ⟨T, hT, k, hk⟩ := (stacked_iff_below w.Grid M hwf hfull hcons hon u).mpr hu
    exact ⟨T, hT, k, u, hk⟩
  obtain ⟨g2, w3, w', hmk, _, e, b1, _, _⟩ :=
    ExecuteMatch_with_falls (RespawnTiles fuel) fuel w M hon hwf hcons hnd hfall hdes hrew
      hfuel hst
  obtain ⟨hsame, _, _⟩ := mark_frame M M _ g2 (fun _ h => h) hmk
  have hmem := mark_mem w.Grid M hwf hon M w.Grid g2 (sameButStates_refl _)
    (fun _ h => h) hmk
  obtain ⟨hndF, hstF⟩ := mark_nodup_states M M w.Grid g2 (fun _ h => h) hmk
    (by rw [hfall]; exact List.nodup_nil)
    (by
      intro u hu
      rw [hfall] at hu
      cases hu)
  obtain ⟨c1, c2, c3, c4, c5, c6, c7, c8, c9, c10, c11, c12, c13, c14⟩ := b1
  simp only at c7 c10
  have hD : w'.Grid.TilesBeingDestroyed = [] := by
    rw [c10]
    exact hsame.2.2.2.2.2.2.2.2.1.trans hdes
  refine ⟨w', e, ?_, ?_, ?_, hD, ?_⟩
  · intro u
    rw [c7, hmem u, hfall]
    simp only [List.not_mem_nil, false_or]
    exact stacked_iff_below w.Grid M hwf hfull hcons hon u
  · rw [c7]
    exact hndF
  · intro u hu
    rw [c7] at hu
    rw [(c14 u).2.1]
    exact (hstF u hu).1
  · intro u hu
    rw [hD] at hu
    cases hu.2

/-- C27 as amended, on the 3 x 3 board whose bottom row is a run, for the three tiles of that
run. -/
theorem ExecuteMatch_falling_witness :
    ∃ w' : UWorld, ExecuteMatch 3 runWorld [0, 1, 2] = Outcome.done w' ∧
      (∀ u, u ∈ w'.Grid.FallingTiles ↔
        u ∉ ([0, 1, 2] : List TilePtr) ∧ OnBoard runWorld.Grid u ∧
          ∃ T ∈ ([0, 1, 2] : List TilePtr),
            colOf runWorld.Grid (GetGridAddress runWorld.Grid T) =
              colOf runWorld.Grid (GetGridAddress runWorld.Grid u) ∧
            rowOf runWorld.Grid (GetGridAddress runWorld.Grid T) <
              rowOf runWorld.Grid (GetGridAddress runWorld.Grid u)) ∧
      w'.Grid.FallingTiles.Nodup ∧
      (∀ u ∈ w'.Grid.FallingTiles, (w'.Grid.heap u).TileState = ETileState.ETS_Falling) ∧
      w'.Grid.TilesBeingDestroyed = [] ∧
      ∀ u, ¬ (u ∈ w'.Grid.FallingTiles ∧ u ∈ w'.Grid.TilesBeingDestroyed) :=
  ExecuteMatch_falling 3 runWorld [0, 1, 2]
    (plainBoard_wellFormed 3 3 3 _ (by decide) (by decide) (by decide))
    (plainBoard_full 3 3 3 _ (by decide)) (plainBoard_consistent 3 3 3 _) rfl rfl
    (by decide)
    (by
      intro t ht
      simp only [List.mem_cons, List.mem_singleton, List.not_mem_nil, or_false] at ht
      rcases ht with h | h | h <;> subst h <;> exact plainBoard_onBoard 3 3 3 _ _ (by decide))
    (by
      intro gm hgm I hI
      simp only [runWorld, worldOf, Option.some.injEq] at hgm
      subst hgm
      simp only [List.mem_singleton] at hI
      subst hI
      decide)
    (by decide)
    ⟨3, by decide, plainBoard_onBoard 3 3 3 _ 3 (by decide), 0, by decide, by decide,
      by decide⟩

/-- The call of `ExecuteMatch` on the board of nine types for the tile at the top of the
first column, up to the respawn that the completion of the tile reaches. -/
theorem ExecuteMatch_top_eq (fuel : Nat) :
    ExecuteMatch fuel deadWorld [6] =
      (RespawnTiles fuel topMatchWorld).bind fun w4 =>
        OnTileFinishedMatching_with (RespawnTiles fuel) fuel w4 none := by
  have hmk : ExecuteMatch_mark [6] [6] deadWorld.Grid =
      some (SetTileState deadWorld.Grid 6 ETileState.ETS_PendingDelete) := rfl
  have hsc : ExecuteMatch_score
        { PauseGameTimer deadWorld true with
          Grid := { SetTileState deadWorld.Grid 6 ETileState.ETS_PendingDelete with
            TilesToCheck := [] } } (([6] : List TilePtr).length : Int) =
      some { deadWorld with
        Grid := { SetTileState deadWorld.Grid 6 ETileState.ETS_PendingDelete with
          TilesToCheck := [] },
        GameMode := some
          { GameOverTimer := ETimerStatus.Paused, RewardIntervals := [1000],
            BronzeScore := 500, SilverScore := 1000, GoldScore := 2000,
            FinalPlace := 0, bGameWillBeWon := false },
        PlayerController := some
          { Score := 100, ComboPower := 0, MaxComboPower := 5, BombPower := 0 },
        Events := [FEvent.OnMoveMade EMatch3MoveType.MT_None,
          FEvent.AwardPlace 0 100] } := rfl
  unfold ExecuteMatch
  rw [ExecuteMatch_with_eq (RespawnTiles fuel) fuel deadWorld [6] (List.cons_ne_nil _ _) _ _
    hmk hsc]
  rw [ExecuteMatch_remove_cons (RespawnTiles fuel) fuel 6 [] _ ⟨by decide, by decide⟩]
  rw [OnTileFinishedMatching_with_empty (RespawnTiles fuel) fuel _ (some 6)
    (fun t ht => by
      injection ht with ht
      subst ht
      exact RemoveSwap_singleton 6)
    (fun h => by cases h)]
  have key : ∀ (x : Outcome UWorld) (h : UWorld → Outcome UWorld),
      (x.bind fun w1 => ExecuteMatch_remove (RespawnTiles fuel) fuel [] w1).bind h =
        x.bind h := by
    intro x h
    cases x <;> rfl
  rw [key]
  rfl

/-- C27 as stated fails on the code for a match at the top of a column above which nothing
falls: the native body of `OnMatched` completes the destruction inside `ExecuteMatch`, and
the completion, finding nothing falling, runs the respawn.  On the board of nine types,
after `ExecuteMatch` on the tile at address 6 the falling set holds the new tile 100, which
was not on the board and has no tile of the match below it. -/
theorem ExecuteMatch_falling_counterexample :
    FullyPopulated deadWorld.Grid ∧ Consistent deadWorld.Grid ∧
      deadWorld.Grid.FallingTiles = [] ∧ OnBoard deadWorld.Grid 6 ∧
      ∃ w' : UWorld, ExecuteMatch 4 deadWorld [6] = Outcome.done w' ∧
        100 ∈ w'.Grid.FallingTiles ∧ ¬ OnBoard deadWorld.Grid 100 := by
  refine ⟨plainBoard_full 3 3 3 _ (by decide), plainBoard_consistent 3 3 3 _, rfl,
    plainBoard_onBoard 3 3 3 _ 6 (by decide), ?_⟩
  obtain ⟨w2, n, hrun, hn, hF, hD, hW, hH, hv, _, _⟩ := respawn_spawned 4 topMatchWorld
    ⟨by decide, by decide, by decide⟩
    (fun a hv he hv2 => respawnWorld_top a hv he hv2) (List.cons_ne_nil _ _)
    (fun T hT => by rw [List.eq_of_mem_replicate hT]; rfl)
    (fun p hp => absurd hp (List.not_mem_nil p)) (by decide)
    ⟨6, ⟨by decide, by decide⟩, by decide⟩
  have hF2 : w2.Grid.FallingTiles = List.range' 100 n := hF
  have h100 : 100 ∈ w2.Grid.FallingTiles := by
    rw [hF2]
    exact List.mem_range'_1.mpr ⟨le_refl _, by omega⟩
  obtain ⟨w', e', d1, _⟩ := OnTileFinishedMatching_with_falls (RespawnTiles 4) 4 w2 none
    (fun t h => by cases h) (fun _ => hD)
    (List.ne_nil_of_mem h100)
    (by rw [hW]; decide)
    (by
      intro t ht
      rw [hF2] at ht
      have := hv t ht
      unfold ValidAddress at this ⊢
      rw [hW, hH]
      exact this)
    (by rw [hH]; decide)
  refine ⟨w', ?_, ?_, by unfold OnBoard; decide⟩
  · rw [ExecuteMatch_top_eq, hrun]
    exact e'
  · rw [d1.2.2.2.2.2.2.1]
    exact h100

/-! ## Claim on the assertions of the match execution -/

/-- C33: on a consistent board of the data model with an empty falling set, for a list `M`
of pairwise different tiles placed on the board, the first loop of `ExecuteMatch` returns
(its `check` that a tile set falling is not in the falling set already never fails), every
tile of `M` has a grid address that is an index of the board on the grid that the loop
leaves, and at every pass of the second loop that is reached, that is, whenever the scoring
and the passes for the tiles before a tile of `M` have returned, with all that the completion
of those tiles has run, the write `GameTiles[address]` for that tile is in range.  On a board at rest with
a tile outside `M` standing on a tile of `M`, positive reward intervals and a bound that
reaches the height of the grid, the whole call returns. -/
theorem ExecuteMatch_asserts (fuel : Nat) (w : UWorld) (M : List TilePtr)
    (hwf : WellFormed w.Grid) (hcons : Consistent w.Grid)
    (hfall : w.Grid.FallingTiles = []) (hnd : M.Nodup) (hon : ∀ t ∈ M, OnBoard w.Grid t) :
    (∃ g2 : AGrid, ExecuteMatch_mark M M w.Grid = some g2 ∧
      (∀ t ∈ M, 0 ≤ GetGridAddress g2 t ∧ GetGridAddress g2 t < g2.GameTiles.length) ∧
      ∀ w3 : UWorld,
        ExecuteMatch_score
          { PauseGameTimer w true with Grid := { g2 with TilesToCheck := [] } }
          (M.length : Int) = some w3 →
        ∀ (Done Rest : List TilePtr) (T : TilePtr) (wd : UWorld), M = Done ++ T :: Rest →
          ExecuteMatch_remove (RespawnTiles fuel) fuel Done w3 = Outcome.done wd →
          (0 ≤ GetGridAddress wd.Grid T ∧
            GetGridAddress wd.Grid T < wd.Grid.GameTiles.length) ∧
          ∃ gd : AGrid, SetGameTile
            { wd.Grid with TilesBeingDestroyed := wd.Grid.TilesBeingDestroyed ++ [T] }
            (GetGridAddress wd.Grid T) none = some gd) ∧
    (w.Grid.TilesBeingDestroyed = [] →
      (∀ gm, w.GameMode = some gm → ∀ I ∈ gm.RewardIntervals, 0 < I) →
      w.Grid.GridHeight ≤ fuel →
      (∃ T ∈ M, ∃ (k : Int) (u : TilePtr), stackedAt w.Grid M T k u) →
      ∃ w', ExecuteMatch fuel w M = Outcome.done w') := by
  constructor
  · obtain ⟨g2, hmk⟩ := mark_total w.Grid M hwf hcons hon M [] w.Grid (sameButStates_refl _)
      (fun _ h => h) hnd (fun _ _ h => by cases h) (fun _ h => by cases h)
      (fun u hu => by rw [hfall] at hu; cases hu)
    obtain ⟨hsame, _, _⟩ := mark_frame M M w.Grid g2 (fun _ h => h) hmk
    obtain ⟨_, _, _, hgt, _, _, _, _, _, _, _, _, hheap⟩ := hsame
    have hr : ∀ t ∈ M, 0 ≤ GetGridAddress g2 t ∧ GetGridAddress g2 t < g2.GameTiles.length := by
      intro t ht
      have e : GetGridAddress g2 t = GetGridAddress w.Grid t := (hheap t).2.2.1
      rw [e, hgt]
      exact (slot_index w.Grid _ t (hon t ht)).1
    refine ⟨g2, hmk, hr, ?_⟩
    intro w3 hsc Done Rest T wd hsplit hrun
    have h3 : w3.Grid = { g2 with TilesToCheck := [] } := (score_grid _ _ w3 hsc).1
    have hT : T ∈ M := by
      rw [hsplit]
      exact List.mem_append_right _ (List.mem_cons_self _ _)
    have hq := remove_quiet (RespawnTiles fuel) fuel (RespawnTiles_quiet fuel)
      Done w3 wd (by intro _; rw [h3]) hrun
    have q3 := hq.1.2.2.1
    have h0 : inRange w3.Grid T := by
      unfold inRange
      rw [h3]
      exact hr T hT
    have h1 := q3 T h0
    refine ⟨h1, { wd.Grid with
      TilesBeingDestroyed := wd.Grid.TilesBeingDestroyed ++ [T],
      GameTiles := wd.Grid.GameTiles.set (GetGridAddress wd.Grid T).toNat none }, ?_⟩
    unfold SetGameTile
    exact if_pos h1
  · intro hdes hrew hfuel hst
    obtain ⟨_, _, w', _, _, e, _⟩ := ExecuteMatch_with_falls (RespawnTiles fuel) fuel w M hon
      hwf hcons hnd hfall hdes hrew hfuel hst
    exact ⟨w', e⟩

/-- C33 on the board whose bottom row is a run, for the three tiles of that row. -/
theorem ExecuteMatch_asserts_witness :
    (∃ g2 : AGrid, ExecuteMatch_mark [0, 1, 2] [0, 1, 2] runWorld.Grid = some g2 ∧
      (∀ t ∈ [0, 1, 2], 0 ≤ GetGridAddress g2 t ∧
        GetGridAddress g2 t < g2.GameTiles.length) ∧
      ∀ w3 : UWorld,
        ExecuteMatch_score
          { PauseGameTimer runWorld true with Grid := { g2 with TilesToCheck := [] } }
          (([0, 1, 2] : List TilePtr).length : Int) = some w3 →
        ∀ (Done Rest : List TilePtr) (T : TilePtr) (wd : UWorld),
          [0, 1, 2] = Done ++ T :: Rest →
          ExecuteMatch_remove (RespawnTiles 3) 3 Done w3 = Outcome.done wd →
          (0 ≤ GetGridAddress wd.Grid T ∧
            GetGridAddress wd.Grid T < wd.Grid.GameTiles.length) ∧
          ∃ gd : AGrid, SetGameTile
            { wd.Grid with TilesBeingDestroyed := wd.Grid.TilesBeingDestroyed ++ [T] }
            (GetGridAddress wd.Grid T) none = some gd) ∧
    ∃ w', ExecuteMatch 3 runWorld [0, 1, 2] = Outcome.done w' :=
  have T := ExecuteMatch_asserts 3 runWorld [0, 1, 2]
    (plainBoard_wellFormed 3 3 3 [1, 1, 1, 2, 3, 4, 5, 6, 7] (by decide) (by decide) rfl)
    (plainBoard_consistent 3 3 3 [1, 1, 1, 2, 3, 4, 5, 6, 7]) rfl (by decide)
    (fun t ht => by
      have h : t < 9 := by
        simp only [List.mem_cons, List.mem_singleton, List.not_mem_nil, or_false] at ht
        rcases ht with rfl | rfl | rfl <;> decide
      exact plainBoard_onBoard 3 3 3 [1, 1, 1, 2, 3, 4, 5, 6, 7] t h)
  ⟨T.1, T.2 rfl (fun gm hgm I hI => by
    have e : gm.RewardIntervals = [1000] := by
      have := Option.some.inj hgm
      rw [← this]
    rw [e, List.mem_singleton] at hI
    rw [hI]
    decide) (by decide) runBoard_stacked⟩

/-! ## Gravity: the board that a match leaves -/

/-- The world that `ExecuteMatch` leaves on a fully populated consistent board at rest, when
some tile outside the match has a tile of the match below it: the cells of the tiles of the
match are empty and the other cells are as before, every tile keeps its address, the falling
set holds once each tile outside the match with a tile of the match below it, those tiles are
falling with their settled address as landing address, and every other tile outside the
match is in the state in which it was. -/
theorem ExecuteMatch_state (fuel : Nat) (w : UWorld) (M : List TilePtr)
    (hwf : WellFormed w.Grid) (hfull : FullyPopulated w.Grid) (hcons : Consistent w.Grid)
    (hfall : w.Grid.FallingTiles = []) (hdes : w.Grid.TilesBeingDestroyed = [])
    (hnd : M.Nodup) (hon : ∀ t ∈ M, OnBoard w.Grid t)
    (hnorm : ∀ u, OnBoard w.Grid u → (w.Grid.heap u).TileState = ETileState.ETS_Normal)
    (hrew : ∀ gm, w.GameMode = some gm → ∀ I ∈ gm.RewardIntervals, 0 < I)
    (hfuel : w.Grid.GridHeight ≤ fuel)
    (hsome : ∃ u, u ∉ M ∧ OnBoard w.Grid u ∧ matchBelow w.Grid M u) :
    ∃ w1, ExecuteMatch fuel w M = Outcome.done w1 ∧
      w1.Grid.GridWidth = w.Grid.GridWidth ∧ w1.Grid.GridHeight = w.Grid.GridHeight ∧
      w1.Grid.GameTiles.length = w.Grid.GameTiles.length ∧
      (∀ t, GetGridAddress w1.Grid t = GetGridAddress w.Grid t) ∧
      (∀ a t, GetTileFromGridAddress w.Grid a = some t → t ∈ M →
        GetTileFromGridAddress w1.Grid a = none) ∧
      (∀ a t, GetTileFromGridAddress w.Grid a = some t → t ∉ M →
        GetTileFromGridAddress w1.Grid a = some t) ∧
      (∀ a, GetTileFromGridAddress w.Grid a = none → GetTileFromGridAddress w1.Grid a = none) ∧
      (∀ u, u ∈ w1.Grid.FallingTiles ↔ u ∉ M ∧ OnBoard w.Grid u ∧ matchBelow w.Grid M u) ∧
      w1.Grid.FallingTiles.Nodup ∧
      (∀ u ∈ w1.Grid.FallingTiles, (w1.Grid.heap u).TileState = ETileState.ETS_Falling) ∧
      (∀ u, u ∉ M → u ∉ w1.Grid.FallingTiles →
        (w1.Grid.heap u).TileState = (w.Grid.heap u).TileState) ∧
      (∀ u ∈ w1.Grid.FallingTiles,
        (w1.Grid.heap u).LandingGridAddress = settledAddress w.Grid M u) := by
  have hst : ∃ T ∈ M, ∃ (k : Int) (u : TilePtr), stackedAt w.Grid M T k u := by
    obtain ⟨u, hu⟩ := hsome
    obtain ⟨T, hT, k, hk⟩ := (stacked_iff_below w.Grid M hwf hfull hcons hon u).mpr hu
    exact ⟨T, hT, k, u, hk⟩
  obtain ⟨g2, w3, w', hmk, hsc, e, b1, b2, _, b4, b5, b6, v, v1, v2, v3⟩ :=
    ExecuteMatch_with_falls (RespawnTiles fuel) fuel w M hon hwf hcons hnd hfall hdes hrew
      hfuel hst
  obtain ⟨hsame, _, _⟩ := mark_frame M M _ g2 (fun _ h => h) hmk
  have hmem := mark_mem w.Grid M hwf hon M w.Grid g2 (sameButStates_refl _)
    (fun _ h => h) hmk
  obtain ⟨hn2, hs2⟩ := mark_nodup_states M M w.Grid g2 (fun _ h => h) hmk
    (by rw [hfall]; exact List.nodup_nil) (by rw [hfall]; intro u hu; cases hu)
  obtain ⟨_, hoth⟩ := mark_other M M w.Grid g2 hmk
  obtain ⟨sW, sH, _, sG, _, _, _, _, _, _, _, _, sheap⟩ := hsame
  obtain ⟨c1, c2, c3, c4, c5, c6, c7, c8, c9, c10, c11, c12, c13, c14⟩ := b1
  simp only at c1 c2 c4 c7
  obtain ⟨d1, d2, d3, d4, d5, d6, d7, d8, d9, d10, d11, d12, d13, d14⟩ := v1
  simp only at d1 d2 d4 d7
  have hA : ∀ t, GetGridAddress w'.Grid t = GetGridAddress w.Grid t := by
    intro t
    unfold GetGridAddress
    rw [(c14 t).2.2.2]
    exact (sheap t).2.2.1
  have hAv : ∀ t, GetGridAddress v.Grid t = GetGridAddress w.Grid t := by
    intro t
    unfold GetGridAddress
    rw [(d14 t).2.2.2]
    exact (sheap t).2.2.1
  have hchar : ∀ u, u ∈ g2.FallingTiles ↔
      u ∉ M ∧ OnBoard w.Grid u ∧ matchBelow w.Grid M u := by
    intro u
    rw [hmem u, hfall]
    simp only [List.not_mem_nil, false_or]
    exact stacked_iff_below w.Grid M hwf hfull hcons hon u
  have hsM : ∀ a t, GetTileFromGridAddress w.Grid a = some t → t ∈ M →
      GetTileFromGridAddress w'.Grid a = none := by
    intro a t ha ht
    have e' := hcons a t ha
    rw [← e']
    exact b4 t ht
  have hsS : ∀ a t, GetTileFromGridAddress w.Grid a = some t → t ∉ M →
      GetTileFromGridAddress w'.Grid a = some t := by
    intro a t ha ht
    rw [b5 a, ha]
    intro t' ht' e'
    have := hon t' ht'
    unfold OnBoard at this
    rw [e', ha] at this
    exact ht ((Option.some.inj this) ▸ ht')
  have hstate : ∀ u, u ∉ M → u ∉ g2.FallingTiles →
      (g2.heap u).TileState = (w.Grid.heap u).TileState := by
    intro u huM huF
    rw [hoth u huM huF]
  have hscan : ∀ u ∈ g2.FallingTiles,
      StartFalling_scan v.Grid u fuel 0 1 = Outcome.done (settledAddress w.Grid M u) := by
    intro u hu
    obtain ⟨_, huon, hub⟩ := (hchar u).mp hu
    refine column_scan w.Grid v.Grid M hwf hfull hcons hon (d1.trans sW) (d2.trans sH) hAv
      ?_ ?_ ?_ ?_ u huon hub fuel hfuel
    · intro a t ha ht
      rw [getTile_congr _ _ v2]
      exact hsM a t ha ht
    · intro a t ha ht
      rw [getTile_congr _ _ v2]
      exact hsS a t ha ht
    · intro x hxM hxon hxb
      rw [(d14 x).2.1]
      exact (hs2 x ((hchar x).mpr ⟨hxM, hxon, hxb⟩)).1
    · intro x hxM hxon hxb
      have hxF : x ∉ g2.FallingTiles := fun h => hxb ((hchar x).mp h).2.2
      rw [(d14 x).2.1]
      show (g2.heap x).TileState ≠ _ ∧ (g2.heap x).TileState ≠ _
      rw [hstate x hxM hxF, hnorm x hxon]
      exact ⟨by decide, by decide⟩
  obtain ⟨w2, hrun, hland, _⟩ := StartFalling_all_landings fuel v g2.FallingTiles v
    (sameButLanding_refl _) (fun t ht => ⟨_, hscan t ht⟩)
  have e2 : w2 = w' := by
    have := hrun.symm.trans v3
    injection this
  subst e2
  refine ⟨w2, e, c1.trans sW, c2.trans sH, by rw [c4, sG], hA, hsM, hsS, b6, ?_, ?_, ?_, ?_,
    ?_⟩
  · intro u
    rw [c7]
    exact hchar u
  · rw [c7]
    exact hn2
  · intro u hu
    rw [c7] at hu
    rw [(c14 u).2.1]
    exact (hs2 u hu).1
  · intro u huM huF
    rw [c7] at huF
    rw [(c14 u).2.1]
    exact hstate u huM huF
  · intro u hu
    rw [c7] at hu
    have := hland u hu
    rw [hscan u hu] at this
    injection this with this
    exact this.symm

/-- The match and the landing callbacks in any order on a fully populated consistent board at
rest, when some tile outside the match has a tile of the match below it. -/
theorem settle_orders (fuel : Nat) (w : UWorld) (M : List TilePtr)
    (hwf : WellFormed w.Grid) (hfull : FullyPopulated w.Grid) (hcons : Consistent w.Grid)
    (hfall : w.Grid.FallingTiles = []) (hdes : w.Grid.TilesBeingDestroyed = [])
    (hnd : M.Nodup) (hon : ∀ t ∈ M, OnBoard w.Grid t)
    (hnorm : ∀ u, OnBoard w.Grid u → (w.Grid.heap u).TileState = ETileState.ETS_Normal)
    (hrew : ∀ gm, w.GameMode = some gm → ∀ I ∈ gm.RewardIntervals, 0 < I)
    (hfuel : w.Grid.GridHeight ≤ fuel)
    (hsome : ∃ u, u ∉ M ∧ OnBoard w.Grid u ∧ matchBelow w.Grid M u) :
    ∃ w1 : UWorld, ExecuteMatch fuel w M = Outcome.done w1 ∧
      (∀ u, u ∈ w1.Grid.FallingTiles ↔ u ∉ M ∧ OnBoard w.Grid u ∧ matchBelow w.Grid M u) ∧
      (∀ u ∈ w1.Grid.FallingTiles,
        (w1.Grid.heap u).LandingGridAddress = settledAddress w.Grid M u) ∧
      ∃ (G : List (Option TilePtr)) (hp : TilePtr → ATile),
        ∀ (init : List TilePtr) (last : TilePtr),
          (init ++ [last]).Perm w1.Grid.FallingTiles → ∀ fuel2 : Nat,
          ∃ w3 w4 : UWorld,
            FinishFalling_all fuel2 init w1 = Outcome.done w3 ∧
            OnTileFinishedFalling_land w3 last (w3.Grid.heap last).LandingGridAddress =
              some w4 ∧
            FinishFalling fuel2 w3 last = RespawnTiles fuel2 w4 ∧
            w4 = { w1 with Grid := w4.Grid } ∧
            settledBoard w.Grid M w4.Grid ∧
            w4.Grid.GridWidth = w.Grid.GridWidth ∧ w4.Grid.GridHeight = w.Grid.GridHeight ∧
            w4.Grid.GameTiles.length = w.Grid.GameTiles.length ∧
            w4.Grid.GameTiles = G ∧ w4.Grid.heap = hp := by
  obtain ⟨w1, hex, hW, hH, hL, hA, hsM, hsS, hsN, hF, hnd1, _, hst, hland⟩ :=
    ExecuteMatch_state fuel w M hwf hfull hcons hfall hdes hnd hon hnorm hrew hfuel hsome
  have hwf1 : WellFormed w1.Grid := by
    refine ⟨by rw [hW]; exact hwf.1, by rw [hH]; exact hwf.2.1, ?_⟩
    rw [hL, hW, hH]
    exact hwf.2.2
  have hcons1 : Consistent w1.Grid := by
    intro a t ha
    rw [hA]
    cases h0 : GetTileFromGridAddress w.Grid a with
    | none =>
      rw [hsN a h0] at ha
      cases ha
    | some x =>
      by_cases hx : x ∈ M
      · rw [hsM a x h0 hx] at ha
        cases ha
      · rw [hsS a x h0 hx] at ha
        have e : x = t := Option.some.inj ha
        subst e
        exact hcons a x h0
  have hone := settle_order w w1 M hwf hfull hcons hnorm hwf1 hcons1 hnd1 hW hH hA hsM hsS hsN
    hF hst hland
  refine ⟨w1, hex, hF, hland, ?_⟩
  rcases List.eq_nil_or_concat w1.Grid.FallingTiles with h0 | ⟨init0, last0, h0⟩
  · refine ⟨[], w1.Grid.heap, ?_⟩
    intro init last hperm
    rw [h0] at hperm
    have := hperm.length_eq
    simp at this
  · obtain ⟨w30, w40, _, _, _, _, hset0, _, _, hlen0, hheap0⟩ :=
      hone 0 init0 last0 (by rw [h0]; simp)
    refine ⟨w40.Grid.GameTiles, w40.Grid.heap, ?_⟩
    intro init last hperm fuel2
    obtain ⟨w3, w4, h1, h2, h3, h4, hset, h5, h6, hlen, hheap⟩ :=
      hone fuel2 init last hperm
    refine ⟨w3, w4, h1, h2, h3 fuel2, h4, hset, h5.trans hW, h6.trans hH, hlen.trans hL,
      ?_, ?_⟩
    · exact settledBoard_unique w.Grid M w40.Grid w4.Grid (hlen.trans hlen0.symm) hset0 hset
    · rw [hheap, hheap0]

/-! ## Claim on the settling of the board after a match -/

/-- C34, as amended: on a fully populated consistent board of the data model at rest (nothing
falling, nothing being destroyed, every placed tile in state normal), for a list `M` of
pairwise different placed tiles such that some tile outside `M` has a tile of `M` below it
in its column, with positive reward intervals and a bound on the passes of at least the
height of the grid.  `ExecuteMatch` returns with the falls requested: the falling set holds
the tiles outside `M` above a tile of `M`, and every falling tile keeps as landing address
its settled address, the cell of its column in the row numbered by the tiles outside `M`
below it.  For every order of the landing callbacks, every callback but the last returns,
and at the last callback the landing step leaves the settled board, on which the callback
runs the respawn: the falling set is empty, every tile outside `M` is in the slot of its
settled address with that address and state normal, every occupied slot holds such a tile,
and the occupied cells of a column are its lowest rows.  The slots and the tiles of that
board are the same for every order.  Gravity keeps the order of the tiles of a column. -/
theorem gravity_settles (fuel : Nat) (w : UWorld) (M : List TilePtr)
    (hwf : WellFormed w.Grid) (hfull : FullyPopulated w.Grid) (hcons : Consistent w.Grid)
    (hfall : w.Grid.FallingTiles = []) (hdes : w.Grid.TilesBeingDestroyed = [])
    (hnd : M.Nodup) (hon : ∀ t ∈ M, OnBoard w.Grid t)
    (hnorm : ∀ u, OnBoard w.Grid u → (w.Grid.heap u).TileState = ETileState.ETS_Normal)
    (hrew : ∀ gm, w.GameMode = some gm → ∀ I ∈ gm.RewardIntervals, 0 < I)
    (hfuel : w.Grid.GridHeight ≤ fuel)
    (hsome : ∃ u, u ∉ M ∧ OnBoard w.Grid u ∧ matchBelow w.Grid M u) :
    (∃ w1 : UWorld, ExecuteMatch fuel w M = Outcome.done w1 ∧
      (∀ u, u ∈ w1.Grid.FallingTiles ↔ u ∉ M ∧ OnBoard w.Grid u ∧ matchBelow w.Grid M u) ∧
      (∀ u ∈ w1.Grid.FallingTiles,
        (w1.Grid.heap u).LandingGridAddress = settledAddress w.Grid M u) ∧
      ∃ (G : List (Option TilePtr)) (hp : TilePtr → ATile),
        ∀ (init : List TilePtr) (last : TilePtr),
          (init ++ [last]).Perm w1.Grid.FallingTiles → ∀ fuel2 : Nat,
          ∃ w3 w4 : UWorld,
            FinishFalling_all fuel2 init w1 = Outcome.done w3 ∧
            OnTileFinishedFalling_land w3 last (w3.Grid.heap last).LandingGridAddress =
              some w4 ∧
            FinishFalling fuel2 w3 last = RespawnTiles fuel2 w4 ∧
            settledBoard w.Grid M w4.Grid ∧
            w4.Grid.GameTiles = G ∧ w4.Grid.heap = hp) ∧
    ∀ u v : TilePtr, OnBoard w.Grid u → u ∉ M → OnBoard w.Grid v → v ∉ M →
      colOf w.Grid (GetGridAddress w.Grid u) = colOf w.Grid (GetGridAddress w.Grid v) →
      rowOf w.Grid (GetGridAddress w.Grid u) < rowOf w.Grid (GetGridAddress w.Grid v) →
      colOf w.Grid (settledAddress w.Grid M u) = colOf w.Grid (settledAddress w.Grid M v) ∧
      rowOf w.Grid (settledAddress w.Grid M u) < rowOf w.Grid (settledAddress w.Grid M v) := by
  constructor
  · obtain ⟨w1, h1, h2, h3, G, hp, h5⟩ :=
      settle_orders fuel w M hwf hfull hcons hfall hdes hnd hon hnorm hrew hfuel hsome
    refine ⟨w1, h1, h2, h3, G, hp, ?_⟩
    intro init last hperm fuel2
    obtain ⟨w3, w4, a1, a2, a3, _, a5, _, _, _, a8, a9⟩ := h5 init last hperm fuel2
    exact ⟨w3, w4, a1, a2, a3, a5, a8, a9⟩
  · intro u v hu huM hv _ hc hr
    exact settled_order w.Grid M hwf u v hu huM hv hc hr

/-- The tile at address 3 of the board whose bottom row is a run has the tile at address 0 of
the run below it. -/
theorem runWorld_below :
    ∃ u, u ∉ ([0, 1, 2] : List TilePtr) ∧ OnBoard runWorld.Grid u ∧
      matchBelow runWorld.Grid [0, 1, 2] u :=
  ⟨3, by decide, plainBoard_onBoard 3 3 3 _ 3 (by decide), 0, by decide, by decide,
    by decide⟩

/-- C34 as amended, on the 3 x 3 board whose bottom row is a run, for the three tiles of
that run: the six tiles above fall by one row.  With the callbacks delivered from the last
tile of the falling set to the first, the tiles 3 and 6 of the first column are in the cells
0 and 3, the cell 6 is empty, and no tile is falling when the last callback runs the
respawn. -/
theorem gravity_settles_witness :
    ∃ w1 w3 w4 : UWorld, ExecuteMatch 3 runWorld [0, 1, 2] = Outcome.done w1 ∧
      w1.Grid.FallingTiles = [3, 6, 4, 7, 5, 8] ∧
      (w1.Grid.heap 6).LandingGridAddress = 3 ∧
      FinishFalling_all 0 [8, 5, 7, 4, 6] w1 = Outcome.done w3 ∧
      FinishFalling 0 w3 3 = RespawnTiles 0 w4 ∧
      w4.Grid.FallingTiles = [] ∧
      GetTileFromGridAddress w4.Grid 0 = some 3 ∧ GetTileFromGridAddress w4.Grid 3 = some 6 ∧
      GetTileFromGridAddress w4.Grid 6 = none ∧
      (w4.Grid.heap 6).TileState = ETileState.ETS_Normal := by
  have hwf : WellFormed runWorld.Grid :=
    plainBoard_wellFormed 3 3 3 _ (by decide) (by decide) (by decide)
  obtain ⟨⟨w1, h1, _, h3, _, _, h5⟩, _⟩ := gravity_settles 3 runWorld [0, 1, 2] hwf
    (plainBoard_full 3 3 3 _ (by decide)) (plainBoard_consistent 3 3 3 _) rfl rfl (by decide)
    runWorld_onBoard (fun _ _ => rfl) runWorld_rewards (by decide) runWorld_below
  obtain ⟨wc, hc, hcF⟩ : ∃ wc, ExecuteMatch 3 runWorld [0, 1, 2] = Outcome.done wc ∧
      wc.Grid.FallingTiles = [3, 6, 4, 7, 5, 8] := ⟨_, rfl, rfl⟩
  have e : w1 = wc := by
    have := h1.symm.trans hc
    injection this
  subst e
  rw [hcF] at h3 h5
  obtain ⟨w3, w4, a1, _, a3, a4, _, _⟩ := h5 [8, 5, 7, 4, 6] 3 (by decide) 0
  obtain ⟨b1, b2, _, b4⟩ := a4
  have on3 : OnBoard runWorld.Grid 3 := plainBoard_onBoard 3 3 3 _ 3 (by decide)
  have on6 : OnBoard runWorld.Grid 6 := plainBoard_onBoard 3 3 3 _ 6 (by decide)
  have s3 : settledAddress runWorld.Grid [0, 1, 2] 3 = 0 := by decide
  have s6 : settledAddress runWorld.Grid [0, 1, 2] 6 = 3 := by decide
  have c3 := b2 3 on3 (by decide)
  have c6 := b2 6 on6 (by decide)
  rw [s3] at c3
  rw [s6] at c6
  have l6 := h3 6 (by decide)
  rw [s6] at l6
  refine ⟨w1, w3, w4, h1, hcF, l6, a1, a3, b1, c3.1, c6.1, ?_, c6.2.2⟩
  have h6 := b4 0 2 (by decide) (by decide) (by decide) (by decide)
  by_contra hne
  exact absurd (h6.mp hne) (by decide)

/-- C34 fails on the code: the last landing callback runs the respawn, which sets new tiles
falling.  On the 3 x 3 board whose bottom row is a run, after the match of the three tiles
of that run, with the falls that it requests, and the landing callbacks of the six falling
tiles, the falling set is not empty. -/
theorem gravity_settles_counterexample :
    FullyPopulated runWorld.Grid ∧ Consistent runWorld.Grid ∧
      runWorld.Grid.FallingTiles = [] ∧
      ∃ w1 w5 : UWorld, ExecuteMatch 4 runWorld [0, 1, 2] = Outcome.done w1 ∧
        w1.Grid.FallingTiles = [3, 6, 4, 7, 5, 8] ∧
        FinishFalling_all 4 [3, 6, 4, 7, 5, 8] w1 = Outcome.done w5 ∧
        w5.Grid.FallingTiles ≠ [] := by
  have hwf : WellFormed runWorld.Grid :=
    plainBoard_wellFormed 3 3 3 _ (by decide) (by decide) (by decide)
  refine ⟨plainBoard_full 3 3 3 _ (by decide), plainBoard_consistent 3 3 3 _, rfl, ?_⟩
  obtain ⟨w1, h1, _, _, G, hp, h5⟩ := settle_orders 4 runWorld [0, 1, 2] hwf
    (plainBoard_full 3 3 3 _ (by decide)) (plainBoard_consistent 3 3 3 _) rfl rfl (by decide)
    runWorld_onBoard (fun _ _ => rfl) runWorld_rewards (by decide) runWorld_below
  obtain ⟨wc, hc, hcF, hcL⟩ : ∃ wc, ExecuteMatch 4 runWorld [0, 1, 2] = Outcome.done wc ∧
      wc.Grid.FallingTiles = [3, 6, 4, 7, 5, 8] ∧
      wc.TileLibrary = List.replicate 10 plainType := ⟨_, rfl, rfl, rfl⟩
  have e : w1 = wc := by
    have := h1.symm.trans hc
    injection this
  subst e
  rw [hcF] at h5
  obtain ⟨w3, w4, a1, _, a3, a4, a5, a6, a7, a8, _, _⟩ :=
    h5 [3, 6, 4, 7, 5] 8 (List.Perm.refl _) 4
  have hwf4 : WellFormed w4.Grid := by
    refine ⟨by rw [a6]; exact hwf.1, by rw [a7]; exact hwf.2.1, ?_⟩
    rw [a8, a6, a7]
    exact hwf.2.2
  have hlib4 : w4.TileLibrary = List.replicate 10 plainType := by
    rw [a4]
    exact hcL
  have h6 := a5.2.2.2 0 2 (by decide) (by decide) (by decide) (by decide)
  have hnone : GetTileFromGridAddress w4.Grid 6 = none := by
    by_contra hne
    exact absurd (h6.mp hne) (by decide)
  obtain ⟨w5, hr, hne⟩ := respawn_falls 4 w4 hwf4
    (settled_top runWorld.Grid [0, 1, 2] w4.Grid hwf a6 a7 a5)
    (by rw [hlib4]; exact List.cons_ne_nil _ _)
    (fun T hT => by rw [hlib4] at hT; rw [List.eq_of_mem_replicate hT]; rfl)
    (fun p hp => by rw [a5.1] at hp; cases hp)
    (by rw [a7]; decide)
    ⟨6, by unfold ValidAddress; rw [a6, a7]; decide, hnone⟩
  refine ⟨w1, w5, h1, hcF, ?_, hne⟩
  have e2 := FinishFalling_all_concat 4 8 [3, 6, 4, 7, 5] w1
  rw [a1] at e2
  simp only [Outcome.bind] at e2
  rw [a3, hr] at e2
  exact e2

/-- The second selection, once the guards are passed and the library entry is read. -/
theorem OnTileWasSelected_second_eq (fuel : Nat) (w : UWorld) (Current New : TilePtr)
    (T : FTileType)
    (hsel : w.Grid.CurrentlySelectedTile = some Current)
    (hfall : w.Grid.FallingTiles = []) (hdes : w.Grid.TilesBeingDestroyed = [])
    (hpend : w.Grid.bPendingSwapMove = false) (hact : IsGameActive w = true)
    (hT : GetTileType w (w.Grid.heap New).TileTypeID = some T) :
    OnTileWasSelected fuel w (some New) =
      (if AreAddressesNeighbors w.Grid (GetGridAddress w.Grid Current)
          (GetGridAddress w.Grid New) = true then
        (if T.Abilities.CanSwap = true then
          match IsMoveLegal { w.Grid with bPendingSwapMove := true } (some Current)
              (some New) with
          | none => Outcome.failed
          | some (bLegal, g1) =>
            (OnSwapMove_Implementation fuel
              (Emit { w with Grid := { g1 with bPendingSwapMoveSuccess := bLegal } }
                (FEvent.OnSwapMove Current New bLegal))
              Current New bLegal).bind fun w2 =>
                OnSwapMove_Implementation fuel
                  (Emit w2 (FEvent.OnSwapMove New Current w2.Grid.bPendingSwapMoveSuccess))
                  New Current w2.Grid.bPendingSwapMoveSuccess
        else
          Outcome.done (Emit w (FEvent.OnMoveMade EMatch3MoveType.MT_Failure)))
      else Outcome.done w).bind fun w2 =>
        Outcome.done
          { (Emit w2 (FEvent.PlaySelectionEffect Current false)) with
            Grid := { w2.Grid with CurrentlySelectedTile := none } } := by
  unfold OnTileWasSelected
  simp only [hfall, hdes, hpend, hact, List.length_nil, ne_eq, not_true_eq_false,
    Bool.false_eq_true, Bool.true_eq_false, or_self, if_false, hT, hsel]

/-! ## Claim on the second selection -/

/-- C17, as amended: with one tile selected and no guard active (and a valid type id of the
second tile), selecting a second tile that is adjacent to the selected tile but not swappable
emits a failed-move event; selecting a tile that is not adjacent emits no move event, only
the end of the selection effect; an adjacent swappable tile, between two placed tiles on a
grid of positive width with no swap display recorded, whose swap the legality test rejects,
notifies both tiles, whose swap displays end at once, so that the move is over with a
failed-move event when the call returns; and whenever the call returns, the prior selection
is cleared. -/
theorem OnTileWasSelected_second (fuel : Nat) (w : UWorld) (Current New : TilePtr)
    (T : FTileType)
    (hsel : w.Grid.CurrentlySelectedTile = some Current)
    (hfall : w.Grid.FallingTiles = []) (hdes : w.Grid.TilesBeingDestroyed = [])
    (hpend : w.Grid.bPendingSwapMove = false) (hact : IsGameActive w = true)
    (hT : GetTileType w (w.Grid.heap New).TileTypeID = some T) :
    (AreAddressesNeighbors w.Grid (GetGridAddress w.Grid Current)
          (GetGridAddress w.Grid New) = true → T.Abilities.CanSwap = false →
        OnTileWasSelected fuel w (some New) = Outcome.done
          { w with
            Grid := { w.Grid with CurrentlySelectedTile := none },
            Events := w.Events ++ [FEvent.OnMoveMade EMatch3MoveType.MT_Failure,
              FEvent.PlaySelectionEffect Current false] }) ∧
    (AreAddressesNeighbors w.Grid (GetGridAddress w.Grid Current)
          (GetGridAddress w.Grid New) = false →
        OnTileWasSelected fuel w (some New) = Outcome.done
          { w with
            Grid := { w.Grid with CurrentlySelectedTile := none },
            Events := w.Events ++ [FEvent.PlaySelectionEffect Current false] }) ∧
    (AreAddressesNeighbors w.Grid (GetGridAddress w.Grid Current)
          (GetGridAddress w.Grid New) = true → T.Abilities.CanSwap = true →
        0 < w.Grid.GridWidth → OnBoard w.Grid Current → OnBoard w.Grid New →
        w.Grid.SwappingTiles = [] →
        ∀ l : List TilePtr, IsMoveLegal w.Grid (some Current) (some New) =
            some (false, { w.Grid with LastLegalMatch := l }) →
          OnTileWasSelected fuel w (some New) = Outcome.done
            { w with
              Grid := { w.Grid with
                CurrentlySelectedTile := none, LastLegalMatch := l,
                bPendingSwapMove := false, bPendingSwapMoveSuccess := false,
                SwappingTiles := [] },
              Events := w.Events ++ [FEvent.OnSwapMove Current New false,
                FEvent.OnSwapMove New Current false,
                FEvent.OnMoveMade EMatch3MoveType.MT_Failure,
                FEvent.PlaySelectionEffect Current false] }) ∧
    (∀ w' : UWorld, OnTileWasSelected fuel w (some New) = Outcome.done w' →
        w'.Grid.CurrentlySelectedTile = none) := by
  have e := OnTileWasSelected_second_eq fuel w Current New T hsel hfall hdes hpend hact hT
  refine ⟨?_, ?_, ?_, ?_⟩
  · intro hadj hswap
    rw [e, if_pos hadj, if_neg (by simp [hswap])]
    simp [Outcome.bind, Emit]
  · intro hadj
    rw [e, if_neg (by simp [hadj])]
    simp [Outcome.bind, Emit]
  · intro hadj hswap hW hona honb hsw l h1
    have h2 := IsMoveLegal_withPending w.Grid true Current New false l hW hona honb h1
    rw [e, if_pos hadj, if_pos hswap, h2]
    simp [Outcome.bind, Emit, OnSwapMove_Implementation, OnSwapDisplayFinished, hsw]
  · intro w' hw'
    rw [e] at hw'
    obtain ⟨w2, _, h2⟩ := Outcome_bind_eq_done _ _ _ hw'
    injection h2 with h2
    rw [← h2]

/-- On the 3 x 3 board the legality test rejects the swap of the tiles at addresses 0 and 3
and leaves the board as it was. -/
theorem selectedWorld_rejected :
    ∃ l : List TilePtr, IsMoveLegal selectedWorld.Grid (some 0) (some 3) =
      some (false, { selectedWorld.Grid with LastLegalMatch := l }) := by
  obtain ⟨r, l, _, h1, _⟩ := IsMoveLegal_frame selectedWorld.Grid 0 (some 3) [] (by decide)
    (plainBoard_onBoard 3 3 3 _ 0 (by decide))
    (fun u hu => by cases hu; exact plainBoard_onBoard 3 3 3 _ 3 (by decide))
  have hr : (IsMoveLegal selectedWorld.Grid (some 0) (some 3)).map Prod.fst = some false := by
    decide
  rw [h1] at hr
  have e : r = false := Option.some.inj hr
  subst e
  exact ⟨l, h1⟩

/-- C17 as amended, on the 3 x 3 board with the tile at address 0 selected and the tile at
address 3, the cell above, chosen next: the two tiles are adjacent, swappable and of
different types, their swap completes no run, and the call returns with both swap
notifications, the failed-move event, the end of the selection effect, no pending swap and
no selected tile. -/
theorem OnTileWasSelected_second_witness :
    AreAddressesNeighbors selectedWorld.Grid (GetGridAddress selectedWorld.Grid 0)
        (GetGridAddress selectedWorld.Grid 3) = true ∧
      ∃ w' : UWorld, OnTileWasSelected 0 selectedWorld (some 3) = Outcome.done w' ∧
        w'.Events = [FEvent.OnSwapMove 0 3 false, FEvent.OnSwapMove 3 0 false,
          FEvent.OnMoveMade EMatch3MoveType.MT_Failure,
          FEvent.PlaySelectionEffect 0 false] ∧
        w'.Grid.bPendingSwapMove = false ∧ w'.Grid.SwappingTiles = [] ∧
        w'.Grid.CurrentlySelectedTile = none := by
  obtain ⟨l, hl⟩ := selectedWorld_rejected
  exact ⟨by decide, _,
    (OnTileWasSelected_second 0 selectedWorld 0 3 plainType rfl rfl rfl rfl rfl rfl).2.2.1
      (by decide) rfl (by decide) (plainBoard_onBoard 3 3 3 _ 0 (by decide))
      (plainBoard_onBoard 3 3 3 _ 3 (by decide)) rfl l hl,
    rfl, rfl, rfl, rfl⟩

/-- C17 as stated fails for a second tile that is not adjacent: on the 3 x 3 board with the
tile at address 0 selected and no guard active, selecting the tile at address 8 returns with
the end of the selection effect as the only event; no failed-move event is emitted. -/
theorem OnTileWasSelected_second_counterexample :
    selectedWorld.Grid.CurrentlySelectedTile = some 0 ∧
      selectedWorld.Grid.FallingTiles = [] ∧ selectedWorld.Grid.TilesBeingDestroyed = [] ∧
      selectedWorld.Grid.bPendingSwapMove = false ∧ IsGameActive selectedWorld = true ∧
      AreAddressesNeighbors selectedWorld.Grid (GetGridAddress selectedWorld.Grid 0)
        (GetGridAddress selectedWorld.Grid 8) = false ∧
      ∃ w' : UWorld, OnTileWasSelected 0 selectedWorld (some 8) = Outcome.done w' ∧
        w'.Events = [FEvent.PlaySelectionEffect 0 false] ∧
        FEvent.OnMoveMade EMatch3MoveType.MT_Failure ∉ w'.Events :=
  ⟨rfl, rfl, rfl, rfl, rfl, by decide, _, rfl, rfl, by decide⟩

/-- The landing of the tile 8 of the board whose top row is a run, up to the respawn that the
completion of the first matched tile, the tile 7, reaches inside the cascade. -/
theorem landingWorld_cascade :
    ∃ wT : UWorld,
      OnTileFinishedFalling 5 landingWorld 8 8 =
        (((RespawnTiles 4 wT).bind fun w1 =>
          ExecuteMatch_remove (RespawnTiles 4) 4 [6, 8] w1).bind fun w4 =>
            OnTileFinishedMatching_with (RespawnTiles 4) 4 w4 none) ∧
      wT.Grid.GridWidth = 3 ∧ wT.Grid.GridHeight = 3 ∧
      wT.Grid.GameTiles =
        [some 0, some 1, some 2, some 3, some 4, some 5, some 6, none, some 8] ∧
      wT.Grid.FallingTiles = [] ∧ wT.Grid.TilesToCheck = [] ∧
      wT.Grid.TilesBeingDestroyed = [] ∧
      wT.TileLibrary = List.replicate 10 plainType ∧ wT.NextTile = 100 ∧
      GetGridAddress wT.Grid 6 = 6 ∧ GetGridAddress wT.Grid 8 = 8 ∧
      (wT.Grid.heap 8).TileState = ETileState.ETS_PendingDelete := by
  obtain ⟨w4, hl, hw4⟩ : ∃ w4, OnTileFinishedFalling_land landingWorld 8 8 = some w4 ∧
      w4 = (OnTileFinishedFalling_land landingWorld 8 8).getD landingWorld := ⟨_, rfl, rfl⟩
  obtain ⟨g2, hmk, hg2⟩ : ∃ g2,
      ExecuteMatch_mark [7, 6, 8] [7, 6, 8]
        (SetLastMove w4 EMatch3MoveType.MT_Combo).Grid = some g2 ∧
      g2 = (ExecuteMatch_mark [7, 6, 8] [7, 6, 8]
        (SetLastMove w4 EMatch3MoveType.MT_Combo).Grid).getD w4.Grid := by
    subst hw4
    exact ⟨_, rfl, rfl⟩
  obtain ⟨w3, hsc, hw3⟩ : ∃ w3,
      ExecuteMatch_score
        { PauseGameTimer (SetLastMove w4 EMatch3MoveType.MT_Combo) true with
          Grid := { g2 with TilesToCheck := [] } }
        (([7, 6, 8] : List TilePtr).length : Int) = some w3 ∧
      w3 = (ExecuteMatch_score
        { PauseGameTimer (SetLastMove w4 EMatch3MoveType.MT_Combo) true with
          Grid := { g2 with TilesToCheck := [] } }
        (([7, 6, 8] : List TilePtr).length : Int)).getD w4 := by
    subst hg2 hw4
    exact ⟨_, rfl, rfl⟩
  have e1 : OnTileFinishedFalling 5 landingWorld 8 8 =
      ExecuteMatch_with (RespawnTiles 4) 4 (SetLastMove w4 EMatch3MoveType.MT_Combo)
        [7, 6, 8] := by
    rw [OnTileFinishedFalling_eq, hl]
    subst hw4
    rfl
  rw [e1, ExecuteMatch_with_eq (RespawnTiles 4) 4 _ [7, 6, 8] (List.cons_ne_nil _ _) g2 w3
    hmk hsc]
  have h7 : 0 ≤ GetGridAddress w3.Grid 7 ∧
      GetGridAddress w3.Grid 7 < w3.Grid.GameTiles.length := by
    subst hw3 hg2 hw4
    exact ⟨by decide, by decide⟩
  rw [ExecuteMatch_remove_cons (RespawnTiles 4) 4 7 [6, 8] w3 h7]
  have hT : w3.Grid.TilesBeingDestroyed = [] := by
    subst hw3 hg2 hw4
    rfl
  rw [OnTileFinishedMatching_with_empty (RespawnTiles 4) 4 _ (some 7)
    (fun t ht => by
      injection ht with ht
      subst ht
      show TArray.RemoveSwap (w3.Grid.TilesBeingDestroyed ++ [7]) 7 = []
      rw [hT]
      exact RemoveSwap_singleton 7)
    (fun h => by cases h)]
  subst hw3 hg2 hw4
  exact ⟨_, rfl, rfl, rfl, rfl, rfl, rfl, rfl, rfl, rfl, rfl, rfl, rfl⟩

/-- C23 fails on the code when the landing tile was the last one falling: on a full board
whose top row holds three tiles of one type, the landing of the respawned tile 8 at its
address 8 empties the falling set, so the respawn and its cascade check run inside the call;
they match the three tiles, and when the call returns the slot at address 8 is empty and the
tile is pending delete, not normal. -/
theorem OnTileFinishedFalling_landed_counterexample :
    landingWorld.Grid.FallingTiles = [8] ∧ ValidAddress landingWorld.Grid 8 ∧
      ∃ w' : UWorld, OnTileFinishedFalling 5 landingWorld 8 8 = Outcome.done w' ∧
        GetTileFromGridAddress w'.Grid 8 = none ∧
        (w'.Grid.heap 8).TileState = ETileState.ETS_PendingDelete := by
  refine ⟨rfl, ⟨by decide, by decide⟩, ?_⟩
  obtain ⟨wT, heq, hW, hH, hG, hF, hC, hD, hlib, hN, a6, a8, s8⟩ := landingWorld_cascade
  have hwfT : WellFormed wT.Grid :=
    ⟨by rw [hW]; decide, by rw [hH]; decide, by rw [hG, hW, hH]; rfl⟩
  have htop : EmptiesOnTop wT.Grid := by
    intro a hv he hv2
    unfold ValidAddress at hv hv2
    rw [hW, hH] at hv hv2
    unfold GetTileFromGridAddress at he
    rw [hG] at he
    have h0 : 0 ≤ a := hv.1
    have h1 : a < 6 := by omega
    interval_cases a <;> exact absurd he (by decide)
  have h7 : GetTileFromGridAddress wT.Grid 7 = none := by
    unfold GetTileFromGridAddress
    rw [hG]
    decide
  obtain ⟨w2, n, hrun, hn, hF2, hD2, hW2, hH2, hv2, hold, _⟩ := respawn_spawned 4 wT hwfT htop
    (by rw [hlib]; exact List.cons_ne_nil _ _)
    (fun T hT => by rw [hlib] at hT; rw [List.eq_of_mem_replicate hT]; rfl)
    (fun p hp => by rw [hF] at hp; cases hp)
    (by rw [hH]; decide)
    ⟨7, by unfold ValidAddress; rw [hW, hH]; decide, h7⟩
  have hq := (RespawnTiles_quiet 4 wT w2 (fun _ => hC) hrun).1
  have hin : ∀ t ∈ ([6, 8] : List TilePtr), inRange w2.Grid t := by
    intro t ht
    refine hq.2.2.1 t ?_
    simp only [List.mem_cons, List.mem_singleton, List.not_mem_nil, or_false] at ht
    unfold inRange
    rw [hG]
    rcases ht with h | h <;> subst h
    · rw [a6]
      decide
    · rw [a8]
      decide
  have hne2 : w2.Grid.FallingTiles ≠ [] := by
    rw [hF2, hF, hN]
    intro h
    have := congrArg List.length h
    simp at this
    omega
  have hval2 : ∀ t ∈ w2.Grid.FallingTiles,
      ValidAddress w2.Grid (GetGridAddress w2.Grid t) := by
    intro t ht
    rw [hF2, hF] at ht
    have := hv2 t ht
    unfold ValidAddress at this ⊢
    rw [hW2, hH2]
    exact this
  obtain ⟨w3, hrem, hs3, _, _, hslot, _, _⟩ := remove_falls (RespawnTiles 4) 4 [6, 8] w2
    (by rw [hW2, hW]; decide) (by rw [hH2, hH]; decide) (by rw [hD2]; exact hD) hne2 hval2 hin
  have hadr : ∀ t, GetGridAddress w3.Grid t = GetGridAddress w2.Grid t := fun t =>
    (hs3.2.2.2.2.2.2.2.2.2.2.2.2.2 t).2.2.2
  obtain ⟨w', hfin, d1, _⟩ := OnTileFinishedMatching_with_falls (RespawnTiles 4) 4 w3 none
    (fun t h => by cases h)
    (fun _ => by rw [hs3.2.2.2.2.2.2.2.2.2.1, hD2]; exact hD)
    (by rw [hs3.2.2.2.2.2.2.1]; exact hne2)
    (by rw [hs3.1, hW2, hW]; decide)
    (by
      intro t ht
      rw [hs3.2.2.2.2.2.2.1] at ht
      have := hval2 t ht
      unfold ValidAddress at this ⊢
      rw [hs3.1, hs3.2.1, hadr t]
      exact this)
    (by rw [hs3.2.1, hH2, hH]; decide)
  refine ⟨w', ?_, ?_, ?_⟩
  · rw [heq, hrun]
    simp only [Outcome.bind]
    rw [hrem]
    exact hfin
  · have e8 := hslot 8 (by decide)
    rw [(hold 8 (by rw [hN]; decide)).1, a8] at e8
    rw [getTile_congr w3.Grid w'.Grid d1.2.2.2.1 8]
    exact e8
  · rw [(d1.2.2.2.2.2.2.2.2.2.2.2.2.2 8).2.1]
    show (w3.Grid.heap 8).TileState = _
    rw [(hs3.2.2.2.2.2.2.2.2.2.2.2.2.2 8).2.1, (hold 8 (by rw [hN]; decide)).2]
    exact s8

/-- C22 fails on the code, in both of its parts.  On the board of nine different types, the
match of the tile at address 0 completes the destruction of the tile inside `ExecuteMatch`,
which requests the fall of the tiles 3 and 6 above it, and the closing completion with a null
tile, which finds the destroying set empty, requests both falls a second time; a further
completion with a null tile finds the destroying set empty again, returns, and requests both
falls a third time.  On the same board with the cell at address 0 empty, nothing falling and
nothing being destroyed, the completion with a null tile runs the respawn, which spawns
nothing and fails in the test for an unwinnable board at the empty cell. -/
theorem OnTileFinishedMatching_null_counterexample :
    (∃ w1 w2 : UWorld, ExecuteMatch 3 deadWorld [0] = Outcome.done w1 ∧
      w1.Grid.TilesBeingDestroyed = [] ∧ w1.Grid.FallingTiles = [3, 6] ∧
      w1.Events = [FEvent.OnMoveMade EMatch3MoveType.MT_None, FEvent.AwardPlace 0 100,
        FEvent.OnMatched 0 EMatch3MoveType.MT_None,
        FEvent.StartFalling 3 false 0, FEvent.StartFalling 6 false 3,
        FEvent.StartFalling 3 false 0, FEvent.StartFalling 6 false 3] ∧
      OnTileFinishedMatching 3 w1 none = Outcome.done w2 ∧
      w2.Events = w1.Events ++
        [FEvent.StartFalling 3 false 0, FEvent.StartFalling 6 false 3]) ∧
    (WellFormed cornerWorld.Grid ∧ cornerWorld.Grid.TilesBeingDestroyed = [] ∧
      cornerWorld.Grid.FallingTiles = [] ∧
      OnTileFinishedMatching 4 cornerWorld none = Outcome.failed) :=
  ⟨⟨_, _, rfl, rfl, rfl, rfl, rfl, rfl⟩, ⟨by decide, by decide, by decide⟩, rfl, rfl, rfl⟩

end Match3
